import Mathlib

/-!
# The session automaton of `sshtool` (ssh.go, crossbeam.go)

A shallow embedding of the prompt handshake (`waitfor`, `findPrompt`), the
platform classification (`detect`), the command executor (`execute`) and the
two escalation entries (`expertEnter`, `xbmEnter`).

Go strings and byte slices are lists of bytes; a byte is a natural number.
The transport is the sequence of results that the successive `Read` calls of
one session return; what the program writes to `in` is kept as a log.
-/

namespace Sshtool

/-! ## Bytes and the `strings` functions the program calls -/

/-- One byte of a Go string or byte slice. -/
abbrev Byte := Nat

/-- The bytes of an ASCII literal of the source. -/
def bytes (s : String) : List Byte := s.toList.map Char.toNat

/-- Go `strings.HasPrefix(s, sub)`. -/
def HasPrefix : List Byte → List Byte → Bool
  | _, [] => true
  | [], _ :: _ => false
  | c :: s, d :: sub => c == d && HasPrefix s sub

/-- Go `strings.Index(s, sub)`: the offset of the first occurrence of `sub` in
`s`; `none` stands for `-1`. -/
def Index : List Byte → List Byte → Option Nat
  | [], sub => if HasPrefix [] sub then some 0 else none
  | c :: s, sub =>
    if HasPrefix (c :: s) sub then some 0
    else match Index s sub with
      | some i => some (i + 1)
      | none => none

/-- Go `strings.Contains(s, sub)`, which is `Index(s, sub) >= 0`. -/
def Contains (s sub : List Byte) : Bool := (Index s sub).isSome

/-- Go `strings.LastIndex(s, sub)`: the offset of the last occurrence of `sub`
in `s`; `none` stands for `-1`. -/
def LastIndex : List Byte → List Byte → Option Nat
  | [], sub => if HasPrefix [] sub then some 0 else none
  | c :: s, sub =>
    match LastIndex s sub with
    | some i => some (i + 1)
    | none => if HasPrefix (c :: s) sub then some 0 else none

/-- Go `strings.TrimRight(s, cutset)`: `s` without its longest suffix made of
bytes of `cutset`. -/
def TrimRight : List Byte → List Byte → List Byte
  | [], _ => []
  | c :: s, cutset =>
    match TrimRight s cutset with
    | [] => if c ∈ cutset then [] else [c]
    | r :: rs => c :: r :: rs

/-- The cutset `"\000"` of every `TrimRight` call of the program. -/
def nul : List Byte := [0]

/-! ## The regular expressions of the program

Every pattern of the program is a sequence of single-byte items: a literal, the
class `\w`, or an optional literal (`\\?` in a raw Go string is an optional
backslash).  `MatchString` is an unanchored search.  All items are ASCII, so
matching over bytes agrees with matching over the decoded runes. -/

/-- One item of a pattern. -/
inductive Item where
  | lit (b : Byte)
  | word
  | opt (b : Byte)
  deriving DecidableEq, Repr

/-- The class `\w` of Go regexp: `[0-9A-Za-z_]`. -/
def isWord (b : Byte) : Bool :=
  (48 ≤ b && b ≤ 57) || (65 ≤ b && b ≤ 90) || b == 95 || (97 ≤ b && b ≤ 122)

/-- A regular expression: its items in sequence. -/
abbrev Regexp := List Item

/-- Whether the pattern matches a prefix of the text. -/
def matchHere : Regexp → List Byte → Bool
  | [], _ => true
  | Item.lit b :: re, c :: s => c == b && matchHere re s
  | Item.lit _ :: _, [] => false
  | Item.word :: re, c :: s => isWord c && matchHere re s
  | Item.word :: _, [] => false
  | Item.opt b :: re, c :: s => (c == b && matchHere re s) || matchHere re (c :: s)
  | Item.opt _ :: re, [] => matchHere re []

/-- Go `re.MatchString(s)`: the pattern matches somewhere in `s`. -/
def MatchString (re : Regexp) : List Byte → Bool
  | [] => matchHere re []
  | c :: s => matchHere re (c :: s) || MatchString re s

/-- The literal items of an ASCII text. -/
def lits (s : String) : Regexp := (bytes s).map Item.lit

/-- Pattern prompt1 of NewSshAction, for GAIA CLISH. -/
def prompt1 : Regexp := Item.word :: lits "> "

/-- Pattern prompt2 of NewSshAction, for Expert, SPLAT CPSHELL or IPSO. -/
def prompt2 : Regexp := Item.word :: lits "]# "

/-- Pattern prompt3 of NewSshAction, for CrossBeam CPM. -/
def prompt3 : Regexp := Item.word :: lits "# "

/-- Pattern prompt4 of NewSshAction, for CrossBeam APM. -/
def prompt4 : Regexp := Item.word :: lits "] ~$ "

/-- Pattern hint1 of waitfor, the SPLAT CPSHELL banner: an optional backslash
and the words that follow. -/
def hint1 : Regexp := Item.opt 92 :: lits " for list of commands"

/-- Pattern hint2 of waitfor, the CrossBeam banner. -/
def hint2 : Regexp := lits "Active Alarms Summary"

/-- Pattern hint3 of waitfor, the IPSO banner. -/
def hint3 : Regexp := lits "IPSO "

/-- Pattern hint4 of waitfor, the terminal-type query: the words and an
optional backslash. -/
def hint4 : Regexp := lits "Terminal type" ++ [Item.opt 92]

/-- Pattern psw1 of expertEnter. -/
def psw1Expert : Regexp := lits " expert password:"

/-- Pattern psw1 of xbmEnter. -/
def psw1Xbm : Regexp := lits "Password: "

/-! ## Session state -/

/-- The type Platform of the source, an int. -/
abbrev Platform := Int

def PlatformGAiA : Platform := 0
def PlatformSplatCPSHELL : Platform := 1
def PlatformExpert : Platform := 2
def PlatformIPSO : Platform := 3
def PlatformXBM : Platform := 4
def PlatformCPM : Platform := 5
def PlatformAPM : Platform := 6

/-- The constant inBufferSize. -/
def inBufferSize : Nat := 1024 * 1024

/-- The type SshError of error.go. -/
structure SshError where
  msg : String
  number : Int
  deriving DecidableEq, Repr

/-- The function New of error.go. -/
def New (number : Int) (text : String) : SshError := ⟨text, number⟩

/-- A Go error value: `none` is nil. -/
abbrev Error := Option SshError

/-- What one call of `out.Read` returns: some bytes with a nil error, or an
error. -/
inductive ReadResult where
  | data (p : List Byte)
  | fail (msg : String)
  deriving DecidableEq, Repr

/-- The fields of SshAction that the automaton reads or writes.  `out` holds
the results of the Read calls still to come (when it is empty the next Read
does not return before the deadline); `written` is the log of the writes to
`in`, oldest first. -/
structure SshAction where
  su_passw : List Byte
  written : List (List Byte)
  out : List ReadResult
  currentPrompt : List Byte
  prompt : Int
  splat : Bool
  splat_cpshell : Bool
  xbm : Bool
  ipso : Bool
  platform : Platform
  deriving DecidableEq, Repr

/-- The method detect of ssh.go. -/
def detect (s : SshAction) : SshAction × Error :=
  if s.prompt = 1 then
    ({ s with platform := PlatformGAiA }, none)
  else if s.prompt = 2 then
    if s.splat = true ∧ s.splat_cpshell = true then
      ({ s with platform := PlatformSplatCPSHELL }, none)
    else
      ({ s with platform := PlatformExpert }, none)
  else if s.prompt = 3 then
    ({ s with platform := PlatformXBM }, none)
  else if s.prompt = 4 then
    ({ s with platform := PlatformIPSO }, none)
  else if s.prompt = 5 then
    ({ s with platform := PlatformXBM }, none)
  else
    (s, some (New 1100 "failed to detect platform"))

/-- The method findPrompt of ssh.go. -/
def findPrompt (s : SshAction) (str : List Byte) : SshAction × Error :=
  let str := if s.ipso then bytes "\n" ++ str else str
  match LastIndex str (bytes "\n") with
  | none => (s, some (New 1500 "newline not found"))
  | some n => ({ s with currentPrompt := TrimRight (str.drop n) nul }, none)

/-! ## The read loops

Each goroutine of the source is a loop around one `Read`.  `Read(buf[t:])`
stores at most `len(buf) - t` bytes after the `t` bytes already held, so the
model keeps the `t` bytes received so far.  Where the source takes
`string(buf[:])`, the whole slice with its unused zero bytes, the model applies
a view of the buffer: `bufString` is the view of the program, and `received`,
the bytes without the padding, is the view that the theorems below show to
give the same result. -/

/-- The bytes that `Read(buf[t:])` stores when the transport hands over `p`:
never more than the slice has room for. -/
def Read (space : Nat) (p : List Byte) : List Byte := p.take space

/-- The Go expression `string(buf[:])` for a slice of length `len` whose first
bytes are `buf` and whose other bytes are still zero. -/
def bufString (len : Nat) (buf : List Byte) : List Byte :=
  buf ++ List.replicate (len - buf.length) 0

/-- The received bytes of a buffer, without the zero bytes behind them. -/
def received (_len : Nat) (buf : List Byte) : List Byte := buf

/-- The effect of one turn of a read loop that got data. -/
inductive Step where
  /-- no value is sent on `done`; the loop reads again with this buffer -/
  | next (s : SshAction) (buf : List Byte)
  /-- a value is sent on `done` and the loop breaks -/
  | done (s : SshAction) (err : Error)
  deriving DecidableEq, Repr

/-- How a read loop stands when it ends or the reads are over: the session,
the buffer of the last turn, the value sent on `done`, if one was sent, and
the results of the Read calls still to come. -/
structure LoopEnd where
  s : SshAction
  buf : List Byte
  sent : Option Error
  out : List ReadResult
  deriving DecidableEq, Repr

/-- The loop `for { n, err := sshAction.out.Read(buf[t:]) ... }` that waitfor,
expertEnter and xbmEnter share, around the turn `step` of each; `number` is
the number of the error sent when Read fails.  When the reads are over
nothing has been sent on `done`. -/
def readLoop (step : SshAction → List Byte → List Byte → Step) (number : Int) :
    List ReadResult → SshAction → List Byte → LoopEnd
  | [], s, buf => ⟨s, buf, none, []⟩
  | ReadResult.fail msg :: rest, s, buf =>
    ⟨{ s with prompt := -1 }, buf, some (some (New number msg)), rest⟩
  | ReadResult.data p :: rest, s, buf =>
    match step s buf p with
    | Step.next s1 buf1 => readLoop step number rest s1 buf1
    | Step.done s1 err => ⟨s1, buf ++ Read (inBufferSize - buf.length) p, some err, rest⟩

/-- The statement `select` at the end of each method: the value sent on
`done`, or the timeout error with the given number when nothing was sent. -/
def selectDone (number : Int) (r : LoopEnd) : SshAction × Error :=
  match r.sent with
  | some err => ({ r.s with out := r.out }, err)
  | none => ({ r.s with out := r.out }, some (New number "timeout"))

/-- One turn of the loop of waitfor after a Read that returned `p` with a nil
error; `view` gives `string(buf[:])`. -/
def waitforStepOn (view : Nat → List Byte → List Byte) (s : SshAction) (buf p : List Byte) :
    Step :=
  let p := Read (inBufferSize - buf.length) p
  if p.length > 0 then
    let buf := buf ++ p
    let str := TrimRight (view inBufferSize buf) nul
    if MatchString prompt1 str then
      let r := findPrompt { s with prompt := 1 } (view inBufferSize buf)
      Step.done r.1 r.2
    else if MatchString prompt2 str then
      let s := if s.ipso then { s with prompt := 4 } else { s with prompt := 2 }
      let r := findPrompt s (view inBufferSize buf)
      Step.done r.1 r.2
    else if MatchString prompt3 str then
      let r := findPrompt { s with prompt := 3 } (view inBufferSize buf)
      Step.done r.1 r.2
    else if MatchString prompt4 str then
      let r := findPrompt { s with prompt := 5 } (view inBufferSize buf)
      Step.done r.1 r.2
    else if MatchString hint1 str then
      Step.next { s with splat := true, splat_cpshell := true } buf
    else if MatchString hint2 str then
      Step.next { s with xbm := true } buf
    else if MatchString hint3 str then
      Step.next { s with ipso := true } []
    else if MatchString hint4 str then
      Step.next { s with written := s.written ++ [bytes "vt220\n"] } []
    else
      Step.next s buf
  else
    Step.next s buf

/-- The text `str` that a turn of waitfor, xbmEnter or execute looks at after
the Read: the received bytes without trailing zero bytes. -/
def strAfter (len : Nat) (buf p : List Byte) : List Byte :=
  TrimRight (buf ++ Read (len - buf.length) p) nul

/-- Whether one of the four prompt patterns matches. -/
def anyPrompt (str : List Byte) : Bool :=
  MatchString prompt1 str || MatchString prompt2 str || MatchString prompt3 str ||
    MatchString prompt4 str

/-- The turn of waitfor as the program runs it. -/
def waitforStep : SshAction → List Byte → List Byte → Step := waitforStepOn bufString

/-- The goroutine of waitfor, run over the results of its Read calls. -/
def waitforLoop : List ReadResult → SshAction → List Byte → LoopEnd :=
  readLoop waitforStep 1400

/-- The method waitfor of ssh.go: the value sent on `done`, or the timeout
error when the reads end with nothing sent. -/
def waitfor (s : SshAction) : SshAction × Error :=
  selectDone 1401 (waitforLoop s.out s [])

/-- The method Connect of ssh.go from its call of waitfor on: the session, the
pseudo terminal, the three pipes and the shell are taken as obtained from the
SSH library. -/
def Connect (s : SshAction) : SshAction × Error :=
  match waitfor s with
  | (s1, some e) => (s1, some (New 1006 e.msg))
  | (s1, none) => detect s1

/-- Whether the turn of waitfor after a read takes the branch of the IPSO
banner: the read brings data, none of the patterns tried before (the four
prompts, the CPSHELL banner, the CrossBeam banner) matches the text, and the
pattern of the IPSO banner does. -/
def ipsoBannerTurn (buf p : List Byte) : Bool :=
  decide (0 < (Read (inBufferSize - buf.length) p).length) &&
    !anyPrompt (strAfter inBufferSize buf p) &&
    !MatchString hint1 (strAfter inBufferSize buf p) &&
    !MatchString hint2 (strAfter inBufferSize buf p) &&
    MatchString hint3 (strAfter inBufferSize buf p)

/-- One turn of the loop of expertEnter after a Read that returned `p` with a
nil error.  The patterns are tried on `string(buf[:])` itself. -/
def expertEnterStepOn (view : Nat → List Byte → List Byte) (s : SshAction)
    (buf p : List Byte) : Step :=
  let p := Read (inBufferSize - buf.length) p
  if p.length > 0 then
    let buf := buf ++ p
    if MatchString prompt1 (view inBufferSize buf) then
      let r := findPrompt { s with prompt := 1 } (view inBufferSize buf)
      Step.done r.1 r.2
    else if MatchString prompt2 (view inBufferSize buf) then
      let r := findPrompt { s with prompt := 2 } (view inBufferSize buf)
      Step.done r.1 r.2
    else if MatchString psw1Expert (view inBufferSize buf) then
      Step.next { s with written := s.written ++ [s.su_passw ++ bytes "\n"] } []
    else
      Step.next s buf
  else
    Step.next s buf

/-- The turn of expertEnter as the program runs it. -/
def expertEnterStep : SshAction → List Byte → List Byte → Step := expertEnterStepOn bufString

/-- The goroutine of expertEnter, run over the results of its Read calls. -/
def expertEnterLoop : List ReadResult → SshAction → List Byte → LoopEnd :=
  readLoop expertEnterStep 1200

/-- The method expertEnter of ssh.go.  The write of the caller is logged before
those of the goroutine, which answer what the device sends back. -/
def expertEnter (s : SshAction) : SshAction × Error :=
  selectDone 1201
    (expertEnterLoop s.out { s with written := s.written ++ [bytes "expert\n"] } [])

/-- One turn of the loop of xbmEnter after a Read that returned `p` with a nil
error. -/
def xbmEnterStepOn (view : Nat → List Byte → List Byte) (s : SshAction) (buf p : List Byte) :
    Step :=
  let p := Read (inBufferSize - buf.length) p
  if p.length > 0 then
    let buf := buf ++ p
    let str := TrimRight (view inBufferSize buf) nul
    if MatchString prompt1 str then
      let r := findPrompt { s with prompt := 1 } (view inBufferSize buf)
      Step.done r.1 r.2
    else if MatchString prompt2 str then
      let r := findPrompt { s with prompt := 2 } (view inBufferSize buf)
      Step.done r.1 r.2
    else if MatchString psw1Xbm str then
      Step.next { s with written := s.written ++ [s.su_passw ++ bytes "\n"] } []
    else
      Step.next s buf
  else
    Step.next s buf

/-- The turn of xbmEnter as the program runs it. -/
def xbmEnterStep : SshAction → List Byte → List Byte → Step := xbmEnterStepOn bufString

/-- The goroutine of xbmEnter, run over the results of its Read calls. -/
def xbmEnterLoop : List ReadResult → SshAction → List Byte → LoopEnd :=
  readLoop xbmEnterStep 5100

/-- The method xbmEnter of crossbeam.go. -/
def xbmEnter (s : SshAction) : SshAction × Error :=
  selectDone 5101
    (xbmEnterLoop s.out { s with written := s.written ++ [bytes "unix su\n"] } [])

/-! ## The command executor -/

/-- The local variables of the goroutine of execute: the length of `buf`, the
position `idx` in the expected echo, and the `t` bytes held in `buf`. -/
structure ExecVars where
  len : Nat
  idx : Nat
  buf : List Byte
  deriving DecidableEq, Repr

/-- The effect of one turn of the loop of execute that got data. -/
inductive ExecStep where
  /-- nothing is sent on `done`; the loop reads again -/
  | next (v : ExecVars)
  /-- `result` is set, nil is sent on `done` and the loop breaks; `buf` is the
  capture buffer at that moment -/
  | done (result : List Byte) (buf : List Byte)
  /-- an index or slice expression is out of range -/
  | crash
  deriving DecidableEq, Repr

/-- How the goroutine of execute stands when the reads are over. -/
inductive ExecEnd where
  /-- a value was sent on `done` -/
  | sent (result : List Byte) (err : Error) (buf : List Byte) (out : List ReadResult)
  /-- the next Read never returns -/
  | blocked
  /-- the goroutine ran into a run-time panic -/
  | crash
  deriving DecidableEq, Repr

/-- One turn of the loop of execute after a Read that returned `p` with a nil
error; `view` gives `string(buf[:])`.  In the first branch the byte is left in
`buf[0]` with `t` still 0, so it is overwritten by the next Read before `buf`
is looked at again. -/
def executeStepOn (view : Nat → List Byte → List Byte) (currentPrompt cmd : List Byte)
    (v : ExecVars) (p : List Byte) : ExecStep :=
  let p := Read (v.len - v.buf.length) p
  if p.length = 1 ∧ v.buf.length = 0 then
    match p[0]?, cmd[v.idx]? with
    | some b, some c =>
      if b = c then
        if c = 10 then ExecStep.next { v with len := inBufferSize, buf := [] }
        else ExecStep.next { v with idx := v.idx + 1 }
      else ExecStep.next v
    | _, _ => ExecStep.crash
  else if p.length > 0 then
    let buf := v.buf ++ p
    let str := TrimRight (view v.len buf) nul
    if Contains str currentPrompt then
      match Index (view v.len buf) currentPrompt with
      | some i => ExecStep.done (TrimRight ((view v.len buf).take i) nul) buf
      | none => ExecStep.crash
    else
      ExecStep.next { v with buf := buf }
  else
    ExecStep.next v

/-- The turn of execute as the program runs it. -/
def executeStep : List Byte → List Byte → ExecVars → List Byte → ExecStep :=
  executeStepOn bufString

/-- The loop of the goroutine of execute around the turn `step`, run over the
results of its Read calls. -/
def executeLoopOn (step : ExecVars → List Byte → ExecStep) :
    List ReadResult → ExecVars → ExecEnd
  | [], _ => ExecEnd.blocked
  | ReadResult.fail msg :: rest, v => ExecEnd.sent [] (some (New 1600 msg)) v.buf rest
  | ReadResult.data p :: rest, v =>
    match step v p with
    | ExecStep.next v1 => executeLoopOn step rest v1
    | ExecStep.done result buf => ExecEnd.sent result none buf rest
    | ExecStep.crash => ExecEnd.crash

/-- The goroutine of execute. -/
def executeLoop (currentPrompt cmd : List Byte) : List ReadResult → ExecVars → ExecEnd :=
  executeLoopOn (executeStep currentPrompt cmd)

/-- The variables of the goroutine of execute after the reads, around the turn
`step`: `none` when the loop has ended before, with a value sent on `done` or
with a panic. -/
def executeVarsOn (step : ExecVars → List Byte → ExecStep) :
    List ReadResult → ExecVars → Option ExecVars
  | [], v => some v
  | ReadResult.fail _ :: _, _ => none
  | ReadResult.data p :: rest, v =>
    match step v p with
    | ExecStep.next v1 => executeVarsOn step rest v1
    | ExecStep.done _ _ => none
    | ExecStep.crash => none

/-- The variables of the goroutine of execute after the reads. -/
def executeVars (currentPrompt cmd : List Byte) : List ReadResult → ExecVars → Option ExecVars :=
  executeVarsOn (executeStep currentPrompt cmd)

/-- The reads that bring the bytes `bs` one at a time. -/
def byteReads (bs : List Byte) : List ReadResult := bs.map fun b => ReadResult.data [b]

/-- The end of execute: what the caller gets from the `select`, `none` when
the goroutine panicked.  The deadline is the end of the reads. -/
def executeSelect (s : SshAction) : ExecEnd → Option (SshAction × List Byte × Error)
  | ExecEnd.sent result err _ out => some ({ s with out := out }, result, err)
  | ExecEnd.blocked => some ({ s with out := [] }, [], some (New 1601 "timeout"))
  | ExecEnd.crash => none

/-- The method execute of ssh.go: the session afterwards, `result` and
`err`. -/
def execute (s : SshAction) (cmd : List Byte) (_timeout : Nat) :
    Option (SshAction × List Byte × Error) :=
  executeSelect { s with written := s.written ++ [cmd ++ bytes "\n"] }
    (executeLoop s.currentPrompt (cmd ++ bytes "\n") s.out ⟨1, 0, []⟩)

/-- The session that NewSshAction builds: `prompt` is -1 and every other field
modelled here has its zero value.  `out` is the transport that it is given. -/
def NewSshAction (su_passw : List Byte) (out : List ReadResult) : SshAction :=
  { su_passw := su_passw, written := [], out := out, currentPrompt := [], prompt := -1,
    splat := false, splat_cpshell := false, xbm := false, ipso := false,
    platform := PlatformGAiA }

/-- The reads that bring the echo of a command line: with a slice of length 1
every Read returns one byte. -/
def echoReads (cmd : List Byte) : List ReadResult :=
  (cmd ++ bytes "\n").map fun b => ReadResult.data [b]

/-- A pattern none of whose items accepts the zero byte. -/
def NulFree : Regexp → Bool
  | [] => true
  | Item.lit b :: re => b != 0 && NulFree re
  | Item.word :: re => NulFree re
  | Item.opt b :: re => b != 0 && NulFree re

/-! ## More of the Go library: `strings`, `strconv`

White space is what `unicode.IsSpace` accepts.  The text is a Go string, a
sequence of bytes, and the library decodes it as UTF-8; a white-space rune
is always found where its bytes stand, since each of them starts with a byte
that cannot continue another rune. -/

/-- The number of bytes of the white-space rune at the front of the text; 0
when the text does not start with one.  The runes are tab, newline, vertical
tab, form feed, carriage return, space, U+0085, U+00A0, U+1680, U+2000 to
U+200A, U+2028, U+2029, U+202F, U+205F and U+3000. -/
def spaceWidth : List Byte → Nat
  | 9 :: _ => 1
  | 10 :: _ => 1
  | 11 :: _ => 1
  | 12 :: _ => 1
  | 13 :: _ => 1
  | 32 :: _ => 1
  | 0xC2 :: 0x85 :: _ => 2
  | 0xC2 :: 0xA0 :: _ => 2
  | 0xE1 :: 0x9A :: 0x80 :: _ => 3
  | 0xE2 :: 0x80 :: b :: _ =>
    if (0x80 ≤ b ∧ b ≤ 0x8A) ∨ b = 0xA8 ∨ b = 0xA9 ∨ b = 0xAF then 3 else 0
  | 0xE2 :: 0x81 :: 0x9F :: _ => 3
  | 0xE3 :: 0x80 :: 0x80 :: _ => 3
  | _ => 0

/-- The same for the white-space rune at the end of a text, which is given
last byte first. -/
def spaceWidthRev : List Byte → Nat
  | 9 :: _ => 1
  | 10 :: _ => 1
  | 11 :: _ => 1
  | 12 :: _ => 1
  | 13 :: _ => 1
  | 32 :: _ => 1
  | 0x85 :: 0xC2 :: _ => 2
  | 0xA0 :: 0xC2 :: _ => 2
  | 0x80 :: 0x9A :: 0xE1 :: _ => 3
  | 0x9F :: 0x81 :: 0xE2 :: _ => 3
  | 0x80 :: 0x80 :: 0xE3 :: _ => 3
  | b :: 0x80 :: 0xE2 :: _ =>
    if (0x80 ≤ b ∧ b ≤ 0x8A) ∨ b = 0xA8 ∨ b = 0xA9 ∨ b = 0xAF then 3 else 0
  | _ => 0

/-- A byte that belongs to no white-space rune: it is below 128 and is not
one of the ASCII white-space bytes. -/
def solid (b : Byte) : Bool :=
  decide (b < 128) && !(decide (9 ≤ b) && decide (b ≤ 13)) && b != 32

/-- The pieces of a text between the occurrences of `sep`, found from left to
right: `skip` bytes of the separator just found are still to be passed, `cur`
is the piece begun. -/
def splitFrom (sep : List Byte) : Nat → List Byte → List Byte → List (List Byte)
  | _, [], cur => [cur]
  | skip + 1, _ :: s, cur => splitFrom sep skip s cur
  | 0, c :: s, cur =>
    if HasPrefix (c :: s) sep then cur :: splitFrom sep (sep.length - 1) s []
    else splitFrom sep 0 s (cur ++ [c])

/-- Go `strings.Split(s, sep)` for a separator that is not empty. -/
def Split (s sep : List Byte) : List (List Byte) := splitFrom sep 0 s []

/-- The fields of a text, found from left to right: `skip` bytes of the
white-space rune just found are still to be passed, `cur` is the field
begun. -/
def fieldsFrom : Nat → List Byte → List Byte → List (List Byte)
  | _, [], cur => if cur = [] then [] else [cur]
  | skip + 1, _ :: s, cur => fieldsFrom skip s cur
  | 0, c :: s, cur =>
    if 0 < spaceWidth (c :: s) then
      if cur = [] then fieldsFrom (spaceWidth (c :: s) - 1) s []
      else cur :: fieldsFrom (spaceWidth (c :: s) - 1) s []
    else fieldsFrom 0 s (cur ++ [c])

/-- Go `strings.Fields(s)`: the maximal pieces of `s` without white space. -/
def Fields (s : List Byte) : List (List Byte) := fieldsFrom 0 s []

/-- The text without the white-space runes at its front; `width` tells the
width of the rune at the front and `skip` bytes of a rune are still to be
passed. -/
def trimFrontFrom (width : List Byte → Nat) : Nat → List Byte → List Byte
  | _, [] => []
  | skip + 1, _ :: s => trimFrontFrom width skip s
  | 0, c :: s =>
    if 0 < width (c :: s) then trimFrontFrom width (width (c :: s) - 1) s else c :: s

/-- Go `strings.TrimSpace(s)`: `s` without leading and trailing white
space. -/
def TrimSpace (s : List Byte) : List Byte :=
  (trimFrontFrom spaceWidthRev 0 (trimFrontFrom spaceWidth 0 s).reverse).reverse

/-- Go comparison `a < b` of two strings: byte by byte. -/
def lessString : List Byte → List Byte → Bool
  | _, [] => false
  | [], _ :: _ => true
  | a :: s, b :: t => decide (a < b) || (a == b && lessString s t)

/-- The size of the Go type `int` in bits, `strconv.IntSize`, on the 64-bit
platforms that the program is built for. -/
def intSize : Nat := 64

/-- How a conversion of `strconv` fails: the text is not a numeral, or its
value is out of range. -/
inductive NumError where
  | notNumeral
  | outOfRange
  deriving DecidableEq, Repr

/-- The digit loop of Go `strconv.ParseUint(s, 10, bitSize)`, with `n` the
value so far and `maxVal` the largest value of the size.  It stops at the
first byte that is no digit, with value 0, and at the first digit that takes
the value out of range, with value `maxVal`. -/
def parseUintFrom (maxVal : Nat) : List Byte → Nat → Nat × Option NumError
  | [], n => (n, none)
  | d :: s, n =>
    if 48 ≤ d ∧ d ≤ 57 then
      if maxVal < n * 10 + (d - 48) then (maxVal, some NumError.outOfRange)
      else parseUintFrom maxVal s (n * 10 + (d - 48))
    else (0, some NumError.notNumeral)

/-- Go `strconv.ParseUint(s, 10, bitSize)`. -/
def ParseUint (s : List Byte) (bitSize : Nat) : Nat × Option NumError :=
  if s = [] then (0, some NumError.notNumeral) else parseUintFrom (2 ^ bitSize - 1) s 0

/-- Go `strconv.ParseInt(s, 10, bitSize)`: an optional sign and digits; a
value out of range comes back as the nearest bound, with the error. -/
def ParseInt (s : List Byte) (bitSize : Nat) : Int × Option NumError :=
  match s with
  | [] => (0, some NumError.notNumeral)
  | c :: t =>
    let neg := decide (c = 45)
    let digits := if c = 43 ∨ c = 45 then t else c :: t
    match ParseUint digits bitSize with
    | (_, some NumError.notNumeral) => (0, some NumError.notNumeral)
    | (un, _) =>
      if neg = false ∧ 2 ^ (bitSize - 1) ≤ un then
        ((2 ^ (bitSize - 1) - 1 : Nat), some NumError.outOfRange)
      else if neg = true ∧ 2 ^ (bitSize - 1) < un then
        (-(2 ^ (bitSize - 1) : Nat), some NumError.outOfRange)
      else
        (if neg then -(un : Int) else (un : Int), none)

/-- Go `strconv.Atoi(s)`, which is `ParseInt(s, 10, 0)` converted to `int`. -/
def Atoi (s : List Byte) : Int × Option NumError := ParseInt s intSize

/-! ## The escalation exits -/

/-- The method expertExit of ssh.go. -/
def expertExit (s : SshAction) : SshAction × Error :=
  match waitfor { s with written := s.written ++ [bytes "exit\n"] } with
  | (s1, some _) => (s1, some (New 1301 "failed to locate prompt"))
  | (s1, none) => (s1, none)

/-- The method xbmExit of crossbeam.go. -/
def xbmExit (s : SshAction) : SshAction × Error :=
  match waitfor { s with written := s.written ++ [bytes "exit\n"] } with
  | (s1, some _) => (s1, some (New 5200 "failed to locate prompt"))
  | (s1, none) => (s1, none)

/-! ## The operating system and the version (os.go)

Every operation returns the session it leaves and the values that the Go
method returns; `none` stands for a run-time panic. -/

/-- The type OsClass of os.go, an int. -/
abbrev OsClass := Int

/-- The type OsType of os.go, an int. -/
abbrev OsType := Int

def OsClassNone : OsClass := 0
def OsClassIPSO : OsClass := 1
def OsClassSOLARIS : OsClass := 2
def OsClassSPLAT : OsClass := 3
def OsClassGAIA : OsClass := 4
def OsClassXBM : OsClass := 5

def OsTypeNone : OsType := 0
def OsTypeIPSO3_6 : OsType := 1
def OsTypeIPSO3_7 : OsType := 2
def OsTypeIPSO3_8 : OsType := 3
def OsTypeSOLARIS : OsType := 11
def OsTypeR55 : OsType := 21
def OsTypeR65_2_4 : OsType := 22
def OsTypeR65_2_6 : OsType := 23
def OsTypeR70_1 : OsType := 24
def OsTypeR77_20 : OsType := 25
def OsTypeXOS : OsType := 50

/-- The loop over the lines in xbmGetInfo: the first line that contains
`Version:` decides. -/
def xbmVersionLines (err : Error) : List (List Byte) → OsClass × OsType × Error
  | [] => (OsClassNone, OsTypeNone, err)
  | v :: rest =>
    if Contains v (bytes "Version:") then
      if 3 ≤ (Fields v).length ∧ (Fields v)[1]? = some (bytes "XOS") then
        (OsClassXBM, OsTypeXOS, err)
      else
        (OsClassNone, OsTypeNone, some (New 2200 "invalid version string"))
    else xbmVersionLines err rest

/-- The method xbmGetInfo of os.go. -/
def xbmGetInfo (s : SshAction) : Option (SshAction × OsClass × OsType × Error) :=
  match execute s (bytes "show version") 5 with
  | none => none
  | some (s1, result, none) =>
    some (s1, xbmVersionLines none (Split result (bytes "\n")))
  | some (s1, _, some e) => some (s1, OsClassNone, OsTypeNone, some e)

/-- The chain of tests at the end of GetOS, on the output of `uname -r`; `err`
is the error of the command. -/
def osOfRelease (result : List Byte) (err : Error) : OsClass × OsType × Error :=
  if Contains result (bytes "2.4.21-21cp") then (OsClassSPLAT, OsTypeR65_2_4, err)
  else if Contains result (bytes "2.4.21-21cpsmp") then (OsClassSPLAT, OsTypeR65_2_4, err)
  else if Contains result (bytes "2.6.18-22cp") then (OsClassSPLAT, OsTypeR65_2_6, err)
  else if Contains result (bytes "2.6.18-92cp") then (OsClassSPLAT, OsTypeR70_1, err)
  else if Contains result (bytes "2.4.9-42cp") then (OsClassSPLAT, OsTypeR55, err)
  else if Contains result (bytes "3.8") then (OsClassIPSO, OsTypeIPSO3_8, err)
  else if Contains result (bytes "3.7") then (OsClassIPSO, OsTypeIPSO3_7, err)
  else if Contains result (bytes "3.6") then (OsClassIPSO, OsTypeIPSO3_6, err)
  else if Contains result (bytes "5.8") then (OsClassSOLARIS, OsTypeSOLARIS, err)
  else if Contains result (bytes "Running commands is not allowed") then
    (OsClassNone, OsTypeNone, some (New 2002 "running commands is not allowed"))
  else (OsClassNone, OsTypeNone, some (New 2003 "unexpected"))

/-- What a command gives to the code behind it: `result` trimmed when the
command succeeded, and as execute left it otherwise. -/
def trimmedIfOk (result : List Byte) (err : Error) : List Byte :=
  if err = none then TrimSpace result else result

/-- The method GetOS of os.go. -/
def GetOS (s : SshAction) : Option (SshAction × OsClass × OsType × Error) :=
  if s.platform = PlatformGAiA ∨ s.platform = PlatformSplatCPSHELL then
    match expertEnter s with
    | (s1, none) =>
      match execute s1 (bytes "uname -r 2>&1") 5 with
      | none => none
      | some (s2, result, err) =>
        some ((expertExit s2).1, osOfRelease (trimmedIfOk result err) err)
    | (s1, some _) => some (s1, osOfRelease [] none)
  else if s.platform = PlatformExpert then
    match execute s (bytes "uname -r 2>&1") 5 with
    | none => none
    | some (s1, result, err) => some (s1, osOfRelease (trimmedIfOk result err) err)
  else if s.platform = PlatformIPSO then
    match execute s (bytes "uname -r") 5 with
    | none => none
    | some (s1, result, err) => some (s1, osOfRelease (trimmedIfOk result err) err)
  else if s.platform = PlatformXBM then
    xbmGetInfo s
  else
    some (s, OsClassNone, OsTypeNone, some (New 2001 "platform unknown"))

/-- The switch at the head of GetOS on the platforms that run `uname`: the
session afterwards, and `result` and `err` as execute returned them, before
`result` is trimmed.  `result` is empty and `err` is nil when expert mode
could not be entered, and on the other platforms, where nothing is run. -/
def unameOutput (s : SshAction) : Option (SshAction × List Byte × Error) :=
  if s.platform = PlatformGAiA ∨ s.platform = PlatformSplatCPSHELL then
    match expertEnter s with
    | (s1, none) =>
      match execute s1 (bytes "uname -r 2>&1") 5 with
      | none => none
      | some (s2, result, err) => some ((expertExit s2).1, result, err)
    | (s1, some _) => some (s1, [], none)
  else if s.platform = PlatformExpert then
    execute s (bytes "uname -r 2>&1") 5
  else if s.platform = PlatformIPSO then
    execute s (bytes "uname -r") 5
  else
    some (s, [], none)

/-- The method GetInfo of os.go: the session afterwards, `fwver`, `platform`
and `err`. -/
def GetInfo (s : SshAction) : Option (SshAction × List Byte × List Byte × Error) :=
  if s.platform = PlatformGAiA ∨ s.platform = PlatformSplatCPSHELL then
    match expertEnter s with
    | (s1, none) =>
      match execute s1 (bytes "fw ver 2>&1") 20 with
      | none => none
      | some (s2, result, err) =>
        match execute s2 (bytes "cat /etc/cp-release 2>&1") 20 with
        | none => none
        | some (s3, result2, err2) =>
          some ((expertExit s3).1, if err = none then TrimSpace result else [],
            if err2 = none then TrimSpace result2 else [], err2)
    | (s1, some _) => some (s1, [], [], none)
  else if s.platform = PlatformExpert then
    match execute s (bytes "fw ver 2>&1") 20 with
    | none => none
    | some (s1, result, none) =>
      match execute s1 (bytes "cat /etc/cp-release 2>&1") 20 with
      | none => none
      | some (s2, result2, err2) =>
        some (s2, TrimSpace result, if err2 = none then TrimSpace result2 else [], err2)
    | some (s1, _, some e) => some (s1, [], [], some e)
  else if s.platform = PlatformIPSO then
    match execute s (bytes "fw ver") 20 with
    | none => none
    | some (s1, result, err) =>
      some (s1, if err = none then TrimSpace result else [], bytes "IPSO", err)
  else if s.platform = PlatformXBM then
    some (s, [], [], some (New 2100 "platform xbm"))
  else
    some (s, [], [], some (New 2101 "platform unknown"))

/-! ## The Go library functions that are taken as given

The program calls `net.ParseIP`, `net.ParseCIDR`, `net.CIDRMask`,
`strings.ToLower` and `sort.Sort`; their code is in the Go library, not in the
program, so the operations take them as a parameter. -/

/-- The Go type `net.IP`, a byte slice. -/
abbrev IP := List Byte

/-- The Go type `net.IPMask`, a byte slice. -/
abbrev IPMask := List Byte

/-- The Go type `net.IPNet`. -/
structure IPNet where
  IP : IP
  Mask : IPMask
  deriving DecidableEq, Repr

/-- The library functions used and not modelled: `net_ParseIP` gives `none`
for Go nil, `net_ParseCIDR` gives the text of the error or the address and
the network, `sort_Sort` takes the method Less of the slice type. -/
structure GoLibrary where
  net_ParseIP : List Byte → Option IP
  net_ParseCIDR : List Byte → Except String (IP × IPNet)
  net_CIDRMask : Int → Int → IPMask
  strings_ToLower : List Byte → List Byte
  sort_Sort : {α : Type} → (α → α → Bool) → List α → List α

/-! ## The cluster state (cpha.go) -/

/-- The type CphaData of cpha.go. -/
structure CphaData where
  Status : List Byte
  deriving DecidableEq, Repr

/-- The loop over the lines in GetCPHA: the first line that contains
`not started` or `(local)` sets Status and ends the loop; `none` when the
index `f[n - 1]` is out of range. -/
def cphaLines (lib : GoLibrary) : List (List Byte) → Option CphaData
  | [] => some ⟨[]⟩
  | v :: rest =>
    if Contains v (bytes "not started") then some ⟨bytes "not_started"⟩
    else if Contains v (bytes "(local)") then
      match (Fields v).getLast? with
      | none => none
      | some last => some ⟨lib.strings_ToLower last⟩
    else cphaLines lib rest

/-- The end of GetCPHA, behind the switch. -/
def cphaOf (lib : GoLibrary) (s : SshAction) (result : List Byte) (err : Error) :
    Option (SshAction × Option CphaData × Error) :=
  match err with
  | some e => some (s, none, some (New 4002 e.msg))
  | none =>
    match cphaLines lib (Split result (bytes "\n")) with
    | none => none
    | some cpha => some (s, some cpha, none)

/-- The method GetCPHA of cpha.go: the session afterwards, `cpha` (`none`
for nil) and `err`. -/
def GetCPHA (lib : GoLibrary) (s : SshAction) :
    Option (SshAction × Option CphaData × Error) :=
  if s.platform = PlatformGAiA ∨ s.platform = PlatformSplatCPSHELL then
    match expertEnter s with
    | (s1, none) =>
      match execute s1 (bytes "cphaprob stat 2>&1") 10 with
      | none => none
      | some (s2, result, err) => cphaOf lib (expertExit s2).1 result err
    | (s1, some _) => cphaOf lib s1 [] none
  else if s.platform = PlatformExpert then
    match execute s (bytes "cphaprob stat 2>&1") 10 with
    | none => none
    | some (s1, result, err) => cphaOf lib s1 result err
  else if s.platform = PlatformIPSO then
    match execute s (bytes "cphaprob stat") 10 with
    | none => none
    | some (s1, result, err) => cphaOf lib s1 result err
  else if s.platform = PlatformXBM then
    some (s, some ⟨[]⟩, none)
  else
    some (s, none, some (New 4001 "platform unknown"))

/-- The switch at the head of GetCPHA on the platforms that run `cphaprob
stat`: the session afterwards, and `result` and `err` as execute returned
them.  `result` is empty and `err` is nil when expert mode could not be
entered, and on the other platforms, where nothing is run. -/
def cphaprobOutput (s : SshAction) : Option (SshAction × List Byte × Error) :=
  if s.platform = PlatformGAiA ∨ s.platform = PlatformSplatCPSHELL then
    match expertEnter s with
    | (s1, none) =>
      match execute s1 (bytes "cphaprob stat 2>&1") 10 with
      | none => none
      | some (s2, result, err) => some ((expertExit s2).1, result, err)
    | (s1, some _) => some (s1, [], none)
  else if s.platform = PlatformExpert then
    execute s (bytes "cphaprob stat 2>&1") 10
  else if s.platform = PlatformIPSO then
    execute s (bytes "cphaprob stat") 10
  else
    some (s, [], none)

/-! ## The VAP groups (crossbeam.go) -/

/-- The type VAPGroup of crossbeam.go. -/
structure VAPGroup where
  Name : List Byte
  Count : Int
  deriving DecidableEq, Repr

/-- The type VAPGroups of crossbeam.go. -/
abbrev VAPGroups := List VAPGroup

/-- The loop over the lines in GetVAPGroups, with the variables `vapGroup`
and `vapGroups`. -/
def vapLines : List (List Byte) → List Byte → VAPGroups → VAPGroups
  | [], _, vapGroups => vapGroups
  | v :: rest, vapGroup, vapGroups =>
    if HasPrefix v (bytes "VAP Group") then
      if (Split v (bytes ":")).length = 2 then
        vapLines rest (TrimSpace ((Split v (bytes ":")).getD 1 [])) vapGroups
      else vapLines rest vapGroup vapGroups
    else if HasPrefix v (bytes "VAP Count") then
      if (Split v (bytes ":")).length = 2 then
        vapLines rest vapGroup
          (vapGroups ++
            [⟨vapGroup, (Atoi (TrimSpace ((Split v (bytes ":")).getD 1 []))).1⟩])
      else vapLines rest vapGroup vapGroups
    else vapLines rest vapGroup vapGroups

/-- The method GetVAPGroups of crossbeam.go. -/
def GetVAPGroups (s : SshAction) : Option (SshAction × VAPGroups × Error) :=
  if s.platform = PlatformGAiA ∨ s.platform = PlatformSplatCPSHELL ∨
      s.platform = PlatformExpert ∨ s.platform = PlatformIPSO then
    some (s, [], some (New 5000 "not platform xbm"))
  else if s.platform = PlatformXBM then
    match execute s (bytes "show vap-group") 5 with
    | none => none
    | some (s1, _, some e) => some (s1, [], some (New 5000 e.msg))
    | some (s1, result, none) => some (s1, vapLines (Split result (bytes "\n")) [] [], none)
  else
    some (s, [], some (New 5001 "platform unknown"))

/-! ## Interfaces and routes (network.go) -/

/-- The type NetworkLogicalInterface of network.go. -/
structure NetworkLogicalInterface where
  IfName : List Byte
  IfIP : List Byte
  Addr : IP
  Mask : IPMask
  deriving DecidableEq, Repr

/-- The type LogicalInterfaces of network.go. -/
abbrev LogicalInterfaces := List NetworkLogicalInterface

/-- The type NetworkPhysicalInterface of network.go. -/
structure NetworkPhysicalInterface where
  IfName : List Byte
  VLAN : List Byte
  deriving DecidableEq, Repr

/-- The type PhysicalInterfaces of network.go. -/
abbrev PhysicalInterfaces := List NetworkPhysicalInterface

/-- The type NetworkRoute of network.go. -/
structure NetworkRoute where
  Net : List Byte
  Gateway : List Byte
  Dev : List Byte
  IPNet : IPNet
  deriving DecidableEq, Repr

/-- The type Routes of network.go. -/
abbrev Routes := List NetworkRoute

/-- The method Less of LogicalInterfaces, on two elements. -/
def LogicalInterfaces.Less (a b : NetworkLogicalInterface) : Bool :=
  lessString a.IfName b.IfName

/-- The method Less of PhysicalInterfaces, on two elements. -/
def PhysicalInterfaces.Less (a b : NetworkPhysicalInterface) : Bool :=
  lessString (a.IfName ++ a.VLAN) (b.IfName ++ b.VLAN)

/-- The function ipNetToUint32 of network.go; `net.ParseCIDR` gives addresses
of 4 or 16 bytes, so the four indices are in range. -/
def ipNetToUint32 (ip : IP) : Nat :=
  ((ip.getD 0 0 % 256) * 2 ^ 24 + (ip.getD 1 0 % 256) * 2 ^ 16 + (ip.getD 2 0 % 256) * 2 ^ 8 +
    ip.getD 3 0 % 256) % 2 ^ 32

/-- The method Less of Routes, on two elements. -/
def Routes.Less (a b : NetworkRoute) : Bool :=
  decide (ipNetToUint32 a.IPNet.IP < ipNetToUint32 b.IPNet.IP)

/-- The mask of an interface from the pieces `a` of its address at `/`. -/
def maskOf (lib : GoLibrary) (a : List (List Byte)) : IPMask :=
  if a.length = 2 then lib.net_CIDRMask (Atoi (a.getD 1 [])).1 32
  else lib.net_CIDRMask 32 32

/-- The loop over the lines of `ip -o -f inet addr` in GetInterfaces. -/
def linuxInterfaceLines (lib : GoLibrary) :
    List (List Byte) → LogicalInterfaces → LogicalInterfaces
  | [], logical => logical
  | v :: rest, logical =>
    let f := Fields v
    if 2 < f.length then
      if !HasPrefix (f.getD 1 []) (bytes "lo") then
        if 4 < f.length then
          let a := Split (f.getD 3 []) (bytes "/")
          match lib.net_ParseIP (a.getD 0 []) with
          | none => linuxInterfaceLines lib rest logical
          | some addr =>
            linuxInterfaceLines lib rest
              (logical ++ [⟨f.getD 1 [], f.getD 3 [], addr, maskOf lib a⟩])
        else linuxInterfaceLines lib rest logical
      else linuxInterfaceLines lib rest logical
    else linuxInterfaceLines lib rest logical

/-- The local variables of ipsoInterfaces, with the two lists that it
appends to. -/
structure IpsoVars where
  name : List Byte
  phys : List Byte
  ip : List Byte
  up : Bool
  vlan : List Byte
  logical : LogicalInterfaces
  physical : PhysicalInterfaces
  deriving DecidableEq, Repr

/-- The start of a header line in ipsoInterfaces: the interface gathered so
far is stored when it has an address, is up and has a physical name. -/
def ipsoStore (lib : GoLibrary) (st : IpsoVars) : IpsoVars :=
  if st.ip ≠ [] ∧ st.up = true ∧ st.phys ≠ [] then
    let a := Split st.ip (bytes "/")
    let logical :=
      match lib.net_ParseIP (a.getD 0 []) with
      | none => st.logical
      | some addr =>
        st.logical ++
          [⟨if st.vlan = [] then st.phys else st.phys ++ bytes "." ++ st.vlan, st.ip, addr,
            maskOf lib a⟩]
    { st with logical := logical, physical := st.physical ++ [⟨st.phys, st.vlan⟩] }
  else st

/-- The loop over the words `d` of a header line in ipsoInterfaces, at index
`idx`; `none` when `d[idx + 1]` is out of range. -/
def ipsoHeaderWords (d : List (List Byte)) : Nat → List (List Byte) → IpsoVars → Option IpsoVars
  | _, [], st => some st
  | idx, vv :: rest, st =>
    if Contains vv (bytes "flags=") ∧ Contains vv (bytes "UP") then
      ipsoHeaderWords d (idx + 1) rest { st with up := true }
    else if Contains vv (bytes "vlan-id") then
      match d[idx + 1]? with
      | none => none
      | some w => ipsoHeaderWords d (idx + 1) rest { st with vlan := TrimSpace w }
    else ipsoHeaderWords d (idx + 1) rest st

/-- The search for the address in a continuation line with five words or
more: the words at `idx + 3`, `idx + 4` and, with six words or more,
`idx + 5` are tried in turn; `none` when an index is out of range. -/
def ipsoFindInet (lib : GoLibrary) (d : List (List Byte)) (idx : Nat) : Option (List Byte) :=
  match d[idx + 3]? with
  | none => none
  | some w3 =>
    match lib.net_ParseCIDR w3 with
    | Except.ok _ => some w3
    | Except.error _ =>
      match d[idx + 4]? with
      | none => none
      | some w4 =>
        match lib.net_ParseCIDR w4 with
        | Except.ok _ => some w4
        | Except.error _ =>
          if 6 ≤ d.length then
            match d[idx + 5]? with
            | none => none
            | some w5 =>
              match lib.net_ParseCIDR w5 with
              | Except.ok _ => some w5
              | Except.error _ => some []
          else some []

/-- The loop over the words `d` of a continuation line in ipsoInterfaces, at
index `idx`; `none` when an index is out of range. -/
def ipsoContWords (lib : GoLibrary) (d : List (List Byte)) :
    Nat → List (List Byte) → IpsoVars → Option IpsoVars
  | _, [], st => some st
  | idx, vv :: rest, st =>
    if Contains vv (bytes "inet") ∧ 5 ≤ d.length ∧ st.ip = [] then
      match ipsoFindInet lib d idx with
      | none => none
      | some ip => ipsoContWords lib d (idx + 1) rest { st with ip := ip }
    else if Contains vv (bytes "inet") ∧ d.length = 4 ∧ st.ip = [] then
      match d[idx + 1]? with
      | none => none
      | some w =>
        match lib.net_ParseCIDR w with
        | Except.ok _ => ipsoContWords lib d (idx + 1) rest { st with ip := w }
        | Except.error _ => ipsoContWords lib d (idx + 1) rest { st with ip := [] }
    else if Contains vv (bytes "phys") ∧ 2 ≤ d.length then
      match d[idx + 1]? with
      | none => none
      | some w => ipsoContWords lib d (idx + 1) rest { st with phys := TrimSpace w }
    else ipsoContWords lib d (idx + 1) rest st

/-- One turn of the loop over the lines in ipsoInterfaces; `none` when `v[0]`,
`i[1]` or an index into the words is out of range. -/
def ipsoLine (lib : GoLibrary) (st : IpsoVars) (v : List Byte) : Option IpsoVars :=
  match v with
  | [] => none
  | c :: _ =>
    if c ≠ 9 ∧ c ≠ 32 then
      match (Split v (bytes ":"))[1]? with
      | none => none
      | some i1 =>
        ipsoHeaderWords (Split i1 (bytes " ")) 0 (Split i1 (bytes " "))
          { ipsoStore lib st with
            name := (Split v (bytes ":")).getD 0 [], phys := [], up := false, vlan := [],
            ip := [] }
    else
      ipsoContWords lib (Split (TrimSpace v) (bytes " ")) 0 (Split (TrimSpace v) (bytes " ")) st

/-- The loop over the lines in ipsoInterfaces. -/
def ipsoLines (lib : GoLibrary) : List (List Byte) → IpsoVars → Option IpsoVars
  | [], st => some st
  | v :: rest, st =>
    match ipsoLine lib st v with
    | none => none
    | some st1 => ipsoLines lib rest st1

/-- The method ipsoInterfaces of network.go: the two lists afterwards and
`err`; `none` for a run-time panic. -/
def ipsoInterfaces (lib : GoLibrary) (result : List Byte) (logical : LogicalInterfaces)
    (physical : PhysicalInterfaces) : Option (LogicalInterfaces × PhysicalInterfaces × Error) :=
  match ipsoLines lib (Split result (bytes "\n")) ⟨[], [], [], false, [], logical, physical⟩ with
  | none => none
  | some st => some (st.logical, st.physical, none)

/-- The method GetInterfaces of network.go: the session afterwards, `logical`
and `err`. -/
def GetInterfaces (lib : GoLibrary) (s : SshAction) :
    Option (SshAction × LogicalInterfaces × Error) :=
  let parse := fun (s1 : SshAction) (result : List Byte) (err : Error) =>
    match err with
    | some e => (s1, ([] : LogicalInterfaces), some (New 3002 e.msg))
    | none =>
      (s1, lib.sort_Sort LogicalInterfaces.Less
        (linuxInterfaceLines lib (Split result (bytes "\n")) []), none)
  if s.platform = PlatformGAiA ∨ s.platform = PlatformSplatCPSHELL then
    match expertEnter s with
    | (s1, none) =>
      match execute s1 (bytes "ip -o -f inet addr 2>&1") 10 with
      | none => none
      | some (s2, result, err) => some (parse (expertExit s2).1 result err)
    | (s1, some _) => some (parse s1 [] none)
  else if s.platform = PlatformExpert then
    match execute s (bytes "ip -o -f inet addr 2>&1") 10 with
    | none => none
    | some (s1, result, err) => some (parse s1 result err)
  else if s.platform = PlatformIPSO then
    match execute s (bytes "ifconfig -a") 10 with
    | none => none
    | some (s1, _, some e) => some (s1, lib.sort_Sort LogicalInterfaces.Less [], some e)
    | some (s1, result, none) =>
      match ipsoInterfaces lib result [] [] with
      | none => none
      | some (logical, _, err) => some (s1, lib.sort_Sort LogicalInterfaces.Less logical, err)
  else if s.platform = PlatformXBM then
    some (s, [], none)
  else
    some (s, [], some (New 3001 "platform unknown"))

/-- The switch at the head of GetInterfaces on the platforms that run
`ip -o -f inet addr`: the session afterwards, and `result` and `err` as
execute returned them.  `result` is empty and `err` is nil when expert mode
could not be entered, and on the other platforms, which go another way. -/
def ipAddrOutput (s : SshAction) : Option (SshAction × List Byte × Error) :=
  if s.platform = PlatformGAiA ∨ s.platform = PlatformSplatCPSHELL then
    match expertEnter s with
    | (s1, none) =>
      match execute s1 (bytes "ip -o -f inet addr 2>&1") 10 with
      | none => none
      | some (s2, result, err) => some ((expertExit s2).1, result, err)
    | (s1, some _) => some (s1, [], none)
  else if s.platform = PlatformExpert then
    execute s (bytes "ip -o -f inet addr 2>&1") 10
  else
    some (s, [], none)

/-- The destination of a route line of `ip -o -f inet route` as GetRoutes
rewrites `f[0]`: `default` becomes `0.0.0.0/0`, a destination without `/`
gets `/32`. -/
def linuxRouteNet (f0 : List Byte) : List Byte :=
  if (Split f0 (bytes "/")).length = 1 then
    if f0 ≠ bytes "default" then f0 ++ bytes "/32" else bytes "0.0.0.0/0"
  else f0

/-- The loop over the lines of `ip -o -f inet route` in GetRoutes; it ends
with the error of `net.ParseCIDR` at the first destination that does not
parse. -/
def linuxRouteLines (lib : GoLibrary) : List (List Byte) → Routes → Routes × Error
  | [], routes => (routes, none)
  | v :: rest, routes =>
    let f := Fields v
    if (f.length = 5 ∨ f.length = 7) ∧ f.getD 1 [] = bytes "via" ∧ f.getD 3 [] = bytes "dev" then
      match lib.net_ParseCIDR (linuxRouteNet (f.getD 0 [])) with
      | Except.error msg => ([], some (New 3202 msg))
      | Except.ok (_, ipnet) =>
        linuxRouteLines lib rest
          (routes ++ [⟨linuxRouteNet (f.getD 0 []), f.getD 2 [], f.getD 4 [], ipnet⟩])
    else linuxRouteLines lib rest routes

/-- The destination of a route line of `netstat -rn` as ipsoRoutes rewrites
`f[0]`: as on Linux without `/`, and with `/` a network of one, two or three
numbers is filled up with zeros. -/
def ipsoRouteNet (f0 : List Byte) : List Byte :=
  let a := Split f0 (bytes "/")
  if a.length = 1 then
    if f0 ≠ bytes "default" then f0 ++ bytes "/32" else bytes "0.0.0.0/0"
  else
    let ii := Split (a.getD 0 []) (bytes ".")
    if ii.length = 3 then
      ii.getD 0 [] ++ bytes "." ++ ii.getD 1 [] ++ bytes "." ++ ii.getD 2 [] ++ bytes ".0" ++
        bytes "/" ++ a.getD 1 []
    else if ii.length = 2 then
      ii.getD 0 [] ++ bytes "." ++ ii.getD 1 [] ++ bytes ".0.0" ++ bytes "/" ++ a.getD 1 []
    else if ii.length = 1 then
      ii.getD 0 [] ++ bytes ".0.0.0" ++ bytes "/" ++ a.getD 1 []
    else f0

/-- The loop over the lines in ipsoRoutes; a destination that does not parse
is left out. -/
def ipsoRouteLines (lib : GoLibrary) : List (List Byte) → Routes → Routes
  | [], routes => routes
  | v :: rest, routes =>
    let f := Fields (TrimSpace v)
    if f.length = 6 then
      match lib.net_ParseCIDR (ipsoRouteNet (f.getD 0 [])) with
      | Except.error _ => ipsoRouteLines lib rest routes
      | Except.ok (_, ipnet) =>
        ipsoRouteLines lib rest
          (routes ++ [⟨ipsoRouteNet (f.getD 0 []), f.getD 1 [], f.getD 5 [], ipnet⟩])
    else ipsoRouteLines lib rest routes

/-- The method ipsoRoutes of network.go: the list afterwards and `err`. -/
def ipsoRoutes (lib : GoLibrary) (result : List Byte) (routes : Routes) : Routes × Error :=
  (ipsoRouteLines lib (Split result (bytes "\n")) routes, none)

/-- The method GetRoutes of network.go: the session afterwards, `routes` and
`err`. -/
def GetRoutes (lib : GoLibrary) (s : SshAction) : Option (SshAction × Routes × Error) :=
  let parse := fun (s1 : SshAction) (result : List Byte) (err : Error) =>
    match err with
    | some e => (s1, ([] : Routes), some (New 3202 e.msg))
    | none =>
      match linuxRouteLines lib (Split result (bytes "\n")) [] with
      | (_, some e) => (s1, [], some e)
      | (routes, none) => (s1, lib.sort_Sort Routes.Less routes, none)
  if s.platform = PlatformGAiA ∨ s.platform = PlatformSplatCPSHELL then
    match expertEnter s with
    | (s1, none) =>
      match execute s1 (bytes "ip -o -f inet route 2>&1") 10 with
      | none => none
      | some (s2, result, err) => some (parse (expertExit s2).1 result err)
    | (s1, some _) => some (parse s1 [] none)
  else if s.platform = PlatformExpert then
    match execute s (bytes "ip -o -f inet route 2>&1") 10 with
    | none => none
    | some (s1, result, err) => some (parse s1 result err)
  else if s.platform = PlatformIPSO then
    match execute s (bytes "netstat -rn|grep ' CU '|grep -v '::'") 10 with
    | none => none
    | some (s1, _, some e) => some (s1, lib.sort_Sort Routes.Less [], some e)
    | some (s1, result, none) =>
      some (s1, lib.sort_Sort Routes.Less (ipsoRoutes lib result []).1,
        (ipsoRoutes lib result []).2)
  else if s.platform = PlatformXBM then
    some (s, [], none)
  else
    some (s, [], some (New 3201 "platform unknown"))

/-- The switch at the head of GetRoutes on the platforms that run a route
command: the session afterwards, and `result` and `err` as execute returned
them.  `result` is empty and `err` is nil when expert mode could not be
entered, and on the other platforms, where nothing is run. -/
def routeCommandOutput (s : SshAction) : Option (SshAction × List Byte × Error) :=
  if s.platform = PlatformGAiA ∨ s.platform = PlatformSplatCPSHELL then
    match expertEnter s with
    | (s1, none) =>
      match execute s1 (bytes "ip -o -f inet route 2>&1") 10 with
      | none => none
      | some (s2, result, err) => some ((expertExit s2).1, result, err)
    | (s1, some _) => some (s1, [], none)
  else if s.platform = PlatformExpert then
    execute s (bytes "ip -o -f inet route 2>&1") 10
  else if s.platform = PlatformIPSO then
    execute s (bytes "netstat -rn|grep ' CU '|grep -v '::'") 10
  else
    some (s, [], none)

/-! ## The VAP groups as the specification describes them -/

/-- A decimal digit. -/
def isDigit (d : Byte) : Bool := decide (48 ≤ d ∧ d ≤ 57)

/-- The value of a text of decimal digits, read after the value `n`. -/
def digitsValue : List Byte → Nat → Nat
  | [], n => n
  | d :: s, n => digitsValue s (n * 10 + (d - 48))

/-- Specification: the count that a text stands for.  A text that is an
optional sign and one or more decimal digits stands for its value, or for the
nearest bound of the 64-bit integers when the value is out of their range.
Any other text stands for 0, unless its digits up to the first other byte
already exceed `2 ^ 64 - 1`, where it stands for the bound too. -/
def countSpec (t : List Byte) : Int :=
  let digits := if t.head? = some 43 ∨ t.head? = some 45 then t.tail else t
  let value := digitsValue (digits.takeWhile isDigit) 0
  if digits = [] then 0
  else if digits.all isDigit = false ∧ value ≤ 2 ^ 64 - 1 then 0
  else if t.head? = some 45 then max (-(value : Int)) (-(2 ^ 63 : Nat))
  else min (value : Int) ((2 ^ 63 - 1 : Nat))

/-- Specification: a `VAP Group` line that splits into exactly two parts at
the colon. -/
def isGroupLine (v : List Byte) : Bool :=
  HasPrefix v (bytes "VAP Group") && decide ((Split v (bytes ":")).length = 2)

/-- Specification: a `VAP Count` line that splits into exactly two parts at
the colon. -/
def isCountLine (v : List Byte) : Bool :=
  HasPrefix v (bytes "VAP Count") && decide ((Split v (bytes ":")).length = 2)

/-- Specification: the trimmed value of a line, its part after the colon. -/
def valueOf (v : List Byte) : List Byte := TrimSpace ((Split v (bytes ":")).getD 1 [])

/-- Specification: the trimmed value of the last `VAP Group` line among the
lines `before`, the empty text when there is none. -/
def groupNameBefore (before : List (List Byte)) : List Byte :=
  match before.reverse.find? isGroupLine with
  | some v => valueOf v
  | none => []

/-- Specification: one group for each `VAP Count` line, in the order of the
lines, named by the most recent `VAP Group` line before it. -/
def vapGroupsSpec (lines : List (List Byte)) : VAPGroups :=
  (List.range lines.length).filterMap fun i =>
    if isCountLine (lines.getD i []) then
      some ⟨groupNameBefore (lines.take i), countSpec (valueOf (lines.getD i []))⟩
    else none

/-! ## The operating system as the specification describes it -/

/-- Specification: the markers of GetOS in the order in which they are
tried, each with the class and the type that it gives. -/
def osMarkers : List (List Byte × OsClass × OsType) :=
  [(bytes "2.4.21-21cp", OsClassSPLAT, OsTypeR65_2_4),
   (bytes "2.4.21-21cpsmp", OsClassSPLAT, OsTypeR65_2_4),
   (bytes "2.6.18-22cp", OsClassSPLAT, OsTypeR65_2_6),
   (bytes "2.6.18-92cp", OsClassSPLAT, OsTypeR70_1),
   (bytes "2.4.9-42cp", OsClassSPLAT, OsTypeR55),
   (bytes "3.8", OsClassIPSO, OsTypeIPSO3_8),
   (bytes "3.7", OsClassIPSO, OsTypeIPSO3_7),
   (bytes "3.6", OsClassIPSO, OsTypeIPSO3_6),
   (bytes "5.8", OsClassSOLARIS, OsTypeSOLARIS)]

/-- Specification: what GetOS makes of the output of the command: the first
marker that occurs in it decides; when none occurs the error is `running
commands is not allowed` if the output has the text `Running commands is not
allowed`, and `unexpected` otherwise. -/
def osSpec (output : List Byte) : OsClass × OsType × Error :=
  match osMarkers.find? (fun m => Contains output m.1) with
  | some m => (m.2.1, m.2.2, none)
  | none =>
    if Contains output (bytes "Running commands is not allowed") then
      (OsClassNone, OsTypeNone, some (New 2002 "running commands is not allowed"))
    else (OsClassNone, OsTypeNone, some (New 2003 "unexpected"))

/-! ## The cluster state as the specification describes it -/

/-- Specification: the status that GetCPHA reads from the lines of the
command output: the first line that contains `not started` or `(local)`
decides, and the status is empty when there is no such line. -/
def cphaStatusSpec (lib : GoLibrary) (lines : List (List Byte)) : List Byte :=
  match lines.find? (fun v => Contains v (bytes "not started") || Contains v (bytes "(local)")) with
  | none => []
  | some v =>
    if Contains v (bytes "not started") then bytes "not_started"
    else lib.strings_ToLower ((Fields v).getLastD [])

/-! ## The interfaces of Linux as the specification describes them -/

/-- Specification: a line of the output gives an interface when it has more
than four fields, the second field does not start with `lo`, and the text of
the fourth field before its first `/` is an address for `net.ParseIP`. -/
def isInterfaceLine (lib : GoLibrary) (v : List Byte) : Bool :=
  decide (4 < (Fields v).length) &&
    !HasPrefix ((Fields v).getD 1 []) (bytes "lo") &&
    (lib.net_ParseIP (((Fields v).getD 3 []).takeWhile fun b => b != 47)).isSome

/-- Specification: IfName and IfIP of the interfaces in the lines of the
output, one pair for each line that gives an interface, in the order of the
lines: the second field and the fourth. -/
def interfacesSpec (lib : GoLibrary) (lines : List (List Byte)) :
    List (List Byte × List Byte) :=
  (lines.filter (isInterfaceLine lib)).map fun v => ((Fields v).getD 1 [], (Fields v).getD 3 [])

/-! ## The routes as the specification describes them -/

/-- Specification: the route that a line of the output stands for, if any.
On IPSO a route line has six fields: destination, gateway and, as the sixth,
the device.  On Linux it has five or seven fields, `via` as the second and
`dev` as the fourth: destination, gateway as the third and device as the
fifth.  Net is the destination as rewritten, and the line gives a route when
`net.ParseCIDR` accepts Net; IPNet is the network that it returns. -/
def routeOfLine (lib : GoLibrary) (ipso : Bool) (v : List Byte) : Option NetworkRoute :=
  if ipso then
    if (Fields (TrimSpace v)).length = 6 then
      match lib.net_ParseCIDR (ipsoRouteNet ((Fields (TrimSpace v)).getD 0 [])) with
      | Except.ok (_, ipnet) =>
        some ⟨ipsoRouteNet ((Fields (TrimSpace v)).getD 0 []), (Fields (TrimSpace v)).getD 1 [],
          (Fields (TrimSpace v)).getD 5 [], ipnet⟩
      | Except.error _ => none
    else none
  else
    if ((Fields v).length = 5 ∨ (Fields v).length = 7) ∧ (Fields v).getD 1 [] = bytes "via" ∧
        (Fields v).getD 3 [] = bytes "dev" then
      match lib.net_ParseCIDR (linuxRouteNet ((Fields v).getD 0 [])) with
      | Except.ok (_, ipnet) =>
        some ⟨linuxRouteNet ((Fields v).getD 0 []), (Fields v).getD 2 [], (Fields v).getD 4 [],
          ipnet⟩
      | Except.error _ => none
    else none

/-- Specification: a route line of Linux whose destination, as rewritten,
`net.ParseCIDR` does not accept. -/
def routeRejected (lib : GoLibrary) (v : List Byte) : Bool :=
  decide (((Fields v).length = 5 ∨ (Fields v).length = 7) ∧ (Fields v).getD 1 [] = bytes "via" ∧
      (Fields v).getD 3 [] = bytes "dev") &&
    match lib.net_ParseCIDR (linuxRouteNet ((Fields v).getD 0 [])) with
    | Except.ok _ => false
    | Except.error _ => true

/-- Specification: the routes of the lines of the output, in the order of the
lines. -/
def routesSpec (lib : GoLibrary) (ipso : Bool) (lines : List (List Byte)) : Routes :=
  lines.filterMap (routeOfLine lib ipso)

/-! ## Sessions used as examples -/

/-- A session at a `]# ` prompt after the CPSHELL banner was seen. -/
def sessionCpshell : SshAction :=
  { NewSshAction [] [] with prompt := 2, splat := true, splat_cpshell := true }

/-- A session at a `]# ` prompt with no banner seen. -/
def sessionExpert : SshAction :=
  { NewSshAction [] [] with prompt := 2 }

/-- The round trip of the specification: the prompt is `host> `, the transport
echoes `cmd` and a newline byte by byte, then sends one output line, then the
prompt. -/
def sessionRoundTrip : SshAction :=
  { NewSshAction [] (echoReads (bytes "cmd") ++
      [ReadResult.data (bytes "OUTPUT-LINE\n"), ReadResult.data (bytes "host> ")]) with
    currentPrompt := bytes "host> " }

/-- A round trip in which the end of the output and the prompt together hold
an earlier occurrence of the prompt: the output is `ba`, the prompt `aa`. -/
def sessionOverlap : SshAction :=
  { NewSshAction [] (echoReads (bytes "cmd") ++
      [ReadResult.data (bytes "ba"), ReadResult.data (bytes "aa")]) with
    currentPrompt := bytes "aa" }

/-- A handshake whose first read brings the IPSO banner and the terminal-type
query together, and whose second read brings the prompt. -/
def sessionIpsoQuery : SshAction :=
  NewSshAction [] [ReadResult.data (bytes "IPSO (fw1)\nTerminal type? [vt100] "),
    ReadResult.data (bytes "fw1[admin]# ")]

/-- A handshake whose first read brings the terminal-type query alone, and
whose second read brings the prompt. -/
def sessionQuery : SshAction :=
  NewSshAction [] [ReadResult.data (bytes "Terminal type? [vt100] "),
    ReadResult.data (bytes "\nfw1[admin]# ")]

/-- A handshake of one read: a line of text, a newline and a CLISH prompt. -/
def sessionLogin : SshAction :=
  NewSshAction [] [ReadResult.data (bytes "Last login\nhost> ")]

/-- The session after the handshake of `sessionLogin`. -/
def sessionLoginDone : SshAction :=
  { sessionLogin with prompt := 1, out := [], currentPrompt := bytes "\nhost> " }

/-- A transport that answers two escalations in a row: twice the password
challenge and then the expert prompt. -/
def sessionTwoEnters : SshAction :=
  NewSshAction (bytes "secret")
    [ReadResult.data (bytes "Enter expert password:"),
     ReadResult.data (bytes "\n[Expert@fw1:0]# "),
     ReadResult.data (bytes "Enter expert password:"),
     ReadResult.data (bytes "\n[Expert@fw1:0]# ")]

/-- A transport that sends the password challenge of xbmEnter twice. -/
def sessionXbmChallenges : SshAction :=
  NewSshAction (bytes "secret")
    [ReadResult.data (bytes "Password: "), ReadResult.data (bytes "Password: ")]

/-- A GAiA session whose transport shows the expert prompt at once, fails the
next Read, then echoes the second command of GetInfo and answers it, and
shows a prompt after the exit. -/
def sessionInfoFirstFails : SshAction :=
  NewSshAction (bytes "secret")
    ([ReadResult.data (bytes "\n[Expert@fw1:0]# "), ReadResult.fail "EOF"] ++
      echoReads (bytes "cat /etc/cp-release 2>&1") ++
      [ReadResult.data (bytes "Check Point Gaia R77.20\n[Expert@fw1:0]# "),
       ReadResult.data (bytes "\nfw1> ")])

/-- A session whose platform is PlatformCPM, which no operation handles. -/
def sessionCPM : SshAction :=
  { NewSshAction [] [ReadResult.data (bytes "\nfw1> ")] with platform := PlatformCPM }

/-- A library for the examples: nothing parses, nothing is sorted. -/
def plainLibrary : GoLibrary :=
  { net_ParseIP := fun _ => none
    net_ParseCIDR := fun _ => Except.error "invalid CIDR address"
    net_CIDRMask := fun _ _ => []
    strings_ToLower := fun t => t
    sort_Sort := fun _ l => l }

/-- A GAiA session whose transport stays silent: the escalation times out. -/
def sessionSilent : SshAction := NewSshAction (bytes "secret") []

/-- A GAiA session whose transport fails at the first Read. -/
def sessionBroken : SshAction := NewSshAction (bytes "secret") [ReadResult.fail "EOF"]

/-- The session `sessionSilent` after an escalation that timed out. -/
def sessionSilentAfter : SshAction :=
  { sessionSilent with written := [bytes "expert\n"] }

/-- The session `sessionBroken` after an escalation that met the failure. -/
def sessionBrokenAfter : SshAction :=
  { sessionBroken with written := [bytes "expert\n"], out := [], prompt := -1 }

/-- A transport that answers the escalation with a CrossBeam CPM prompt. -/
def sessionCpmPrompt : SshAction :=
  NewSshAction (bytes "secret") [ReadResult.data (bytes "\nfw1# ")]

/-- A transport that answers the escalation with a CrossBeam APM prompt. -/
def sessionApmPrompt : SshAction :=
  NewSshAction (bytes "secret") [ReadResult.data (bytes "\n[admin@fw1] ~$ ")]

/-- A transport that answers the escalation with the expert prompt. -/
def sessionExpertPrompt : SshAction :=
  NewSshAction (bytes "secret") [ReadResult.data (bytes "\n[Expert@fw1:0]# ")]

/-- The answer of a CrossBeam chassis to `show vap-group`: two groups. -/
def vapOutput : List Byte :=
  bytes "VAP Group : fw\nVAP Count : 2\nMax Load Count : 2\nVAP Group : ids\nVAP Count : 10"

/-- An XBM session at the prompt `CBS# `: the transport echoes
`show vap-group`, then sends `vapOutput` and the prompt. -/
def sessionVap : SshAction :=
  { NewSshAction [] (echoReads (bytes "show vap-group") ++
      [ReadResult.data (vapOutput ++ bytes "\nCBS# ")]) with
    currentPrompt := bytes "\nCBS# ", platform := PlatformXBM }

/-- The session `sessionVap` after `show vap-group`. -/
def sessionVapAfter : SshAction :=
  { sessionVap with written := [bytes "show vap-group\n"], out := [] }

/-- An answer to `show vap-group` whose counts are a numeral beyond the 64-bit
integers and a text that is no numeral, after a count line that no group line
precedes. -/
def vapOutputOdd : List Byte :=
  bytes "VAP Count : 1\nVAP Group : fw\nVAP Count : 9223372036854775808\nVAP Count : 99999999999999999999x"

/-- An XBM session at the prompt `CBS# `: the transport echoes
`show vap-group`, then sends `vapOutputOdd` and the prompt. -/
def sessionVapOdd : SshAction :=
  { NewSshAction [] (echoReads (bytes "show vap-group") ++
      [ReadResult.data (vapOutputOdd ++ bytes "\nCBS# ")]) with
    currentPrompt := bytes "\nCBS# ", platform := PlatformXBM }

/-- The session `sessionVapOdd` after `show vap-group`. -/
def sessionVapOddAfter : SshAction :=
  { sessionVapOdd with written := [bytes "show vap-group\n"], out := [] }

/-- A session at the prompt `host> `: the transport echoes `cmd` and a newline
byte by byte, then sends the output `OK`, a newline and the prompt in one
read. -/
def sessionWholeOutput : SshAction :=
  { NewSshAction [] (echoReads (bytes "cmd") ++ [ReadResult.data (bytes "OK\nhost> ")]) with
    currentPrompt := bytes "\nhost> " }

/-- The session `sessionWholeOutput` with the same bytes after the echo split
into two reads: `O`, then the rest. -/
def sessionSplitOutput : SshAction :=
  { NewSshAction [] (echoReads (bytes "cmd") ++
      [ReadResult.data (bytes "O"), ReadResult.data (bytes "K\nhost> ")]) with
    currentPrompt := bytes "\nhost> " }

/-- A handshake whose first read brings the CPSHELL banner and whose second
read brings the prompt. -/
def sessionBannerFirst : SshAction :=
  NewSshAction [] [ReadResult.data (bytes "? for list of commands\n"),
    ReadResult.data (bytes "[fw1]# ")]

/-- A handshake whose only read brings the CPSHELL banner and the prompt
together. -/
def sessionBannerWithPrompt : SshAction :=
  NewSshAction [] [ReadResult.data (bytes "? for list of commands\n[fw1]# ")]

/-- A handshake whose first read brings the CrossBeam banner and the IPSO
banner together, and whose second read brings the prompt. -/
def sessionMaskedIpso : SshAction :=
  NewSshAction [] [ReadResult.data (bytes "Active Alarms Summary\nIPSO (fw1)\n"),
    ReadResult.data (bytes "fw1[admin]# ")]

/-- An XBM session at the prompt `CBS# `: the transport echoes `show version`
and answers with a text that has no line with `Version:`. -/
def sessionXbmNoVersion : SshAction :=
  { NewSshAction [] (echoReads (bytes "show version") ++
      [ReadResult.data (bytes "Crossbeam XOS\nUptime 12 days\nCBS# ")]) with
    currentPrompt := bytes "\nCBS# ", platform := PlatformXBM }

/-- The session `sessionXbmNoVersion` after `show version`. -/
def sessionXbmNoVersionAfter : SshAction :=
  { sessionXbmNoVersion with written := [bytes "show version\n"], out := [] }

/-- A library for the examples that knows a few addresses and gives for them
what the Go library gives; it parses nothing else, turns the ASCII capitals
into small letters and sorts by insertion. -/
def exampleLibrary : GoLibrary :=
  { net_ParseIP := fun t =>
      if t = bytes "192.168.1.1" then some [0, 0, 0, 0, 0, 0, 0, 0, 0, 0, 255, 255, 192, 168, 1, 1]
      else if t = bytes "10.0.0.1" then some [0, 0, 0, 0, 0, 0, 0, 0, 0, 0, 255, 255, 10, 0, 0, 1]
      else none
    net_ParseCIDR := fun t =>
      if t = bytes "192.168.1.1/24" then
        Except.ok ([0, 0, 0, 0, 0, 0, 0, 0, 0, 0, 255, 255, 192, 168, 1, 1],
          ⟨[192, 168, 1, 0], [255, 255, 255, 0]⟩)
      else if t = bytes "0.0.0.0/0" then
        Except.ok ([0, 0, 0, 0, 0, 0, 0, 0, 0, 0, 255, 255, 0, 0, 0, 0], ⟨[0, 0, 0, 0], [0, 0, 0, 0]⟩)
      else if t = bytes "10.1.2.0/24" then
        Except.ok ([0, 0, 0, 0, 0, 0, 0, 0, 0, 0, 255, 255, 10, 1, 2, 0],
          ⟨[10, 1, 2, 0], [255, 255, 255, 0]⟩)
      else if t = bytes "10.9.9.9/32" then
        Except.ok ([0, 0, 0, 0, 0, 0, 0, 0, 0, 0, 255, 255, 10, 9, 9, 9],
          ⟨[10, 9, 9, 9], [255, 255, 255, 255]⟩)
      else Except.error "invalid CIDR address"
    net_CIDRMask := fun ones bits =>
      if ones = 24 ∧ bits = 32 then [255, 255, 255, 0]
      else if ones = 32 ∧ bits = 32 then [255, 255, 255, 255]
      else []
    strings_ToLower := fun t => t.map fun b => if 65 ≤ b ∧ b ≤ 90 then b + 32 else b
    sort_Sort := fun less l => l.insertionSort (fun a b => less a b = true) }

/-- An answer of IPSO to `ifconfig -a` with one interface: it is up, has a
physical name and an address that parses. -/
def ifconfigOneBlock : List Byte :=
  bytes "eth1c0: flags=e7<UP,PHYS_AVAIL>\n\tinet mtu 1500 192.168.1.1/24 broadcast 192.168.1.255\n\tphys eth1"

/-- The answer `ifconfigOneBlock` followed by the header line of a second
interface. -/
def ifconfigTwoBlocks : List Byte :=
  ifconfigOneBlock ++ bytes "\nloop0c0: flags=57<UP,PHYS_AVAIL>"

/-- An IPSO session at the prompt `fw1[admin]# `: the transport echoes
`ifconfig -a` and shows the prompt again, with no output in between. -/
def sessionIpsoNoOutput : SshAction :=
  { NewSshAction [] (echoReads (bytes "ifconfig -a") ++
      [ReadResult.data (bytes "\nfw1[admin]# ")]) with
    currentPrompt := bytes "\nfw1[admin]# ", platform := PlatformIPSO }

/-- The session `sessionIpsoNoOutput` after `ifconfig -a`. -/
def sessionIpsoNoOutputAfter : SshAction :=
  { sessionIpsoNoOutput with written := [bytes "ifconfig -a\n"], out := [] }

/-- The answer of a Linux firewall to `ip -o -f inet route`: a network, the
default route and a host route. -/
def routeOutput : List Byte :=
  bytes "10.1.2.0/24 via 10.0.0.254 dev eth1\ndefault via 10.0.0.1 dev eth0\n10.9.9.9 via 10.0.0.2 dev eth0"

/-- A session in expert mode at the prompt `[Expert@fw1]# `: the transport
echoes the route command, then sends `routeOutput` and the prompt. -/
def sessionRoutes : SshAction :=
  { NewSshAction [] (echoReads (bytes "ip -o -f inet route 2>&1") ++
      [ReadResult.data (routeOutput ++ bytes "\n[Expert@fw1]# ")]) with
    currentPrompt := bytes "\n[Expert@fw1]# ", platform := PlatformExpert }

/-- The session `sessionRoutes` after the route command. -/
def sessionRoutesAfter : SshAction :=
  { sessionRoutes with written := [bytes "ip -o -f inet route 2>&1\n"], out := [] }

/-- The routes of `routeOutput` in the order of their networks. -/
def routeList : Routes :=
  [⟨bytes "0.0.0.0/0", bytes "10.0.0.1", bytes "eth0", ⟨[0, 0, 0, 0], [0, 0, 0, 0]⟩⟩,
   ⟨bytes "10.1.2.0/24", bytes "10.0.0.254", bytes "eth1", ⟨[10, 1, 2, 0], [255, 255, 255, 0]⟩⟩,
   ⟨bytes "10.9.9.9/32", bytes "10.0.0.2", bytes "eth0",
     ⟨[10, 9, 9, 9], [255, 255, 255, 255]⟩⟩]

/-- A session in expert mode at the prompt `[Expert@fw1]# `: the transport
echoes `uname -r 2>&1`, then sends the release of the kernel between two
blank lines, and the prompt. -/
def sessionUname : SshAction :=
  { NewSshAction [] (echoReads (bytes "uname -r 2>&1") ++
      [ReadResult.data (bytes "\r\n2.6.18-92cpx86_64\r\n[Expert@fw1]# ")]) with
    currentPrompt := bytes "\n[Expert@fw1]# ", platform := PlatformExpert }

/-- The session `sessionUname` after the command. -/
def sessionUnameAfter : SshAction :=
  { sessionUname with written := [bytes "uname -r 2>&1\n"], out := [] }

/-- The answer of a Linux firewall to `ip -o -f inet addr`: the loopback
interface and two others, the later name first. -/
def addrOutput : List Byte :=
  bytes "1: lo    inet 127.0.0.1/8 scope host lo\n3: eth1    inet 192.168.1.1/24 brd 192.168.1.255 scope global eth1\n2: eth0    inet 10.0.0.1/24 brd 10.0.0.255 scope global eth0"

/-- A session in expert mode at the prompt `[Expert@fw1]# `: the transport
echoes the command, then sends `addrOutput` and the prompt. -/
def sessionAddr : SshAction :=
  { NewSshAction [] (echoReads (bytes "ip -o -f inet addr 2>&1") ++
      [ReadResult.data (addrOutput ++ bytes "\n[Expert@fw1]# ")]) with
    currentPrompt := bytes "\n[Expert@fw1]# ", platform := PlatformExpert }

/-- The session `sessionAddr` after the command. -/
def sessionAddrAfter : SshAction :=
  { sessionAddr with written := [bytes "ip -o -f inet addr 2>&1\n"], out := [] }

/-- The interfaces of `addrOutput` in the order of their names. -/
def addrList : LogicalInterfaces :=
  [⟨bytes "eth0", bytes "10.0.0.1/24", [0, 0, 0, 0, 0, 0, 0, 0, 0, 0, 255, 255, 10, 0, 0, 1],
     [255, 255, 255, 0]⟩,
   ⟨bytes "eth1", bytes "192.168.1.1/24",
     [0, 0, 0, 0, 0, 0, 0, 0, 0, 0, 255, 255, 192, 168, 1, 1], [255, 255, 255, 0]⟩]

/-- A handshake whose only read brings the IPSO banner and the terminal-type
query together; the device then waits for the answer and stays silent. -/
def sessionIpsoQuerySilent : SshAction :=
  NewSshAction [] [ReadResult.data (bytes "IPSO (fw1)\nTerminal type? [vt100] ")]

/-- The same bytes in two reads: the IPSO banner, then the terminal-type
query; the device then waits for the answer and stays silent. -/
def sessionIpsoQuerySplit : SshAction :=
  NewSshAction [] [ReadResult.data (bytes "IPSO (fw1)\n"),
    ReadResult.data (bytes "Terminal type? [vt100] ")]

/-- A session in expert mode at the prompt `[Expert@fw1]# `: the transport
echoes `uname -r 2>&1` and answers `running commands is not allowed`, all in
small letters. -/
def sessionRefusedSmall : SshAction :=
  { NewSshAction [] (echoReads (bytes "uname -r 2>&1") ++
      [ReadResult.data (bytes "running commands is not allowed\n[Expert@fw1]# ")]) with
    currentPrompt := bytes "\n[Expert@fw1]# ", platform := PlatformExpert }

/-- The session `sessionRefusedSmall` after the command. -/
def sessionRefusedSmallAfter : SshAction :=
  { sessionRefusedSmall with written := [bytes "uname -r 2>&1\n"], out := [] }

/-- A session in expert mode at the prompt `[Expert@fw1]# `: the transport
echoes `uname -r 2>&1` and answers `Running commands is not allowed`, with a
capital letter. -/
def sessionRefused : SshAction :=
  { NewSshAction [] (echoReads (bytes "uname -r 2>&1") ++
      [ReadResult.data (bytes "Running commands is not allowed\n[Expert@fw1]# ")]) with
    currentPrompt := bytes "\n[Expert@fw1]# ", platform := PlatformExpert }

/-- The session `sessionRefused` after the command. -/
def sessionRefusedAfter : SshAction :=
  { sessionRefused with written := [bytes "uname -r 2>&1\n"], out := [] }

/-- The answer of a cluster member to `cphaprob stat`: the member itself is
active. -/
def cphaOutput : List Byte :=
  bytes "Cluster Mode: HA\n\n1 (local) 10.0.0.1 100% Active\n2 10.0.0.2 0% Standby"

/-- A session in expert mode at the prompt `[Expert@fw1]# `: the transport
echoes `cphaprob stat 2>&1`, then sends `cphaOutput` and the prompt. -/
def sessionCpha : SshAction :=
  { NewSshAction [] (echoReads (bytes "cphaprob stat 2>&1") ++
      [ReadResult.data (cphaOutput ++ bytes "\n[Expert@fw1]# ")]) with
    currentPrompt := bytes "\n[Expert@fw1]# ", platform := PlatformExpert }

/-- The session `sessionCpha` after the command. -/
def sessionCphaAfter : SshAction :=
  { sessionCpha with written := [bytes "cphaprob stat 2>&1\n"], out := [] }

/-- The answer of IPSO to `netstat -rn|grep ' CU '|grep -v '::'`: a network
with three numbers and the default route. -/
def ipsoRouteOutput : List Byte :=
  bytes "10.1.2/24 10.0.0.254 CU 0 0 eth2c0\ndefault 10.0.0.1 CU 0 0 eth1c0"

/-- An IPSO session at the prompt `fw1[admin]# `: the transport echoes the
route command, then sends `ipsoRouteOutput` and the prompt. -/
def sessionIpsoRoutes : SshAction :=
  { NewSshAction [] (echoReads (bytes "netstat -rn|grep ' CU '|grep -v '::'") ++
      [ReadResult.data (ipsoRouteOutput ++ bytes "\nfw1[admin]# ")]) with
    currentPrompt := bytes "\nfw1[admin]# ", platform := PlatformIPSO }

/-- The session `sessionIpsoRoutes` after the route command. -/
def sessionIpsoRoutesAfter : SshAction :=
  { sessionIpsoRoutes with
    written := [bytes "netstat -rn|grep ' CU '|grep -v '::'\n"], out := [] }

/-- The routes of `ipsoRouteOutput` in the order of their networks. -/
def ipsoRouteList : Routes :=
  [⟨bytes "0.0.0.0/0", bytes "10.0.0.1", bytes "eth1c0", ⟨[0, 0, 0, 0], [0, 0, 0, 0]⟩⟩,
   ⟨bytes "10.1.2.0/24", bytes "10.0.0.254", bytes "eth2c0",
     ⟨[10, 1, 2, 0], [255, 255, 255, 0]⟩⟩]

/-- The library of the examples with one more destination, `2001:db8::/32`,
for which it gives what the Go library gives: an address and a network of 16
bytes. -/
def v6Library : GoLibrary :=
  { exampleLibrary with
    net_ParseCIDR := fun t =>
      if t = bytes "2001:db8::/32" then
        Except.ok ([32, 1, 13, 184, 0, 0, 0, 0, 0, 0, 0, 0, 0, 0, 0, 0],
          ⟨[32, 1, 13, 184, 0, 0, 0, 0, 0, 0, 0, 0, 0, 0, 0, 0],
            [255, 255, 255, 255, 0, 0, 0, 0, 0, 0, 0, 0, 0, 0, 0, 0]⟩)
      else exampleLibrary.net_ParseCIDR t }

/-- A session in expert mode at the prompt `[Expert@fw1]# `: the transport
echoes the route command, then sends a route to an IPv6 network and the
prompt. -/
def sessionRoutes6 : SshAction :=
  { NewSshAction [] (echoReads (bytes "ip -o -f inet route 2>&1") ++
      [ReadResult.data (bytes "2001:db8::/32 via fe80::1 dev eth0\n[Expert@fw1]# ")]) with
    currentPrompt := bytes "\n[Expert@fw1]# ", platform := PlatformExpert }

/-- The session `sessionRoutes6` after the route command. -/
def sessionRoutes6After : SshAction :=
  { sessionRoutes6 with written := [bytes "ip -o -f inet route 2>&1\n"], out := [] }

/-! ## The zero padding of a buffer is invisible

The source takes `string(buf[:])`, the received bytes followed by the zero
bytes of the unused part of the slice.  Trimming, the patterns and the search
for the last newline all give the same on the received bytes alone. -/

theorem TrimRight_replicate_zero (k : Nat) : TrimRight (List.replicate k 0) nul = [] := by
  induction k with
  | zero => rfl
  | succ k ih =>
    simp only [List.replicate_succ, TrimRight, ih]
    simp [nul]

theorem TrimRight_append_of_nil {z cs : List Byte} (h : TrimRight z cs = []) (d : List Byte) :
    TrimRight (d ++ z) cs = TrimRight d cs := by
  induction d with
  | nil => simpa [TrimRight] using h
  | cons c d ih => simp [TrimRight, ih]

theorem TrimRight_append_zeros (d : List Byte) (k : Nat) :
    TrimRight (d ++ List.replicate k 0) nul = TrimRight d nul :=
  TrimRight_append_of_nil (TrimRight_replicate_zero k) d

theorem TrimRight_bufString (len : Nat) (d : List Byte) :
    TrimRight (bufString len d) nul = TrimRight d nul :=
  TrimRight_append_zeros d _

/-- Every byte string is its trimmed form followed by zero bytes. -/
theorem TrimRight_zeros (d : List Byte) :
    ∃ k, d = TrimRight d nul ++ List.replicate k 0 := by
  induction d with
  | nil => exact ⟨0, rfl⟩
  | cons c d ih =>
    obtain ⟨k, hk⟩ := ih
    cases h : TrimRight d nul with
    | nil =>
      rw [h, List.nil_append] at hk
      by_cases hc : c = 0
      · refine ⟨k + 1, ?_⟩
        simp only [TrimRight, h]
        rw [List.replicate_succ, ← hk]
        simp [nul, hc]
      · refine ⟨k, ?_⟩
        simp only [TrimRight, h]
        rw [← hk]
        simp [nul, hc]
    | cons r rs =>
      refine ⟨k, ?_⟩
      rw [h] at hk
      simp only [TrimRight, h]
      rw [List.cons_append, ← hk]

/-- The trimmed form does not end in a zero byte. -/
theorem TrimRight_idem (d : List Byte) : TrimRight (TrimRight d nul) nul = TrimRight d nul := by
  obtain ⟨k, hk⟩ := TrimRight_zeros d
  conv_rhs => rw [hk]
  rw [TrimRight_append_zeros]

theorem matchHere_replicate_zero (re : Regexp) (h : NulFree re = true) (k : Nat) :
    matchHere re (List.replicate k 0) = matchHere re [] := by
  induction re with
  | nil => simp [matchHere]
  | cons it re ih =>
    cases k with
    | zero => rfl
    | succ k =>
      cases it with
      | lit b =>
        simp only [NulFree, Bool.and_eq_true, bne_iff_ne, ne_eq] at h
        have hb : (0 == b) = false := by simpa using fun e => h.1 e.symm
        simp [List.replicate_succ, matchHere, hb]
      | word => simp [List.replicate_succ, matchHere, isWord]
      | opt b =>
        simp only [NulFree, Bool.and_eq_true, bne_iff_ne, ne_eq] at h
        have hb : (0 == b) = false := by simpa using fun e => h.1 e.symm
        have := ih h.2
        rw [List.replicate_succ] at this
        simp [List.replicate_succ, matchHere, hb, this]

theorem matchHere_append_zeros (re : Regexp) (h : NulFree re = true) (s : List Byte) (k : Nat) :
    matchHere re (s ++ List.replicate k 0) = matchHere re s := by
  induction re generalizing s with
  | nil => simp [matchHere]
  | cons it re ih =>
    cases s with
    | nil => simpa using matchHere_replicate_zero (it :: re) h k
    | cons c s =>
      cases it with
      | lit b =>
        simp only [NulFree, Bool.and_eq_true] at h
        simp [matchHere, ih h.2]
      | word =>
        simp only [NulFree] at h
        simp [matchHere, ih h]
      | opt b =>
        simp only [NulFree, Bool.and_eq_true] at h
        have h1 := ih h.2 s
        have h2 := ih h.2 (c :: s)
        simp only [List.cons_append] at h2
        simp [matchHere, h1, h2]

theorem MatchString_replicate_zero (re : Regexp) (h : NulFree re = true) (k : Nat) :
    MatchString re (List.replicate k 0) = matchHere re [] := by
  induction k with
  | zero => rfl
  | succ k ih =>
    have := matchHere_replicate_zero re h (k + 1)
    rw [List.replicate_succ] at this
    simp [List.replicate_succ, MatchString, ih, this]

theorem MatchString_append_zeros (re : Regexp) (h : NulFree re = true) (s : List Byte) (k : Nat) :
    MatchString re (s ++ List.replicate k 0) = MatchString re s := by
  induction s with
  | nil => simpa [MatchString] using MatchString_replicate_zero re h k
  | cons c s ih =>
    have := matchHere_append_zeros re h (c :: s) k
    simp only [List.cons_append] at this
    simp [MatchString, ih, this]

theorem MatchString_bufString (re : Regexp) (h : NulFree re = true) (len : Nat) (d : List Byte) :
    MatchString re (bufString len d) = MatchString re d :=
  MatchString_append_zeros re h d _

theorem MatchString_TrimRight (re : Regexp) (h : NulFree re = true) (d : List Byte) :
    MatchString re (TrimRight d nul) = MatchString re d := by
  obtain ⟨k, hk⟩ := TrimRight_zeros d
  conv_rhs => rw [hk]
  rw [MatchString_append_zeros re h]

/-! ## What `Index`, `Contains` and `LastIndex` compute -/

theorem bytes_newline : bytes "\n" = [10] := by decide

theorem HasPrefix_iff (s p : List Byte) : HasPrefix s p = true ↔ p <+: s := by
  induction s generalizing p with
  | nil => cases p <;> simp [HasPrefix]
  | cons c s ih =>
    cases p with
    | nil => simp [HasPrefix]
    | cons d p =>
      simp only [HasPrefix, Bool.and_eq_true, beq_iff_eq, ih, List.cons_prefix_cons]
      constructor
      · rintro ⟨h1, h2⟩
        exact ⟨h1.symm, h2⟩
      · rintro ⟨h1, h2⟩
        exact ⟨h1.symm, h2⟩

/-- `Index` returns the first offset at which `sub` occurs. -/
theorem Index_eq_some_iff (s p : List Byte) (i : Nat) :
    Index s p = some i ↔
      i ≤ s.length ∧ p <+: s.drop i ∧ ∀ j, j < i → ¬ p <+: s.drop j := by
  induction s generalizing i with
  | nil =>
    by_cases h : HasPrefix [] p = true
    · have hp := (HasPrefix_iff [] p).1 h
      simp only [Index, h, if_true, Option.some.injEq, List.length_nil, List.drop_nil]
      constructor
      · rintro rfl
        exact ⟨le_refl 0, hp, fun j hj => absurd hj (Nat.not_lt_zero j)⟩
      · rintro ⟨h0, -, -⟩
        omega
    · have hp : ¬ p <+: [] := fun e => h ((HasPrefix_iff [] p).2 e)
      simp only [Index, h, List.length_nil, List.drop_nil]
      constructor
      · intro e
        simp at e
      · rintro ⟨-, h1, -⟩
        exact absurd h1 hp
  | cons c s ih =>
    by_cases h : HasPrefix (c :: s) p = true
    · have hp := (HasPrefix_iff (c :: s) p).1 h
      simp only [Index, h, if_true, Option.some.injEq]
      constructor
      · rintro rfl
        exact ⟨Nat.zero_le _, by simpa using hp, fun j hj => absurd hj (Nat.not_lt_zero j)⟩
      · rintro ⟨-, -, h3⟩
        by_contra hne
        exact h3 0 (by omega) (by simpa using hp)
    · have hp : ¬ p <+: c :: s := fun e => h ((HasPrefix_iff (c :: s) p).2 e)
      simp only [Index, h]
      cases hi : Index s p with
      | none =>
        constructor
        · intro e
          simp at e
        · rintro ⟨h1, h2, h3⟩
          cases i with
          | zero => exact absurd (by simpa using h2) hp
          | succ i =>
            have := (ih i).2 ⟨by simpa using h1, by simpa using h2,
              fun j hj => by simpa using h3 (j + 1) (by omega)⟩
            rw [hi] at this
            simp at this
      | some k =>
        have hk := (ih k).1 hi
        constructor
        · intro e
          simp at e
          subst e
          refine ⟨by simpa using hk.1, by simpa using hk.2.1, ?_⟩
          intro j hj
          cases j with
          | zero => simpa using hp
          | succ j => simpa using hk.2.2 j (by omega)
        · rintro ⟨h1, h2, h3⟩
          cases i with
          | zero => exact absurd (by simpa using h2) hp
          | succ i =>
            have := (ih i).2 ⟨by simpa using h1, by simpa using h2,
              fun j hj => by simpa using h3 (j + 1) (by omega)⟩
            rw [hi] at this
            simp at this
            simp [this]

/-- `Contains` holds exactly when `sub` occurs at some offset. -/
theorem Contains_iff (s p : List Byte) :
    Contains s p = true ↔ ∃ i, i ≤ s.length ∧ p <+: s.drop i := by
  constructor
  · intro h
    unfold Contains at h
    obtain ⟨i, hi⟩ := Option.isSome_iff_exists.1 h
    obtain ⟨h1, h2, -⟩ := (Index_eq_some_iff s p i).1 hi
    exact ⟨i, h1, h2⟩
  · rintro ⟨i, h1, h2⟩
    have hex : ∃ i, i ≤ s.length ∧ p <+: s.drop i := ⟨i, h1, h2⟩
    classical
    have hmin := Nat.find_spec hex
    have hfirst : ∀ j, j < Nat.find hex → ¬ p <+: s.drop j := by
      intro j hj hpre
      exact Nat.find_min hex hj ⟨by have := hmin.1; omega, hpre⟩
    have := (Index_eq_some_iff s p (Nat.find hex)).2 ⟨hmin.1, hmin.2, hfirst⟩
    simp [Contains, this]

/-- An occurrence in `s` is an occurrence in every extension of `s`. -/
theorem occurs_append {s p : List Byte} {i : Nat} (z : List Byte) (hi : i ≤ s.length)
    (h : p <+: s.drop i) : p <+: (s ++ z).drop i := by
  rw [List.drop_append_of_le_length hi]
  exact h.trans (List.prefix_append _ _)

/-- An occurrence in an extension of `s` that ends inside `s` is an occurrence
in `s`. -/
theorem occurs_of_append {s p z : List Byte} {i : Nat} (hi : i + p.length ≤ s.length)
    (h : p <+: (s ++ z).drop i) : p <+: s.drop i := by
  rw [List.drop_append_of_le_length (by omega)] at h
  have hlen : p.length ≤ (s.drop i).length := by simp; omega
  exact List.prefix_of_prefix_length_le h (List.prefix_append _ _) hlen

theorem Contains_append {s p : List Byte} (z : List Byte) (h : Contains s p = true) :
    Contains (s ++ z) p = true := by
  obtain ⟨i, h1, h2⟩ := (Contains_iff s p).1 h
  exact (Contains_iff _ p).2 ⟨i, by simp; omega, occurs_append z h1 h2⟩

/-- The first occurrence in `s` is the first occurrence in every extension. -/
theorem Index_append {s p : List Byte} {i : Nat} (z : List Byte) (h : Index s p = some i) :
    Index (s ++ z) p = some i := by
  obtain ⟨h1, h2, h3⟩ := (Index_eq_some_iff s p i).1 h
  have hlen : i + p.length ≤ s.length := by
    have := h2.length_le
    simp at this
    omega
  refine (Index_eq_some_iff _ p i).2 ⟨by simp; omega, occurs_append z h1 h2, ?_⟩
  intro j hj hpre
  exact h3 j hj (occurs_of_append (by omega) hpre)

theorem LastIndex_replicate_zero (k : Nat) : LastIndex (List.replicate k 0) [10] = none := by
  induction k with
  | zero => rfl
  | succ k ih => simp [List.replicate_succ, LastIndex, ih, HasPrefix]

theorem LastIndex_append_zeros (d : List Byte) (k : Nat) :
    LastIndex (d ++ List.replicate k 0) [10] = LastIndex d [10] := by
  induction d with
  | nil => simpa [LastIndex, HasPrefix] using LastIndex_replicate_zero k
  | cons c d ih => simp [LastIndex, HasPrefix, ih]

/-- `LastIndex(s, "\n")` is the offset of the last newline of `s`, and `-1`
exactly when `s` has no newline. -/
theorem LastIndex_newline (s : List Byte) :
    match LastIndex s [10] with
    | none => 10 ∉ s
    | some n => n < s.length ∧ s.drop n = 10 :: s.drop (n + 1) ∧ 10 ∉ s.drop (n + 1) := by
  induction s with
  | nil => simp [LastIndex, HasPrefix]
  | cons c s ih =>
    cases h : LastIndex s [10] with
    | some n =>
      rw [h] at ih
      simp only [LastIndex, h]
      simpa using ih
    | none =>
      rw [h] at ih
      by_cases hc : c = 10
      · subst hc
        simp only [LastIndex, h, HasPrefix]
        simpa using ih
      · have hb : (c == 10) = false := by simpa using hc
        simp only [LastIndex, h, HasPrefix, hb, Bool.false_and]
        simp only [Bool.false_eq_true, if_false, List.mem_cons, not_or]
        exact ⟨fun e => hc e.symm, ih⟩

theorem findPrompt_bufString (s : SshAction) (len : Nat) (d : List Byte) :
    findPrompt s (bufString len d) = findPrompt s d := by
  unfold findPrompt bufString
  simp only [bytes_newline]
  have key : ∀ (f : List Byte → SshAction × Error) (a : SshAction × Error) (x : List Byte)
      (k : Nat),
      (match LastIndex (x ++ List.replicate k 0) [10] with
        | none => a
        | some n => f (TrimRight ((x ++ List.replicate k 0).drop n) nul)) =
      (match LastIndex x [10] with
        | none => a
        | some n => f (TrimRight (x.drop n) nul)) := by
    intro f a x k
    rw [LastIndex_append_zeros]
    have hx := LastIndex_newline x
    cases h : LastIndex x [10] with
    | none => rfl
    | some n =>
      rw [h] at hx
      simp only
      rw [List.drop_append_of_le_length (le_of_lt hx.1), TrimRight_append_zeros]
  have e : (if s.ipso = true then [10] ++ (d ++ List.replicate (len - d.length) 0)
        else d ++ List.replicate (len - d.length) 0) =
      (if s.ipso = true then [10] ++ d else d) ++ List.replicate (len - d.length) 0 := by
    cases s.ipso <;> simp
  rw [e]
  exact key (fun t => ({ s with currentPrompt := t }, none)) _ _ _

/-- What findPrompt stores: the last newline of the text (of the text behind
a newline, when the ipso flag is set) and all that follows it, without
trailing zero bytes. -/
theorem findPrompt_spec (s : SshAction) (str : List Byte) :
    (10 ∉ (if s.ipso then 10 :: str else str) ∧
      findPrompt s str = (s, some (New 1500 "newline not found"))) ∨
    (∃ pre line, (if s.ipso then 10 :: str else str) = pre ++ 10 :: line ∧ 10 ∉ line ∧
      findPrompt s str = ({ s with currentPrompt := TrimRight (10 :: line) nul }, none)) := by
  unfold findPrompt
  simp only [bytes_newline]
  have hx := LastIndex_newline (if s.ipso then 10 :: str else str)
  have e : (if s.ipso = true then [10] ++ str else str) = (if s.ipso then 10 :: str else str) := by
    cases s.ipso <;> rfl
  rw [e]
  cases h : LastIndex (if s.ipso then 10 :: str else str) [10] with
  | none =>
    rw [h] at hx
    exact Or.inl ⟨hx, rfl⟩
  | some n =>
    rw [h] at hx
    refine Or.inr ⟨(if s.ipso then 10 :: str else str).take n,
      (if s.ipso then 10 :: str else str).drop (n + 1), ?_, hx.2.2, ?_⟩
    · rw [← hx.2.1, List.take_append_drop]
    · simp only
      rw [hx.2.1]

/-! ## The turns computed on the received bytes alone -/

theorem waitforStep_received : waitforStep = waitforStepOn received := by
  funext s buf p
  unfold waitforStep waitforStepOn received
  simp only [TrimRight_bufString, findPrompt_bufString]

theorem expertEnterStep_received : expertEnterStep = expertEnterStepOn received := by
  funext s buf p
  unfold expertEnterStep expertEnterStepOn received
  simp only [findPrompt_bufString, MatchString_bufString prompt1 (by decide),
    MatchString_bufString prompt2 (by decide), MatchString_bufString psw1Expert (by decide)]

theorem xbmEnterStep_received : xbmEnterStep = xbmEnterStepOn received := by
  funext s buf p
  unfold xbmEnterStep xbmEnterStepOn received
  simp only [TrimRight_bufString, findPrompt_bufString]

theorem Contains_of_TrimRight {d p : List Byte} (h : Contains (TrimRight d nul) p = true) :
    Contains d p = true := by
  obtain ⟨k, hk⟩ := TrimRight_zeros d
  rw [hk]
  exact Contains_append _ h

/-- When the trimmed buffer contains the prompt, the search in the padded
slice finds the first occurrence among the received bytes. -/
theorem capture_index (len : Nat) (buf cp : List Byte)
    (h : Contains (TrimRight buf nul) cp = true) :
    ∃ i, Index buf cp = some i ∧ Index (bufString len buf) cp = some i ∧
      (bufString len buf).take i = buf.take i := by
  have hc := Contains_of_TrimRight h
  unfold Contains at hc
  obtain ⟨i, hi⟩ := Option.isSome_iff_exists.1 hc
  have hle := ((Index_eq_some_iff buf cp i).1 hi).1
  exact ⟨i, hi, Index_append _ hi, List.take_append_of_le_length hle⟩

theorem executeStep_received : executeStep = executeStepOn received := by
  funext cp cmd v p
  unfold executeStep executeStepOn received
  simp only [TrimRight_bufString]
  by_cases h1 : (Read (v.len - v.buf.length) p).length = 1 ∧ v.buf.length = 0
  · rw [if_pos h1, if_pos h1]
  · rw [if_neg h1, if_neg h1]
    by_cases h2 : (Read (v.len - v.buf.length) p).length > 0
    · rw [if_pos h2, if_pos h2]
      by_cases h3 : Contains (TrimRight (v.buf ++ Read (v.len - v.buf.length) p) nul) cp = true
      · obtain ⟨i, hi, hpad, htake⟩ := capture_index v.len _ cp h3
        rw [if_pos h3, if_pos h3, hpad, hi]
        simp only [htake]
      · rw [if_neg h3, if_neg h3]
    · rw [if_neg h2, if_neg h2]

/-- The method waitfor, computed without the padding. -/
theorem waitfor_received (s : SshAction) :
    waitfor s = selectDone 1401 (readLoop (waitforStepOn received) 1400 s.out s []) := by
  unfold waitfor waitforLoop
  rw [waitforStep_received]

/-- The method expertEnter, computed without the padding. -/
theorem expertEnter_received (s : SshAction) :
    expertEnter s = selectDone 1201 (readLoop (expertEnterStepOn received) 1200 s.out
      { s with written := s.written ++ [bytes "expert\n"] } []) := by
  unfold expertEnter expertEnterLoop
  rw [expertEnterStep_received]

/-- The method xbmEnter, computed without the padding. -/
theorem xbmEnter_received (s : SshAction) :
    xbmEnter s = selectDone 5101 (readLoop (xbmEnterStepOn received) 5100 s.out
      { s with written := s.written ++ [bytes "unix su\n"] } []) := by
  unfold xbmEnter xbmEnterLoop
  rw [xbmEnterStep_received]

/-- The method execute, computed without the padding. -/
theorem execute_received (s : SshAction) (cmd : List Byte) (t : Nat) :
    execute s cmd t =
      executeSelect { s with written := s.written ++ [cmd ++ bytes "\n"] }
        (executeLoopOn (executeStepOn received s.currentPrompt (cmd ++ bytes "\n")) s.out
          ⟨1, 0, []⟩) := by
  unfold execute executeLoop
  rw [executeStep_received]

/-- When a turn of execute ends the loop, the prompt occurs in the capture
buffer and `result` is the trimmed text before its first occurrence. -/
theorem executeStep_done {cp cmd : List Byte} {v : ExecVars} {p result buf : List Byte}
    (h : executeStep cp cmd v p = ExecStep.done result buf) :
    ∃ i, Index buf cp = some i ∧ result = TrimRight (buf.take i) nul := by
  rw [executeStep_received] at h
  unfold executeStepOn received at h
  simp only at h
  split at h
  · split at h
    · split at h
      · split at h <;> cases h
      · cases h
    · cases h
  · split at h
    · split at h
      · split at h
        · rename_i i hi
          injection h with h1 h2
          subst h2
          exact ⟨i, hi, h1.symm⟩
        · cases h
      · cases h
    · cases h

theorem executeLoop_sent_nil {cp cmd : List Byte} {reads : List ReadResult} {v : ExecVars}
    {result buf : List Byte} {out : List ReadResult}
    (h : executeLoop cp cmd reads v = ExecEnd.sent result none buf out) :
    ∃ i, Index buf cp = some i ∧ result = TrimRight (buf.take i) nul := by
  unfold executeLoop at h
  induction reads generalizing v with
  | nil => simp [executeLoopOn] at h
  | cons r rest ih =>
    cases r with
    | fail msg => simp [executeLoopOn] at h
    | data p =>
      simp only [executeLoopOn] at h
      cases hs : executeStep cp cmd v p with
      | next v1 =>
        rw [hs] at h
        exact ih h
      | done result1 buf1 =>
        rw [hs] at h
        simp only [ExecEnd.sent.injEq] at h
        obtain ⟨h1, -, h3, -⟩ := h
        subst h1 h3
        exact executeStep_done hs
      | crash =>
        rw [hs] at h
        cases h

/-! ## Platform classification (`detect`) -/

/-- C1: for a prompt index from 1 to 5 and any hint flags, detect returns no
error, changes nothing but `platform`, and sets `platform` by the table: 1 gives
GAiA, 2 gives SplatCPSHELL when splat and splat_cpshell are both set and
Expert otherwise, 3 gives XBM, 4 gives IPSO, 5 gives XBM. -/
theorem detect_classification (s : SshAction) (h : 1 ≤ s.prompt ∧ s.prompt ≤ 5) :
    (detect s).2 = none ∧
    (detect s).1 = { s with platform := (detect s).1.platform } ∧
    (s.prompt = 1 → (detect s).1.platform = PlatformGAiA) ∧
    (s.prompt = 2 → s.splat = true ∧ s.splat_cpshell = true →
      (detect s).1.platform = PlatformSplatCPSHELL) ∧
    (s.prompt = 2 → ¬ (s.splat = true ∧ s.splat_cpshell = true) →
      (detect s).1.platform = PlatformExpert) ∧
    (s.prompt = 3 → (detect s).1.platform = PlatformXBM) ∧
    (s.prompt = 4 → (detect s).1.platform = PlatformIPSO) ∧
    (s.prompt = 5 → (detect s).1.platform = PlatformXBM) := by
  obtain ⟨h1, h5⟩ := h
  have hp : s.prompt = 1 ∨ s.prompt = 2 ∨ s.prompt = 3 ∨ s.prompt = 4 ∨ s.prompt = 5 := by omega
  rcases hp with hp | hp | hp | hp | hp
  · simp [detect, hp]
  · by_cases hf : s.splat = true ∧ s.splat_cpshell = true
    · simp [detect, hp, hf]
    · have hf2 : s.splat = true → s.splat_cpshell = false := by
        intro e
        cases hc : s.splat_cpshell
        · rfl
        · exact absurd ⟨e, hc⟩ hf
      simp [detect, hp, hf, hf2]
  · simp [detect, hp]
  · simp [detect, hp]
  · simp [detect, hp]

/-- The row for prompt index 2 with both CPSHELL flags set, at a concrete
session. -/
theorem detect_classification_witness :
    (1 ≤ sessionCpshell.prompt ∧ sessionCpshell.prompt ≤ 5) ∧
    (detect sessionCpshell).1.platform = PlatformSplatCPSHELL :=
  ⟨by decide, (detect_classification sessionCpshell (by decide)).2.2.2.1 rfl ⟨rfl, rfl⟩⟩

/-- C2: detect returns the error "failed to detect platform" exactly when the
prompt index is not one of 1 to 5; it returns no other error, and when it
returns the error the session, its platform included, is unchanged. -/
theorem detect_error_iff (s : SshAction) :
    ((detect s).2 = some (New 1100 "failed to detect platform") ↔
      ¬ (1 ≤ s.prompt ∧ s.prompt ≤ 5)) ∧
    ((detect s).2 = none ∨ (detect s).2 = some (New 1100 "failed to detect platform")) ∧
    ((detect s).2 = none ∨ ((detect s).1 = s ∧ (detect s).1.platform = s.platform)) := by
  by_cases h : 1 ≤ s.prompt ∧ s.prompt ≤ 5
  · have hp : s.prompt = 1 ∨ s.prompt = 2 ∨ s.prompt = 3 ∨ s.prompt = 4 ∨ s.prompt = 5 := by
      omega
    have h0 : (detect s).2 = none := by
      rcases hp with hp | hp | hp | hp | hp
      · simp [detect, hp]
      · by_cases hf : s.splat = true ∧ s.splat_cpshell = true
        · simp [detect, hp, hf]
        · simp only [detect, hp, hf]
          simp
      · simp [detect, hp]
      · simp [detect, hp]
      · simp [detect, hp]
    simp [h0, h]
  · have h1 : ¬ s.prompt = 1 := by omega
    have h2 : ¬ s.prompt = 2 := by omega
    have h3 : ¬ s.prompt = 3 := by omega
    have h4 : ¬ s.prompt = 4 := by omega
    have h5 : ¬ s.prompt = 5 := by omega
    simp [detect, h1, h2, h3, h4, h5, h]

/-! ## The loop shared by waitfor, expertEnter and xbmEnter -/

/-- Reads that end with nothing sent leave the loop where a longer sequence of
reads goes on. -/
theorem readLoop_append (step : SshAction → List Byte → List Byte → Step) (number : Int)
    (pre rest : List ReadResult) (s : SshAction) (buf : List Byte)
    (h : (readLoop step number pre s buf).sent = none) :
    readLoop step number (pre ++ rest) s buf =
      readLoop step number rest (readLoop step number pre s buf).s
        (readLoop step number pre s buf).buf := by
  induction pre generalizing s buf with
  | nil => rfl
  | cons r pre ih =>
    cases r with
    | fail msg => simp [readLoop] at h
    | data p =>
      simp only [List.cons_append, readLoop] at h ⊢
      cases hs : step s buf p with
      | next s1 buf1 =>
        rw [hs] at h
        simp only [hs]
        exact ih s1 buf1 h
      | done s1 err =>
        rw [hs] at h
        simp at h

/-- A loop that sent a value stopped at a failed Read or at a turn that ended
it. -/
theorem readLoop_sent (step : SshAction → List Byte → List Byte → Step) (number : Int)
    (reads : List ReadResult) (s : SshAction) (buf : List Byte) (e : Error)
    (h : (readLoop step number reads s buf).sent = some e) :
    (∃ msg, ReadResult.fail msg ∈ reads ∧ e = some (New number msg)) ∨
    (∃ s0 buf0 p, ReadResult.data p ∈ reads ∧
      step s0 buf0 p = Step.done (readLoop step number reads s buf).s e ∧
      (readLoop step number reads s buf).buf = buf0 ++ Read (inBufferSize - buf0.length) p) := by
  induction reads generalizing s buf with
  | nil => simp [readLoop] at h
  | cons r reads ih =>
    cases r with
    | fail msg =>
      simp only [readLoop, Option.some.injEq] at h
      exact Or.inl ⟨msg, List.mem_cons_self _ _, h.symm⟩
    | data p =>
      simp only [readLoop] at h ⊢
      cases hs : step s buf p with
      | next s1 buf1 =>
        rw [hs] at h
        simp only [hs]
        rcases ih s1 buf1 h with ⟨msg, hm, he⟩ | ⟨s0, buf0, q, hq, hstep, hbuf⟩
        · exact Or.inl ⟨msg, List.mem_cons_of_mem _ hm, he⟩
        · exact Or.inr ⟨s0, buf0, q, List.mem_cons_of_mem _ hq, hstep, hbuf⟩
      | done s1 err =>
        rw [hs] at h
        simp only [Option.some.injEq] at h
        subst h
        simp only [hs]
        exact Or.inr ⟨s, buf, p, List.mem_cons_self _ _, hs, rfl⟩

/-! ## The handshake (`waitfor`) -/

/-- A turn of waitfor ends the loop only on a prompt pattern, and then with
what findPrompt returns for the received bytes, the prompt index set. -/
theorem waitforStep_done {s s1 : SshAction} {buf p : List Byte} {e : Error}
    (h : waitforStep s buf p = Step.done s1 e) :
    anyPrompt (strAfter inBufferSize buf p) = true ∧
    ∃ n : Int, (n = 1 ∨ n = 2 ∨ n = 3 ∨ n = 4 ∨ n = 5) ∧
      findPrompt { s with prompt := n } (buf ++ Read (inBufferSize - buf.length) p) =
        (s1, e) := by
  rw [waitforStep_received] at h
  unfold waitforStepOn received at h
  unfold anyPrompt strAfter
  simp only at h
  by_cases h0 : (Read (inBufferSize - buf.length) p).length > 0
  swap
  · rw [if_neg h0] at h
    cases h
  rw [if_pos h0] at h
  by_cases m1 : MatchString prompt1 (TrimRight (buf ++ Read (inBufferSize - buf.length) p) nul)
      = true
  · rw [if_pos m1] at h
    injection h with ha hb
    exact ⟨by simp [m1], 1, Or.inl rfl, Prod.ext ha hb⟩
  rw [if_neg m1] at h
  by_cases m2 : MatchString prompt2 (TrimRight (buf ++ Read (inBufferSize - buf.length) p) nul)
      = true
  · rw [if_pos m2] at h
    injection h with ha hb
    refine ⟨by simp [m2], ?_⟩
    cases hi : s.ipso
    · rw [hi] at ha hb
      exact ⟨2, Or.inr (Or.inl rfl), Prod.ext (by simpa using ha) (by simpa using hb)⟩
    · rw [hi] at ha hb
      exact ⟨4, Or.inr (Or.inr (Or.inr (Or.inl rfl))),
        Prod.ext (by simpa using ha) (by simpa using hb)⟩
  rw [if_neg m2] at h
  by_cases m3 : MatchString prompt3 (TrimRight (buf ++ Read (inBufferSize - buf.length) p) nul)
      = true
  · rw [if_pos m3] at h
    injection h with ha hb
    exact ⟨by simp [m3], 3, Or.inr (Or.inr (Or.inl rfl)), Prod.ext ha hb⟩
  rw [if_neg m3] at h
  by_cases m4 : MatchString prompt4 (TrimRight (buf ++ Read (inBufferSize - buf.length) p) nul)
      = true
  · rw [if_pos m4] at h
    injection h with ha hb
    exact ⟨by simp [m4], 5, Or.inr (Or.inr (Or.inr (Or.inr rfl))), Prod.ext ha hb⟩
  rw [if_neg m4] at h
  split_ifs at h

/-- A turn of waitfor after which no prompt pattern matches sends nothing: at
most it sets a hint flag, or answers the terminal-type query. -/
theorem waitforStep_next {s : SshAction} {buf p : List Byte}
    (h : anyPrompt (strAfter inBufferSize buf p) = false) :
    ∃ s1 buf1, waitforStep s buf p = Step.next s1 buf1 := by
  rw [waitforStep_received]
  unfold waitforStepOn received
  unfold anyPrompt strAfter at h
  simp only [Bool.or_eq_false_iff] at h
  obtain ⟨⟨⟨m1, m2⟩, m3⟩, m4⟩ := h
  simp only [m1, m2, m3, m4, Bool.false_eq_true, if_false]
  split_ifs <;> exact ⟨_, _, rfl⟩

theorem waitforLoop_received :
    waitforLoop = readLoop (waitforStepOn received) 1400 := by
  unfold waitforLoop
  rw [waitforStep_received]

/-- The branch of the terminal-type query: on every read that brings data and
after which the buffer matches the terminal-type query but none of the four
prompt patterns and none of the CPSHELL, CrossBeam and IPSO banners, waitfor
writes `vt220` and a newline once, empties its buffer, sends nothing on
`done` and reads on. -/
theorem waitfor_answers_terminal_query (s : SshAction) (buf p : List Byte)
    (rest : List ReadResult)
    (hn : 0 < (Read (inBufferSize - buf.length) p).length)
    (hq : MatchString hint4 (strAfter inBufferSize buf p) = true)
    (hp : anyPrompt (strAfter inBufferSize buf p) = false)
    (h1 : MatchString hint1 (strAfter inBufferSize buf p) = false)
    (h2 : MatchString hint2 (strAfter inBufferSize buf p) = false)
    (h3 : MatchString hint3 (strAfter inBufferSize buf p) = false) :
    waitforStep s buf p = Step.next { s with written := s.written ++ [bytes "vt220\n"] } [] ∧
    waitforLoop (ReadResult.data p :: rest) s buf =
      waitforLoop rest { s with written := s.written ++ [bytes "vt220\n"] } [] := by
  have hstep : waitforStep s buf p =
      Step.next { s with written := s.written ++ [bytes "vt220\n"] } [] := by
    rw [waitforStep_received]
    unfold waitforStepOn received
    unfold anyPrompt at hp
    unfold strAfter at hq hp h1 h2 h3
    simp only [Bool.or_eq_false_iff] at hp
    obtain ⟨⟨⟨m1, m2⟩, m3⟩, m4⟩ := hp
    simp only [m1, m2, m3, m4, h1, h2, h3, hq, Bool.false_eq_true, if_false, if_true]
    rw [if_pos hn]
  refine ⟨hstep, ?_⟩
  unfold waitforLoop
  rw [readLoop, hstep]

/-- The query alone in the first read of a handshake is answered, once. -/
theorem waitfor_answers_terminal_query_witness :
    waitforLoop sessionQuery.out sessionQuery [] =
      waitforLoop [ReadResult.data (bytes "\nfw1[admin]# ")]
        { sessionQuery with written := sessionQuery.written ++ [bytes "vt220\n"] } [] ∧
    (waitfor sessionQuery).1.written = [bytes "vt220\n"] :=
  ⟨(waitfor_answers_terminal_query sessionQuery [] (bytes "Terminal type? [vt100] ")
      [ReadResult.data (bytes "\nfw1[admin]# ")] (by decide) (by decide) (by decide)
      (by decide) (by decide) (by decide)).2,
   by rw [waitfor_received]; decide⟩

/-- The query is lost also when the device goes on: the output holds a
terminal-type query and no prompt before it, the first read brings the IPSO banner together with the query, the
handshake succeeds on the prompt of the second read, and nothing at all was
written to the transport. -/
theorem waitfor_terminal_query_counterexample :
    MatchString hint4 (bytes "IPSO (fw1)\nTerminal type? [vt100] ") = true ∧
    anyPrompt (bytes "IPSO (fw1)\nTerminal type? [vt100] ") = false ∧
    (waitfor sessionIpsoQuery).2 = none ∧
    (waitfor sessionIpsoQuery).1.written = [] := by
  rw [waitfor_received]
  decide

/-- C7: the loop of waitfor sends a value only when a Read failed or the
buffer of its last turn matches one of the four prompt patterns; and a read
after which the buffer matches no prompt pattern, whatever hints it matches,
sends nothing and leaves the loop reading on. -/
theorem waitforLoop_ends_only_on_failure_or_prompt (reads : List ReadResult) (s : SshAction)
    (buf : List Byte) :
    ((waitforLoop reads s buf).sent = none ∨
      (∃ msg, ReadResult.fail msg ∈ reads ∧
        (waitforLoop reads s buf).sent = some (some (New 1400 msg))) ∨
      anyPrompt (TrimRight (waitforLoop reads s buf).buf nul) = true) ∧
    (∀ p rest, anyPrompt (strAfter inBufferSize buf p) = false →
      ∃ s1 buf1, waitforStep s buf p = Step.next s1 buf1 ∧
        waitforLoop (ReadResult.data p :: rest) s buf = waitforLoop rest s1 buf1) := by
  constructor
  · cases hs : (waitforLoop reads s buf).sent with
    | none => exact Or.inl rfl
    | some e =>
      right
      unfold waitforLoop at hs ⊢
      rcases readLoop_sent _ _ _ _ _ _ hs with ⟨msg, hm, he⟩ | ⟨s0, buf0, q, -, hstep, hbuf⟩
      · exact Or.inl ⟨msg, hm, by rw [he]⟩
      · right
        rw [hbuf]
        exact (waitforStep_done hstep).1
  · intro p rest h
    obtain ⟨s1, buf1, hstep⟩ := waitforStep_next (s := s) h
    refine ⟨s1, buf1, hstep, ?_⟩
    unfold waitforLoop
    rw [readLoop, hstep]

/-- A read that brings the IPSO banner and the terminal-type query but no
prompt sends nothing: the loop goes on with the next read. -/
theorem waitforLoop_ends_only_on_failure_or_prompt_witness :
    anyPrompt (strAfter inBufferSize [] (bytes "IPSO (fw1)\nTerminal type? [vt100] ")) = false ∧
    ∃ s1 buf1,
      waitforStep sessionIpsoQuery [] (bytes "IPSO (fw1)\nTerminal type? [vt100] ") =
        Step.next s1 buf1 ∧
      waitforLoop (ReadResult.data (bytes "IPSO (fw1)\nTerminal type? [vt100] ") ::
          [ReadResult.data (bytes "fw1[admin]# ")]) sessionIpsoQuery [] =
        waitforLoop [ReadResult.data (bytes "fw1[admin]# ")] s1 buf1 :=
  ⟨by decide,
   (waitforLoop_ends_only_on_failure_or_prompt [] sessionIpsoQuery []).2 _ _ (by decide)⟩

/-- C8, as amended: when waitfor succeeds, currentPrompt is the last newline
of the matched buffer together with the text behind it, without trailing zero
bytes; when the ipso flag is set the newline is one that findPrompt puts in
front of the buffer, if the buffer has none. -/
theorem waitfor_sets_currentPrompt (s s' : SshAction) (h : waitfor s = (s', none)) :
    ∃ pre line,
      (if s'.ipso then 10 :: (waitforLoop s.out s []).buf else (waitforLoop s.out s []).buf) =
        pre ++ 10 :: line ∧
      10 ∉ line ∧ s'.currentPrompt = TrimRight (10 :: line) nul := by
  unfold waitfor selectDone at h
  cases hs : (waitforLoop s.out s []).sent with
  | none =>
    rw [hs] at h
    simp at h
  | some e =>
    rw [hs] at h
    simp only [Prod.mk.injEq] at h
    obtain ⟨hs', he⟩ := h
    subst he
    unfold waitforLoop at hs hs' ⊢
    rcases readLoop_sent _ _ _ _ _ _ hs with ⟨msg, -, he⟩ | ⟨s0, buf0, q, -, hstep, hbuf⟩
    · cases he
    · obtain ⟨-, n, -, hfp⟩ := waitforStep_done hstep
      rw [← hbuf] at hfp
      rcases findPrompt_spec { s0 with prompt := n }
          (readLoop waitforStep 1400 s.out s []).buf with ⟨-, herr⟩ | ⟨pre, line, hsplit, hline, hok⟩
      · rw [hfp] at herr
        simp at herr
      · rw [hfp] at hok
        simp only [Prod.mk.injEq, and_true] at hok
        refine ⟨pre, line, ?_, hline, ?_⟩
        · rw [← hsplit, ← hs', hok]
        · rw [← hs', hok]

/-- On the handshake of one read the prompt that waitfor stores starts with
the newline. -/
theorem waitfor_sets_currentPrompt_witness :
    waitfor sessionLogin = (sessionLoginDone, none) ∧
    ∃ pre line,
      (if sessionLoginDone.ipso then 10 :: (waitforLoop sessionLogin.out sessionLogin []).buf
        else (waitforLoop sessionLogin.out sessionLogin []).buf) = pre ++ 10 :: line ∧
      10 ∉ line ∧ sessionLoginDone.currentPrompt = TrimRight (10 :: line) nul :=
  have hv : waitfor sessionLogin = (sessionLoginDone, none) := by
    rw [waitfor_received]
    decide
  ⟨hv, waitfor_sets_currentPrompt sessionLogin _ hv⟩

/-- C8 fails as stated: the handshake succeeds on a buffer whose last newline
is followed by `host> `, these six bytes are the text after the last newline,
and currentPrompt is not that text: it starts with the newline. -/
theorem waitfor_currentPrompt_counterexample :
    (waitfor sessionLogin).2 = none ∧
    (waitforLoop sessionLogin.out sessionLogin []).buf =
      bytes "Last login" ++ 10 :: bytes "host> " ∧
    10 ∉ bytes "host> " ∧
    (waitfor sessionLogin).1.currentPrompt = 10 :: bytes "host> " ∧
    (waitfor sessionLogin).1.currentPrompt ≠ bytes "host> " := by
  rw [waitfor_received, waitforLoop_received]
  decide

/-! ## The escalation entries (`expertEnter`, `xbmEnter`) -/

theorem expertEnterLoop_received :
    expertEnterLoop = readLoop (expertEnterStepOn received) 1200 := by
  unfold expertEnterLoop
  rw [expertEnterStep_received]

theorem xbmEnterLoop_received :
    xbmEnterLoop = readLoop (xbmEnterStepOn received) 5100 := by
  unfold xbmEnterLoop
  rw [xbmEnterStep_received]

/-- A relation between the session before and after a turn that holds across
every turn holds across the loop. -/
theorem readLoop_invariant (P : SshAction → SshAction → Prop)
    (step : SshAction → List Byte → List Byte → Step) (number : Int)
    (hrefl : ∀ s, P s s) (htrans : ∀ a b c, P a b → P b c → P a c)
    (hfail : ∀ s, P s { s with prompt := -1 })
    (hnext : ∀ s buf p s1 buf1, step s buf p = Step.next s1 buf1 → P s s1)
    (hdone : ∀ s buf p s1 e, step s buf p = Step.done s1 e → P s s1)
    (reads : List ReadResult) (s : SshAction) (buf : List Byte) :
    P s (readLoop step number reads s buf).s := by
  induction reads generalizing s buf with
  | nil => exact hrefl s
  | cons r reads ih =>
    cases r with
    | fail msg => exact hfail s
    | data p =>
      simp only [readLoop]
      cases hs : step s buf p with
      | next s1 buf1 => exact htrans _ _ _ (hnext _ _ _ _ _ hs) (ih s1 buf1)
      | done s1 e => exact hdone _ _ _ _ _ hs

/-- A property of the buffer that every turn without outcome keeps holds when
the reads end with nothing sent. -/
theorem readLoop_buf_invariant (I : List Byte → Prop)
    (step : SshAction → List Byte → List Byte → Step) (number : Int)
    (hnext : ∀ s buf p s1 buf1, step s buf p = Step.next s1 buf1 → I buf → I buf1)
    (reads : List ReadResult) (s : SshAction) (buf : List Byte)
    (h : (readLoop step number reads s buf).sent = none) (hb : I buf) :
    I (readLoop step number reads s buf).buf := by
  induction reads generalizing s buf with
  | nil => exact hb
  | cons r reads ih =>
    cases r with
    | fail msg => simp [readLoop] at h
    | data p =>
      simp only [readLoop] at h ⊢
      cases hs : step s buf p with
      | next s1 buf1 =>
        rw [hs] at h
        simp only [hs]
        exact ih s1 buf1 h (hnext _ _ _ _ _ hs hb)
      | done s1 e =>
        rw [hs] at h
        simp at h

theorem findPrompt_fields (s : SshAction) (str : List Byte) :
    (findPrompt s str).1.su_passw = s.su_passw ∧ (findPrompt s str).1.written = s.written := by
  rcases findPrompt_spec s str with ⟨-, h⟩ | ⟨pre, line, -, -, h⟩ <;> rw [h] <;> exact ⟨rfl, rfl⟩

/-- What a session may have gained across turns of an escalation loop: the
password is the same and the log of writes has grown by password answers. -/
theorem answers_refl (s : SshAction) :
    s.su_passw = s.su_passw ∧
      ∃ k, s.written = s.written ++ List.replicate k (s.su_passw ++ bytes "\n") :=
  ⟨rfl, 0, by simp⟩

theorem answers_trans (a b c : SshAction)
    (h1 : b.su_passw = a.su_passw ∧
      ∃ k, b.written = a.written ++ List.replicate k (a.su_passw ++ bytes "\n"))
    (h2 : c.su_passw = b.su_passw ∧
      ∃ k, c.written = b.written ++ List.replicate k (b.su_passw ++ bytes "\n")) :
    c.su_passw = a.su_passw ∧
      ∃ k, c.written = a.written ++ List.replicate k (a.su_passw ++ bytes "\n") := by
  obtain ⟨hp1, k1, hw1⟩ := h1
  obtain ⟨hp2, k2, hw2⟩ := h2
  refine ⟨hp2.trans hp1, k1 + k2, ?_⟩
  rw [hw2, hw1, hp1, List.append_assoc, ← List.replicate_add]

/-- A turn of expertEnter leaves the password alone and writes at most one
password answer. -/
theorem expertEnterStep_answers (s : SshAction) (buf p : List Byte) :
    (∀ s1 buf1, expertEnterStep s buf p = Step.next s1 buf1 →
      s1.su_passw = s.su_passw ∧
        ∃ k, s1.written = s.written ++ List.replicate k (s.su_passw ++ bytes "\n")) ∧
    (∀ s1 e, expertEnterStep s buf p = Step.done s1 e →
      s1.su_passw = s.su_passw ∧
        ∃ k, s1.written = s.written ++ List.replicate k (s.su_passw ++ bytes "\n")) := by
  rw [expertEnterStep_received]
  unfold expertEnterStepOn received
  simp only
  constructor
  · intro s1 buf1 h
    split_ifs at h
    all_goals injection h with ha hb
    all_goals subst ha
    · exact ⟨rfl, 1, by simp⟩
    · exact answers_refl s
    · exact answers_refl s
  · intro s1 e h
    split_ifs at h
    all_goals injection h with ha hb
    all_goals subst ha
    all_goals exact ⟨(findPrompt_fields _ _).1, 0, by simpa using (findPrompt_fields _ _).2⟩

/-- A turn of xbmEnter leaves the password alone and writes at most one
password answer. -/
theorem xbmEnterStep_answers (s : SshAction) (buf p : List Byte) :
    (∀ s1 buf1, xbmEnterStep s buf p = Step.next s1 buf1 →
      s1.su_passw = s.su_passw ∧
        ∃ k, s1.written = s.written ++ List.replicate k (s.su_passw ++ bytes "\n")) ∧
    (∀ s1 e, xbmEnterStep s buf p = Step.done s1 e →
      s1.su_passw = s.su_passw ∧
        ∃ k, s1.written = s.written ++ List.replicate k (s.su_passw ++ bytes "\n")) := by
  rw [xbmEnterStep_received]
  unfold xbmEnterStepOn received
  simp only
  constructor
  · intro s1 buf1 h
    split_ifs at h
    all_goals injection h with ha hb
    all_goals subst ha
    · exact ⟨rfl, 1, by simp⟩
    · exact answers_refl s
    · exact answers_refl s
  · intro s1 e h
    split_ifs at h
    all_goals injection h with ha hb
    all_goals subst ha
    all_goals exact ⟨(findPrompt_fields _ _).1, 0, by simpa using (findPrompt_fields _ _).2⟩

theorem expertEnterLoop_answers (reads : List ReadResult) (s : SshAction) (buf : List Byte) :
    (expertEnterLoop reads s buf).s.su_passw = s.su_passw ∧
      ∃ k, (expertEnterLoop reads s buf).s.written =
        s.written ++ List.replicate k (s.su_passw ++ bytes "\n") :=
  readLoop_invariant
    (fun a b => b.su_passw = a.su_passw ∧
      ∃ k, b.written = a.written ++ List.replicate k (a.su_passw ++ bytes "\n"))
    expertEnterStep 1200 answers_refl answers_trans (fun s => answers_refl s)
    (fun s buf p s1 buf1 h => (expertEnterStep_answers s buf p).1 s1 buf1 h)
    (fun s buf p s1 e h => (expertEnterStep_answers s buf p).2 s1 e h) reads s buf

theorem xbmEnterLoop_answers (reads : List ReadResult) (s : SshAction) (buf : List Byte) :
    (xbmEnterLoop reads s buf).s.su_passw = s.su_passw ∧
      ∃ k, (xbmEnterLoop reads s buf).s.written =
        s.written ++ List.replicate k (s.su_passw ++ bytes "\n") :=
  readLoop_invariant
    (fun a b => b.su_passw = a.su_passw ∧
      ∃ k, b.written = a.written ++ List.replicate k (a.su_passw ++ bytes "\n"))
    xbmEnterStep 5100 answers_refl answers_trans (fun s => answers_refl s)
    (fun s buf p s1 buf1 h => (xbmEnterStep_answers s buf p).1 s1 buf1 h)
    (fun s buf p s1 e h => (xbmEnterStep_answers s buf p).2 s1 e h) reads s buf

theorem selectDone_fields (number : Int) (r : LoopEnd) :
    (selectDone number r).1.su_passw = r.s.su_passw ∧
      (selectDone number r).1.written = r.s.written := by
  unfold selectDone
  cases r.sent <;> exact ⟨rfl, rfl⟩

theorem expertEnter_writes (s : SshAction) :
    (expertEnter s).1.su_passw = s.su_passw ∧
      ∃ k, (expertEnter s).1.written =
        s.written ++ bytes "expert\n" :: List.replicate k (s.su_passw ++ bytes "\n") := by
  unfold expertEnter
  obtain ⟨h1, k, h2⟩ := expertEnterLoop_answers s.out
    { s with written := s.written ++ [bytes "expert\n"] } []
  rw [(selectDone_fields _ _).1, (selectDone_fields _ _).2]
  exact ⟨h1, k, by rw [h2]; simp⟩

theorem xbmEnter_writes (s : SshAction) :
    (xbmEnter s).1.su_passw = s.su_passw ∧
      ∃ k, (xbmEnter s).1.written =
        s.written ++ bytes "unix su\n" :: List.replicate k (s.su_passw ++ bytes "\n") := by
  unfold xbmEnter
  obtain ⟨h1, k, h2⟩ := xbmEnterLoop_answers s.out
    { s with written := s.written ++ [bytes "unix su\n"] } []
  rw [(selectDone_fields _ _).1, (selectDone_fields _ _).2]
  exact ⟨h1, k, by rw [h2]; simp⟩

/-- C9, as amended: expertEnter and xbmEnter keep no record of an escalation
under way.  Every call, in whatever state the session is, first writes its
command (`expert`, `unix su`) and then only password answers; so a second
call before the exit writes the command a second time. -/
theorem enter_writes_command_each_time (s : SshAction) :
    (∃ k1 k2, (expertEnter (expertEnter s).1).1.written =
      s.written ++ bytes "expert\n" :: List.replicate k1 (s.su_passw ++ bytes "\n") ++
        bytes "expert\n" :: List.replicate k2 (s.su_passw ++ bytes "\n")) ∧
    (∃ k1 k2, (xbmEnter (xbmEnter s).1).1.written =
      s.written ++ bytes "unix su\n" :: List.replicate k1 (s.su_passw ++ bytes "\n") ++
        bytes "unix su\n" :: List.replicate k2 (s.su_passw ++ bytes "\n")) := by
  constructor
  · obtain ⟨hp, k1, h1⟩ := expertEnter_writes s
    obtain ⟨-, k2, h2⟩ := expertEnter_writes (expertEnter s).1
    exact ⟨k1, k2, by rw [h2, h1, hp]⟩
  · obtain ⟨hp, k1, h1⟩ := xbmEnter_writes s
    obtain ⟨-, k2, h2⟩ := xbmEnter_writes (xbmEnter s).1
    exact ⟨k1, k2, by rw [h2, h1, hp]⟩

/-- C9 fails as stated: on a transport that answers both, a second expertEnter
with no exit in between returns a nil error like the first, and the command
and the password have each been written twice. -/
theorem enter_twice_counterexample :
    (expertEnter sessionTwoEnters).2 = none ∧
    (expertEnter (expertEnter sessionTwoEnters).1).2 = none ∧
    (expertEnter (expertEnter sessionTwoEnters).1).1.written =
      [bytes "expert\n", bytes "secret\n", bytes "expert\n", bytes "secret\n"] := by
  simp only [expertEnter_received]
  decide

/-- A turn of expertEnter that sends nothing leaves a buffer that matches
neither prompt nor the password challenge. -/
theorem expertEnterStep_quiet (s : SshAction) (buf p : List Byte) (s1 : SshAction)
    (buf1 : List Byte) (h : expertEnterStep s buf p = Step.next s1 buf1)
    (hb : MatchString prompt1 buf = false ∧ MatchString prompt2 buf = false ∧
      MatchString psw1Expert buf = false) :
    MatchString prompt1 buf1 = false ∧ MatchString prompt2 buf1 = false ∧
      MatchString psw1Expert buf1 = false := by
  rw [expertEnterStep_received] at h
  unfold expertEnterStepOn received at h
  simp only at h
  split_ifs at h with h0 m1 m2 m3
  all_goals injection h with ha hb1
  all_goals subst hb1
  · decide
  · exact ⟨by simpa using m1, by simpa using m2, by simpa using m3⟩
  · exact hb

/-- A turn of xbmEnter that sends nothing leaves a buffer whose trimmed text
matches neither prompt nor the password challenge. -/
theorem xbmEnterStep_quiet (s : SshAction) (buf p : List Byte) (s1 : SshAction)
    (buf1 : List Byte) (h : xbmEnterStep s buf p = Step.next s1 buf1)
    (hb : MatchString prompt1 (TrimRight buf nul) = false ∧
      MatchString prompt2 (TrimRight buf nul) = false ∧
      MatchString psw1Xbm (TrimRight buf nul) = false) :
    MatchString prompt1 (TrimRight buf1 nul) = false ∧
      MatchString prompt2 (TrimRight buf1 nul) = false ∧
      MatchString psw1Xbm (TrimRight buf1 nul) = false := by
  rw [xbmEnterStep_received] at h
  unfold xbmEnterStepOn received at h
  simp only at h
  split_ifs at h with h0 m1 m2 m3
  all_goals injection h with ha hb1
  all_goals subst hb1
  · decide
  · exact ⟨by simpa using m1, by simpa using m2, by simpa using m3⟩
  · exact hb

/-- C10: in expertEnter, and likewise in xbmEnter, after any reads that left
the loop waiting, a read after which the accumulated buffer matches the
password challenge and neither prompt that the loop knows makes the loop
write the password and a newline, once, empty its buffer and go on with the
next read, nothing sent on `done`; this holds again at every later
challenge, as the reads before it are arbitrary. -/
theorem enter_answers_each_password_challenge :
    (∀ (s : SshAction) (pre : List ReadResult) (p : List Byte) (rest : List ReadResult),
      (expertEnterLoop pre s []).sent = none →
      MatchString psw1Expert ((expertEnterLoop pre s []).buf ++
        Read (inBufferSize - (expertEnterLoop pre s []).buf.length) p) = true →
      MatchString prompt1 ((expertEnterLoop pre s []).buf ++
        Read (inBufferSize - (expertEnterLoop pre s []).buf.length) p) = false →
      MatchString prompt2 ((expertEnterLoop pre s []).buf ++
        Read (inBufferSize - (expertEnterLoop pre s []).buf.length) p) = false →
      expertEnterLoop (pre ++ ReadResult.data p :: rest) s [] =
        expertEnterLoop rest
          { (expertEnterLoop pre s []).s with
            written := (expertEnterLoop pre s []).s.written ++ [s.su_passw ++ bytes "\n"] }
          []) ∧
    (∀ (s : SshAction) (pre : List ReadResult) (p : List Byte) (rest : List ReadResult),
      (xbmEnterLoop pre s []).sent = none →
      MatchString psw1Xbm (strAfter inBufferSize (xbmEnterLoop pre s []).buf p) = true →
      MatchString prompt1 (strAfter inBufferSize (xbmEnterLoop pre s []).buf p) = false →
      MatchString prompt2 (strAfter inBufferSize (xbmEnterLoop pre s []).buf p) = false →
      xbmEnterLoop (pre ++ ReadResult.data p :: rest) s [] =
        xbmEnterLoop rest
          { (xbmEnterLoop pre s []).s with
            written := (xbmEnterLoop pre s []).s.written ++ [s.su_passw ++ bytes "\n"] }
          []) := by
  constructor
  · intro s pre p rest hsent hpsw hp1 hp2
    have hq := readLoop_buf_invariant
      (fun b => MatchString prompt1 b = false ∧ MatchString prompt2 b = false ∧
        MatchString psw1Expert b = false)
      expertEnterStep 1200 expertEnterStep_quiet pre s [] hsent (by decide)
    have hpw := (expertEnterLoop_answers pre s []).1
    unfold expertEnterLoop at hsent hpsw hp1 hp2 hpw ⊢
    rw [readLoop_append _ _ _ _ _ _ hsent, readLoop]
    generalize readLoop expertEnterStep 1200 pre s [] = r at *
    have hn : 0 < (Read (inBufferSize - r.buf.length) p).length := by
      rcases Nat.eq_zero_or_pos (Read (inBufferSize - r.buf.length) p).length with h0 | h0
      · rw [List.length_eq_zero.1 h0, List.append_nil] at hpsw
        rw [hq.2.2] at hpsw
        cases hpsw
      · exact h0
    have hstep : expertEnterStep r.s r.buf p =
        Step.next { r.s with written := r.s.written ++ [s.su_passw ++ bytes "\n"] } [] := by
      rw [expertEnterStep_received]
      unfold expertEnterStepOn received
      simp only [hpsw, hp1, hp2, hpw, Bool.false_eq_true, if_false, if_true]
      rw [if_pos hn]
    rw [hstep]
  · intro s pre p rest hsent hpsw hp1 hp2
    have hq := readLoop_buf_invariant
      (fun b => MatchString prompt1 (TrimRight b nul) = false ∧
        MatchString prompt2 (TrimRight b nul) = false ∧
        MatchString psw1Xbm (TrimRight b nul) = false)
      xbmEnterStep 5100 xbmEnterStep_quiet pre s [] hsent (by decide)
    have hpw := (xbmEnterLoop_answers pre s []).1
    unfold xbmEnterLoop at hsent hpsw hp1 hp2 hpw ⊢
    unfold strAfter at hpsw hp1 hp2
    rw [readLoop_append _ _ _ _ _ _ hsent, readLoop]
    generalize readLoop xbmEnterStep 5100 pre s [] = r at *
    have hn : 0 < (Read (inBufferSize - r.buf.length) p).length := by
      rcases Nat.eq_zero_or_pos (Read (inBufferSize - r.buf.length) p).length with h0 | h0
      · rw [List.length_eq_zero.1 h0, List.append_nil] at hpsw
        rw [hq.2.2] at hpsw
        cases hpsw
      · exact h0
    have hstep : xbmEnterStep r.s r.buf p =
        Step.next { r.s with written := r.s.written ++ [s.su_passw ++ bytes "\n"] } [] := by
      rw [xbmEnterStep_received]
      unfold xbmEnterStepOn received
      simp only [hpsw, hp1, hp2, hpw, Bool.false_eq_true, if_false, if_true]
      rw [if_pos hn]
    rw [hstep]

/-- After a first password challenge that was answered, a second challenge is
answered as well: by expertEnter on the second read of `sessionTwoEnters` cut
to its challenges, and by xbmEnter on the second read of
`sessionXbmChallenges`. -/
theorem enter_answers_each_password_challenge_witness :
    expertEnterLoop
        ([ReadResult.data (bytes "Enter expert password:")] ++
          ReadResult.data (bytes "Enter expert password:") :: [])
        sessionTwoEnters [] =
      expertEnterLoop []
        { (expertEnterLoop [ReadResult.data (bytes "Enter expert password:")]
              sessionTwoEnters []).s with
          written := (expertEnterLoop [ReadResult.data (bytes "Enter expert password:")]
              sessionTwoEnters []).s.written ++ [sessionTwoEnters.su_passw ++ bytes "\n"] }
        [] ∧
    xbmEnterLoop
        ([ReadResult.data (bytes "Password: ")] ++ ReadResult.data (bytes "Password: ") :: [])
        sessionXbmChallenges [] =
      xbmEnterLoop []
        { (xbmEnterLoop [ReadResult.data (bytes "Password: ")] sessionXbmChallenges []).s with
          written := (xbmEnterLoop [ReadResult.data (bytes "Password: ")]
              sessionXbmChallenges []).s.written ++ [sessionXbmChallenges.su_passw ++ bytes "\n"] }
        [] :=
  ⟨enter_answers_each_password_challenge.1 sessionTwoEnters
      [ReadResult.data (bytes "Enter expert password:")] (bytes "Enter expert password:") []
      (by rw [expertEnterLoop_received]; decide) (by rw [expertEnterLoop_received]; decide)
      (by rw [expertEnterLoop_received]; decide) (by rw [expertEnterLoop_received]; decide),
   enter_answers_each_password_challenge.2 sessionXbmChallenges
      [ReadResult.data (bytes "Password: ")] (bytes "Password: ") []
      (by rw [xbmEnterLoop_received]; decide) (by rw [xbmEnterLoop_received]; decide)
      (by rw [xbmEnterLoop_received]; decide) (by rw [xbmEnterLoop_received]; decide)⟩

/-! ## The command executor (`execute`) -/

theorem execute_nil_sent {s s' : SshAction} {cmd result : List Byte} {t : Nat}
    (h : execute s cmd t = some (s', result, none)) :
    ∃ buf out, executeLoop s.currentPrompt (cmd ++ bytes "\n") s.out ⟨1, 0, []⟩ =
      ExecEnd.sent result none buf out := by
  unfold execute at h
  cases hl : executeLoop s.currentPrompt (cmd ++ bytes "\n") s.out ⟨1, 0, []⟩ with
  | sent r e b o =>
    rw [hl] at h
    simp only [executeSelect, Option.some.injEq, Prod.mk.injEq] at h
    obtain ⟨-, h2, h3⟩ := h
    subst h2 h3
    exact ⟨b, o, rfl⟩
  | blocked =>
    rw [hl] at h
    simp [executeSelect] at h
  | crash =>
    rw [hl] at h
    simp [executeSelect] at h

/-- C3: when execute succeeds, the capture buffer of its goroutine is
`pre ++ currentPrompt ++ post` with no occurrence of currentPrompt starting
inside `pre`, and the result is exactly `pre` with its trailing zero bytes
trimmed. -/
theorem execute_result_is_text_before_prompt (s : SshAction) (cmd : List Byte) (t : Nat)
    (s' : SshAction) (result : List Byte)
    (h : execute s cmd t = some (s', result, none)) :
    ∃ buf out pre post,
      executeLoop s.currentPrompt (cmd ++ bytes "\n") s.out ⟨1, 0, []⟩ =
        ExecEnd.sent result none buf out ∧
      buf = pre ++ s.currentPrompt ++ post ∧
      (∀ j, j < pre.length → ¬ s.currentPrompt <+: buf.drop j) ∧
      result = TrimRight pre nul := by
  obtain ⟨buf, out, hl⟩ := execute_nil_sent h
  obtain ⟨i, hi, hr⟩ := executeLoop_sent_nil hl
  obtain ⟨hle, ⟨post, hpost⟩, hfirst⟩ := (Index_eq_some_iff buf s.currentPrompt i).1 hi
  refine ⟨buf, out, buf.take i, post, hl, ?_, ?_, hr⟩
  · rw [List.append_assoc, hpost, List.take_append_drop]
  · intro j hj
    rw [List.length_take, Nat.min_eq_left hle] at hj
    exact hfirst j hj

/-- C4: for a non-empty currentPrompt and any reads, the text that execute
returns with a nil error does not contain currentPrompt. -/
theorem execute_result_has_no_prompt (s : SshAction) (cmd : List Byte) (t : Nat)
    (s' : SshAction) (result : List Byte) (hp : s.currentPrompt ≠ [])
    (h : execute s cmd t = some (s', result, none)) :
    Contains result s.currentPrompt = false := by
  obtain ⟨buf, out, hl⟩ := execute_nil_sent h
  obtain ⟨i, hi, hr⟩ := executeLoop_sent_nil hl
  obtain ⟨hle, -, hfirst⟩ := (Index_eq_some_iff buf s.currentPrompt i).1 hi
  by_contra hc
  have hc1 : Contains (TrimRight (buf.take i) nul) s.currentPrompt = true := by
    rw [← hr]
    simpa using hc
  obtain ⟨j, hj, hpre⟩ := (Contains_iff _ _).1 (Contains_of_TrimRight hc1)
  have hlen := hpre.length_le
  have hpos : 0 < s.currentPrompt.length := List.length_pos.2 hp
  simp only [List.length_drop, List.length_take, Nat.min_eq_left hle] at hlen hj
  have hocc : s.currentPrompt <+: (buf.take i ++ buf.drop i).drop j :=
    occurs_append _ (by simp only [List.length_take, Nat.min_eq_left hle]; exact hj) hpre
  rw [List.take_append_drop] at hocc
  exact hfirst j (by omega) hocc

theorem execute_roundTrip_value :
    execute sessionRoundTrip (bytes "cmd") 5 =
      some ({ sessionRoundTrip with written := [bytes "cmd\n"], out := [] },
        bytes "OUTPUT-LINE\n", none) := by
  rw [execute_received]
  decide

theorem execute_overlap_value :
    execute sessionOverlap (bytes "cmd") 5 =
      some ({ sessionOverlap with written := [bytes "cmd\n"], out := [] }, bytes "b", none) := by
  rw [execute_received]
  decide

/-- The round trip of the specification: execute succeeds with the output
line, which is the text of the capture buffer before the prompt. -/
theorem execute_result_is_text_before_prompt_witness :
    execute sessionRoundTrip (bytes "cmd") 5 =
      some ({ sessionRoundTrip with written := [bytes "cmd\n"], out := [] },
        bytes "OUTPUT-LINE\n", none) ∧
    ∃ buf out pre post,
      executeLoop sessionRoundTrip.currentPrompt (bytes "cmd" ++ bytes "\n")
          sessionRoundTrip.out ⟨1, 0, []⟩ =
        ExecEnd.sent (bytes "OUTPUT-LINE\n") none buf out ∧
      buf = pre ++ sessionRoundTrip.currentPrompt ++ post ∧
      (∀ j, j < pre.length → ¬ sessionRoundTrip.currentPrompt <+: buf.drop j) ∧
      bytes "OUTPUT-LINE\n" = TrimRight pre nul :=
  ⟨execute_roundTrip_value,
   execute_result_is_text_before_prompt sessionRoundTrip (bytes "cmd") 5 _ _
     execute_roundTrip_value⟩

/-- On the overlapping round trip the prompt `aa` is not empty, execute
succeeds with `b`, and `b` does not contain the prompt. -/
theorem execute_result_has_no_prompt_witness :
    sessionOverlap.currentPrompt ≠ [] ∧
    execute sessionOverlap (bytes "cmd") 5 =
      some ({ sessionOverlap with written := [bytes "cmd\n"], out := [] }, bytes "b", none) ∧
    Contains (bytes "b") sessionOverlap.currentPrompt = false :=
  ⟨by decide, execute_overlap_value,
   execute_result_has_no_prompt sessionOverlap (bytes "cmd") 5 _ _ (by decide)
     execute_overlap_value⟩

/-- A byte read into the slice of length 1 that is the expected byte of the
echo: the newline ends the echo, any other byte moves `idx` on. -/
theorem executeStepOn_echo_byte (cp cmd : List Byte) (idx : Nat) (b : Byte)
    (h : cmd[idx]? = some b) :
    executeStepOn received cp cmd ⟨1, idx, []⟩ [b] =
      if b = 10 then ExecStep.next ⟨inBufferSize, idx, []⟩
      else ExecStep.next ⟨1, idx + 1, []⟩ := by
  unfold executeStepOn
  have hr : Read (1 - ([] : List Byte).length) [b] = [b] := rfl
  simp only [hr, h]
  simp

theorem getElem?_append_cons_length (pre : List Byte) (b : Byte) (tl : List Byte) :
    (pre ++ b :: tl)[pre.length]? = some b := by
  rw [List.getElem?_append_right (le_refl _)]
  simp

/-- The goroutine of execute eats an echo that arrives byte by byte: after the
bytes `suf` of the command and the newline, `buf` is the large buffer and
`idx` stands at the newline of the command. -/
theorem executeLoopOn_echo (cp suf : List Byte) (rest : List ReadResult) (h10 : 10 ∉ suf)
    (pre : List Byte) :
    executeLoopOn (executeStepOn received cp (pre ++ (suf ++ [10])))
        ((suf ++ [10]).map (fun b => ReadResult.data [b]) ++ rest) ⟨1, pre.length, []⟩ =
      executeLoopOn (executeStepOn received cp (pre ++ (suf ++ [10]))) rest
        ⟨inBufferSize, (pre ++ suf).length, []⟩ := by
  induction suf generalizing pre with
  | nil =>
    have hstep := executeStepOn_echo_byte cp (pre ++ ([] ++ [10])) pre.length 10
      (getElem?_append_cons_length pre 10 [])
    rw [if_pos rfl] at hstep
    show executeLoopOn _ (ReadResult.data [10] :: rest) _ = _
    rw [executeLoopOn, hstep, List.append_nil]
  | cons b suf ih =>
    have hb : b ≠ 10 := fun e => h10 (by simp [e])
    have hs : 10 ∉ suf := fun e => h10 (List.mem_cons_of_mem _ e)
    have hstep := executeStepOn_echo_byte cp (pre ++ (b :: suf ++ [10])) pre.length b
      (getElem?_append_cons_length pre b (suf ++ [10]))
    rw [if_neg hb] at hstep
    show executeLoopOn _ (ReadResult.data [b] ::
      ((suf ++ [10]).map (fun b => ReadResult.data [b]) ++ rest)) _ = _
    rw [executeLoopOn, hstep]
    have h := ih hs (pre ++ [b])
    have e1 : pre ++ [b] ++ (suf ++ [10]) = pre ++ (b :: suf ++ [10]) := by simp
    have e2 : (pre ++ [b]).length = pre.length + 1 := by simp
    have e3 : (pre ++ [b] ++ suf).length = (pre ++ b :: suf).length := by simp
    rw [e1, e2, e3] at h
    exact h

theorem TrimRight_append_of_fixed {p : List Byte} (hp : p ≠ []) (h : TrimRight p nul = p)
    (o : List Byte) : TrimRight (o ++ p) nul = o ++ p := by
  induction o with
  | nil => simpa using h
  | cons c o ih =>
    have hne : o ++ p ≠ [] := by simp [hp]
    show TrimRight (c :: (o ++ p)) nul = c :: (o ++ p)
    generalize o ++ p = y at ih hne
    cases y with
    | nil => exact absurd rfl hne
    | cons x xs =>
      have key : TrimRight (c :: x :: xs) nul =
          (match TrimRight (x :: xs) nul with
            | [] => if c ∈ nul then [] else [c]
            | r :: rs => c :: r :: rs) := rfl
      rw [key, ih]

theorem Read_of_le {space : Nat} {p : List Byte} (h : p.length ≤ space) : Read space p = p :=
  List.take_of_length_le h

/-- No occurrence of the prompt in the output alone, when the first one in
output and prompt together starts where the prompt starts. -/
theorem not_Contains_of_first {o p : List Byte} (hp : p ≠ [])
    (hfirst : Index (o ++ p) p = some o.length) : Contains (TrimRight o nul) p = false := by
  by_contra hc
  have hc1 : Contains (TrimRight o nul) p = true := by simpa using hc
  obtain ⟨j, hj, hpre⟩ := (Contains_iff _ _).1 (Contains_of_TrimRight hc1)
  have hlen := hpre.length_le
  have hpos : 0 < p.length := List.length_pos.2 hp
  simp only [List.length_drop] at hlen
  exact ((Index_eq_some_iff _ _ _).1 hfirst).2.2 j (by omega) (occurs_append p hj hpre)

/-- The first capture turn: an output of two bytes or more that does not hold
the prompt is kept in the buffer. -/
theorem executeStepOn_output (cmd o p : List Byte) (idx : Nat) (hp : p ≠ [])
    (hfirst : Index (o ++ p) p = some o.length) (h2 : 2 ≤ o.length)
    (hfit : o.length ≤ inBufferSize) :
    executeStepOn received p cmd ⟨inBufferSize, idx, []⟩ o =
      ExecStep.next ⟨inBufferSize, idx, o⟩ := by
  unfold executeStepOn received
  have hr : Read (inBufferSize - ([] : List Byte).length) o = o := Read_of_le (by simpa using hfit)
  have h1 : ¬ (o.length = 1 ∧ ([] : List Byte).length = 0) := by omega
  have h3 : 0 < o.length := by omega
  simp only [hr, List.nil_append, not_Contains_of_first hp hfirst]
  rw [if_neg h1, if_pos h3]
  simp

/-- The second capture turn: the prompt arrives behind the output, and the
result is the output. -/
theorem executeStepOn_prompt (cmd o p : List Byte) (idx : Nat) (hp : p ≠ [])
    (hfirst : Index (o ++ p) p = some o.length) (ho : TrimRight o nul = o)
    (hpn : TrimRight p nul = p) (h2 : 2 ≤ o.length)
    (hfit : o.length + p.length ≤ inBufferSize) :
    executeStepOn received p cmd ⟨inBufferSize, idx, o⟩ p = ExecStep.done o (o ++ p) := by
  unfold executeStepOn received
  have hr : Read (inBufferSize - o.length) p = p := Read_of_le (by omega)
  have h1 : ¬ (p.length = 1 ∧ o.length = 0) := by omega
  have h3 : 0 < p.length := List.length_pos.2 hp
  have hc : Contains (o ++ p) p = true := by simp [Contains, hfirst]
  simp only [hr, TrimRight_append_of_fixed hp hpn, hc, hfirst]
  rw [if_neg h1, if_pos h3]
  simp [ho]

/-- C5, as amended: for a command `c` without newline, a prompt `p` that is
not empty and does not end in a zero byte, and an output `o` of at least two
bytes that does not end in a zero byte, fits the buffer together with `p`, and
is such that the first occurrence of `p` in `o` followed by `p` starts at the
end of `o`: when the transport echoes `c` and a newline byte by byte, then
delivers `o`, then `p`, execute returns exactly `o` with a nil error. -/
theorem execute_round_trip (s : SshAction) (c o p : List Byte) (t : Nat)
    (rest : List ReadResult) (hc : 10 ∉ c) (hp : p ≠ []) (hcp : s.currentPrompt = p)
    (hout : s.out = echoReads c ++ ([ReadResult.data o, ReadResult.data p] ++ rest))
    (hfirst : Index (o ++ p) p = some o.length) (ho : TrimRight o nul = o)
    (hpn : TrimRight p nul = p) (h2 : 2 ≤ o.length)
    (hfit : o.length + p.length ≤ inBufferSize) :
    execute s c t =
      some ({ s with written := s.written ++ [c ++ bytes "\n"], out := rest }, o, none) := by
  rw [execute_received, hout, hcp]
  unfold echoReads
  rw [bytes_newline]
  have hecho := executeLoopOn_echo p c ([ReadResult.data o, ReadResult.data p] ++ rest) hc []
  simp only [List.nil_append, List.length_nil] at hecho
  rw [hecho]
  show executeSelect _ (executeLoopOn _ (ReadResult.data o :: ReadResult.data p :: rest) _) = _
  rw [executeLoopOn, executeStepOn_output (c ++ [10]) o p c.length hp hfirst h2 (by omega)]
  simp only
  rw [executeLoopOn, executeStepOn_prompt (c ++ [10]) o p c.length hp hfirst ho hpn h2 hfit]
  rfl

/-- The round trip of the specification, `cmd` answered by `OUTPUT-LINE` and a
newline before the prompt `host> `, returns the output line. -/
theorem execute_round_trip_witness :
    10 ∉ bytes "cmd" ∧ bytes "host> " ≠ [] ∧
    execute sessionRoundTrip (bytes "cmd") 5 =
      some ({ sessionRoundTrip with
          written := sessionRoundTrip.written ++ [bytes "cmd" ++ bytes "\n"], out := [] },
        bytes "OUTPUT-LINE\n", none) :=
  ⟨by decide, by decide,
   execute_round_trip sessionRoundTrip (bytes "cmd") (bytes "OUTPUT-LINE\n") (bytes "host> ") 5 []
     (by decide) (by decide) (by decide) (by decide) (by decide) (by decide) (by decide)
     (by decide) (by decide)⟩

/-- C5 fails as stated: the command `cmd` has no newline, the prompt `aa` is
not empty and does not occur in the output `ba`, the transport echoes the
command, delivers `ba` and then `aa`, and execute returns `b`, not `ba`. -/
theorem execute_round_trip_counterexample :
    10 ∉ bytes "cmd" ∧ bytes "aa" ≠ [] ∧ Contains (bytes "ba") (bytes "aa") = false ∧
    sessionOverlap.currentPrompt = bytes "aa" ∧
    sessionOverlap.out = echoReads (bytes "cmd") ++
      [ReadResult.data (bytes "ba"), ReadResult.data (bytes "aa")] ∧
    execute sessionOverlap (bytes "cmd") 5 =
      some ({ sessionOverlap with written := [bytes "cmd\n"], out := [] }, bytes "b", none) ∧
    bytes "b" ≠ bytes "ba" :=
  ⟨by decide, by decide, by decide, by decide, by decide, execute_overlap_value, by decide⟩

/-! ## The operations on a platform that they do not handle -/

/-- C11: on a platform outside GAiA, SplatCPSHELL, Expert, IPSO and XBM each of
GetOS, GetInfo, GetCPHA, GetInterfaces, GetRoutes and GetVAPGroups returns its
`platform unknown` error; GetVAPGroups returns `not platform xbm` on GAiA,
SplatCPSHELL, Expert and IPSO; GetInfo returns `platform xbm` on XBM.  In all
these cases the session comes back as it was: nothing is written to the
transport and nothing is read from it. -/
theorem unsupported_platform_without_io (lib : GoLibrary) (s : SshAction) :
    (¬ (s.platform = PlatformGAiA ∨ s.platform = PlatformSplatCPSHELL ∨
        s.platform = PlatformExpert ∨ s.platform = PlatformIPSO ∨
        s.platform = PlatformXBM) →
      GetOS s = some (s, OsClassNone, OsTypeNone, some (New 2001 "platform unknown")) ∧
      GetInfo s = some (s, [], [], some (New 2101 "platform unknown")) ∧
      GetCPHA lib s = some (s, none, some (New 4001 "platform unknown")) ∧
      GetInterfaces lib s = some (s, [], some (New 3001 "platform unknown")) ∧
      GetRoutes lib s = some (s, [], some (New 3201 "platform unknown")) ∧
      GetVAPGroups s = some (s, [], some (New 5001 "platform unknown"))) ∧
    (s.platform = PlatformGAiA ∨ s.platform = PlatformSplatCPSHELL ∨
        s.platform = PlatformExpert ∨ s.platform = PlatformIPSO →
      GetVAPGroups s = some (s, [], some (New 5000 "not platform xbm"))) ∧
    (s.platform = PlatformXBM →
      GetInfo s = some (s, [], [], some (New 2100 "platform xbm"))) := by
  refine ⟨?_, ?_, ?_⟩
  · intro h
    simp only [not_or] at h
    obtain ⟨h0, h1, h2, h3, h4⟩ := h
    refine ⟨?_, ?_, ?_, ?_, ?_, ?_⟩
    · simp [GetOS, h0, h1, h2, h3, h4]
    · simp [GetInfo, h0, h1, h2, h3, h4]
    · simp [GetCPHA, h0, h1, h2, h3, h4]
    · simp [GetInterfaces, h0, h1, h2, h3, h4]
    · simp [GetRoutes, h0, h1, h2, h3, h4]
    · simp [GetVAPGroups, h0, h1, h2, h3, h4]
  · intro h
    unfold GetVAPGroups
    rw [if_pos h]
  · intro h
    have h0 : ¬ (s.platform = PlatformGAiA ∨ s.platform = PlatformSplatCPSHELL) := by
      rw [h]
      decide
    have h2 : ¬ s.platform = PlatformExpert := by
      rw [h]
      decide
    have h3 : ¬ s.platform = PlatformIPSO := by
      rw [h]
      decide
    unfold GetInfo
    rw [if_neg h0, if_neg h2, if_neg h3, if_pos h]

/-- On PlatformCPM, with a prompt waiting in the transport, the six operations
return `platform unknown` and leave the session alone. -/
theorem unsupported_platform_without_io_witness :
    GetOS sessionCPM =
        some (sessionCPM, OsClassNone, OsTypeNone, some (New 2001 "platform unknown")) ∧
    GetInfo sessionCPM = some (sessionCPM, [], [], some (New 2101 "platform unknown")) ∧
    GetCPHA plainLibrary sessionCPM =
        some (sessionCPM, none, some (New 4001 "platform unknown")) ∧
    GetInterfaces plainLibrary sessionCPM =
        some (sessionCPM, [], some (New 3001 "platform unknown")) ∧
    GetRoutes plainLibrary sessionCPM =
        some (sessionCPM, [], some (New 3201 "platform unknown")) ∧
    GetVAPGroups sessionCPM = some (sessionCPM, [], some (New 5001 "platform unknown")) :=
  (unsupported_platform_without_io plainLibrary sessionCPM).1 (by decide)

/-! ## Errors that the operations lose -/

/-- C12, the code at two failing inputs: on GAiA, when expertEnter times out or
meets a transport error, GetInterfaces, GetRoutes, GetCPHA and GetInfo all
return a nil error with an empty result, whatever the library functions
are. -/
theorem escalation_failure_is_lost (lib : GoLibrary) :
    sessionSilent.platform = PlatformGAiA ∧
    expertEnter sessionSilent = (sessionSilentAfter, some (New 1201 "timeout")) ∧
    GetInterfaces lib sessionSilent =
      some (sessionSilentAfter, lib.sort_Sort LogicalInterfaces.Less [], none) ∧
    GetRoutes lib sessionSilent =
      some (sessionSilentAfter, lib.sort_Sort Routes.Less [], none) ∧
    GetCPHA lib sessionSilent = some (sessionSilentAfter, some ⟨[]⟩, none) ∧
    GetInfo sessionSilent = some (sessionSilentAfter, [], [], none) ∧
    expertEnter sessionBroken = (sessionBrokenAfter, some (New 1200 "EOF")) ∧
    GetInterfaces lib sessionBroken =
      some (sessionBrokenAfter, lib.sort_Sort LogicalInterfaces.Less [], none) ∧
    GetRoutes lib sessionBroken =
      some (sessionBrokenAfter, lib.sort_Sort Routes.Less [], none) ∧
    GetCPHA lib sessionBroken = some (sessionBrokenAfter, some ⟨[]⟩, none) ∧
    GetInfo sessionBroken = some (sessionBrokenAfter, [], [], none) := by
  have e1 : expertEnter sessionSilent = (sessionSilentAfter, some (New 1201 "timeout")) := by
    rw [expertEnter_received]
    decide
  have e2 : expertEnter sessionBroken = (sessionBrokenAfter, some (New 1200 "EOF")) := by
    rw [expertEnter_received]
    decide
  have p1 : sessionSilent.platform = PlatformGAiA ∨
      sessionSilent.platform = PlatformSplatCPSHELL := Or.inl rfl
  have p2 : sessionBroken.platform = PlatformGAiA ∨
      sessionBroken.platform = PlatformSplatCPSHELL := Or.inl rfl
  refine ⟨rfl, e1, ?_, ?_, ?_, ?_, e2, ?_, ?_, ?_, ?_⟩
  · unfold GetInterfaces
    rw [if_pos p1, e1]
    rfl
  · unfold GetRoutes
    rw [if_pos p1, e1]
    rfl
  · unfold GetCPHA
    rw [if_pos p1, e1]
    rfl
  · unfold GetInfo
    rw [if_pos p1, e1]
  · unfold GetInterfaces
    rw [if_pos p2, e2]
    rfl
  · unfold GetRoutes
    rw [if_pos p2, e2]
    rfl
  · unfold GetCPHA
    rw [if_pos p2, e2]
    rfl
  · unfold GetInfo
    rw [if_pos p2, e2]

/-- C13, the code at a failing input: on GAiA the escalation succeeds, the
Read of `fw ver` fails so that the first execute returns an error, the second
command `cat /etc/cp-release` succeeds, and GetInfo returns a nil error with
an empty `fwver`. -/
theorem first_command_failure_is_lost :
    sessionInfoFirstFails.platform = PlatformGAiA ∧
    (expertEnter sessionInfoFirstFails).2 = none ∧
    (execute (expertEnter sessionInfoFirstFails).1 (bytes "fw ver 2>&1") 20).map
        (fun r => r.2) = some ([], some (New 1600 "EOF")) ∧
    (GetInfo sessionInfoFirstFails).map (fun r => r.2) =
      some ([], bytes "Check Point Gaia R77.20", none) := by
  refine ⟨rfl, ?_, ?_, ?_⟩
  · rw [expertEnter_received]
    decide
  · simp only [expertEnter_received, execute_received]
    decide
  · simp only [GetInfo, expertEnter_received, execute_received, expertExit, waitfor_received]
    decide

/-! ## The escalation exits (`expertExit`, `xbmExit`) -/

/-- The errors of waitfor: a failed Read, the timeout, or a matched buffer
without newline. -/
theorem waitfor_error_kinds (s : SshAction) :
    (waitfor s).2 = none ∨ (∃ msg, (waitfor s).2 = some (New 1400 msg)) ∨
      (waitfor s).2 = some (New 1401 "timeout") ∨
      (waitfor s).2 = some (New 1500 "newline not found") := by
  unfold waitfor selectDone
  cases hs : (waitforLoop s.out s []).sent with
  | none => exact Or.inr (Or.inr (Or.inl rfl))
  | some e =>
    unfold waitforLoop at hs
    rcases readLoop_sent _ _ _ _ _ _ hs with ⟨msg, -, he⟩ | ⟨s0, buf0, q, -, hstep, -⟩
    · exact Or.inr (Or.inl ⟨msg, by rw [he]⟩)
    · obtain ⟨-, n, -, hfp⟩ := waitforStep_done hstep
      rcases findPrompt_spec { s0 with prompt := n } (buf0 ++ Read (inBufferSize - buf0.length) q)
        with ⟨-, herr⟩ | ⟨pre, line, -, -, hok⟩
      · rw [hfp] at herr
        simp only [Prod.mk.injEq] at herr
        exact Or.inr (Or.inr (Or.inr (by rw [herr.2])))
      · rw [hfp] at hok
        simp only [Prod.mk.injEq] at hok
        exact Or.inl (by rw [hok.2])

/-- A turn of waitfor writes nothing but, at most once, the answer to the
terminal-type query. -/
theorem waitforStep_writes (s : SshAction) (buf p : List Byte) :
    (∀ s1 buf1, waitforStep s buf p = Step.next s1 buf1 →
      ∃ k, s1.written = s.written ++ List.replicate k (bytes "vt220\n")) ∧
    (∀ s1 e, waitforStep s buf p = Step.done s1 e →
      ∃ k, s1.written = s.written ++ List.replicate k (bytes "vt220\n")) := by
  constructor
  · intro s1 buf1 h
    rw [waitforStep_received] at h
    unfold waitforStepOn received at h
    simp only at h
    split_ifs at h
    all_goals injection h with ha hb
    all_goals subst ha
    all_goals first
      | exact ⟨1, rfl⟩
      | exact ⟨0, (List.append_nil _).symm⟩
  · intro s1 e h
    obtain ⟨-, n, -, hfp⟩ := waitforStep_done h
    have hw := (findPrompt_fields { s with prompt := n }
      (buf ++ Read (inBufferSize - buf.length) p)).2
    rw [hfp] at hw
    exact ⟨0, by simpa using hw⟩

theorem waitfor_writes (s : SshAction) :
    ∃ k, (waitfor s).1.written = s.written ++ List.replicate k (bytes "vt220\n") := by
  have h := readLoop_invariant
    (fun a b => ∃ k, b.written = a.written ++ List.replicate k (bytes "vt220\n"))
    waitforStep 1400 (fun a => ⟨0, by simp⟩)
    (fun a b c hab hbc => by
      obtain ⟨k1, h1⟩ := hab
      obtain ⟨k2, h2⟩ := hbc
      exact ⟨k1 + k2, by rw [h2, h1, List.append_assoc, ← List.replicate_add]⟩)
    (fun a => ⟨0, by simp⟩)
    (fun a buf p s1 buf1 hstep => (waitforStep_writes a buf p).1 s1 buf1 hstep)
    (fun a buf p s1 e hstep => (waitforStep_writes a buf p).2 s1 e hstep) s.out s []
  unfold waitfor
  rw [(selectDone_fields _ _).2]
  exact h

/-- C14: expertExit writes `exit` and a newline and then runs waitfor, whose
only writes are answers to terminal-type queries; it leaves the session as
waitfor leaves it; it returns nil exactly when waitfor does, and for each
error of waitfor (a failed Read, the timeout, no newline in the matched
buffer) it returns the one error 1301 `failed to locate prompt`.  xbmExit
does the same with its error 5200. -/
theorem exit_reports_one_error (s : SshAction) :
    ((expertExit s).1 = (waitfor { s with written := s.written ++ [bytes "exit\n"] }).1 ∧
      (∃ k, (expertExit s).1.written =
        s.written ++ bytes "exit\n" :: List.replicate k (bytes "vt220\n")) ∧
      (((waitfor { s with written := s.written ++ [bytes "exit\n"] }).2 = none ∧
          (expertExit s).2 = none) ∨
        (((∃ msg, (waitfor { s with written := s.written ++ [bytes "exit\n"] }).2 =
              some (New 1400 msg)) ∨
            (waitfor { s with written := s.written ++ [bytes "exit\n"] }).2 =
              some (New 1401 "timeout") ∨
            (waitfor { s with written := s.written ++ [bytes "exit\n"] }).2 =
              some (New 1500 "newline not found")) ∧
          (expertExit s).2 = some (New 1301 "failed to locate prompt")))) ∧
    ((xbmExit s).1 = (waitfor { s with written := s.written ++ [bytes "exit\n"] }).1 ∧
      (∃ k, (xbmExit s).1.written =
        s.written ++ bytes "exit\n" :: List.replicate k (bytes "vt220\n")) ∧
      (((waitfor { s with written := s.written ++ [bytes "exit\n"] }).2 = none ∧
          (xbmExit s).2 = none) ∨
        (((∃ msg, (waitfor { s with written := s.written ++ [bytes "exit\n"] }).2 =
              some (New 1400 msg)) ∨
            (waitfor { s with written := s.written ++ [bytes "exit\n"] }).2 =
              some (New 1401 "timeout") ∨
            (waitfor { s with written := s.written ++ [bytes "exit\n"] }).2 =
              some (New 1500 "newline not found")) ∧
          (xbmExit s).2 = some (New 5200 "failed to locate prompt")))) := by
  obtain ⟨k, hk⟩ := waitfor_writes { s with written := s.written ++ [bytes "exit\n"] }
  have hkinds := waitfor_error_kinds { s with written := s.written ++ [bytes "exit\n"] }
  have hw : ∃ k, (waitfor { s with written := s.written ++ [bytes "exit\n"] }).1.written =
      s.written ++ bytes "exit\n" :: List.replicate k (bytes "vt220\n") :=
    ⟨k, by rw [hk]; simp⟩
  constructor
  · unfold expertExit
    generalize waitfor { s with written := s.written ++ [bytes "exit\n"] } = r at *
    obtain ⟨s1, e⟩ := r
    cases e with
    | none => exact ⟨rfl, hw, Or.inl ⟨rfl, rfl⟩⟩
    | some err =>
      refine ⟨rfl, hw, Or.inr ⟨?_, rfl⟩⟩
      rcases hkinds with h | h
      · cases h
      · exact h
  · unfold xbmExit
    generalize waitfor { s with written := s.written ++ [bytes "exit\n"] } = r at *
    obtain ⟨s1, e⟩ := r
    cases e with
    | none => exact ⟨rfl, hw, Or.inl ⟨rfl, rfl⟩⟩
    | some err =>
      refine ⟨rfl, hw, Or.inr ⟨?_, rfl⟩⟩
      rcases hkinds with h | h
      · cases h
      · exact h

/-! ## Which prompts end the escalation wait -/

/-- What findPrompt returns as error: nil when the ipso flag is set or the
text has a newline, `newline not found` otherwise. -/
theorem findPrompt_error (s : SshAction) (str : List Byte) :
    (findPrompt s str).2 =
      if s.ipso = true ∨ 10 ∈ str then none else some (New 1500 "newline not found") := by
  rcases findPrompt_spec s str with ⟨hno, h⟩ | ⟨pre, line, hsplit, -, h⟩
  · rw [h]
    cases hi : s.ipso
    · rw [hi] at hno
      simp only [Bool.false_eq_true, if_false] at hno
      simp [hno]
    · rw [hi] at hno
      simp at hno
  · rw [h]
    cases hi : s.ipso
    · rw [hi] at hsplit
      simp only [Bool.false_eq_true, if_false] at hsplit
      have : 10 ∈ str := by
        rw [hsplit]
        simp
      simp [this]
    · simp

theorem findPrompt_ipso (s : SshAction) (str : List Byte) :
    (findPrompt s str).1.ipso = s.ipso := by
  rcases findPrompt_spec s str with ⟨-, h⟩ | ⟨pre, line, -, -, h⟩ <;> rw [h]

/-- The turns of the two escalation loops leave the ipso flag alone. -/
theorem enterStep_ipso (s : SshAction) (buf p : List Byte) :
    (∀ s1 buf1, expertEnterStep s buf p = Step.next s1 buf1 → s1.ipso = s.ipso) ∧
    (∀ s1 e, expertEnterStep s buf p = Step.done s1 e → s1.ipso = s.ipso) ∧
    (∀ s1 buf1, xbmEnterStep s buf p = Step.next s1 buf1 → s1.ipso = s.ipso) ∧
    (∀ s1 e, xbmEnterStep s buf p = Step.done s1 e → s1.ipso = s.ipso) := by
  rw [expertEnterStep_received, xbmEnterStep_received]
  unfold expertEnterStepOn xbmEnterStepOn received
  simp only
  refine ⟨?_, ?_, ?_, ?_⟩
  · intro s1 buf1 h
    split_ifs at h
    all_goals injection h with ha hb
    all_goals subst ha
    all_goals rfl
  · intro s1 e h
    split_ifs at h
    all_goals injection h with ha hb
    all_goals subst ha
    all_goals exact findPrompt_ipso _ _
  · intro s1 buf1 h
    split_ifs at h
    all_goals injection h with ha hb
    all_goals subst ha
    all_goals rfl
  · intro s1 e h
    split_ifs at h
    all_goals injection h with ha hb
    all_goals subst ha
    all_goals exact findPrompt_ipso _ _

theorem enterLoop_ipso (reads : List ReadResult) (s : SshAction) (buf : List Byte) :
    (expertEnterLoop reads s buf).s.ipso = s.ipso ∧
      (xbmEnterLoop reads s buf).s.ipso = s.ipso :=
  ⟨readLoop_invariant (fun a b => b.ipso = a.ipso) expertEnterStep 1200 (fun _ => rfl)
      (fun _ _ _ h1 h2 => h2.trans h1) (fun _ => rfl)
      (fun a buf p s1 buf1 h => (enterStep_ipso a buf p).1 s1 buf1 h)
      (fun a buf p s1 e h => (enterStep_ipso a buf p).2.1 s1 e h) reads s buf,
   readLoop_invariant (fun a b => b.ipso = a.ipso) xbmEnterStep 5100 (fun _ => rfl)
      (fun _ _ _ h1 h2 => h2.trans h1) (fun _ => rfl)
      (fun a buf p s1 buf1 h => (enterStep_ipso a buf p).2.2.1 s1 buf1 h)
      (fun a buf p s1 e h => (enterStep_ipso a buf p).2.2.2 s1 e h) reads s buf⟩

/-- A read that brings data and leaves the buffer matching prompt1 or prompt2
ends the loop of expertEnter with the error of findPrompt. -/
theorem expertEnterStep_prompt (s : SshAction) (buf p : List Byte)
    (hn : 0 < (Read (inBufferSize - buf.length) p).length)
    (hm : MatchString prompt1 (buf ++ Read (inBufferSize - buf.length) p) = true ∨
      MatchString prompt2 (buf ++ Read (inBufferSize - buf.length) p) = true) :
    ∃ s1, expertEnterStep s buf p = Step.done s1
      (if s.ipso = true ∨ 10 ∈ buf ++ Read (inBufferSize - buf.length) p then none
        else some (New 1500 "newline not found")) := by
  rw [expertEnterStep_received]
  unfold expertEnterStepOn received
  simp only
  rw [if_pos hn]
  by_cases m1 : MatchString prompt1 (buf ++ Read (inBufferSize - buf.length) p) = true
  · rw [if_pos m1]
    exact ⟨_, by rw [findPrompt_error]⟩
  · rw [if_neg m1]
    have m2 : MatchString prompt2 (buf ++ Read (inBufferSize - buf.length) p) = true := by
      rcases hm with h | h
      · exact absurd h m1
      · exact h
    rw [if_pos m2]
    exact ⟨_, by rw [findPrompt_error]⟩

/-- The same for xbmEnter, which looks at the trimmed text. -/
theorem xbmEnterStep_prompt (s : SshAction) (buf p : List Byte)
    (hn : 0 < (Read (inBufferSize - buf.length) p).length)
    (hm : MatchString prompt1 (strAfter inBufferSize buf p) = true ∨
      MatchString prompt2 (strAfter inBufferSize buf p) = true) :
    ∃ s1, xbmEnterStep s buf p = Step.done s1
      (if s.ipso = true ∨ 10 ∈ buf ++ Read (inBufferSize - buf.length) p then none
        else some (New 1500 "newline not found")) := by
  rw [xbmEnterStep_received]
  unfold xbmEnterStepOn received
  unfold strAfter at hm
  simp only
  rw [if_pos hn]
  by_cases m1 : MatchString prompt1
      (TrimRight (buf ++ Read (inBufferSize - buf.length) p) nul) = true
  · rw [if_pos m1]
    exact ⟨_, by rw [findPrompt_error]⟩
  · rw [if_neg m1]
    have m2 : MatchString prompt2
        (TrimRight (buf ++ Read (inBufferSize - buf.length) p) nul) = true := by
      rcases hm with h | h
      · exact absurd h m1
      · exact h
    rw [if_pos m2]
    exact ⟨_, by rw [findPrompt_error]⟩

/-- A read after which neither prompt1 nor prompt2 matches sends nothing. -/
theorem enterStep_no_prompt (s : SshAction) (buf p : List Byte) :
    (MatchString prompt1 (buf ++ Read (inBufferSize - buf.length) p) = false →
      MatchString prompt2 (buf ++ Read (inBufferSize - buf.length) p) = false →
      ∃ s1 buf1, expertEnterStep s buf p = Step.next s1 buf1) ∧
    (MatchString prompt1 (strAfter inBufferSize buf p) = false →
      MatchString prompt2 (strAfter inBufferSize buf p) = false →
      ∃ s1 buf1, xbmEnterStep s buf p = Step.next s1 buf1) := by
  rw [expertEnterStep_received, xbmEnterStep_received]
  unfold expertEnterStepOn xbmEnterStepOn received strAfter
  simp only
  constructor
  · intro m1 m2
    simp only [m1, m2, Bool.false_eq_true, if_false]
    split_ifs <;> exact ⟨_, _, rfl⟩
  · intro m1 m2
    simp only [m1, m2, Bool.false_eq_true, if_false]
    split_ifs <;> exact ⟨_, _, rfl⟩

/-- C16, as amended: the wait of expertEnter, and of xbmEnter, ends when the
CLISH prompt or the Expert/Shell prompt appears in the accumulated buffer,
and it ends with a nil error when that buffer holds a newline or the ipso
flag is set (`newline not found` otherwise).  The CrossBeam CPM and APM
prompts are not looked for: a read after which neither the CLISH nor the
Expert/Shell pattern matches sends nothing. -/
theorem escalation_wait_ends_on_clish_or_expert_prompt :
    (∀ (s : SshAction) (pre : List ReadResult) (p : List Byte) (rest : List ReadResult),
      (expertEnterLoop pre s []).sent = none →
      ((MatchString prompt1 ((expertEnterLoop pre s []).buf ++
            Read (inBufferSize - (expertEnterLoop pre s []).buf.length) p) = true ∨
          MatchString prompt2 ((expertEnterLoop pre s []).buf ++
            Read (inBufferSize - (expertEnterLoop pre s []).buf.length) p) = true →
        (expertEnterLoop (pre ++ ReadResult.data p :: rest) s []).sent =
            some (if s.ipso = true ∨ 10 ∈ (expertEnterLoop pre s []).buf ++
                Read (inBufferSize - (expertEnterLoop pre s []).buf.length) p then none
              else some (New 1500 "newline not found")) ∧
          (expertEnterLoop (pre ++ ReadResult.data p :: rest) s []).out = rest) ∧
        (MatchString prompt1 ((expertEnterLoop pre s []).buf ++
            Read (inBufferSize - (expertEnterLoop pre s []).buf.length) p) = false →
          MatchString prompt2 ((expertEnterLoop pre s []).buf ++
            Read (inBufferSize - (expertEnterLoop pre s []).buf.length) p) = false →
          (expertEnterLoop (pre ++ [ReadResult.data p]) s []).sent = none))) ∧
    (∀ (s : SshAction) (pre : List ReadResult) (p : List Byte) (rest : List ReadResult),
      (xbmEnterLoop pre s []).sent = none →
      ((MatchString prompt1 (strAfter inBufferSize (xbmEnterLoop pre s []).buf p) = true ∨
          MatchString prompt2 (strAfter inBufferSize (xbmEnterLoop pre s []).buf p) = true →
        (xbmEnterLoop (pre ++ ReadResult.data p :: rest) s []).sent =
            some (if s.ipso = true ∨ 10 ∈ (xbmEnterLoop pre s []).buf ++
                Read (inBufferSize - (xbmEnterLoop pre s []).buf.length) p then none
              else some (New 1500 "newline not found")) ∧
          (xbmEnterLoop (pre ++ ReadResult.data p :: rest) s []).out = rest) ∧
        (MatchString prompt1 (strAfter inBufferSize (xbmEnterLoop pre s []).buf p) = false →
          MatchString prompt2 (strAfter inBufferSize (xbmEnterLoop pre s []).buf p) = false →
          (xbmEnterLoop (pre ++ [ReadResult.data p]) s []).sent = none))) := by
  constructor
  · intro s pre p rest hsent
    have hq := readLoop_buf_invariant
      (fun b => MatchString prompt1 b = false ∧ MatchString prompt2 b = false ∧
        MatchString psw1Expert b = false)
      expertEnterStep 1200 expertEnterStep_quiet pre s [] hsent (by decide)
    have hi := (enterLoop_ipso pre s []).1
    unfold expertEnterLoop at hsent hq hi ⊢
    rw [readLoop_append _ _ _ _ _ _ hsent, readLoop_append _ _ _ _ _ _ hsent]
    generalize readLoop expertEnterStep 1200 pre s [] = r at *
    constructor
    · intro hm
      have hn : 0 < (Read (inBufferSize - r.buf.length) p).length := by
        rcases Nat.eq_zero_or_pos (Read (inBufferSize - r.buf.length) p).length with h0 | h0
        · rw [List.length_eq_zero.1 h0, List.append_nil, hq.1, hq.2.1] at hm
          simp at hm
        · exact h0
      obtain ⟨s1, hstep⟩ := expertEnterStep_prompt r.s r.buf p hn hm
      rw [readLoop, hstep, hi]
      exact ⟨rfl, rfl⟩
    · intro m1 m2
      obtain ⟨s1, buf1, hstep⟩ := (enterStep_no_prompt r.s r.buf p).1 m1 m2
      rw [readLoop, hstep]
      rfl
  · intro s pre p rest hsent
    have hq := readLoop_buf_invariant
      (fun b => MatchString prompt1 (TrimRight b nul) = false ∧
        MatchString prompt2 (TrimRight b nul) = false ∧
        MatchString psw1Xbm (TrimRight b nul) = false)
      xbmEnterStep 5100 xbmEnterStep_quiet pre s [] hsent (by decide)
    have hi := (enterLoop_ipso pre s []).2
    unfold xbmEnterLoop at hsent hq hi ⊢
    rw [readLoop_append _ _ _ _ _ _ hsent, readLoop_append _ _ _ _ _ _ hsent]
    generalize readLoop xbmEnterStep 5100 pre s [] = r at *
    constructor
    · intro hm
      have hn : 0 < (Read (inBufferSize - r.buf.length) p).length := by
        rcases Nat.eq_zero_or_pos (Read (inBufferSize - r.buf.length) p).length with h0 | h0
        · unfold strAfter at hm
          rw [List.length_eq_zero.1 h0, List.append_nil, hq.1, hq.2.1] at hm
          simp at hm
        · exact h0
      obtain ⟨s1, hstep⟩ := xbmEnterStep_prompt r.s r.buf p hn hm
      rw [readLoop, hstep, hi]
      exact ⟨rfl, rfl⟩
    · intro m1 m2
      obtain ⟨s1, buf1, hstep⟩ := (enterStep_no_prompt r.s r.buf p).2 m1 m2
      rw [readLoop, hstep]
      rfl

/-- The expert prompt in the first read ends the wait of expertEnter with a
nil error. -/
theorem escalation_wait_ends_on_clish_or_expert_prompt_witness :
    (expertEnterLoop ([] ++ ReadResult.data (bytes "\n[Expert@fw1:0]# ") :: [])
        sessionExpertPrompt []).sent =
      some (if sessionExpertPrompt.ipso = true ∨
          10 ∈ (expertEnterLoop [] sessionExpertPrompt []).buf ++
            Read (inBufferSize - (expertEnterLoop [] sessionExpertPrompt []).buf.length)
              (bytes "\n[Expert@fw1:0]# ") then none
        else some (New 1500 "newline not found")) ∧
    (expertEnterLoop ([] ++ ReadResult.data (bytes "\n[Expert@fw1:0]# ") :: [])
        sessionExpertPrompt []).out = [] :=
  ((escalation_wait_ends_on_clish_or_expert_prompt.1 sessionExpertPrompt []
      (bytes "\n[Expert@fw1:0]# ") [] (by rw [expertEnterLoop_received]; decide)).1
    (Or.inr (by rw [expertEnterLoop_received]; decide)))

/-- C16 fails as stated: the CPM prompt, and likewise the APM prompt, appears
in the buffer of expertEnter and of xbmEnter, and the wait does not end: the
call runs into its timeout. -/
theorem escalation_wait_counterexample :
    MatchString prompt3 (bytes "\nfw1# ") = true ∧
    (expertEnter sessionCpmPrompt).2 = some (New 1201 "timeout") ∧
    (xbmEnter sessionCpmPrompt).2 = some (New 5101 "timeout") ∧
    MatchString prompt4 (bytes "\n[admin@fw1] ~$ ") = true ∧
    (expertEnter sessionApmPrompt).2 = some (New 1201 "timeout") ∧
    (xbmEnter sessionApmPrompt).2 = some (New 5101 "timeout") := by
  rw [expertEnter_received, xbmEnter_received, expertEnter_received, xbmEnter_received]
  decide

/-! ## The VAP groups (`GetVAPGroups`) -/

/-- Reading digits never lowers the value. -/
theorem digitsValue_ge (s : List Byte) (n : Nat) : n ≤ digitsValue s n := by
  induction s generalizing n with
  | nil => exact Nat.le_refl n
  | cons d s ih =>
    rw [digitsValue]
    exact Nat.le_trans (by omega) (ih _)

/-- The digit loop of ParseUint: out of range as soon as the leading digits
exceed the largest value, no numeral at the first byte that is no digit, the
value otherwise. -/
theorem parseUintFrom_eq (maxVal : Nat) (s : List Byte) (n : Nat) (hn : n ≤ maxVal) :
    parseUintFrom maxVal s n =
      if maxVal < digitsValue (s.takeWhile isDigit) n then (maxVal, some NumError.outOfRange)
      else if s.all isDigit = true then (digitsValue s n, none)
      else (0, some NumError.notNumeral) := by
  induction s generalizing n with
  | nil =>
    rw [parseUintFrom]
    simp [digitsValue, Nat.not_lt.2 hn]
  | cons d s ih =>
    rw [parseUintFrom]
    by_cases hd : 48 ≤ d ∧ d ≤ 57
    · have hd1 : isDigit d = true := by simp [isDigit, hd]
      rw [if_pos hd, List.takeWhile_cons, if_pos hd1, digitsValue, digitsValue, List.all_cons, hd1,
        Bool.true_and]
      by_cases h : maxVal < n * 10 + (d - 48)
      · rw [if_pos h, if_pos (Nat.lt_of_lt_of_le h (digitsValue_ge _ _))]
      · rw [if_neg h, ih _ (Nat.not_lt.1 h)]
    · have hd1 : isDigit d = false := by simp [isDigit, hd]
      rw [if_neg hd, List.takeWhile_cons]
      simp [hd1, digitsValue, Nat.not_lt.2 hn]

/-- The value that Atoi returns, with its error dropped, is the count of the
specification. -/
theorem Atoi_countSpec (t : List Byte) : (Atoi t).1 = countSpec t := by
  cases t with
  | nil => rfl
  | cons c t =>
    unfold Atoi ParseInt countSpec ParseUint intSize
    simp only [List.head?_cons, Option.some.injEq, List.tail_cons]
    generalize (if c = 43 ∨ c = 45 then t else c :: t) = digits
    by_cases h0 : digits = []
    · rw [if_pos h0, if_pos h0]
    · rw [if_neg h0, if_neg h0, parseUintFrom_eq _ _ _ (Nat.zero_le _)]
      by_cases ha : digits.all isDigit = true
      · have ht : List.takeWhile isDigit digits = digits :=
          List.takeWhile_eq_self_iff.2 (fun x hx => List.all_eq_true.1 ha x hx)
        rw [ht, if_pos ha]
        generalize digitsValue digits 0 = value
        have h2 : ¬ (digits.all isDigit = false ∧ value ≤ 2 ^ 64 - 1) := by
          rw [ha]
          simp
        rw [if_neg h2]
        by_cases h1 : 2 ^ 64 - 1 < value
        · rw [if_pos h1]
          by_cases hc : c = 45
          · simp [hc]
            omega
          · simp [hc]
            omega
        · rw [if_neg h1]
          by_cases hc : c = 45
          · simp [hc]
            split_ifs <;> omega
          · simp [hc]
            split_ifs <;> omega
      · rw [if_neg ha]
        generalize digitsValue (List.takeWhile isDigit digits) 0 = value
        have hf : digits.all isDigit = false := by
          cases h : digits.all isDigit
          · rfl
          · exact absurd h ha
        by_cases h1 : 2 ^ 64 - 1 < value
        · rw [if_pos h1]
          have h2 : ¬ (digits.all isDigit = false ∧ value ≤ 2 ^ 64 - 1) := fun h => by omega
          rw [if_neg h2]
          by_cases hc : c = 45
          · simp [hc]
            omega
          · simp [hc]
            omega
        · rw [if_neg h1, if_pos ⟨hf, Nat.not_lt.1 h1⟩]

/-- A line does not begin with both `VAP Group` and `VAP Count`. -/
theorem not_count_of_group (v : List Byte) (h : HasPrefix v (bytes "VAP Group") = true) :
    HasPrefix v (bytes "VAP Count") = false := by
  obtain ⟨t, rfl⟩ := (HasPrefix_iff _ _).1 h
  rfl

/-- The group name after one more line. -/
theorem groupNameBefore_snoc (before : List (List Byte)) (v : List Byte) :
    groupNameBefore (before ++ [v]) =
      if isGroupLine v = true then valueOf v else groupNameBefore before := by
  unfold groupNameBefore
  rw [List.reverse_append, List.reverse_singleton, List.singleton_append, List.find?_cons]
  cases isGroupLine v <;> rfl

/-- The loop of GetVAPGroups over the lines, after the lines `before`, adds
the groups of the specification. -/
theorem vapLines_spec (lines before : List (List Byte)) (acc : VAPGroups) :
    vapLines lines (groupNameBefore before) acc =
      acc ++ (List.range lines.length).filterMap fun i =>
        if isCountLine (lines.getD i []) then
          some ⟨groupNameBefore (before ++ lines.take i), countSpec (valueOf (lines.getD i []))⟩
        else none := by
  induction lines generalizing before acc with
  | nil => simp [vapLines]
  | cons v rest ih =>
    have hrest : ∀ acc1 : VAPGroups, vapLines rest (groupNameBefore (before ++ [v])) acc1 =
        acc1 ++ (List.map Nat.succ (List.range rest.length)).filterMap fun i =>
          if isCountLine ((v :: rest).getD i []) then
            some ⟨groupNameBefore (before ++ (v :: rest).take i),
              countSpec (valueOf ((v :: rest).getD i []))⟩
          else none := by
      intro acc1
      rw [ih, List.filterMap_map]
      congr 1
      apply List.filterMap_congr
      intro i _
      simp
    rw [List.length_cons, List.range_succ_eq_map, List.filterMap_cons, vapLines]
    simp only [List.getD_cons_zero, List.take_zero, List.append_nil]
    rw [groupNameBefore_snoc] at hrest
    by_cases hg : HasPrefix v (bytes "VAP Group") = true
    · have hc : isCountLine v = false := by
        unfold isCountLine
        rw [not_count_of_group v hg]
        rfl
      rw [if_pos hg]
      simp only [hc, Bool.false_eq_true, if_false]
      by_cases h2 : (Split v (bytes ":")).length = 2
      · have hgl : isGroupLine v = true := by simp [isGroupLine, hg, h2]
        rw [if_pos h2]
        rw [if_pos hgl] at hrest
        exact hrest acc
      · have hgl : ¬ isGroupLine v = true := by simp [isGroupLine, h2]
        rw [if_neg h2]
        rw [if_neg hgl] at hrest
        exact hrest acc
    · have hgl : ¬ isGroupLine v = true := by simp [isGroupLine, hg]
      rw [if_neg hgl] at hrest
      rw [if_neg hg]
      by_cases hc : HasPrefix v (bytes "VAP Count") = true
      · rw [if_pos hc]
        by_cases h2 : (Split v (bytes ":")).length = 2
        · have hcl : isCountLine v = true := by simp [isCountLine, hc, h2]
          rw [if_pos h2, hrest, Atoi_countSpec]
          simp only [hcl, if_true]
          rw [List.append_assoc]
          rfl
        · have hcl : isCountLine v = false := by simp [isCountLine, h2]
          rw [if_neg h2, hrest]
          simp only [hcl, Bool.false_eq_true, if_false]
      · have hcl : isCountLine v = false := by simp [isCountLine, hc]
        rw [if_neg hc, hrest]
        simp only [hcl, Bool.false_eq_true, if_false]

/-- C18, as amended: on XBM, when `show vap-group` succeeds, GetVAPGroups
returns one group for each `VAP Count` line of the result that splits into
exactly two parts at the colon, in the order of the lines.  The Name of a
group is the trimmed value of the most recent `VAP Group` line with exactly
one colon before it, and the empty text when there is none.  Its Count is the
value of the trimmed count text when that is a numeral within the 64-bit
integers, the nearest bound when the numeral, or the leading digits of any
text, are beyond them, and 0 for any other text. -/
theorem GetVAPGroups_groups (s s1 : SshAction) (result : List Byte)
    (hp : s.platform = PlatformXBM)
    (he : execute s (bytes "show vap-group") 5 = some (s1, result, none)) :
    GetVAPGroups s = some (s1, vapGroupsSpec (Split result (bytes "\n")), none) := by
  have h0 : ¬ (s.platform = PlatformGAiA ∨ s.platform = PlatformSplatCPSHELL ∨
      s.platform = PlatformExpert ∨ s.platform = PlatformIPSO) := by
    rw [hp]
    decide
  have hl := vapLines_spec (Split result (bytes "\n")) [] []
  simp only [List.nil_append] at hl
  unfold GetVAPGroups
  rw [if_neg h0, if_pos hp, he]
  show some (s1, vapLines (Split result (bytes "\n")) (groupNameBefore []) [], none) = _
  rw [hl]
  rfl

/-- The two groups of `vapOutput`: `fw` with 2 members and `ids` with 10. -/
theorem GetVAPGroups_groups_witness :
    sessionVap.platform = PlatformXBM ∧
    execute sessionVap (bytes "show vap-group") 5 = some (sessionVapAfter, vapOutput, none) ∧
    GetVAPGroups sessionVap =
      some (sessionVapAfter, [⟨bytes "fw", 2⟩, ⟨bytes "ids", 10⟩], none) :=
  ⟨rfl, by rw [execute_received]; rfl,
    (GetVAPGroups_groups sessionVap sessionVapAfter vapOutput rfl
      (by rw [execute_received]; rfl)).trans rfl⟩

/-- C18 fails as stated: the count text `9223372036854775808` is an integer
and the Count is 9223372036854775807; the count text `99999999999999999999x`
is no integer and the Count is 9223372036854775807, not 0. -/
theorem GetVAPGroups_count_counterexample :
    sessionVapOdd.platform = PlatformXBM ∧
    (Split vapOutputOdd (bytes "\n")).map valueOf =
      [bytes "1", bytes "fw", bytes "9223372036854775808", bytes "99999999999999999999x"] ∧
    GetVAPGroups sessionVapOdd =
      some (sessionVapOddAfter, [⟨[], 1⟩, ⟨bytes "fw", 9223372036854775807⟩,
        ⟨bytes "fw", 9223372036854775807⟩], none) := by
  refine ⟨rfl, rfl, ?_⟩
  simp only [GetVAPGroups, execute_received]
  rfl

/-! ## The echo of the command in `execute` -/

/-- C19, the code at a failing input: after the echo of `cmd` and its newline
the bytes `OK`, a newline and the prompt arrive.  In one read they give the
result `OK`; with the first byte in a read of its own that byte is taken
by the echo branch and the result is `K`. -/
theorem execute_drops_single_byte_after_echo :
    (echoReads (bytes "cmd") ++ [ReadResult.data (bytes "OK\nhost> ")] = sessionWholeOutput.out) ∧
    (echoReads (bytes "cmd") ++ [ReadResult.data (bytes "O"), ReadResult.data (bytes "K\nhost> ")]
      = sessionSplitOutput.out) ∧
    (execute sessionWholeOutput (bytes "cmd") 5).map (fun r => r.2) =
      some (bytes "OK", none) ∧
    (execute sessionSplitOutput (bytes "cmd") 5).map (fun r => r.2) =
      some (bytes "K", none) ∧
    executeVars (bytes "\nhost> ") (bytes "cmd\n") (echoReads (bytes "cmd")) ⟨1, 0, []⟩ =
      some ⟨inBufferSize, 3, []⟩ ∧
    executeStep (bytes "\nhost> ") (bytes "cmd\n") ⟨inBufferSize, 3, []⟩ (bytes "O") =
      ExecStep.next ⟨inBufferSize, 3, []⟩ := by
  refine ⟨rfl, rfl, ?_, ?_, ?_, ?_⟩
  · rw [execute_received]
    decide
  · rw [execute_received]
    decide
  · decide
  · decide

/-- One byte read into the empty buffer is compared with the expected byte of
the echo, whatever the length of the buffer: the newline of the echo sets the
large buffer, another expected byte moves `idx` on, and any other byte
changes nothing.  The byte is not kept. -/
theorem executeStep_single_byte (cp cmd : List Byte) (len idx : Nat) (b e : Byte)
    (hlen : 0 < len) (h : cmd[idx]? = some e) :
    executeStep cp cmd ⟨len, idx, []⟩ [b] =
      ExecStep.next (if b = e then
          if e = 10 then ⟨inBufferSize, idx, []⟩ else ⟨len, idx + 1, []⟩
        else ⟨len, idx, []⟩) := by
  unfold executeStep executeStepOn
  have hr : Read (len - ([] : List Byte).length) [b] = [b] := by
    exact Read_of_le hlen
  simp only [hr, h]
  by_cases hb : b = e
  · by_cases he : e = 10
    · simp [hb, he]
    · simp [hb, he]
  · simp [hb]

/-- After the echo the bytes that arrive one at a time leave the variables as
they are. -/
theorem executeVars_after_echo (cp cmd : List Byte) (idx : Nat) (h : cmd[idx]? = some 10)
    (bs : List Byte) :
    executeVars cp cmd (byteReads bs) ⟨inBufferSize, idx, []⟩ =
      some ⟨inBufferSize, idx, []⟩ := by
  induction bs with
  | nil => rfl
  | cons b bs ih =>
    have hstep := executeStep_single_byte cp cmd inBufferSize idx b 10 (by decide) h
    have hv : (if b = 10 then
          if (10 : Byte) = 10 then (⟨inBufferSize, idx, []⟩ : ExecVars)
          else ⟨inBufferSize, idx + 1, []⟩
        else ⟨inBufferSize, idx, []⟩) = ⟨inBufferSize, idx, []⟩ := by
      by_cases hb : b = 10
      · rw [if_pos hb, if_pos rfl]
      · rw [if_neg hb]
    rw [hv] at hstep
    unfold executeVars at ih ⊢
    show executeVarsOn _ (ReadResult.data [b] :: byteReads bs) _ = _
    rw [executeVarsOn, hstep]
    exact ih

/-- The echo phase over bytes that arrive one at a time: with `idx` before the
bytes `r` of the command line that are left up to its newline, the large
buffer is set exactly when `r` and the newline are a subsequence of the
bytes. -/
theorem executeVars_echo (cp : List Byte) (bs pre r tl : List Byte)
    (hr : ∀ x ∈ r, x ≠ 10) :
    ∃ v, executeVars cp (pre ++ r ++ 10 :: tl) (byteReads bs) ⟨1, pre.length, []⟩ = some v ∧
      (v.len = inBufferSize ↔ (r ++ [10]).Sublist bs) := by
  induction bs generalizing pre r with
  | nil =>
    refine ⟨⟨1, pre.length, []⟩, rfl, ?_⟩
    constructor
    · intro h
      have h1 : (1 : Nat) = inBufferSize := h
      exact absurd h1 (by decide)
    · intro h
      have := h.length_le
      simp at this
  | cons b bs ih =>
    cases r with
    | nil =>
      have hidx : (pre ++ [] ++ 10 :: tl)[pre.length]? = some 10 := by
        rw [List.append_nil]
        exact getElem?_append_cons_length pre 10 tl
      have hstep := executeStep_single_byte cp (pre ++ [] ++ 10 :: tl) 1 pre.length b 10
        (by decide) hidx
      by_cases hb : b = 10
      · rw [if_pos hb, if_pos rfl] at hstep
        refine ⟨⟨inBufferSize, pre.length, []⟩, ?_, ?_⟩
        · unfold executeVars
          show executeVarsOn _ (ReadResult.data [b] :: byteReads bs) _ = _
          rw [executeVarsOn, hstep]
          exact executeVars_after_echo cp _ _ hidx bs
        · rw [hb]
          simp
      · rw [if_neg hb] at hstep
        obtain ⟨v, hv, hiff⟩ := ih pre [] hr
        refine ⟨v, ?_, ?_⟩
        · unfold executeVars at hv ⊢
          show executeVarsOn _ (ReadResult.data [b] :: byteReads bs) _ = _
          rw [executeVarsOn, hstep]
          exact hv
        · rw [hiff]
          simp only [List.nil_append, List.singleton_sublist, List.mem_cons]
          constructor
          · intro h
            exact Or.inr h
          · intro h
            rcases h with h | h
            · exact absurd h.symm hb
            · exact h
    | cons x r =>
      have hx : x ≠ 10 := hr x (List.mem_cons_self _ _)
      have hr1 : ∀ y ∈ r, y ≠ 10 := fun y hy => hr y (List.mem_cons_of_mem _ hy)
      have hcmd : pre ++ x :: r ++ 10 :: tl = (pre ++ [x]) ++ r ++ 10 :: tl := by simp
      have hidx : (pre ++ x :: r ++ 10 :: tl)[pre.length]? = some x := by
        rw [List.append_assoc]
        exact getElem?_append_cons_length pre x _
      have hstep := executeStep_single_byte cp (pre ++ x :: r ++ 10 :: tl) 1 pre.length b x
        (by decide) hidx
      by_cases hb : b = x
      · rw [if_pos hb, if_neg hx] at hstep
        obtain ⟨v, hv, hiff⟩ := ih (pre ++ [x]) r hr1
        refine ⟨v, ?_, ?_⟩
        · unfold executeVars at hv ⊢
          show executeVarsOn _ (ReadResult.data [b] :: byteReads bs) _ = _
          rw [executeVarsOn, hstep, hcmd]
          rw [List.length_append] at hv
          exact hv
        · rw [hiff, hb]
          exact (List.cons_sublist_cons).symm
      · rw [if_neg hb] at hstep
        obtain ⟨v, hv, hiff⟩ := ih pre (x :: r) hr
        refine ⟨v, ?_, ?_⟩
        · unfold executeVars at hv ⊢
          show executeVarsOn _ (ReadResult.data [b] :: byteReads bs) _ = _
          rw [executeVarsOn, hstep]
          exact hv
        · rw [hiff]
          constructor
          · intro h
            exact List.Sublist.cons _ h
          · intro h
            cases h with
            | cons _ h1 => exact h1
            | cons₂ _ h1 => exact absurd rfl hb

/-- A text that holds a newline is its bytes before the first newline, that
newline, and a rest. -/
theorem takeWhile_newline (l : List Byte) (h : 10 ∈ l) :
    ∃ tl, l = l.takeWhile (fun b => b != 10) ++ 10 :: tl := by
  induction l with
  | nil => simp at h
  | cons x l ih =>
    by_cases hx : x = 10
    · refine ⟨l, ?_⟩
      rw [hx]
      rfl
    · have hm : 10 ∈ l := by
        rcases List.mem_cons.1 h with h1 | h1
        · exact absurd h1.symm hx
        · exact h1
      obtain ⟨tl, htl⟩ := ih hm
      refine ⟨tl, ?_⟩
      have hx1 : (x != 10) = true := by simp [hx]
      rw [List.takeWhile_cons, hx1, if_pos rfl, List.cons_append, ← htl]

/-- The goroutine of execute goes on from the variables that the reads
leave. -/
theorem executeLoopOn_of_vars (step : ExecVars → List Byte → ExecStep)
    (reads rest : List ReadResult) (v v1 : ExecVars) (h : executeVarsOn step reads v = some v1) :
    executeLoopOn step (reads ++ rest) v = executeLoopOn step rest v1 := by
  induction reads generalizing v with
  | nil =>
    rw [executeVarsOn] at h
    cases h
    rfl
  | cons r reads ih =>
    cases r with
    | fail msg =>
      rw [executeVarsOn] at h
      cases h
    | data p =>
      rw [executeVarsOn] at h
      rw [List.cons_append, executeLoopOn]
      cases hs : step v p with
      | next v2 =>
        rw [hs] at h
        exact ih v2 h
      | done result buf =>
        rw [hs] at h
        cases h
      | crash =>
        rw [hs] at h
        cases h

/-- C20: in the echo phase of execute (the buffer of length 1, nothing held)
a byte equal to the expected byte of the command line moves `idx` on by one,
or sets the large buffer when it is the newline; another byte leaves the
variables as they are; in each case the loop reads again and nothing is sent.
Over bytes that arrive one at a time the loop does not end, and the large
buffer is set exactly when the command line up to and including its first
newline is a subsequence of the bytes. -/
theorem echo_suppression (cp c : List Byte) :
    (∀ (idx : Nat) (b e : Byte), (c ++ bytes "\n")[idx]? = some e →
      executeStep cp (c ++ bytes "\n") ⟨1, idx, []⟩ [b] =
        ExecStep.next (if b = e then
            if e = 10 then ⟨inBufferSize, idx, []⟩ else ⟨1, idx + 1, []⟩
          else ⟨1, idx, []⟩)) ∧
    (∀ bs : List Byte, ∃ v,
      executeVars cp (c ++ bytes "\n") (byteReads bs) ⟨1, 0, []⟩ = some v ∧
      (∀ rest, executeLoop cp (c ++ bytes "\n") (byteReads bs ++ rest) ⟨1, 0, []⟩ =
        executeLoop cp (c ++ bytes "\n") rest v) ∧
      (v.len = inBufferSize ↔
        ((c ++ bytes "\n").takeWhile (fun b => b != 10) ++ [10]).Sublist bs)) := by
  constructor
  · intro idx b e h
    exact executeStep_single_byte cp _ 1 idx b e (by decide) h
  · intro bs
    obtain ⟨tl, htl⟩ := takeWhile_newline (c ++ bytes "\n") (by simp [bytes_newline])
    have hr : ∀ x ∈ (c ++ bytes "\n").takeWhile (fun b => b != 10), x ≠ 10 := by
      intro x hx
      have := List.mem_takeWhile_imp hx
      simpa using this
    obtain ⟨v, hv, hiff⟩ := executeVars_echo cp bs [] _ tl hr
    rw [List.nil_append, ← htl] at hv
    exact ⟨v, hv, fun rest => executeLoopOn_of_vars _ _ rest _ v hv, hiff⟩

/-- The echo of `cmd` arrives with other bytes in between: the large buffer
is set. -/
theorem echo_suppression_witness :
    (executeStep [] (bytes "cmd" ++ bytes "\n") ⟨1, 1, []⟩ [109] =
      ExecStep.next (if (109 : Byte) = 109 then
          if (109 : Byte) = 10 then ⟨inBufferSize, 1, []⟩ else ⟨1, 1 + 1, []⟩
        else ⟨1, 1, []⟩)) ∧
    (∃ v, executeVars [] (bytes "cmd" ++ bytes "\n") (byteReads (bytes "xcmyd\nz"))
        ⟨1, 0, []⟩ = some v ∧ v.len = inBufferSize) :=
  ⟨(echo_suppression [] (bytes "cmd")).1 1 109 109 rfl,
    ((echo_suppression [] (bytes "cmd")).2 (bytes "xcmyd\nz")).elim
      fun v hv => ⟨v, hv.1, hv.2.2.2 (by decide)⟩⟩

/-! ## The prompt index of the handshake -/

/-- The function findPrompt leaves the prompt index and the three hint flags
alone. -/
theorem findPrompt_flags (s : SshAction) (str : List Byte) :
    (findPrompt s str).1.prompt = s.prompt ∧ (findPrompt s str).1.splat = s.splat ∧
      (findPrompt s str).1.splat_cpshell = s.splat_cpshell ∧
      (findPrompt s str).1.xbm = s.xbm := by
  rcases findPrompt_spec s str with ⟨-, h⟩ | ⟨pre, line, -, -, h⟩ <;> rw [h] <;>
    exact ⟨rfl, rfl, rfl, rfl⟩

/-- A loop of waitfor that sent nil stands at a prompt index from 1 to 5. -/
theorem waitforLoop_nil_prompt (reads : List ReadResult) (s : SshAction) (buf : List Byte)
    (h : (waitforLoop reads s buf).sent = some none) :
    1 ≤ (waitforLoop reads s buf).s.prompt ∧ (waitforLoop reads s buf).s.prompt ≤ 5 := by
  unfold waitforLoop at h ⊢
  rcases readLoop_sent _ _ _ _ _ _ h with ⟨msg, -, he⟩ | ⟨s0, buf0, q, -, hstep, -⟩
  · cases he
  · obtain ⟨-, n, hn, hfp⟩ := waitforStep_done hstep
    have hp := (findPrompt_flags { s0 with prompt := n }
      (buf0 ++ Read (inBufferSize - buf0.length) q)).1
    rw [hfp] at hp
    rw [hp]
    show 1 ≤ n ∧ n ≤ 5
    rcases hn with h1 | h1 | h1 | h1 | h1 <;> rw [h1] <;> decide

/-- The method Connect, computed without the padding. -/
theorem Connect_received (s : SshAction) :
    Connect s =
      match selectDone 1401 (readLoop (waitforStepOn received) 1400 s.out s []) with
      | (s1, some e) => (s1, some (New 1006 e.msg))
      | (s1, none) => detect s1 := by
  unfold Connect
  rw [waitfor_received]

/-- C23: when waitfor returns nil the prompt index of the session is one of 1
to 5, detect on that session returns nil, and so does Connect, which calls
detect after the successful waitfor. -/
theorem waitfor_nil_prompt_index (s : SshAction) (h : (waitfor s).2 = none) :
    (1 ≤ (waitfor s).1.prompt ∧ (waitfor s).1.prompt ≤ 5) ∧
    (detect (waitfor s).1).2 = none ∧
    (Connect s).2 = none := by
  have hidx : 1 ≤ (waitfor s).1.prompt ∧ (waitfor s).1.prompt ≤ 5 := by
    unfold waitfor selectDone at h ⊢
    cases hs : (waitforLoop s.out s []).sent with
    | none =>
      rw [hs] at h
      cases h
    | some e =>
      rw [hs] at h
      have he : e = none := h
      rw [he] at hs
      exact waitforLoop_nil_prompt s.out s [] hs
  have hd : (detect (waitfor s).1).2 = none := by
    unfold detect
    obtain ⟨h1, h5⟩ := hidx
    have hcases : (waitfor s).1.prompt = 1 ∨ (waitfor s).1.prompt = 2 ∨
        (waitfor s).1.prompt = 3 ∨ (waitfor s).1.prompt = 4 ∨ (waitfor s).1.prompt = 5 := by
      omega
    rcases hcases with hc | hc | hc | hc | hc <;> rw [hc] <;> simp
    split_ifs <;> rfl
  refine ⟨hidx, hd, ?_⟩
  unfold Connect
  generalize waitfor s = r at h hd
  obtain ⟨s1, e⟩ := r
  cases e with
  | none => exact hd
  | some e => cases h

/-- The handshake of `sessionLogin` succeeds with the prompt index 1, and
detect finds GAiA. -/
theorem waitfor_nil_prompt_index_witness :
    (waitfor sessionLogin).2 = none ∧
    (1 ≤ (waitfor sessionLogin).1.prompt ∧ (waitfor sessionLogin).1.prompt ≤ 5) ∧
    (detect (waitfor sessionLogin).1).2 = none ∧
    (Connect sessionLogin).2 = none :=
  ⟨by rw [waitfor_received]; decide,
    waitfor_nil_prompt_index sessionLogin (by rw [waitfor_received]; decide)⟩

/-! ## The CPSHELL banner and the prompt -/

/-- A pattern that matches at the front of a text matches at the front of
every longer text. -/
theorem matchHere_append (re : Regexp) (a b : List Byte) (h : matchHere re a = true) :
    matchHere re (a ++ b) = true := by
  induction re generalizing a with
  | nil => simp [matchHere]
  | cons it re ih =>
    cases it with
    | lit x =>
      cases a with
      | nil => simp [matchHere] at h
      | cons c a =>
        simp only [matchHere, Bool.and_eq_true, List.cons_append] at h ⊢
        exact ⟨h.1, ih a h.2⟩
    | word =>
      cases a with
      | nil => simp [matchHere] at h
      | cons c a =>
        simp only [matchHere, Bool.and_eq_true, List.cons_append] at h ⊢
        exact ⟨h.1, ih a h.2⟩
    | opt x =>
      cases a with
      | nil =>
        simp only [matchHere] at h
        have h1 := ih [] h
        cases b with
        | nil => simpa [matchHere] using h
        | cons c b =>
          simp only [List.nil_append] at h1 ⊢
          simp only [matchHere, Bool.or_eq_true]
          exact Or.inr h1
      | cons c a =>
        simp only [matchHere, Bool.or_eq_true, Bool.and_eq_true, List.cons_append] at h ⊢
        rcases h with h | h
        · exact Or.inl ⟨h.1, ih a h.2⟩
        · exact Or.inr (ih (c :: a) h)

/-- A pattern that matches in a text matches in every longer text. -/
theorem MatchString_append (re : Regexp) (a b : List Byte) (h : MatchString re a = true) :
    MatchString re (a ++ b) = true := by
  induction a with
  | nil =>
    simp only [MatchString] at h
    have h1 := matchHere_append re [] b h
    simp only [List.nil_append] at h1 ⊢
    cases b with
    | nil => simpa [MatchString] using h
    | cons c b =>
      simp only [MatchString, Bool.or_eq_true]
      exact Or.inl h1
  | cons c a ih =>
    simp only [MatchString, Bool.or_eq_true, List.cons_append] at h ⊢
    rcases h with h | h
    · exact Or.inl (matchHere_append re (c :: a) b h)
    · exact Or.inr (ih h)

/-- The zero bytes at the end of a text do not count for the prompt
patterns. -/
theorem anyPrompt_TrimRight (d : List Byte) : anyPrompt (TrimRight d nul) = anyPrompt d := by
  unfold anyPrompt
  rw [MatchString_TrimRight prompt1 (by decide), MatchString_TrimRight prompt2 (by decide),
    MatchString_TrimRight prompt3 (by decide), MatchString_TrimRight prompt4 (by decide)]

/-- A read that fits into the buffer and after which the CPSHELL banner
matches and no prompt pattern does sets the two CPSHELL flags and keeps the
received bytes. -/
theorem waitforStep_banner (s : SshAction) (buf p : List Byte)
    (hfit : buf.length + p.length ≤ inBufferSize) (hn : p ≠ [])
    (hp : anyPrompt (buf ++ p) = false) (hb : MatchString hint1 (buf ++ p) = true) :
    waitforStep s buf p =
      Step.next { s with splat := true, splat_cpshell := true } (buf ++ p) := by
  have hr : Read (inBufferSize - buf.length) p = p := Read_of_le (by omega)
  have hlen : p.length > 0 := List.length_pos.2 hn
  rw [← anyPrompt_TrimRight] at hp
  rw [← MatchString_TrimRight hint1 (by decide)] at hb
  unfold anyPrompt at hp
  simp only [Bool.or_eq_false_iff] at hp
  obtain ⟨⟨⟨m1, m2⟩, m3⟩, m4⟩ := hp
  rw [waitforStep_received]
  unfold waitforStepOn received
  simp only [hr, m1, m2, m3, m4, hb, Bool.false_eq_true, if_false, if_true]
  rw [if_pos hlen]

/-- A read that fits into the buffer and after which the Expert/Shell pattern
matches and the CLISH pattern does not, with the ipso flag clear, ends the
wait with the index 2. -/
theorem waitforStep_expert (s : SshAction) (buf p : List Byte)
    (hfit : buf.length + p.length ≤ inBufferSize) (hn : p ≠ []) (hi : s.ipso = false)
    (h1 : MatchString prompt1 (buf ++ p) = false)
    (h2 : MatchString prompt2 (buf ++ p) = true) :
    waitforStep s buf p =
      Step.done (findPrompt { s with prompt := 2 } (buf ++ p)).1
        (findPrompt { s with prompt := 2 } (buf ++ p)).2 := by
  have hr : Read (inBufferSize - buf.length) p = p := Read_of_le (by omega)
  have hlen : p.length > 0 := List.length_pos.2 hn
  rw [← MatchString_TrimRight prompt1 (by decide)] at h1
  rw [← MatchString_TrimRight prompt2 (by decide)] at h2
  rw [waitforStep_received]
  unfold waitforStepOn received
  simp only [hr, h1, h2, hi, Bool.false_eq_true, if_false, if_true]
  rw [if_pos hlen]

/-- With the CPSHELL banner in the buffer and the two flags set, reads that
fit into the buffer and bring no prompt leave the session as it is and gather
in the buffer. -/
theorem waitforLoop_after_banner (mid : List (List Byte)) (rest : List ReadResult)
    (s : SshAction) (buf : List Byte)
    (hs : s.splat = true) (hc : s.splat_cpshell = true)
    (hb : MatchString hint1 buf = true)
    (hfit : buf.length + mid.flatten.length ≤ inBufferSize)
    (hp : ∀ m, m ≤ mid.length → anyPrompt (buf ++ (mid.take m).flatten) = false) :
    waitforLoop (mid.map ReadResult.data ++ rest) s buf = waitforLoop rest s (buf ++ mid.flatten) := by
  induction mid generalizing buf with
  | nil => simp
  | cons p mid ih =>
    simp only [List.flatten_cons, List.length_append] at hfit
    have hp1 := hp 1 (by simp)
    simp only [List.take_succ_cons, List.take_zero, List.flatten_cons, List.flatten_nil,
      List.append_nil] at hp1
    have hself : ({ s with splat := true, splat_cpshell := true } : SshAction) = s := by
      cases s
      simp only at hs hc
      simp [hs, hc]
    have hstep : waitforStep s buf p = Step.next s (buf ++ p) := by
      by_cases hn : p = []
      · subst hn
        rw [waitforStep_received]
        unfold waitforStepOn received Read
        simp
      · have := waitforStep_banner s buf p (by omega) hn hp1 (MatchString_append _ _ _ hb)
        rw [hself] at this
        exact this
    have hrest := ih (buf ++ p) (MatchString_append _ _ _ hb)
      (by simp only [List.length_append]; omega)
      (fun m hm => by
        have := hp (m + 1) (by simp only [List.length_cons]; omega)
        simpa [List.append_assoc] using this)
    show waitforLoop (ReadResult.data p :: (mid.map ReadResult.data ++ rest)) s buf = _
    unfold waitforLoop at hrest ⊢
    rw [readLoop, hstep]
    simp only [List.flatten_cons]
    rw [← List.append_assoc]
    exact hrest

/-- What detect makes of a session at the index 2 with both CPSHELL flags
set. -/
theorem detect_cpshell (s : SshAction) (hp : s.prompt = 2) (hs : s.splat = true)
    (hc : s.splat_cpshell = true) :
    (detect s).2 = none ∧ (detect s).1.platform = PlatformSplatCPSHELL := by
  unfold detect
  rw [hp, hs, hc]
  simp

/-- The banner seen first: when the first read of the handshake brings the
CPSHELL banner and no prompt, the reads after it bring no prompt either, and then a
read completes an Expert/Shell prompt (the CLISH pattern not matching), all
within the buffer, with a newline received and the ipso flag clear, then
waitfor returns nil and detect, and with it Connect, classifies the session
as SplatCPSHELL. -/
theorem cpshell_banner_before_prompt (s : SshAction) (d1 : List Byte)
    (mid : List (List Byte)) (dk : List Byte) (rest : List ReadResult)
    (hout : s.out =
      ReadResult.data d1 :: (mid.map ReadResult.data ++ ReadResult.data dk :: rest))
    (hi : s.ipso = false)
    (hfit : d1.length + mid.flatten.length + dk.length ≤ inBufferSize)
    (hb : MatchString hint1 d1 = true)
    (hp : ∀ m, m ≤ mid.length → anyPrompt (d1 ++ (mid.take m).flatten) = false)
    (h1 : MatchString prompt1 (d1 ++ mid.flatten ++ dk) = false)
    (h2 : MatchString prompt2 (d1 ++ mid.flatten ++ dk) = true)
    (hnl : 10 ∈ d1 ++ mid.flatten ++ dk) :
    (waitfor s).2 = none ∧
    (detect (waitfor s).1).1.platform = PlatformSplatCPSHELL ∧
    (Connect s).2 = none ∧
    (Connect s).1.platform = PlatformSplatCPSHELL := by
  have hd1 : d1 ≠ [] := by
    intro h0
    rw [h0] at hb
    exact absurd hb (by decide)
  have hp0 : anyPrompt ([] ++ d1) = false := by
    have := hp 0 (Nat.zero_le _)
    simpa using this
  have hstep1 := waitforStep_banner s [] d1 (by simp only [List.length_nil]; omega) hd1 hp0
    (by simpa using hb)
  have hpm : anyPrompt (d1 ++ mid.flatten) = false := by
    have := hp mid.length (Nat.le_refl _)
    simpa using this
  have hdk : dk ≠ [] := by
    intro h0
    rw [h0, List.append_nil] at h2
    unfold anyPrompt at hpm
    simp only [Bool.or_eq_false_iff] at hpm
    rw [hpm.1.1.2] at h2
    cases h2
  have key : ∀ s1 : SshAction, s1.ipso = false → s1.splat = true → s1.splat_cpshell = true →
      waitforStep s [] d1 = Step.next s1 ([] ++ d1) →
      (selectDone 1401 (waitforLoop
          (ReadResult.data d1 :: (mid.map ReadResult.data ++ ReadResult.data dk :: rest))
          s [])).2 = none ∧
        (detect (selectDone 1401 (waitforLoop
          (ReadResult.data d1 :: (mid.map ReadResult.data ++ ReadResult.data dk :: rest))
          s [])).1).2 = none ∧
        (detect (selectDone 1401 (waitforLoop
          (ReadResult.data d1 :: (mid.map ReadResult.data ++ ReadResult.data dk :: rest))
          s [])).1).1.platform = PlatformSplatCPSHELL := by
    intro s1 hi1 hs1 hc1 hstep1
    have hmid := waitforLoop_after_banner mid (ReadResult.data dk :: rest) s1 d1 hs1 hc1 hb
      (by omega) hp
    have hstepk := waitforStep_expert s1 (d1 ++ mid.flatten) dk
      (by simp only [List.length_append]; omega) hdk hi1 h1 h2
    have hloop : waitforLoop
        (ReadResult.data d1 :: (mid.map ReadResult.data ++ ReadResult.data dk :: rest)) s [] =
        ⟨(findPrompt { s1 with prompt := 2 } (d1 ++ mid.flatten ++ dk)).1,
          d1 ++ mid.flatten ++ Read (inBufferSize - (d1 ++ mid.flatten).length) dk,
          some (findPrompt { s1 with prompt := 2 } (d1 ++ mid.flatten ++ dk)).2, rest⟩ := by
      unfold waitforLoop at hmid ⊢
      rw [readLoop, hstep1]
      show readLoop waitforStep 1400 _ s1 ([] ++ d1) = _
      rw [List.nil_append, hmid, readLoop, hstepk]
    have herr := findPrompt_error { s1 with prompt := 2 } (d1 ++ mid.flatten ++ dk)
    rw [if_pos (Or.inr hnl)] at herr
    have hflags := findPrompt_flags { s1 with prompt := 2 } (d1 ++ mid.flatten ++ dk)
    have hdet := detect_cpshell
      { (findPrompt { s1 with prompt := 2 } (d1 ++ mid.flatten ++ dk)).1 with out := rest }
      hflags.1 (hflags.2.1.trans hs1) (hflags.2.2.1.trans hc1)
    rw [hloop]
    unfold selectDone
    simp only
    exact ⟨herr, hdet.1, hdet.2⟩
  have hkey := key { s with splat := true, splat_cpshell := true } hi rfl rfl hstep1
  have hw : waitfor s = selectDone 1401 (waitforLoop
      (ReadResult.data d1 :: (mid.map ReadResult.data ++ ReadResult.data dk :: rest)) s []) :=
    congrArg (fun o => selectDone 1401 (waitforLoop o s [])) hout
  have hconn : Connect s = detect (waitfor s).1 := by
    unfold Connect
    generalize waitfor s = r at hw
    obtain ⟨r1, e⟩ := r
    have he : e = none := by
      have := congrArg Prod.snd hw
      exact this.trans hkey.1
    rw [he]
  rw [hconn, hw]
  exact ⟨hkey.1, hkey.2.2, hkey.2.1, hkey.2.2⟩

/-- The banner in the first read and the prompt in the second: the session
is classified as SplatCPSHELL. -/
theorem cpshell_banner_before_prompt_witness :
    (waitfor sessionBannerFirst).2 = none ∧
    (detect (waitfor sessionBannerFirst).1).1.platform = PlatformSplatCPSHELL ∧
    (Connect sessionBannerFirst).2 = none ∧
    (Connect sessionBannerFirst).1.platform = PlatformSplatCPSHELL :=
  cpshell_banner_before_prompt sessionBannerFirst (bytes "? for list of commands\n") []
    (bytes "[fw1]# ") [] rfl rfl (by decide) (by decide)
    (fun m hm => by
      have h0 : m = 0 := Nat.le_zero.1 hm
      rw [h0]
      decide)
    (by decide) (by decide) (by decide)

/-- Banner and prompt in one read: the output holds the CPSHELL banner
followed by an Expert/Shell prompt, it arrives in one read, and the session is classified as
Expert, not as SplatCPSHELL. -/
theorem cpshell_banner_counterexample :
    sessionBannerWithPrompt.out =
      [ReadResult.data (bytes "? for list of commands\n" ++ bytes "[fw1]# ")] ∧
    MatchString hint1 (bytes "? for list of commands\n") = true ∧
    MatchString prompt2 (bytes "[fw1]# ") = true ∧
    (waitfor sessionBannerWithPrompt).2 = none ∧
    (Connect sessionBannerWithPrompt).2 = none ∧
    (Connect sessionBannerWithPrompt).1.platform = PlatformExpert ∧
    (Connect sessionBannerWithPrompt).1.platform ≠ PlatformSplatCPSHELL := by
  rw [Connect_received, waitfor_received]
  decide

/-! ## The prompt index that waitfor records -/

/-- A turn of waitfor that sends nothing sets the ipso flag exactly when it
takes the branch of the IPSO banner. -/
theorem waitforStep_next_ipso {s s1 : SshAction} {buf buf1 p : List Byte}
    (h : waitforStep s buf p = Step.next s1 buf1) :
    (s1.ipso = true ↔ s.ipso = true ∨ ipsoBannerTurn buf p = true) ∧
    (anyPrompt (TrimRight buf nul) = false → anyPrompt (TrimRight buf1 nul) = false) := by
  rw [waitforStep_received] at h
  unfold waitforStepOn received at h
  unfold ipsoBannerTurn anyPrompt strAfter
  simp only at h
  by_cases h0 : (Read (inBufferSize - buf.length) p).length > 0
  swap
  · rw [if_neg h0] at h
    injection h with hs hb
    subst hs hb
    simp [h0]
  rw [if_pos h0] at h
  by_cases m1 : MatchString prompt1 (TrimRight (buf ++ Read (inBufferSize - buf.length) p) nul)
      = true
  · rw [if_pos m1] at h
    cases h
  rw [if_neg m1] at h
  by_cases m2 : MatchString prompt2 (TrimRight (buf ++ Read (inBufferSize - buf.length) p) nul)
      = true
  · rw [if_pos m2] at h
    cases h
  rw [if_neg m2] at h
  by_cases m3 : MatchString prompt3 (TrimRight (buf ++ Read (inBufferSize - buf.length) p) nul)
      = true
  · rw [if_pos m3] at h
    cases h
  rw [if_neg m3] at h
  by_cases m4 : MatchString prompt4 (TrimRight (buf ++ Read (inBufferSize - buf.length) p) nul)
      = true
  · rw [if_pos m4] at h
    cases h
  rw [if_neg m4] at h
  have hq : (MatchString prompt1 (TrimRight [] nul) ||
      MatchString prompt2 (TrimRight [] nul) || MatchString prompt3 (TrimRight [] nul) ||
      MatchString prompt4 (TrimRight [] nul)) = false := by decide
  by_cases g1 : MatchString hint1 (TrimRight (buf ++ Read (inBufferSize - buf.length) p) nul)
      = true
  · rw [if_pos g1] at h
    injection h with hs hb
    subst hs hb
    simp [m1, m2, m3, m4, g1]
  rw [if_neg g1] at h
  by_cases g2 : MatchString hint2 (TrimRight (buf ++ Read (inBufferSize - buf.length) p) nul)
      = true
  · rw [if_pos g2] at h
    injection h with hs hb
    subst hs hb
    simp [m1, m2, m3, m4, g1, g2]
  rw [if_neg g2] at h
  by_cases g3 : MatchString hint3 (TrimRight (buf ++ Read (inBufferSize - buf.length) p) nul)
      = true
  · rw [if_pos g3] at h
    injection h with hs hb
    subst hs hb
    refine ⟨?_, fun _ => hq⟩
    simp [m1, m2, m3, m4, g1, g2, g3, h0]
  rw [if_neg g3] at h
  by_cases g4 : MatchString hint4 (TrimRight (buf ++ Read (inBufferSize - buf.length) p) nul)
      = true
  · rw [if_pos g4] at h
    injection h with hs hb
    subst hs hb
    refine ⟨?_, fun _ => hq⟩
    simp [g3]
  rw [if_neg g4] at h
  injection h with hs hb
  subst hs hb
  simp [m1, m2, m3, m4, g3]

/-- A turn of waitfor on a text that a prompt pattern matches ends the wait,
with the index of the first pattern that matches, in the order CLISH,
Expert/Shell, CPM, APM; for Expert/Shell the index is 4 with the ipso flag
set and 2 otherwise.  The ipso flag stays as it is. -/
theorem waitforStep_index (s : SshAction) (buf p : List Byte)
    (hn : 0 < (Read (inBufferSize - buf.length) p).length)
    (hp : anyPrompt (strAfter inBufferSize buf p) = true) :
    ∃ s1 e, waitforStep s buf p = Step.done s1 e ∧ s1.ipso = s.ipso ∧
      s1.prompt =
        if MatchString prompt1 (strAfter inBufferSize buf p) = true then 1
        else if MatchString prompt2 (strAfter inBufferSize buf p) = true then
          if s.ipso = true then 4 else 2
        else if MatchString prompt3 (strAfter inBufferSize buf p) = true then 3
        else 5 := by
  rw [waitforStep_received]
  unfold waitforStepOn received
  unfold anyPrompt strAfter at hp
  unfold strAfter
  simp only
  rw [if_pos hn]
  by_cases m1 : MatchString prompt1 (TrimRight (buf ++ Read (inBufferSize - buf.length) p) nul)
      = true
  · rw [if_pos m1, if_pos m1]
    exact ⟨_, _, rfl, findPrompt_ipso _ _, (findPrompt_flags _ _).1⟩
  rw [if_neg m1, if_neg m1]
  by_cases m2 : MatchString prompt2 (TrimRight (buf ++ Read (inBufferSize - buf.length) p) nul)
      = true
  · rw [if_pos m2, if_pos m2]
    refine ⟨_, _, rfl, ?_, ?_⟩
    · rw [findPrompt_ipso]
      cases s.ipso <;> rfl
    · rw [(findPrompt_flags _ _).1]
      cases s.ipso <;> rfl
  rw [if_neg m2, if_neg m2]
  by_cases m3 : MatchString prompt3 (TrimRight (buf ++ Read (inBufferSize - buf.length) p) nul)
      = true
  · rw [if_pos m3, if_pos m3]
    exact ⟨_, _, rfl, findPrompt_ipso _ _, (findPrompt_flags _ _).1⟩
  rw [if_neg m3, if_neg m3]
  have m4 : MatchString prompt4 (TrimRight (buf ++ Read (inBufferSize - buf.length) p) nul)
      = true := by
    simpa [m1, m2, m3] using hp
  rw [if_pos m4]
  exact ⟨_, _, rfl, findPrompt_ipso _ _, (findPrompt_flags _ _).1⟩

/-- The ipso flag during a wait: it is set when it was set at the start, or
when an earlier read of the wait took the branch of the IPSO banner. -/
theorem waitforLoop_ipso (pre : List ReadResult) (s : SshAction) (buf : List Byte) :
    (waitforLoop pre s buf).s.ipso = true ↔
      s.ipso = true ∨ ∃ pre1 q pre2, pre = pre1 ++ ReadResult.data q :: pre2 ∧
        (waitforLoop pre1 s buf).sent = none ∧
        ipsoBannerTurn (waitforLoop pre1 s buf).buf q = true := by
  induction pre generalizing s buf with
  | nil =>
    constructor
    · intro h
      exact Or.inl h
    · rintro (h | ⟨pre1, q, pre2, hpre, -, -⟩)
      · exact h
      · cases pre1 <;> cases hpre
  | cons r pre ih =>
    cases r with
    | fail msg =>
      constructor
      · intro h
        exact Or.inl h
      · rintro (h | ⟨pre1, q, pre2, hpre, hsent, -⟩)
        · exact h
        · cases pre1 with
          | nil => cases hpre
          | cons r1 pre1 =>
            simp only [List.cons_append, List.cons.injEq] at hpre
            rw [← hpre.1] at hsent
            cases hsent
    | data p =>
      cases hstep : waitforStep s buf p with
      | next s1 buf1 =>
        have hloop : ∀ l, waitforLoop (ReadResult.data p :: l) s buf = waitforLoop l s1 buf1 := by
          intro l
          unfold waitforLoop
          rw [readLoop, hstep]
        have hflag := (waitforStep_next_ipso hstep).1
        rw [hloop, ih s1 buf1, hflag]
        constructor
        · rintro ((h | h) | ⟨pre1, q, pre2, hpre, hsent, hturn⟩)
          · exact Or.inl h
          · exact Or.inr ⟨[], p, pre, rfl, rfl, h⟩
          · refine Or.inr ⟨ReadResult.data p :: pre1, q, pre2, ?_, ?_, ?_⟩
            · rw [hpre]
              rfl
            · rw [hloop]
              exact hsent
            · rw [hloop]
              exact hturn
        · rintro (h | ⟨pre1, q, pre2, hpre, hsent, hturn⟩)
          · exact Or.inl (Or.inl h)
          · cases pre1 with
            | nil =>
              simp only [List.nil_append, List.cons.injEq, ReadResult.data.injEq] at hpre
              rw [← hpre.1] at hturn
              exact Or.inl (Or.inr hturn)
            | cons r1 pre1 =>
              simp only [List.cons_append, List.cons.injEq] at hpre
              rw [← hpre.1, hloop] at hsent hturn
              exact Or.inr ⟨pre1, q, pre2, hpre.2, hsent, hturn⟩
      | done s1 e =>
        have hloop : ∀ l, waitforLoop (ReadResult.data p :: l) s buf =
            ⟨s1, buf ++ Read (inBufferSize - buf.length) p, some e, l⟩ := by
          intro l
          unfold waitforLoop
          rw [readLoop, hstep]
        obtain ⟨hany, n, -, hfp⟩ := waitforStep_done hstep
        have hip : s1.ipso = s.ipso := by
          have := findPrompt_ipso { s with prompt := n }
            (buf ++ Read (inBufferSize - buf.length) p)
          rw [hfp] at this
          exact this
        rw [hloop]
        show s1.ipso = true ↔ _
        rw [hip]
        constructor
        · intro h
          exact Or.inl h
        · rintro (h | ⟨pre1, q, pre2, hpre, hsent, hturn⟩)
          · exact h
          · cases pre1 with
            | nil =>
              simp only [List.nil_append, List.cons.injEq, ReadResult.data.injEq] at hpre
              rw [← hpre.1] at hturn
              unfold ipsoBannerTurn at hturn
              simp only [Bool.and_eq_true, Bool.not_eq_true', decide_eq_true_eq] at hturn
              have hw : (waitforLoop [] s buf).buf = buf := rfl
              rw [hw, hany] at hturn
              exact absurd hturn.1.1.1.2 (by decide)
            | cons r1 pre1 =>
              simp only [List.cons_append, List.cons.injEq] at hpre
              rw [← hpre.1, hloop] at hsent
              cases hsent

/-- C22, as amended: when waitfor ends on a prompt match, the index recorded
is that of the first pattern, tried in the order CLISH, Expert/Shell, CPM,
APM, that matches the accumulated text: 1 for CLISH, 3 for CPM, 5 for APM,
and for Expert/Shell 4 if the ipso flag is set at that moment and 2
otherwise.  The flag is set at that moment exactly when it was set at the
start of the wait or an earlier read of the wait took the branch of the IPSO
banner: the banner matched the text of that read and none of the prompt
patterns, the CPSHELL banner and the CrossBeam banner did. -/
theorem waitfor_records_first_prompt (s : SshAction) (pre : List ReadResult) (p : List Byte)
    (rest : List ReadResult)
    (hsent : (waitforLoop pre s []).sent = none)
    (hp : anyPrompt (strAfter inBufferSize (waitforLoop pre s []).buf p) = true) :
    (waitforLoop (pre ++ ReadResult.data p :: rest) s []).sent ≠ none ∧
    (waitforLoop (pre ++ ReadResult.data p :: rest) s []).s.prompt =
      (if MatchString prompt1 (strAfter inBufferSize (waitforLoop pre s []).buf p) = true then 1
       else if MatchString prompt2 (strAfter inBufferSize (waitforLoop pre s []).buf p) = true
       then if (waitforLoop pre s []).s.ipso = true then 4 else 2
       else if MatchString prompt3 (strAfter inBufferSize (waitforLoop pre s []).buf p) = true
       then 3
       else 5) ∧
    ((waitforLoop pre s []).s.ipso = true ↔
      s.ipso = true ∨ ∃ pre1 q pre2, pre = pre1 ++ ReadResult.data q :: pre2 ∧
        (waitforLoop pre1 s []).sent = none ∧
        ipsoBannerTurn (waitforLoop pre1 s []).buf q = true) := by
  have hquiet : anyPrompt (TrimRight (waitforLoop pre s []).buf nul) = false :=
    readLoop_buf_invariant (fun b => anyPrompt (TrimRight b nul) = false) waitforStep 1400
      (fun _ _ _ _ _ h => (waitforStep_next_ipso h).2) pre s [] hsent (by decide)
  have hn : 0 < (Read (inBufferSize - (waitforLoop pre s []).buf.length) p).length := by
    rcases Nat.eq_zero_or_pos
      (Read (inBufferSize - (waitforLoop pre s []).buf.length) p).length with h0 | h0
    · unfold strAfter at hp
      rw [List.length_eq_zero.1 h0, List.append_nil, hquiet] at hp
      cases hp
    · exact h0
  obtain ⟨s1, e, hstep, -, hidx⟩ :=
    waitforStep_index (waitforLoop pre s []).s (waitforLoop pre s []).buf p hn hp
  have hloop : waitforLoop (pre ++ ReadResult.data p :: rest) s [] =
      ⟨s1, (waitforLoop pre s []).buf ++
        Read (inBufferSize - (waitforLoop pre s []).buf.length) p, some e, rest⟩ := by
    unfold waitforLoop at hsent hstep ⊢
    rw [readLoop_append _ _ _ _ _ _ hsent, readLoop, hstep]
  refine ⟨?_, ?_, waitforLoop_ipso pre s []⟩
  · rw [hloop]
    exact fun h => Option.noConfusion h
  · rw [hloop]
    exact hidx

/-- The IPSO banner in the first read and the prompt in the second: the index
recorded is 4. -/
theorem waitfor_records_first_prompt_witness :
    (waitforLoop ([ReadResult.data (bytes "IPSO (fw1)\nTerminal type? [vt100] ")] ++
        ReadResult.data (bytes "fw1[admin]# ") :: []) sessionIpsoQuery []).s.prompt = 4 ∧
    ipsoBannerTurn [] (bytes "IPSO (fw1)\nTerminal type? [vt100] ") = true ∧
    (waitforLoop [ReadResult.data (bytes "IPSO (fw1)\nTerminal type? [vt100] ")]
        sessionIpsoQuery []).s.ipso = true :=
  have h := waitfor_records_first_prompt sessionIpsoQuery
    [ReadResult.data (bytes "IPSO (fw1)\nTerminal type? [vt100] ")] (bytes "fw1[admin]# ") []
    (by rw [waitforLoop_received]; decide) (by rw [waitforLoop_received]; decide)
  ⟨h.2.1.trans (by rw [waitforLoop_received]; decide), by decide,
    h.2.2.2 (Or.inr ⟨[], _, [], rfl, rfl, by decide⟩)⟩

/-- C22 fails as stated: the first read brings the IPSO banner, together with
the CrossBeam banner, and no prompt; the second read completes an Expert/Shell
prompt, which is the first pattern that matches; and the index recorded is 2,
not 4. -/
theorem waitfor_index_counterexample :
    MatchString hint3 (bytes "Active Alarms Summary\nIPSO (fw1)\n") = true ∧
    anyPrompt (bytes "Active Alarms Summary\nIPSO (fw1)\n") = false ∧
    MatchString prompt1 (bytes "Active Alarms Summary\nIPSO (fw1)\nfw1[admin]# ") = false ∧
    MatchString prompt2 (bytes "Active Alarms Summary\nIPSO (fw1)\nfw1[admin]# ") = true ∧
    (waitfor sessionMaskedIpso).2 = none ∧
    (waitfor sessionMaskedIpso).1.prompt = 2 ∧
    (waitfor sessionMaskedIpso).1.ipso = false := by
  rw [waitfor_received]
  decide

/-! ## The stored prompt (`findPrompt`) -/

/-- A trimmed text does not end in a zero byte. -/
theorem TrimRight_getLast (d : List Byte) : (TrimRight d nul).getLast? ≠ some 0 := by
  induction d with
  | nil => simp [TrimRight]
  | cons c d ih =>
    rw [TrimRight]
    cases h : TrimRight d nul with
    | nil =>
      by_cases hc : c ∈ nul
      · simp [hc]
      · have hc0 : c ≠ 0 := by simpa [nul] using hc
        simp [hc, hc0]
    | cons r rs =>
      rw [h] at ih
      simpa [List.getLast?_cons_cons] using ih

/-- A line that starts with a newline and has no other one keeps both
properties when its trailing zero bytes are cut. -/
theorem TrimRight_newline_line (line : List Byte) (h : 10 ∉ line) :
    ∃ t, TrimRight (10 :: line) nul = 10 :: t ∧ 10 ∉ t := by
  obtain ⟨k, hk⟩ := TrimRight_zeros (10 :: line)
  cases ht : TrimRight (10 :: line) nul with
  | nil =>
    rw [ht] at hk
    cases k with
    | zero => simp at hk
    | succ k => simp [List.replicate_succ] at hk
  | cons c t =>
    rw [ht] at hk
    simp only [List.cons_append, List.cons.injEq] at hk
    obtain ⟨hc, hl⟩ := hk
    refine ⟨t, by rw [← hc], ?_⟩
    intro hm
    apply h
    rw [hl]
    exact List.mem_append_left _ hm

/-- C24: after a successful findPrompt the stored prompt is not empty, begins
with a newline, holds no other newline and does not end in a zero byte;
findPrompt fails exactly when the ipso flag is clear and the text holds no
newline, and then it returns `newline not found` and leaves the session,
with its stored prompt, as it was. -/
theorem findPrompt_stored_prompt (s : SshAction) (str : List Byte) :
    ((findPrompt s str).2 = none →
      (findPrompt s str).1.currentPrompt ≠ [] ∧
      (findPrompt s str).1.currentPrompt.head? = some 10 ∧
      10 ∉ (findPrompt s str).1.currentPrompt.tail ∧
      (findPrompt s str).1.currentPrompt.getLast? ≠ some 0) ∧
    ((findPrompt s str).2 ≠ none ↔ s.ipso = false ∧ 10 ∉ str) ∧
    ((findPrompt s str).2 ≠ none →
      findPrompt s str = (s, some (New 1500 "newline not found"))) := by
  rcases findPrompt_spec s str with ⟨hno, h⟩ | ⟨pre, line, hsplit, hline, h⟩
  · have hi : s.ipso = false := by
      cases hi : s.ipso
      · rfl
      · rw [hi] at hno
        simp at hno
    rw [hi] at hno
    simp only [Bool.false_eq_true, if_false] at hno
    rw [h]
    refine ⟨fun hn => (by cases hn), ?_, fun _ => rfl⟩
    exact ⟨fun _ => ⟨hi, hno⟩, fun _ hn => (by cases hn)⟩
  · obtain ⟨t, ht, h10⟩ := TrimRight_newline_line line hline
    have hlast := TrimRight_getLast (10 :: line)
    rw [h]
    refine ⟨fun _ => ?_, ?_, fun hn => absurd rfl hn⟩
    · show TrimRight (10 :: line) nul ≠ [] ∧ (TrimRight (10 :: line) nul).head? = some 10 ∧
        10 ∉ (TrimRight (10 :: line) nul).tail ∧ (TrimRight (10 :: line) nul).getLast? ≠ some 0
      refine ⟨?_, ?_, ?_, hlast⟩
      · rw [ht]
        exact List.cons_ne_nil _ _
      · rw [ht]
        rfl
      · rw [ht]
        exact h10
    · constructor
      · intro hn
        exact absurd rfl hn
      · rintro ⟨hi, hno⟩
        rw [hi] at hsplit
        simp only [Bool.false_eq_true, if_false] at hsplit
        rw [hsplit] at hno
        simp at hno

/-- The text of a login ends in the prompt `host> ` with zero bytes behind it:
the stored prompt is the newline and the six bytes of the prompt. -/
theorem findPrompt_stored_prompt_witness :
    (findPrompt sessionLogin (bytes "Last login\nhost> \x00\x00")).2 = none ∧
    (findPrompt sessionLogin (bytes "Last login\nhost> \x00\x00")).1.currentPrompt =
      bytes "\nhost> " ∧
    (findPrompt sessionLogin (bytes "Last login\nhost> \x00\x00")).1.currentPrompt ≠ [] ∧
    (findPrompt sessionLogin (bytes "Last login\nhost> \x00\x00")).1.currentPrompt.head? =
      some 10 ∧
    10 ∉ (findPrompt sessionLogin (bytes "Last login\nhost> \x00\x00")).1.currentPrompt.tail ∧
    (findPrompt sessionLogin (bytes "Last login\nhost> \x00\x00")).1.currentPrompt.getLast? ≠
      some 0 :=
  ⟨by decide, by decide,
    (findPrompt_stored_prompt sessionLogin (bytes "Last login\nhost> \x00\x00")).1 (by decide)⟩

/-! ## The operating system (`GetOS`) -/

/-- The chain of tests at the end of GetOS returns a nil error only together
with a class and a type. -/
theorem osOfRelease_nil (result : List Byte) (err : Error)
    (h : (osOfRelease result err).2.2 = none) :
    (osOfRelease result err).1 ≠ OsClassNone ∧ (osOfRelease result err).2.1 ≠ OsTypeNone := by
  unfold osOfRelease at h ⊢
  by_cases m0 : Contains result (bytes "2.4.21-21cp") = true
  · rw [if_pos m0]
    constructor <;> dsimp only <;> decide
  rw [if_neg m0] at h ⊢
  by_cases m1 : Contains result (bytes "2.4.21-21cpsmp") = true
  · rw [if_pos m1]
    constructor <;> dsimp only <;> decide
  rw [if_neg m1] at h ⊢
  by_cases m2 : Contains result (bytes "2.6.18-22cp") = true
  · rw [if_pos m2]
    constructor <;> dsimp only <;> decide
  rw [if_neg m2] at h ⊢
  by_cases m3 : Contains result (bytes "2.6.18-92cp") = true
  · rw [if_pos m3]
    constructor <;> dsimp only <;> decide
  rw [if_neg m3] at h ⊢
  by_cases m4 : Contains result (bytes "2.4.9-42cp") = true
  · rw [if_pos m4]
    constructor <;> dsimp only <;> decide
  rw [if_neg m4] at h ⊢
  by_cases m5 : Contains result (bytes "3.8") = true
  · rw [if_pos m5]
    constructor <;> dsimp only <;> decide
  rw [if_neg m5] at h ⊢
  by_cases m6 : Contains result (bytes "3.7") = true
  · rw [if_pos m6]
    constructor <;> dsimp only <;> decide
  rw [if_neg m6] at h ⊢
  by_cases m7 : Contains result (bytes "3.6") = true
  · rw [if_pos m7]
    constructor <;> dsimp only <;> decide
  rw [if_neg m7] at h ⊢
  by_cases m8 : Contains result (bytes "5.8") = true
  · rw [if_pos m8]
    constructor <;> dsimp only <;> decide
  rw [if_neg m8] at h ⊢
  by_cases mr : Contains result (bytes "Running commands is not allowed") = true
  · rw [if_pos mr] at h
    cases h
  · rw [if_neg mr] at h
    cases h

/-- On the platforms other than XBM a nil error of GetOS comes with a class
and a type. -/
theorem GetOS_nil_off_xbm (s s1 : SshAction) (c : OsClass) (t : OsType)
    (hx : s.platform ≠ PlatformXBM) (h : GetOS s = some (s1, c, t, none)) :
    c ≠ OsClassNone ∧ t ≠ OsTypeNone := by
  have key : ∀ (s2 : SshAction) (result : List Byte) (err : Error),
      some (s2, osOfRelease result err) = some (s1, c, t, none) →
      c ≠ OsClassNone ∧ t ≠ OsTypeNone := by
    intro s2 result err he
    simp only [Option.some.injEq, Prod.mk.injEq] at he
    have hn := osOfRelease_nil result err (by rw [he.2])
    rw [he.2] at hn
    exact hn
  unfold GetOS at h
  rw [if_neg hx] at h
  split_ifs at h with p1 p2 p3
  · split at h
    · split at h
      · cases h
      · exact key _ _ _ h
    · exact key _ _ _ h
  · split at h
    · cases h
    · exact key _ _ _ h
  · split at h
    · cases h
    · exact key _ _ _ h
  · simp only [Option.some.injEq, Prod.mk.injEq] at h
    exact absurd h.2.2.2 (fun hc => Option.noConfusion hc)

/-- On XBM the method GetOS is xbmGetInfo. -/
theorem GetOS_xbm (s : SshAction) (h : s.platform = PlatformXBM) : GetOS s = xbmGetInfo s := by
  have p0 : ¬ (s.platform = PlatformGAiA ∨ s.platform = PlatformSplatCPSHELL) := by
    rw [h]
    decide
  have p2 : ¬ s.platform = PlatformExpert := by
    rw [h]
    decide
  have p3 : ¬ s.platform = PlatformIPSO := by
    rw [h]
    decide
  unfold GetOS
  rw [if_neg p0, if_neg p2, if_neg p3, if_pos h]

/-- The method xbmGetInfo after a successful `show version`. -/
theorem xbmGetInfo_of_execute (s s1 : SshAction) (result : List Byte)
    (h : execute s (bytes "show version") 5 = some (s1, result, none)) :
    xbmGetInfo s = some (s1, xbmVersionLines none (Split result (bytes "\n"))) := by
  unfold xbmGetInfo
  rw [h]

/-- Lines none of which contains `Version:` leave the class and the type None
and the error as it was. -/
theorem xbmVersionLines_no_version (err : Error) (lines : List (List Byte))
    (h : ∀ v ∈ lines, Contains v (bytes "Version:") = false) :
    xbmVersionLines err lines = (OsClassNone, OsTypeNone, err) := by
  induction lines with
  | nil => rfl
  | cons v rest ih =>
    rw [xbmVersionLines, h v (List.mem_cons_self _ _)]
    exact ih (fun w hw => h w (List.mem_cons_of_mem _ hw))

/-- C25, the code at a failing input: on XBM, when the answer to
`show version` has no line with `Version:`, GetOS returns the class None and
the type None with a nil error; on the other platforms an answer that is not
recognised gives the error `unexpected`. -/
theorem GetOS_none_without_error :
    sessionXbmNoVersion.platform = PlatformXBM ∧
    execute sessionXbmNoVersion (bytes "show version") 5 =
      some (sessionXbmNoVersionAfter, bytes "Crossbeam XOS\nUptime 12 days", none) ∧
    GetOS sessionXbmNoVersion =
      some (sessionXbmNoVersionAfter, OsClassNone, OsTypeNone, none) ∧
    osOfRelease (bytes "Crossbeam XOS\nUptime 12 days") none =
      (OsClassNone, OsTypeNone, some (New 2003 "unexpected")) := by
  have he : execute sessionXbmNoVersion (bytes "show version") 5 =
      some (sessionXbmNoVersionAfter, bytes "Crossbeam XOS\nUptime 12 days", none) := by
    rw [execute_received]
    rfl
  refine ⟨rfl, he, ?_, by decide⟩
  rw [GetOS_xbm _ rfl, xbmGetInfo_of_execute _ _ _ he]
  rfl

/-! ## The interfaces of IPSO (`ipsoInterfaces`) -/

/-- The words of a header line leave the two lists alone. -/
theorem ipsoHeaderWords_lists (d : List (List Byte)) (idx : Nat) (ws : List (List Byte))
    (st st1 : IpsoVars) (h : ipsoHeaderWords d idx ws st = some st1) :
    st1.logical = st.logical ∧ st1.physical = st.physical := by
  induction ws generalizing idx st with
  | nil =>
    rw [ipsoHeaderWords] at h
    cases h
    exact ⟨rfl, rfl⟩
  | cons vv rest ih =>
    rw [ipsoHeaderWords] at h
    split_ifs at h
    · have h1 := ih _ _ h
      exact h1
    · split at h
      · cases h
      · have h1 := ih _ _ h
        exact h1
    · have h1 := ih _ _ h
      exact h1

/-- The words of a continuation line leave the two lists alone. -/
theorem ipsoContWords_lists (lib : GoLibrary) (d : List (List Byte)) (idx : Nat)
    (ws : List (List Byte)) (st st1 : IpsoVars) (h : ipsoContWords lib d idx ws st = some st1) :
    st1.logical = st.logical ∧ st1.physical = st.physical := by
  induction ws generalizing idx st with
  | nil =>
    rw [ipsoContWords] at h
    cases h
    exact ⟨rfl, rfl⟩
  | cons vv rest ih =>
    rw [ipsoContWords] at h
    split_ifs at h
    · split at h
      · cases h
      · have h1 := ih _ _ h
        exact h1
    · split at h
      · cases h
      · split at h
        · have h1 := ih _ _ h
          exact h1
        · have h1 := ih _ _ h
          exact h1
    · split at h
      · cases h
      · have h1 := ih _ _ h
        exact h1
    · have h1 := ih _ _ h
      exact h1

/-- A continuation line leaves the two lists alone. -/
theorem ipsoLine_continuation (lib : GoLibrary) (st st1 : IpsoVars) (v : List Byte)
    (hv : v.head? = some 9 ∨ v.head? = some 32) (h : ipsoLine lib st v = some st1) :
    st1.logical = st.logical ∧ st1.physical = st.physical := by
  cases v with
  | nil => simp at hv
  | cons c v =>
    have hc : ¬ (c ≠ 9 ∧ c ≠ 32) := by
      simp only [List.head?_cons, Option.some.injEq] at hv
      intro hne
      rcases hv with h9 | h32
      · exact hne.1 h9
      · exact hne.2 h32
    simp only [ipsoLine] at h
    rw [if_neg hc] at h
    exact ipsoContWords_lists lib _ _ _ _ _ h

/-- Continuation lines leave the two lists alone. -/
theorem ipsoLines_continuation (lib : GoLibrary) (conts : List (List Byte)) (st st1 : IpsoVars)
    (hv : ∀ v ∈ conts, v.head? = some 9 ∨ v.head? = some 32)
    (h : ipsoLines lib conts st = some st1) :
    st1.logical = st.logical ∧ st1.physical = st.physical := by
  induction conts generalizing st with
  | nil =>
    rw [ipsoLines] at h
    cases h
    exact ⟨rfl, rfl⟩
  | cons v rest ih =>
    rw [ipsoLines] at h
    split at h
    · cases h
    · rename_i st2 hline
      have h1 := ipsoLine_continuation lib st st2 v (hv v (List.mem_cons_self _ _)) hline
      have h2 := ih st2 (fun w hw => hv w (List.mem_cons_of_mem _ hw)) h
      exact ⟨h2.1.trans h1.1, h2.2.trans h1.2⟩

/-- The first line of a text leaves the two lists alone: nothing is gathered
before it that could be stored. -/
theorem ipsoLine_first (lib : GoLibrary) (logical : LogicalInterfaces)
    (physical : PhysicalInterfaces) (st1 : IpsoVars) (v : List Byte)
    (h : ipsoLine lib ⟨[], [], [], false, [], logical, physical⟩ v = some st1) :
    st1.logical = logical ∧ st1.physical = physical := by
  cases v with
  | nil => simp [ipsoLine] at h
  | cons c v =>
    simp only [ipsoLine] at h
    split_ifs at h
    · split at h
      · cases h
      · exact ipsoHeaderWords_lists _ _ _ _ _ h
    · exact ipsoContWords_lists lib _ _ _ _ _ h

/-- C26, the code on every text with one interface block: when all lines
after the first are continuation lines (they begin with a tab or a space),
ipsoInterfaces returns the two lists as it got them, whatever the block says:
the interface gathered last is not stored. -/
theorem ipsoInterfaces_last_block_lost (lib : GoLibrary) (result : List Byte)
    (logical : LogicalInterfaces) (physical : PhysicalInterfaces)
    (l : LogicalInterfaces) (p : PhysicalInterfaces) (e : Error)
    (hcont : ∀ v ∈ (Split result (bytes "\n")).tail, v.head? = some 9 ∨ v.head? = some 32)
    (h : ipsoInterfaces lib result logical physical = some (l, p, e)) :
    l = logical ∧ p = physical ∧ e = none := by
  unfold ipsoInterfaces at h
  split at h
  · cases h
  · rename_i st hlines
    simp only [Option.some.injEq, Prod.mk.injEq] at h
    obtain ⟨hl, hp, he⟩ := h
    cases hsplit : Split result (bytes "\n") with
    | nil =>
      rw [hsplit, ipsoLines] at hlines
      cases hlines
      exact ⟨hl.symm, hp.symm, he.symm⟩
    | cons v conts =>
      rw [hsplit] at hlines hcont
      rw [ipsoLines] at hlines
      split at hlines
      · cases hlines
      · rename_i st2 hline
        have h1 := ipsoLine_first lib logical physical st2 v hline
        have h2 := ipsoLines_continuation lib conts st2 st hcont hlines
        exact ⟨hl.symm.trans (h2.1.trans h1.1), hp.symm.trans (h2.2.trans h1.2), he.symm⟩

/-- The interface of `ifconfigOneBlock` is up, has the physical name `eth1`
and the address `192.168.1.1/24`, which the library parses; nothing is
returned for it.  With the header line of a second interface behind it the
same block is stored. -/
theorem ipsoInterfaces_last_block_lost_witness :
    exampleLibrary.net_ParseCIDR (bytes "192.168.1.1/24") =
      Except.ok ([0, 0, 0, 0, 0, 0, 0, 0, 0, 0, 255, 255, 192, 168, 1, 1],
        ⟨[192, 168, 1, 0], [255, 255, 255, 0]⟩) ∧
    ipsoInterfaces exampleLibrary ifconfigOneBlock [] [] = some ([], [], none) ∧
    (([] : LogicalInterfaces) = [] ∧ ([] : PhysicalInterfaces) = [] ∧ (none : Error) = none) ∧
    ipsoInterfaces exampleLibrary ifconfigTwoBlocks [] [] =
      some ([⟨bytes "eth1", bytes "192.168.1.1/24",
          [0, 0, 0, 0, 0, 0, 0, 0, 0, 0, 255, 255, 192, 168, 1, 1], [255, 255, 255, 0]⟩],
        [⟨bytes "eth1", []⟩], none) :=
  ⟨rfl, rfl,
    ipsoInterfaces_last_block_lost exampleLibrary ifconfigOneBlock [] [] [] [] none
      (by decide) rfl,
    rfl⟩

/-- On IPSO the method GetInterfaces after a successful `ifconfig -a`. -/
theorem GetInterfaces_ipso_of_execute (lib : GoLibrary) (s s1 : SshAction) (result : List Byte)
    (hp : s.platform = PlatformIPSO)
    (h : execute s (bytes "ifconfig -a") 10 = some (s1, result, none)) :
    GetInterfaces lib s =
      (ipsoInterfaces lib result [] []).map fun r =>
        (s1, lib.sort_Sort LogicalInterfaces.Less r.1, r.2.2) := by
  have p0 : ¬ (s.platform = PlatformGAiA ∨ s.platform = PlatformSplatCPSHELL) := by
    rw [hp]
    decide
  have p2 : ¬ s.platform = PlatformExpert := by
    rw [hp]
    decide
  unfold GetInterfaces
  simp only
  rw [if_neg p0, if_neg p2, if_pos hp, h]
  simp only
  cases ipsoInterfaces lib result [] [] with
  | none => rfl
  | some r => rfl

/-- C27, the code at failing inputs: ipsoInterfaces panics, whatever the
library functions are, on the empty text, on a text with an empty line, on a
header line without a colon, on a header line that ends in `vlan-id`, on a
continuation line that ends in `phys`, and on a continuation line of five
words that ends in `inet`; and GetInterfaces panics on IPSO when
`ifconfig -a` prints nothing. -/
theorem ipsoInterfaces_panics (lib : GoLibrary) :
    ipsoInterfaces lib [] [] [] = none ∧
    ipsoInterfaces lib (bytes "eth1c0: flags=e7<UP>\n") [] [] = none ∧
    ipsoInterfaces lib (bytes "eth1c0 flags=e7<UP>") [] [] = none ∧
    ipsoInterfaces lib (bytes "eth1c0: flags=e7<UP> vlan-id") [] [] = none ∧
    ipsoInterfaces lib (bytes "eth1c0: flags=e7<UP>\n\tlname phys") [] [] = none ∧
    ipsoInterfaces lib (bytes "eth1c0: flags=e7<UP>\n\tmtu 1500 a b inet") [] [] = none ∧
    execute sessionIpsoNoOutput (bytes "ifconfig -a") 10 =
      some (sessionIpsoNoOutputAfter, [], none) ∧
    GetInterfaces lib sessionIpsoNoOutput = none := by
  have he : execute sessionIpsoNoOutput (bytes "ifconfig -a") 10 =
      some (sessionIpsoNoOutputAfter, [], none) := by
    rw [execute_received]
    rfl
  refine ⟨rfl, rfl, rfl, rfl, rfl, rfl, he, ?_⟩
  rw [GetInterfaces_ipso_of_execute lib _ _ _ rfl he]
  rfl

/-! ## White space (`Fields`, `TrimSpace`) -/

/-- A byte that starts none of the white-space runes. -/
theorem spaceWidth_other (c : Byte) (s : List Byte) (h1 : c ≠ 9) (h2 : c ≠ 10) (h3 : c ≠ 11)
    (h4 : c ≠ 12) (h5 : c ≠ 13) (h6 : c ≠ 32) (h7 : c ≠ 194) (h8 : c ≠ 225) (h9 : c ≠ 226)
    (h10 : c ≠ 227) : spaceWidth (c :: s) = 0 := by
  unfold spaceWidth spaceWidth.match_1
  simp only [dif_neg h1, dif_neg h2, dif_neg h3, dif_neg h4, dif_neg h5, dif_neg h6, dif_neg h7,
    dif_neg h8, dif_neg h9, dif_neg h10]

theorem spaceWidth_194 (d : Byte) (t : List Byte) (h1 : d ≠ 133) (h2 : d ≠ 160) :
    spaceWidth (194 :: d :: t) = 0 := by
  unfold spaceWidth spaceWidth.match_1
  simp [h1, h2]

theorem spaceWidth_225 (d : Byte) (t : List Byte) (h1 : d ≠ 154) :
    spaceWidth (225 :: d :: t) = 0 := by
  unfold spaceWidth spaceWidth.match_1
  simp [h1]

theorem spaceWidth_225_154 (e : Byte) (t : List Byte) (h1 : e ≠ 128) :
    spaceWidth (225 :: 154 :: e :: t) = 0 := by
  unfold spaceWidth spaceWidth.match_1
  simp [h1]

theorem spaceWidth_226 (d : Byte) (t : List Byte) (h1 : d ≠ 128) (h2 : d ≠ 129) :
    spaceWidth (226 :: d :: t) = 0 := by
  unfold spaceWidth spaceWidth.match_1
  simp [h1, h2]

theorem spaceWidth_226_129 (e : Byte) (t : List Byte) (h1 : e ≠ 159) :
    spaceWidth (226 :: 129 :: e :: t) = 0 := by
  unfold spaceWidth spaceWidth.match_1
  simp [h1]

theorem spaceWidth_227 (d : Byte) (t : List Byte) (h1 : d ≠ 128) :
    spaceWidth (227 :: d :: t) = 0 := by
  unfold spaceWidth spaceWidth.match_1
  simp [h1]

theorem spaceWidth_227_128 (e : Byte) (t : List Byte) (h1 : e ≠ 128) :
    spaceWidth (227 :: 128 :: e :: t) = 0 := by
  unfold spaceWidth spaceWidth.match_1
  simp [h1]

/-- The white-space rune at the front of a text is one ASCII white-space
byte, or two or three bytes from 128 on. -/
theorem spaceWidth_cases (c : Byte) (s : List Byte) :
    spaceWidth (c :: s) = 0 ∨
    (spaceWidth (c :: s) = 1 ∧ ((9 ≤ c ∧ c ≤ 13) ∨ c = 32)) ∨
    (∃ d t, s = d :: t ∧ spaceWidth (c :: s) = 2 ∧ 128 ≤ c ∧ 128 ≤ d) ∨
    (∃ d e t, s = d :: e :: t ∧ spaceWidth (c :: s) = 3 ∧ 128 ≤ c ∧ 128 ≤ d ∧ 128 ≤ e) := by
  by_cases h1 : c = 9
  · subst h1
    exact Or.inr (Or.inl ⟨rfl, Or.inl (by decide)⟩)
  by_cases h2 : c = 10
  · subst h2
    exact Or.inr (Or.inl ⟨rfl, Or.inl (by decide)⟩)
  by_cases h3 : c = 11
  · subst h3
    exact Or.inr (Or.inl ⟨rfl, Or.inl (by decide)⟩)
  by_cases h4 : c = 12
  · subst h4
    exact Or.inr (Or.inl ⟨rfl, Or.inl (by decide)⟩)
  by_cases h5 : c = 13
  · subst h5
    exact Or.inr (Or.inl ⟨rfl, Or.inl (by decide)⟩)
  by_cases h6 : c = 32
  · subst h6
    exact Or.inr (Or.inl ⟨rfl, Or.inr rfl⟩)
  by_cases h7 : c = 194
  · subst h7
    cases s with
    | nil => exact Or.inl rfl
    | cons d t =>
      by_cases g1 : d = 133
      · subst g1
        exact Or.inr (Or.inr (Or.inl ⟨_, _, rfl, rfl, by decide, by decide⟩))
      by_cases g2 : d = 160
      · subst g2
        exact Or.inr (Or.inr (Or.inl ⟨_, _, rfl, rfl, by decide, by decide⟩))
      exact Or.inl (spaceWidth_194 d t g1 g2)
  by_cases h8 : c = 225
  · subst h8
    cases s with
    | nil => exact Or.inl rfl
    | cons d t =>
      by_cases g1 : d = 154
      · subst g1
        cases t with
        | nil => exact Or.inl rfl
        | cons e t =>
          by_cases g2 : e = 128
          · subst g2
            exact Or.inr (Or.inr (Or.inr ⟨_, _, _, rfl, rfl, by decide, by decide, by decide⟩))
          exact Or.inl (spaceWidth_225_154 e t g2)
      exact Or.inl (spaceWidth_225 d t g1)
  by_cases h9 : c = 226
  · subst h9
    cases s with
    | nil => exact Or.inl rfl
    | cons d t =>
      by_cases g1 : d = 128
      · subst g1
        cases t with
        | nil => exact Or.inl rfl
        | cons e t =>
          by_cases g2 : (128 ≤ e ∧ e ≤ 138) ∨ e = 168 ∨ e = 169 ∨ e = 175
          · have hw : spaceWidth (226 :: 128 :: e :: t) = 3 := by
              show (if (128 ≤ e ∧ e ≤ 138) ∨ e = 168 ∨ e = 169 ∨ e = 175 then 3 else 0) = 3
              rw [if_pos g2]
            have he : 128 ≤ e := by
              rcases g2 with ⟨h, -⟩ | h | h | h
              · exact h
              · rw [h]
                decide
              · rw [h]
                decide
              · rw [h]
                decide
            exact Or.inr (Or.inr (Or.inr ⟨_, _, _, rfl, hw, by decide, by decide, he⟩))
          · have hw : spaceWidth (226 :: 128 :: e :: t) = 0 := by
              show (if (128 ≤ e ∧ e ≤ 138) ∨ e = 168 ∨ e = 169 ∨ e = 175 then 3 else 0) = 0
              rw [if_neg g2]
            exact Or.inl hw
      by_cases g2 : d = 129
      · subst g2
        cases t with
        | nil => exact Or.inl rfl
        | cons e t =>
          by_cases g3 : e = 159
          · subst g3
            exact Or.inr (Or.inr (Or.inr ⟨_, _, _, rfl, rfl, by decide, by decide, by decide⟩))
          exact Or.inl (spaceWidth_226_129 e t g3)
      exact Or.inl (spaceWidth_226 d t g1 g2)
  by_cases h10 : c = 227
  · subst h10
    cases s with
    | nil => exact Or.inl rfl
    | cons d t =>
      by_cases g1 : d = 128
      · subst g1
        cases t with
        | nil => exact Or.inl rfl
        | cons e t =>
          by_cases g2 : e = 128
          · subst g2
            exact Or.inr (Or.inr (Or.inr ⟨_, _, _, rfl, rfl, by decide, by decide, by decide⟩))
          exact Or.inl (spaceWidth_227_128 e t g2)
      exact Or.inl (spaceWidth_227 d t g1)
  exact Or.inl (spaceWidth_other c s h1 h2 h3 h4 h5 h6 h7 h8 h9 h10)

/-- A field that is begun comes out in the end. -/
theorem fieldsFrom_cur (s : List Byte) (skip : Nat) (cur : List Byte) (h : cur ≠ []) :
    fieldsFrom skip s cur ≠ [] := by
  induction s generalizing skip cur with
  | nil =>
    cases skip <;> simp [fieldsFrom, h]
  | cons c s ih =>
    cases skip with
    | succ k =>
      rw [fieldsFrom]
      exact ih k cur h
    | zero =>
      rw [fieldsFrom]
      split_ifs
      · exact List.cons_ne_nil _ _
      · exact ih 0 (cur ++ [c]) (by simp)

/-- A text with an ASCII byte that is no white space has a field; `skip`
bytes of a rune, all from 128 on, may still be to pass. -/
theorem fieldsFrom_plain (s : List Byte) (skip : Nat) (cur : List Byte)
    (hskip : ∀ i, i < skip → ∀ x, s[i]? = some x → 128 ≤ x)
    (h : ∃ x ∈ s, x < 128 ∧ ¬ ((9 ≤ x ∧ x ≤ 13) ∨ x = 32)) :
    fieldsFrom skip s cur ≠ [] := by
  induction s generalizing skip cur with
  | nil =>
    obtain ⟨x, hx, -⟩ := h
    cases hx
  | cons c s ih =>
    obtain ⟨x, hx, hlt, hws⟩ := h
    cases skip with
    | succ k =>
      rw [fieldsFrom]
      have hc : 128 ≤ c := hskip 0 (Nat.succ_pos k) c (List.getElem?_cons_zero ..)
      have hxs : x ∈ s := by
        rcases List.mem_cons.1 hx with h0 | h0
        · rw [h0] at hlt
          exact absurd hc (Nat.not_le.2 hlt)
        · exact h0
      exact ih k cur (fun i hi y hy => hskip (i + 1) (Nat.succ_lt_succ hi) y
          (by rw [List.getElem?_cons_succ]; exact hy))
        ⟨x, hxs, hlt, hws⟩
    | zero =>
      rw [fieldsFrom]
      rcases spaceWidth_cases c s with h0 | ⟨h1, hc⟩ | ⟨d, t, hs, h2, hc, hd⟩ |
        ⟨d, e, t, hs, h3, hc, hd, he⟩
      · rw [h0, if_neg (Nat.lt_irrefl 0)]
        exact fieldsFrom_cur s 0 (cur ++ [c]) (by simp)
      · have hxs : x ∈ s := by
          rcases List.mem_cons.1 hx with h0 | h0
          · rw [h0] at hws
            exact absurd hc hws
          · exact h0
        rw [h1, if_pos Nat.one_pos]
        split_ifs
        · exact ih 0 [] (fun i hi => absurd hi (Nat.not_lt_zero i)) ⟨x, hxs, hlt, hws⟩
        · exact List.cons_ne_nil _ _
      · have hxs : x ∈ s := by
          rcases List.mem_cons.1 hx with h0 | h0
          · rw [h0] at hlt
            exact absurd hc (Nat.not_le.2 hlt)
          · exact h0
        rw [h2, if_pos (by decide)]
        split_ifs
        · refine ih 1 [] (fun i hi y hy => ?_) ⟨x, hxs, hlt, hws⟩
          have hi0 : i = 0 := by omega
          rw [hi0, hs] at hy
          simp only [List.getElem?_cons_zero, Option.some.injEq] at hy
          rw [← hy]
          exact hd
        · exact List.cons_ne_nil _ _
      · have hxs : x ∈ s := by
          rcases List.mem_cons.1 hx with h0 | h0
          · rw [h0] at hlt
            exact absurd hc (Nat.not_le.2 hlt)
          · exact h0
        rw [h3, if_pos (by decide)]
        split_ifs
        · refine ih 2 [] (fun i hi y hy => ?_) ⟨x, hxs, hlt, hws⟩
          have hi0 : i = 0 ∨ i = 1 := by omega
          rw [hs] at hy
          rcases hi0 with hi0 | hi0
          · rw [hi0] at hy
            simp only [List.getElem?_cons_zero, Option.some.injEq] at hy
            rw [← hy]
            exact hd
          · rw [hi0] at hy
            simp only [List.getElem?_cons_succ, List.getElem?_cons_zero,
              Option.some.injEq] at hy
            rw [← hy]
            exact he
        · exact List.cons_ne_nil _ _

/-- A line that contains `(local)` has a field, so that its last field
exists. -/
theorem Fields_local (v : List Byte) (h : Contains v (bytes "(local)") = true) :
    Fields v ≠ [] := by
  obtain ⟨i, -, hpre⟩ := (Contains_iff _ _).1 h
  have hmem : 40 ∈ v := by
    obtain ⟨t, ht⟩ := hpre
    have h40 : (40 : Byte) ∈ List.drop i v := by
      rw [← ht]
      exact List.mem_append_left _ (by decide)
    exact List.mem_of_mem_drop h40
  exact fieldsFrom_plain v 0 [] (fun i hi => absurd hi (Nat.not_lt_zero i))
    ⟨40, hmem, by decide, by decide⟩

/-! ## The cluster state (`GetCPHA`) -/

/-- The loop of GetCPHA over the lines gives the status of the
specification, and never takes the last of no fields. -/
theorem cphaLines_status (lib : GoLibrary) (lines : List (List Byte)) :
    cphaLines lib lines = some ⟨cphaStatusSpec lib lines⟩ := by
  induction lines with
  | nil => rfl
  | cons v rest ih =>
    rw [cphaLines]
    unfold cphaStatusSpec
    rw [List.find?_cons]
    by_cases hn : Contains v (bytes "not started") = true
    · rw [if_pos hn]
      simp only [hn, Bool.true_or, if_true]
    · have hn' : Contains v (bytes "not started") = false := by
        cases hc : Contains v (bytes "not started")
        · rfl
        · exact absurd hc hn
      rw [if_neg hn]
      by_cases hl : Contains v (bytes "(local)") = true
      · rw [if_pos hl]
        simp only [hn', hl, Bool.false_or, Bool.false_eq_true, if_false]
        have hf := Fields_local v hl
        cases hfs : (Fields v).getLast? with
        | none =>
          rw [List.getLast?_eq_none_iff] at hfs
          exact absurd hfs hf
        | some last =>
          have hd : (Fields v).getLastD [] = last := by
            rw [List.getLastD_eq_getLast?, hfs]
            rfl
          rw [hd]
      · have hl' : Contains v (bytes "(local)") = false := by
          cases hc : Contains v (bytes "(local)")
          · rfl
          · exact absurd hc hl
        rw [if_neg hl, ih]
        simp only [hn', hl', Bool.or_false]
        rfl

/-- For every command output that GetCPHA parses, Status is decided by
the first line that contains `not started` or `(local)`: it is `not_started`
when that line contains `not started`, and otherwise the last of the fields
of the line in lower case; it is empty when no line qualifies.  A line that
contains `(local)` has a field, so that taking the last one stays in range:
the parsing always returns. -/
theorem cphaOf_status (lib : GoLibrary) (s : SshAction) (result : List Byte) :
    cphaOf lib s result none =
      some (s, some ⟨cphaStatusSpec lib (Split result (bytes "\n"))⟩, none) ∧
    (∀ v, Contains v (bytes "(local)") = true →
      ∃ last, (Fields v).getLast? = some last ∧ (Fields v).getLastD [] = last) := by
  constructor
  · unfold cphaOf
    simp only
    rw [cphaLines_status]
  · intro v hv
    have hf := Fields_local v hv
    cases hfs : (Fields v).getLast? with
    | none =>
      rw [List.getLast?_eq_none_iff] at hfs
      exact absurd hfs hf
    | some last =>
      refine ⟨last, rfl, ?_⟩
      rw [List.getLastD_eq_getLast?, hfs]
      rfl

/-- The status of a cluster member that is active, and of one that is not
started. -/
theorem cphaOf_status_example :
    cphaOf exampleLibrary sessionExpert
        (bytes "Cluster Mode: HA\n1 (local) 10.0.0.1 100% Active\n2 10.0.0.2 0% Standby") none =
      some (sessionExpert, some ⟨bytes "active"⟩, none) ∧
    cphaStatusSpec exampleLibrary [bytes "HA module not started."] = bytes "not_started" ∧
    ∃ last, (Fields (bytes "1 (local) 10.0.0.1 100% Active")).getLast? = some last ∧
      (Fields (bytes "1 (local) 10.0.0.1 100% Active")).getLastD [] = last :=
  ⟨((cphaOf_status exampleLibrary sessionExpert
      (bytes "Cluster Mode: HA\n1 (local) 10.0.0.1 100% Active\n2 10.0.0.2 0% Standby")).1).trans
      (by rfl),
    by rfl,
    (cphaOf_status exampleLibrary sessionExpert []).2 _ (by decide)⟩

/-! ## Routes (`GetRoutes`) -/

/-- A text without the separator byte is one piece. -/
theorem splitFrom_single_none (b : Byte) (x cur : List Byte) (h : b ∉ x) :
    splitFrom [b] 0 x cur = [cur ++ x] := by
  induction x generalizing cur with
  | nil => simp [splitFrom]
  | cons c x ih =>
    have hc : c ≠ b := fun e => h (by rw [e]; exact List.mem_cons_self _ _)
    have hx : b ∉ x := fun e => h (List.mem_cons_of_mem _ e)
    have hp : HasPrefix (c :: x) [b] = false := by simp [HasPrefix, hc]
    rw [splitFrom, hp, if_neg (by simp), ih _ hx]
    simp

/-- The first piece of a text ends at the first separator byte. -/
theorem splitFrom_single_sep (b : Byte) (x y cur : List Byte) (h : b ∉ x) :
    splitFrom [b] 0 (x ++ b :: y) cur = (cur ++ x) :: splitFrom [b] 0 y [] := by
  induction x generalizing cur with
  | nil =>
    have hp : HasPrefix (b :: y) [b] = true := by simp [HasPrefix]
    rw [List.nil_append, splitFrom, hp, if_pos rfl]
    simp
  | cons c x ih =>
    have hc : c ≠ b := fun e => h (by rw [e]; exact List.mem_cons_self _ _)
    have hx : b ∉ x := fun e => h (List.mem_cons_of_mem _ e)
    have hp : HasPrefix (c :: (x ++ b :: y)) [b] = false := by simp [HasPrefix, hc]
    rw [List.cons_append, splitFrom, hp, if_neg (by simp), ih _ hx]
    simp

/-- The number of pieces at a separator byte is the number of separators and
one. -/
theorem splitFrom_single_length (b : Byte) (x cur : List Byte) :
    (splitFrom [b] 0 x cur).length = x.count b + 1 := by
  induction x generalizing cur with
  | nil => simp [splitFrom]
  | cons c x ih =>
    rw [splitFrom]
    by_cases hc : c = b
    · have hp : HasPrefix (c :: x) [b] = true := by simp [HasPrefix, hc]
      rw [hp, if_pos rfl]
      simp [ih, hc]
    · have hp : HasPrefix (c :: x) [b] = false := by simp [HasPrefix, hc]
      rw [hp, if_neg (by simp), ih]
      simp [List.count_cons, hc]

/-- A text is one piece at `/` exactly when it holds no `/`. -/
theorem Split_slash_one (f0 : List Byte) :
    (Split f0 (bytes "/")).length = 1 ↔ 47 ∉ f0 := by
  have hb : bytes "/" = [47] := by decide
  unfold Split
  rw [hb, splitFrom_single_length]
  constructor
  · intro h
    have h0 : f0.count 47 = 0 := by omega
    exact List.count_eq_zero.1 h0
  · intro h
    rw [List.count_eq_zero.2 h]

/-- The pieces of a text with no, one and two separator bytes. -/
theorem Split_single (b : Byte) (x y z : List Byte) (hx : b ∉ x) (hy : b ∉ y) (hz : b ∉ z) :
    Split x [b] = [x] ∧ Split (x ++ b :: y) [b] = [x, y] ∧
      Split (x ++ b :: (y ++ b :: z)) [b] = [x, y, z] := by
  unfold Split
  refine ⟨?_, ?_, ?_⟩
  · rw [splitFrom_single_none b x [] hx]
    rfl
  · rw [splitFrom_single_sep b x y [] hx, splitFrom_single_none b y [] hy]
    rfl
  · rw [splitFrom_single_sep b x _ [] hx, splitFrom_single_sep b y z [] hy,
      splitFrom_single_none b z [] hz]
    rfl

/-- How GetRoutes rewrites the destination on Linux. -/
theorem linuxRouteNet_rules :
    linuxRouteNet (bytes "default") = bytes "0.0.0.0/0" ∧
    (∀ f0, 47 ∉ f0 → f0 ≠ bytes "default" → linuxRouteNet f0 = f0 ++ bytes "/32") ∧
    (∀ f0, 47 ∈ f0 → linuxRouteNet f0 = f0) := by
  refine ⟨by decide, ?_, ?_⟩
  · intro f0 h47 hd
    unfold linuxRouteNet
    rw [if_pos ((Split_slash_one f0).2 h47), if_pos hd]
  · intro f0 h47
    unfold linuxRouteNet
    rw [if_neg (fun h => (Split_slash_one f0).1 h h47)]

/-- How ipsoRoutes rewrites the destination. -/
theorem ipsoRouteNet_rules :
    ipsoRouteNet (bytes "default") = bytes "0.0.0.0/0" ∧
    (∀ f0, 47 ∉ f0 → f0 ≠ bytes "default" → ipsoRouteNet f0 = f0 ++ bytes "/32") ∧
    (∀ o1 m, 46 ∉ o1 → 47 ∉ o1 → 47 ∉ m →
      ipsoRouteNet (o1 ++ bytes "/" ++ m) = o1 ++ bytes ".0.0.0" ++ bytes "/" ++ m) ∧
    (∀ o1 o2 m, 46 ∉ o1 → 46 ∉ o2 → 47 ∉ o1 → 47 ∉ o2 → 47 ∉ m →
      ipsoRouteNet (o1 ++ bytes "." ++ o2 ++ bytes "/" ++ m) =
        o1 ++ bytes "." ++ o2 ++ bytes ".0.0" ++ bytes "/" ++ m) ∧
    (∀ o1 o2 o3 m, 46 ∉ o1 → 46 ∉ o2 → 46 ∉ o3 → 47 ∉ o1 → 47 ∉ o2 → 47 ∉ o3 → 47 ∉ m →
      ipsoRouteNet (o1 ++ bytes "." ++ o2 ++ bytes "." ++ o3 ++ bytes "/" ++ m) =
        o1 ++ bytes "." ++ o2 ++ bytes "." ++ o3 ++ bytes ".0" ++ bytes "/" ++ m) := by
  have hs : bytes "/" = [47] := by decide
  have hd : bytes "." = [46] := by decide
  refine ⟨by decide, ?_, ?_, ?_, ?_⟩
  · intro f0 h47 hdef
    unfold ipsoRouteNet
    simp only
    rw [if_pos ((Split_slash_one f0).2 h47), if_pos hdef]
  · intro o1 m h1 g1 gm
    have ha : Split (o1 ++ bytes "/" ++ m) (bytes "/") = [o1, m] := by
      rw [hs, List.append_assoc]
      exact (Split_single 47 o1 m [] g1 gm (List.not_mem_nil _)).2.1
    have hi : Split o1 (bytes ".") = [o1] := by
      rw [hd]
      exact (Split_single 46 o1 [] [] h1 (List.not_mem_nil _) (List.not_mem_nil _)).1
    unfold ipsoRouteNet
    simp only [ha, List.getD_cons_zero, hi]
    rfl
  · intro o1 o2 m h1 h2 g1 g2 gm
    have hn : 47 ∉ o1 ++ bytes "." ++ o2 := by
      rw [hd]
      simp only [List.mem_append, List.mem_singleton, not_or]
      exact ⟨⟨g1, by decide⟩, g2⟩
    have ha : Split (o1 ++ bytes "." ++ o2 ++ bytes "/" ++ m) (bytes "/") =
        [o1 ++ bytes "." ++ o2, m] := by
      rw [hs, List.append_assoc (o1 ++ bytes "." ++ o2)]
      exact (Split_single 47 _ m [] hn gm (List.not_mem_nil _)).2.1
    have hi : Split (o1 ++ bytes "." ++ o2) (bytes ".") = [o1, o2] := by
      rw [hd, List.append_assoc]
      exact (Split_single 46 o1 o2 [] h1 h2 (List.not_mem_nil _)).2.1
    unfold ipsoRouteNet
    simp only [ha, List.getD_cons_zero, hi]
    rfl
  · intro o1 o2 o3 m h1 h2 h3 g1 g2 g3 gm
    have hn : 47 ∉ o1 ++ bytes "." ++ o2 ++ bytes "." ++ o3 := by
      rw [hd]
      simp only [List.mem_append, List.mem_singleton, not_or]
      exact ⟨⟨⟨⟨g1, by decide⟩, g2⟩, by decide⟩, g3⟩
    have ha : Split (o1 ++ bytes "." ++ o2 ++ bytes "." ++ o3 ++ bytes "/" ++ m) (bytes "/") =
        [o1 ++ bytes "." ++ o2 ++ bytes "." ++ o3, m] := by
      rw [hs, List.append_assoc (o1 ++ bytes "." ++ o2 ++ bytes "." ++ o3)]
      exact (Split_single 47 _ m [] hn gm (List.not_mem_nil _)).2.1
    have hi : Split (o1 ++ bytes "." ++ o2 ++ bytes "." ++ o3) (bytes ".") = [o1, o2, o3] := by
      rw [hd]
      have := (Split_single 46 o1 o2 o3 h1 h2 h3).2.2
      simpa [List.append_assoc] using this
    unfold ipsoRouteNet
    simp only [ha, List.getD_cons_zero, hi]
    rfl

/-- Every route that the loop of GetRoutes adds has a destination, rewritten
from the first field of a line, that `net.ParseCIDR` accepts, with the
network that it gives. -/
theorem linuxRouteLines_mem (lib : GoLibrary) (lines : List (List Byte)) (routes0 : Routes)
    (r : NetworkRoute) (h : r ∈ (linuxRouteLines lib lines routes0).1) :
    r ∈ routes0 ∨ ∃ v ∈ lines, r.Net = linuxRouteNet ((Fields v).getD 0 []) ∧
      ∃ ip, lib.net_ParseCIDR r.Net = Except.ok (ip, r.IPNet) := by
  induction lines generalizing routes0 with
  | nil => exact Or.inl h
  | cons v rest ih =>
    rw [linuxRouteLines] at h
    split_ifs at h
    · split at h
      · cases h
      · rename_i ip ipnet hparse
        rcases ih _ h with h1 | ⟨w, hw, hnet, hp⟩
        · rcases List.mem_append.1 h1 with h2 | h2
          · exact Or.inl h2
          · rw [List.mem_singleton] at h2
            refine Or.inr ⟨v, List.mem_cons_self _ _, ?_, ip, ?_⟩
            · rw [h2]
            · rw [h2]
              exact hparse
        · exact Or.inr ⟨w, List.mem_cons_of_mem _ hw, hnet, hp⟩
    · rcases ih _ h with h1 | ⟨w, hw, hnet, hp⟩
      · exact Or.inl h1
      · exact Or.inr ⟨w, List.mem_cons_of_mem _ hw, hnet, hp⟩

/-- The same for the loop of ipsoRoutes. -/
theorem ipsoRouteLines_mem (lib : GoLibrary) (lines : List (List Byte)) (routes0 : Routes)
    (r : NetworkRoute) (h : r ∈ ipsoRouteLines lib lines routes0) :
    r ∈ routes0 ∨ ∃ v ∈ lines, r.Net = ipsoRouteNet ((Fields (TrimSpace v)).getD 0 []) ∧
      ∃ ip, lib.net_ParseCIDR r.Net = Except.ok (ip, r.IPNet) := by
  induction lines generalizing routes0 with
  | nil => exact Or.inl h
  | cons v rest ih =>
    rw [ipsoRouteLines] at h
    split_ifs at h
    · split at h
      · rcases ih _ h with h1 | ⟨w, hw, hnet, hp⟩
        · exact Or.inl h1
        · exact Or.inr ⟨w, List.mem_cons_of_mem _ hw, hnet, hp⟩
      · rename_i ip ipnet hparse
        rcases ih _ h with h1 | ⟨w, hw, hnet, hp⟩
        · rcases List.mem_append.1 h1 with h2 | h2
          · exact Or.inl h2
          · rw [List.mem_singleton] at h2
            refine Or.inr ⟨v, List.mem_cons_self _ _, ?_, ip, ?_⟩
            · rw [h2]
            · rw [h2]
              exact hparse
        · exact Or.inr ⟨w, List.mem_cons_of_mem _ hw, hnet, hp⟩
    · rcases ih _ h with h1 | ⟨w, hw, hnet, hp⟩
      · exact Or.inl h1
      · exact Or.inr ⟨w, List.mem_cons_of_mem _ hw, hnet, hp⟩

/-- In expert mode the method GetRoutes after a successful route command all
of whose destinations parse. -/
theorem GetRoutes_expert_of_execute (lib : GoLibrary) (s s1 : SshAction) (result : List Byte)
    (l : Routes) (hp : s.platform = PlatformExpert)
    (h : execute s (bytes "ip -o -f inet route 2>&1") 10 = some (s1, result, none))
    (hl : linuxRouteLines lib (Split result (bytes "\n")) [] = (l, none)) :
    GetRoutes lib s = some (s1, lib.sort_Sort Routes.Less l, none) := by
  have p0 : ¬ (s.platform = PlatformGAiA ∨ s.platform = PlatformSplatCPSHELL) := by
    rw [hp]
    decide
  unfold GetRoutes
  simp only
  rw [if_neg p0, if_pos hp, h]
  simp only
  rw [hl]

/-- Every route that GetRoutes returns, the library sort returning a
permutation of its input, has a Net that `net.ParseCIDR` accepts, with IPNet
the network parsed from it; Net is the first field of a line as the code
rewrites it: `default` becomes `0.0.0.0/0`, a destination without `/` gets
`/32`, and on IPSO a network of one, two or three numbers before the `/` is
filled up with `.0` to four. -/
theorem GetRoutes_nets (lib : GoLibrary) (s s1 : SshAction) (routes : Routes) (e : Error)
    (hsort : ∀ l : Routes, (lib.sort_Sort Routes.Less l).Perm l)
    (h : GetRoutes lib s = some (s1, routes, e)) :
    (∀ r ∈ routes, (∃ ip, lib.net_ParseCIDR r.Net = Except.ok (ip, r.IPNet)) ∧
      ∃ f0, r.Net = if s.platform = PlatformIPSO then ipsoRouteNet f0 else linuxRouteNet f0) ∧
    (linuxRouteNet (bytes "default") = bytes "0.0.0.0/0" ∧
      ipsoRouteNet (bytes "default") = bytes "0.0.0.0/0") ∧
    (∀ f0, 47 ∉ f0 → f0 ≠ bytes "default" →
      linuxRouteNet f0 = f0 ++ bytes "/32" ∧ ipsoRouteNet f0 = f0 ++ bytes "/32") ∧
    (∀ o1 m, 46 ∉ o1 → 47 ∉ o1 → 47 ∉ m →
      ipsoRouteNet (o1 ++ bytes "/" ++ m) = o1 ++ bytes ".0.0.0" ++ bytes "/" ++ m) ∧
    (∀ o1 o2 m, 46 ∉ o1 → 46 ∉ o2 → 47 ∉ o1 → 47 ∉ o2 → 47 ∉ m →
      ipsoRouteNet (o1 ++ bytes "." ++ o2 ++ bytes "/" ++ m) =
        o1 ++ bytes "." ++ o2 ++ bytes ".0.0" ++ bytes "/" ++ m) ∧
    (∀ o1 o2 o3 m, 46 ∉ o1 → 46 ∉ o2 → 46 ∉ o3 → 47 ∉ o1 → 47 ∉ o2 → 47 ∉ o3 → 47 ∉ m →
      ipsoRouteNet (o1 ++ bytes "." ++ o2 ++ bytes "." ++ o3 ++ bytes "/" ++ m) =
        o1 ++ bytes "." ++ o2 ++ bytes "." ++ o3 ++ bytes ".0" ++ bytes "/" ++ m) := by
  refine ⟨?_, ⟨linuxRouteNet_rules.1, ipsoRouteNet_rules.1⟩,
    fun f0 h47 hd => ⟨linuxRouteNet_rules.2.1 f0 h47 hd, ipsoRouteNet_rules.2.1 f0 h47 hd⟩,
    ipsoRouteNet_rules.2.2.1, ipsoRouteNet_rules.2.2.2.1, ipsoRouteNet_rules.2.2.2.2⟩
  have hnil : lib.sort_Sort Routes.Less [] = [] := List.Perm.eq_nil (hsort [])
  have klin : ∀ (result : List Byte) (l : Routes) (er : Error),
      linuxRouteLines lib (Split result (bytes "\n")) [] = (l, er) →
      ∀ r ∈ lib.sort_Sort Routes.Less l,
        (∃ ip, lib.net_ParseCIDR r.Net = Except.ok (ip, r.IPNet)) ∧ ∃ f0, r.Net = linuxRouteNet f0 := by
    intro result l er hl r hr
    have hr1 : r ∈ (linuxRouteLines lib (Split result (bytes "\n")) []).1 := by
      rw [hl]
      exact (hsort l).mem_iff.1 hr
    rcases linuxRouteLines_mem lib _ [] r hr1 with h0 | ⟨v, -, hnet, hp⟩
    · cases h0
    · exact ⟨hp, _, hnet⟩
  have kip : ∀ (result : List Byte),
      ∀ r ∈ lib.sort_Sort Routes.Less (ipsoRoutes lib result []).1,
        (∃ ip, lib.net_ParseCIDR r.Net = Except.ok (ip, r.IPNet)) ∧ ∃ f0, r.Net = ipsoRouteNet f0 := by
    intro result r hr
    have hr1 : r ∈ ipsoRouteLines lib (Split result (bytes "\n")) [] := (hsort _).mem_iff.1 hr
    rcases ipsoRouteLines_mem lib _ [] r hr1 with h0 | ⟨v, -, hnet, hp⟩
    · cases h0
    · exact ⟨hp, _, hnet⟩
  have fnil : ∀ (a : SshAction) (b : Error),
      some (a, ([] : Routes), b) = some (s1, routes, e) → ∀ r ∈ routes,
        (∃ ip, lib.net_ParseCIDR r.Net = Except.ok (ip, r.IPNet)) ∧
        ∃ f0, r.Net = if s.platform = PlatformIPSO then ipsoRouteNet f0 else linuxRouteNet f0 := by
    intro a b hab r hr
    simp only [Option.some.injEq, Prod.mk.injEq] at hab
    rw [← hab.2.1] at hr
    cases hr
  have flin : ∀ (a : SshAction) (result : List Byte) (l : Routes) (er b : Error),
      s.platform ≠ PlatformIPSO →
      linuxRouteLines lib (Split result (bytes "\n")) [] = (l, er) →
      some (a, lib.sort_Sort Routes.Less l, b) = some (s1, routes, e) → ∀ r ∈ routes,
        (∃ ip, lib.net_ParseCIDR r.Net = Except.ok (ip, r.IPNet)) ∧
        ∃ f0, r.Net = if s.platform = PlatformIPSO then ipsoRouteNet f0 else linuxRouteNet f0 := by
    intro a result l er b hpl hl hab r hr
    simp only [Option.some.injEq, Prod.mk.injEq] at hab
    rw [← hab.2.1] at hr
    simp only [if_neg hpl]
    exact klin result l er hl r hr
  unfold GetRoutes at h
  simp only at h
  split_ifs at h with p1 p2 p3 p4
  · have hpl : s.platform ≠ PlatformIPSO := by
      rcases p1 with p | p <;> rw [p] <;> decide
    split at h
    · split at h
      · cases h
      · split at h
        · exact fnil _ _ h
        · split at h
          · exact fnil _ _ h
          · rename_i hl
            exact flin _ _ _ _ _ hpl hl h
    · split at h
      · exact fnil _ _ h
      · rename_i hl
        exact flin _ _ _ _ _ hpl hl h
  · have hpl : s.platform ≠ PlatformIPSO := by
      rw [p2]
      decide
    split at h
    · cases h
    · split at h
      · exact fnil _ _ h
      · split at h
        · exact fnil _ _ h
        · rename_i hl
          exact flin _ _ _ _ _ hpl hl h
  · split at h
    · cases h
    · rw [hnil] at h
      exact fnil _ _ h
    · intro r hr
      simp only [Option.some.injEq, Prod.mk.injEq] at h
      rw [← h.2.1] at hr
      simp only [if_pos p3]
      exact kip _ r hr
  · exact fnil _ _ h
  · exact fnil _ _ h

/-- The three routes of `routeOutput`: the default route becomes `0.0.0.0/0`
and the host route gets `/32`. -/
theorem GetRoutes_nets_witness :
    GetRoutes exampleLibrary sessionRoutes = some (sessionRoutesAfter, routeList, none) ∧
    ∀ r ∈ routeList,
      (∃ ip, exampleLibrary.net_ParseCIDR r.Net = Except.ok (ip, r.IPNet)) ∧
      ∃ f0, r.Net =
        if sessionRoutes.platform = PlatformIPSO then ipsoRouteNet f0 else linuxRouteNet f0 :=
  have hg : GetRoutes exampleLibrary sessionRoutes = some (sessionRoutesAfter, routeList, none) :=
    (GetRoutes_expert_of_execute exampleLibrary sessionRoutes sessionRoutesAfter routeOutput _ rfl
      (by rw [execute_received]; rfl) rfl).trans (by rfl)
  ⟨hg, (GetRoutes_nets exampleLibrary sessionRoutes sessionRoutesAfter routeList none
    (fun l => List.perm_insertionSort _ l) hg).1⟩

/-! ## White space at the two ends of a text (`TrimSpace`) -/

theorem spaceWidthRev_other (c d : Byte) (t : List Byte) (h1 : c ≠ 9) (h2 : c ≠ 10)
    (h3 : c ≠ 11) (h4 : c ≠ 12) (h5 : c ≠ 13) (h6 : c ≠ 32) (h7 : c ≠ 133) (h8 : c ≠ 160)
    (h9 : c ≠ 128) (h10 : c ≠ 159) (hd : d ≠ 128) : spaceWidthRev (c :: d :: t) = 0 := by
  unfold spaceWidthRev spaceWidthRev.match_1
  simp only [dif_neg h1, dif_neg h2, dif_neg h3, dif_neg h4, dif_neg h5, dif_neg h6, dif_neg h7,
    dif_neg h8, dif_neg h9, dif_neg h10, dif_neg hd]

theorem spaceWidthRev_other_one (c : Byte) (h1 : c ≠ 9) (h2 : c ≠ 10)
    (h3 : c ≠ 11) (h4 : c ≠ 12) (h5 : c ≠ 13) (h6 : c ≠ 32) (h7 : c ≠ 133) (h8 : c ≠ 160)
    (h9 : c ≠ 128) (h10 : c ≠ 159) : spaceWidthRev [c] = 0 := by
  unfold spaceWidthRev spaceWidthRev.match_1
  simp only [dif_neg h1, dif_neg h2, dif_neg h3, dif_neg h4, dif_neg h5, dif_neg h6, dif_neg h7,
    dif_neg h8, dif_neg h9, dif_neg h10]

theorem spaceWidthRev_other_two (c : Byte) (h1 : c ≠ 9) (h2 : c ≠ 10)
    (h3 : c ≠ 11) (h4 : c ≠ 12) (h5 : c ≠ 13) (h6 : c ≠ 32) (h7 : c ≠ 133) (h8 : c ≠ 160)
    (h9 : c ≠ 128) (h10 : c ≠ 159) : spaceWidthRev [c, 128] = 0 := by
  unfold spaceWidthRev spaceWidthRev.match_1
  simp [h1, h2, h3, h4, h5, h6, h7, h8, h9, h10]

theorem spaceWidthRev_other_128 (c e : Byte) (t : List Byte) (h1 : c ≠ 9) (h2 : c ≠ 10)
    (h3 : c ≠ 11) (h4 : c ≠ 12) (h5 : c ≠ 13) (h6 : c ≠ 32) (h7 : c ≠ 133) (h8 : c ≠ 160)
    (h9 : c ≠ 128) (h10 : c ≠ 159) (he : e ≠ 226) : spaceWidthRev (c :: 128 :: e :: t) = 0 := by
  unfold spaceWidthRev spaceWidthRev.match_1
  simp [h1, h2, h3, h4, h5, h6, h7, h8, h9, h10, he]

theorem spaceWidthRev_other_128_226 (c : Byte) (t : List Byte) (h1 : c ≠ 9) (h2 : c ≠ 10)
    (h3 : c ≠ 11) (h4 : c ≠ 12) (h5 : c ≠ 13) (h6 : c ≠ 32) (h7 : c ≠ 133) (h8 : c ≠ 160)
    (h9 : c ≠ 128) (h10 : c ≠ 159) :
    spaceWidthRev (c :: 128 :: 226 :: t) =
      if (128 ≤ c ∧ c ≤ 138) ∨ c = 168 ∨ c = 169 ∨ c = 175 then 3 else 0 := by
  unfold spaceWidthRev spaceWidthRev.match_1
  simp [h1, h2, h3, h4, h5, h6, h7, h8, h9, h10]
theorem spaceWidthRev_ascii (c : Byte) (s : List Byte)
    (h : c = 9 ∨ c = 10 ∨ c = 11 ∨ c = 12 ∨ c = 13 ∨ c = 32) : spaceWidthRev (c :: s) = 1 := by
  rcases s with _ | ⟨d, _ | ⟨e, t⟩⟩
  · rcases h with h | h | h | h | h | h <;> subst h <;> rfl
  · by_cases hd : d = 128
    · subst hd
      rcases h with h | h | h | h | h | h <;> subst h <;> rfl
    · rcases h with h | h | h | h | h | h <;> subst h <;>
        unfold spaceWidthRev spaceWidthRev.match_1 <;> simp [hd]
  · by_cases hd : d = 128
    · subst hd
      by_cases he : e = 226
      · subst he
        rcases h with h | h | h | h | h | h <;> subst h <;> rfl
      · rcases h with h | h | h | h | h | h <;> subst h <;>
          unfold spaceWidthRev spaceWidthRev.match_1 <;> simp [he]
    · rcases h with h | h | h | h | h | h <;> subst h <;>
        unfold spaceWidthRev spaceWidthRev.match_1 <;> simp [hd]

theorem spaceWidthRev_133 (d : Byte) (t : List Byte) (h1 : d ≠ 194) (h2 : d ≠ 128) :
    spaceWidthRev (133 :: d :: t) = 0 := by
  unfold spaceWidthRev spaceWidthRev.match_1
  simp [h1, h2]

theorem spaceWidthRev_133_128 (e : Byte) (t : List Byte) (h1 : e ≠ 226) :
    spaceWidthRev (133 :: 128 :: e :: t) = 0 := by
  unfold spaceWidthRev spaceWidthRev.match_1
  simp [h1]

theorem spaceWidthRev_160 (d : Byte) (t : List Byte) (h1 : d ≠ 194) (h2 : d ≠ 128) :
    spaceWidthRev (160 :: d :: t) = 0 := by
  unfold spaceWidthRev spaceWidthRev.match_1
  simp [h1, h2]

theorem spaceWidthRev_160_128 (e : Byte) (t : List Byte) (h1 : e ≠ 226) :
    spaceWidthRev (160 :: 128 :: e :: t) = 0 := by
  unfold spaceWidthRev spaceWidthRev.match_1
  simp [h1]

theorem spaceWidthRev_128 (d : Byte) (t : List Byte) (h1 : d ≠ 154) (h2 : d ≠ 128) :
    spaceWidthRev (128 :: d :: t) = 0 := by
  unfold spaceWidthRev spaceWidthRev.match_1
  simp [h1, h2]

theorem spaceWidthRev_128_154 (e : Byte) (t : List Byte) (h1 : e ≠ 225) :
    spaceWidthRev (128 :: 154 :: e :: t) = 0 := by
  unfold spaceWidthRev spaceWidthRev.match_1
  simp [h1]

theorem spaceWidthRev_128_128 (e : Byte) (t : List Byte) (h1 : e ≠ 227) (h2 : e ≠ 226) :
    spaceWidthRev (128 :: 128 :: e :: t) = 0 := by
  unfold spaceWidthRev spaceWidthRev.match_1
  simp [h1, h2]

theorem spaceWidthRev_159 (d : Byte) (t : List Byte) (h1 : d ≠ 129) (h2 : d ≠ 128) :
    spaceWidthRev (159 :: d :: t) = 0 := by
  unfold spaceWidthRev spaceWidthRev.match_1
  simp [h1, h2]

theorem spaceWidthRev_159_129 (e : Byte) (t : List Byte) (h1 : e ≠ 226) :
    spaceWidthRev (159 :: 129 :: e :: t) = 0 := by
  unfold spaceWidthRev spaceWidthRev.match_1
  simp [h1]

theorem spaceWidthRev_159_128 (e : Byte) (t : List Byte) (h1 : e ≠ 226) :
    spaceWidthRev (159 :: 128 :: e :: t) = 0 := by
  unfold spaceWidthRev spaceWidthRev.match_1
  simp [h1]

/-- The white-space rune at the end of a text is one ASCII white-space byte,
or two or three bytes from 128 on. -/
theorem spaceWidthRev_cases (c : Byte) (s : List Byte) :
    spaceWidthRev (c :: s) = 0 ∨
    (spaceWidthRev (c :: s) = 1 ∧ ((9 ≤ c ∧ c ≤ 13) ∨ c = 32)) ∨
    (∃ d t, s = d :: t ∧ spaceWidthRev (c :: s) = 2 ∧ 128 ≤ c ∧ 128 ≤ d) ∨
    (∃ d e t, s = d :: e :: t ∧ spaceWidthRev (c :: s) = 3 ∧ 128 ≤ c ∧ 128 ≤ d ∧ 128 ≤ e) := by
  by_cases h1 : c = 9
  · subst h1
    exact Or.inr (Or.inl ⟨spaceWidthRev_ascii _ s (Or.inl rfl), Or.inl (by decide)⟩)
  by_cases h2 : c = 10
  · subst h2
    exact Or.inr (Or.inl ⟨spaceWidthRev_ascii _ s (Or.inr (Or.inl rfl)), Or.inl (by decide)⟩)
  by_cases h3 : c = 11
  · subst h3
    exact Or.inr (Or.inl ⟨spaceWidthRev_ascii _ s (Or.inr (Or.inr (Or.inl rfl))), Or.inl (by decide)⟩)
  by_cases h4 : c = 12
  · subst h4
    exact Or.inr (Or.inl ⟨spaceWidthRev_ascii _ s (Or.inr (Or.inr (Or.inr (Or.inl rfl)))), Or.inl (by decide)⟩)
  by_cases h5 : c = 13
  · subst h5
    exact Or.inr (Or.inl ⟨spaceWidthRev_ascii _ s (Or.inr (Or.inr (Or.inr (Or.inr (Or.inl rfl))))), Or.inl (by decide)⟩)
  by_cases h6 : c = 32
  · subst h6
    exact Or.inr (Or.inl ⟨spaceWidthRev_ascii _ s (Or.inr (Or.inr (Or.inr (Or.inr (Or.inr rfl))))), Or.inr rfl⟩)
  by_cases h7 : c = 133
  · subst h7
    cases s with
    | nil => exact Or.inl rfl
    | cons d t =>
      by_cases g1 : d = 194
      · subst g1
        exact Or.inr (Or.inr (Or.inl ⟨_, _, rfl, rfl, by decide, by decide⟩))
      by_cases g2 : d = 128
      · subst g2
        cases t with
        | nil => exact Or.inl rfl
        | cons e t =>
          by_cases g3 : e = 226
          · subst g3
            exact Or.inr (Or.inr (Or.inr ⟨_, _, _, rfl, rfl, by decide, by decide, by decide⟩))
          exact Or.inl (spaceWidthRev_133_128 e t g3)
      exact Or.inl (spaceWidthRev_133 d t g1 g2)
  by_cases h8 : c = 160
  · subst h8
    cases s with
    | nil => exact Or.inl rfl
    | cons d t =>
      by_cases g1 : d = 194
      · subst g1
        exact Or.inr (Or.inr (Or.inl ⟨_, _, rfl, rfl, by decide, by decide⟩))
      by_cases g2 : d = 128
      · subst g2
        cases t with
        | nil => exact Or.inl rfl
        | cons e t =>
          by_cases g3 : e = 226
          · subst g3
            exact Or.inl rfl
          exact Or.inl (spaceWidthRev_160_128 e t g3)
      exact Or.inl (spaceWidthRev_160 d t g1 g2)
  by_cases h9 : c = 128
  · subst h9
    cases s with
    | nil => exact Or.inl rfl
    | cons d t =>
      by_cases g1 : d = 154
      · subst g1
        cases t with
        | nil => exact Or.inl rfl
        | cons e t =>
          by_cases g3 : e = 225
          · subst g3
            exact Or.inr (Or.inr (Or.inr ⟨_, _, _, rfl, rfl, by decide, by decide, by decide⟩))
          exact Or.inl (spaceWidthRev_128_154 e t g3)
      by_cases g2 : d = 128
      · subst g2
        cases t with
        | nil => exact Or.inl rfl
        | cons e t =>
          by_cases g3 : e = 227
          · subst g3
            exact Or.inr (Or.inr (Or.inr ⟨_, _, _, rfl, rfl, by decide, by decide, by decide⟩))
          by_cases g4 : e = 226
          · subst g4
            exact Or.inr (Or.inr (Or.inr ⟨_, _, _, rfl, rfl, by decide, by decide, by decide⟩))
          exact Or.inl (spaceWidthRev_128_128 e t g3 g4)
      exact Or.inl (spaceWidthRev_128 d t g1 g2)
  by_cases h10 : c = 159
  · subst h10
    cases s with
    | nil => exact Or.inl rfl
    | cons d t =>
      by_cases g1 : d = 129
      · subst g1
        cases t with
        | nil => exact Or.inl rfl
        | cons e t =>
          by_cases g3 : e = 226
          · subst g3
            exact Or.inr (Or.inr (Or.inr ⟨_, _, _, rfl, rfl, by decide, by decide, by decide⟩))
          exact Or.inl (spaceWidthRev_159_129 e t g3)
      by_cases g2 : d = 128
      · subst g2
        cases t with
        | nil => exact Or.inl rfl
        | cons e t =>
          by_cases g3 : e = 226
          · subst g3
            exact Or.inl rfl
          exact Or.inl (spaceWidthRev_159_128 e t g3)
      exact Or.inl (spaceWidthRev_159 d t g1 g2)
  cases s with
  | nil => exact Or.inl (spaceWidthRev_other_one c h1 h2 h3 h4 h5 h6 h7 h8 h9 h10)
  | cons d t =>
    by_cases g1 : d = 128
    · subst g1
      cases t with
      | nil => exact Or.inl (spaceWidthRev_other_two c h1 h2 h3 h4 h5 h6 h7 h8 h9 h10)
      | cons e t =>
        by_cases g2 : e = 226
        · subst g2
          have hw := spaceWidthRev_other_128_226 c t h1 h2 h3 h4 h5 h6 h7 h8 h9 h10
          by_cases g3 : (128 ≤ c ∧ c ≤ 138) ∨ c = 168 ∨ c = 169 ∨ c = 175
          · rw [if_pos g3] at hw
            have hc : 128 ≤ c := by
              rcases g3 with ⟨h, -⟩ | h | h | h
              · exact h
              · rw [h]
                decide
              · rw [h]
                decide
              · rw [h]
                decide
            exact Or.inr (Or.inr (Or.inr ⟨_, _, _, rfl, hw, hc, by decide, by decide⟩))
          · rw [if_neg g3] at hw
            exact Or.inl hw
        exact Or.inl (spaceWidthRev_other_128 c e t h1 h2 h3 h4 h5 h6 h7 h8 h9 h10 g2)
    exact Or.inl (spaceWidthRev_other c d t h1 h2 h3 h4 h5 h6 h7 h8 h9 h10 g1)

/-- The text without the white space at its front, and the bytes that were
taken away: each is an ASCII white-space byte or a byte from 128 on. -/
theorem trimFrontFrom_split (width : List Byte → Nat)
    (hw : ∀ c s, width (c :: s) = 0 ∨
      (width (c :: s) = 1 ∧ ((9 ≤ c ∧ c ≤ 13) ∨ c = 32)) ∨
      (∃ d t, s = d :: t ∧ width (c :: s) = 2 ∧ 128 ≤ c ∧ 128 ≤ d) ∨
      (∃ d e t, s = d :: e :: t ∧ width (c :: s) = 3 ∧ 128 ≤ c ∧ 128 ≤ d ∧ 128 ≤ e)) :
    ∀ (n : Nat) (s : List Byte), s.length ≤ n →
      ∃ a, s = a ++ trimFrontFrom width 0 s ∧ ∀ x ∈ a, solid x = false := by
  have hasc : ∀ c : Byte, ((9 ≤ c ∧ c ≤ 13) ∨ c = 32) → solid c = false := by
    intro c hc
    unfold solid
    rcases hc with ⟨h1, h2⟩ | h
    · simp [h1, h2]
    · simp [h]
  have hhigh : ∀ c : Byte, 128 ≤ c → solid c = false := by
    intro c hc
    unfold solid
    have : ¬ c < 128 := Nat.not_lt.2 hc
    simp [this]
  intro n
  induction n with
  | zero =>
    intro s hs
    have : s = [] := List.length_eq_zero.1 (Nat.le_zero.1 hs)
    subst this
    exact ⟨[], rfl, by simp⟩
  | succ n ih =>
    intro s hs
    cases s with
    | nil => exact ⟨[], rfl, by simp⟩
    | cons c s =>
      have hlen : s.length ≤ n := Nat.le_of_succ_le_succ hs
      have hstep : trimFrontFrom width 0 (c :: s) =
          if 0 < width (c :: s) then trimFrontFrom width (width (c :: s) - 1) s else c :: s := rfl
      rcases hw c s with h0 | ⟨h1, hc⟩ | ⟨d, t, hs1, h2, hc, hd⟩ | ⟨d, e, t, hs1, h3, hc, hd, he⟩
      · refine ⟨[], ?_, by simp⟩
        rw [hstep, h0]
        rfl
      · obtain ⟨a, ha, hall⟩ := ih s hlen
        refine ⟨c :: a, ?_, ?_⟩
        · rw [hstep, h1]
          show c :: s = c :: (a ++ trimFrontFrom width 0 s)
          rw [← ha]
        · intro x hx
          rcases List.mem_cons.1 hx with hx | hx
          · rw [hx]
            exact hasc c hc
          · exact hall x hx
      · subst hs1
        obtain ⟨a, ha, hall⟩ := ih t (Nat.le_of_succ_le hlen)
        refine ⟨c :: d :: a, ?_, ?_⟩
        · rw [hstep, h2]
          show c :: d :: t = c :: d :: (a ++ trimFrontFrom width 0 t)
          rw [← ha]
        · intro x hx
          rcases List.mem_cons.1 hx with hx | hx
          · rw [hx]
            exact hhigh c hc
          rcases List.mem_cons.1 hx with hx | hx
          · rw [hx]
            exact hhigh d hd
          · exact hall x hx
      · subst hs1
        obtain ⟨a, ha, hall⟩ := ih t (Nat.le_of_succ_le (Nat.le_of_succ_le hlen))
        refine ⟨c :: d :: e :: a, ?_, ?_⟩
        · rw [hstep, h3]
          show c :: d :: e :: t = c :: d :: e :: (a ++ trimFrontFrom width 0 t)
          rw [← ha]
        · intro x hx
          rcases List.mem_cons.1 hx with hx | hx
          · rw [hx]
            exact hhigh c hc
          rcases List.mem_cons.1 hx with hx | hx
          · rw [hx]
            exact hhigh d hd
          rcases List.mem_cons.1 hx with hx | hx
          · rw [hx]
            exact hhigh e he
          · exact hall x hx

/-- The trimmed text is the text without white space at its two ends. -/
theorem TrimSpace_split (s : List Byte) :
    ∃ a c, s = a ++ TrimSpace s ++ c ∧ (∀ x ∈ a, solid x = false) ∧
      ∀ x ∈ c, solid x = false := by
  obtain ⟨a, ha, hall⟩ := trimFrontFrom_split spaceWidth spaceWidth_cases s.length s (Nat.le_refl _)
  obtain ⟨c, hc, hcall⟩ := trimFrontFrom_split spaceWidthRev spaceWidthRev_cases
    (trimFrontFrom spaceWidth 0 s).reverse.length (trimFrontFrom spaceWidth 0 s).reverse
    (Nat.le_refl _)
  refine ⟨a, c.reverse, ?_, hall, ?_⟩
  · have h1 : trimFrontFrom spaceWidth 0 s = TrimSpace s ++ c.reverse := by
      have := congrArg List.reverse hc
      rw [List.reverse_reverse, List.reverse_append] at this
      exact this
    rw [List.append_assoc, ← h1]
    exact ha
  · intro x hx
    exact hcall x (List.mem_reverse.1 hx)

/-- `Contains` holds exactly when `sub` is a piece of the text. -/
theorem Contains_iff_infix (s p : List Byte) : Contains s p = true ↔ p <:+: s := by
  rw [Contains_iff]
  constructor
  · rintro ⟨i, -, h⟩
    exact h.isInfix.trans (List.drop_suffix i s).isInfix
  · rintro ⟨u, v, h⟩
    refine ⟨u.length, ?_, ?_⟩
    · rw [← h]
      simp
    · rw [← h, List.append_assoc, List.drop_left]
      exact List.prefix_append _ _

/-- A piece that starts with a solid byte does not start in white space. -/
theorem infix_of_infix_append_left (a b m : List Byte) (y : Byte) (m1 : List Byte)
    (hm : m = y :: m1) (hy : solid y = true) (ha : ∀ x ∈ a, solid x = false)
    (h : m <:+: a ++ b) : m <:+: b := by
  induction a with
  | nil => exact h
  | cons x a ih =>
    rw [List.cons_append, List.infix_cons_iff] at h
    rcases h with h | h
    · exfalso
      rw [hm] at h
      have hxy : y = x := (List.cons_prefix_cons.1 h).1
      have := ha x (List.mem_cons_self _ _)
      rw [← hxy, hy] at this
      cases this
    · exact ih (fun z hz => ha z (List.mem_cons_of_mem _ hz)) h

/-- Trimming neither removes nor adds an occurrence of a text that starts and
ends with a solid byte. -/
theorem Contains_TrimSpace (s m : List Byte) (h1 : m.head?.any solid = true)
    (h2 : m.reverse.head?.any solid = true) : Contains (TrimSpace s) m = Contains s m := by
  obtain ⟨a, c, hs, ha, hc⟩ := TrimSpace_split s
  have key : m <:+: TrimSpace s ↔ m <:+: s := by
    constructor
    · intro h
      rw [hs]
      exact h.trans (List.infix_append a (TrimSpace s) c)
    · intro h
      rw [hs, List.append_assoc] at h
      obtain ⟨y, m1, hm⟩ : ∃ y m1, m = y :: m1 := by
        cases m with
        | nil => cases h1
        | cons y m1 => exact ⟨y, m1, rfl⟩
      have hy : solid y = true := by
        rw [hm] at h1
        exact h1
      have hb := infix_of_infix_append_left a _ m y m1 hm hy ha h
      obtain ⟨z, m2, hmr⟩ : ∃ z m2, m.reverse = z :: m2 := by
        cases hr : m.reverse with
        | nil =>
          rw [hr] at h2
          cases h2
        | cons z m2 => exact ⟨z, m2, rfl⟩
      have hz : solid z = true := by
        rw [hmr] at h2
        exact h2
      have hb2 : m.reverse <:+: c.reverse ++ (TrimSpace s).reverse := by
        rw [← List.reverse_append]
        exact List.reverse_infix.2 hb
      have := infix_of_infix_append_left c.reverse _ m.reverse z m2 hmr hz
        (fun x hx => hc x (List.mem_reverse.1 hx)) hb2
      exact List.reverse_infix.1 this
  have e1 := Contains_iff_infix (TrimSpace s) m
  have e2 := Contains_iff_infix s m
  cases hx : Contains (TrimSpace s) m <;> cases hy : Contains s m
  · rfl
  · exact absurd (e1.2 (key.2 (e2.1 hy))) (by rw [hx]; decide)
  · exact absurd (e2.2 (key.1 (e1.1 hx))) (by rw [hy]; decide)
  · rfl

/-! ## The markers of `GetOS` -/

/-- The goroutine of execute sends an error only with an empty result. -/
theorem executeLoopOn_error_result (step : ExecVars → List Byte → ExecStep) :
    ∀ (reads : List ReadResult) (v : ExecVars) (result buf : List Byte) (e : SshError)
      (rest : List ReadResult),
      executeLoopOn step reads v = ExecEnd.sent result (some e) buf rest → result = [] := by
  intro reads
  induction reads with
  | nil =>
    intro v result buf e rest h
    cases h
  | cons r reads ih =>
    intro v result buf e rest h
    cases r with
    | fail msg =>
      injection h with h1
      exact h1.symm
    | data p =>
      unfold executeLoopOn at h
      cases hs : step v p with
      | next v1 =>
        rw [hs] at h
        exact ih v1 result buf e rest h
      | done r1 b1 =>
        rw [hs] at h
        injection h with _ h2
        cases h2
      | crash =>
        rw [hs] at h
        cases h

/-- An error of execute comes with an empty result. -/
theorem execute_error_result (s s1 : SshAction) (cmd result : List Byte) (t : Nat) (e : SshError)
    (h : execute s cmd t = some (s1, result, some e)) : result = [] := by
  unfold execute at h
  cases hl : executeLoop s.currentPrompt (cmd ++ bytes "\n") s.out ⟨1, 0, []⟩ with
  | sent r err buf out =>
    rw [hl] at h
    injection h with h
    injection h with _ h
    injection h with h1 h2
    subst h1
    subst h2
    exact executeLoopOn_error_result _ _ _ _ _ _ _ hl
  | blocked =>
    rw [hl] at h
    injection h with h
    injection h with _ h
    injection h with h1 _
    exact h1.symm
  | crash =>
    rw [hl] at h
    cases h

/-- The chain of tests of GetOS does not depend on the white space around the
output. -/
theorem osOfRelease_TrimSpace (r : List Byte) (err : Error) :
    osOfRelease (TrimSpace r) err = osOfRelease r err := by
  unfold osOfRelease
  rw [Contains_TrimSpace r (bytes "2.4.21-21cp") rfl rfl,
    Contains_TrimSpace r (bytes "2.4.21-21cpsmp") rfl rfl,
    Contains_TrimSpace r (bytes "2.6.18-22cp") rfl rfl,
    Contains_TrimSpace r (bytes "2.6.18-92cp") rfl rfl,
    Contains_TrimSpace r (bytes "2.4.9-42cp") rfl rfl,
    Contains_TrimSpace r (bytes "3.8") rfl rfl,
    Contains_TrimSpace r (bytes "3.7") rfl rfl,
    Contains_TrimSpace r (bytes "3.6") rfl rfl,
    Contains_TrimSpace r (bytes "5.8") rfl rfl,
    Contains_TrimSpace r (bytes "Running commands is not allowed") rfl rfl]

/-- The chain of tests of GetOS after a command without error is the search
for the first marker. -/
theorem osOfRelease_spec (r : List Byte) : osOfRelease r none = osSpec r := by
  unfold osOfRelease osSpec osMarkers
  by_cases m0 : Contains r (bytes "2.4.21-21cp") = true
  · simp only [List.find?_cons, m0, if_true]
  have n0 : Contains r (bytes "2.4.21-21cp") = false := by simpa using m0
  by_cases m1 : Contains r (bytes "2.4.21-21cpsmp") = true
  · simp only [List.find?_cons, n0, m1, if_true]
    rfl
  have n1 : Contains r (bytes "2.4.21-21cpsmp") = false := by simpa using m1
  by_cases m2 : Contains r (bytes "2.6.18-22cp") = true
  · simp only [List.find?_cons, n0, n1, m2, if_true]
    rfl
  have n2 : Contains r (bytes "2.6.18-22cp") = false := by simpa using m2
  by_cases m3 : Contains r (bytes "2.6.18-92cp") = true
  · simp only [List.find?_cons, n0, n1, n2, m3, if_true]
    rfl
  have n3 : Contains r (bytes "2.6.18-92cp") = false := by simpa using m3
  by_cases m4 : Contains r (bytes "2.4.9-42cp") = true
  · simp only [List.find?_cons, n0, n1, n2, n3, m4, if_true]
    rfl
  have n4 : Contains r (bytes "2.4.9-42cp") = false := by simpa using m4
  by_cases m5 : Contains r (bytes "3.8") = true
  · simp only [List.find?_cons, n0, n1, n2, n3, n4, m5, if_true]
    rfl
  have n5 : Contains r (bytes "3.8") = false := by simpa using m5
  by_cases m6 : Contains r (bytes "3.7") = true
  · simp only [List.find?_cons, n0, n1, n2, n3, n4, n5, m6, if_true]
    rfl
  have n6 : Contains r (bytes "3.7") = false := by simpa using m6
  by_cases m7 : Contains r (bytes "3.6") = true
  · simp only [List.find?_cons, n0, n1, n2, n3, n4, n5, n6, m7, if_true]
    rfl
  have n7 : Contains r (bytes "3.6") = false := by simpa using m7
  by_cases m8 : Contains r (bytes "5.8") = true
  · simp only [List.find?_cons, n0, n1, n2, n3, n4, n5, n6, n7, m8, if_true]
    rfl
  have n8 : Contains r (bytes "5.8") = false := by simpa using m8
  simp only [List.find?_cons, List.find?_nil, n0, n1, n2, n3, n4, n5, n6, n7, n8]
  rfl

/-- The chain of tests of GetOS on what a command returned is the search for
the first marker in the output of the command. -/
theorem osOfRelease_of_execute (s s1 : SshAction) (cmd result : List Byte) (t : Nat)
    (err : Error) (h : execute s cmd t = some (s1, result, err)) :
    osOfRelease (trimmedIfOk result err) err = osSpec result := by
  cases err with
  | none =>
    unfold trimmedIfOk
    rw [if_pos rfl, osOfRelease_TrimSpace, osOfRelease_spec]
  | some e =>
    have hr := execute_error_result s s1 cmd result t e h
    subst hr
    rfl

/-- C28, as amended: on GAiA, SplatCPSHELL, Expert and IPSO the method GetOS
returns what the first marker that occurs in the output of the `uname` command gives, the
markers being tried in the order of `osMarkers`; when none occurs it returns
the class and type None, with the error `running commands is not allowed` if
the output has the text `Running commands is not allowed` and with the error
`unexpected` otherwise.  The output is what execute returned, before it is
trimmed, and it is empty when expert mode could not be entered; GetOS ends
whenever the command does. -/
theorem GetOS_first_marker (s : SshAction)
    (hp : s.platform = PlatformGAiA ∨ s.platform = PlatformSplatCPSHELL ∨
      s.platform = PlatformExpert ∨ s.platform = PlatformIPSO) :
    GetOS s = (unameOutput s).map fun r => (r.1, osSpec r.2.1) := by
  unfold GetOS unameOutput
  by_cases hc : s.platform = PlatformGAiA ∨ s.platform = PlatformSplatCPSHELL
  · rw [if_pos hc, if_pos hc]
    rcases he : expertEnter s with ⟨s1, _ | e⟩
    · dsimp only
      cases hx : execute s1 (bytes "uname -r 2>&1") 5 with
      | none => rfl
      | some r =>
        obtain ⟨s2, result, err⟩ := r
        dsimp only [Option.map]
        rw [osOfRelease_of_execute _ _ _ _ _ _ hx]
    · rfl
  rw [if_neg hc, if_neg hc]
  by_cases hx : s.platform = PlatformExpert
  · rw [if_pos hx, if_pos hx]
    cases hx : execute s (bytes "uname -r 2>&1") 5 with
    | none => rfl
    | some r =>
      obtain ⟨s2, result, err⟩ := r
      dsimp only [Option.map]
      rw [osOfRelease_of_execute _ _ _ _ _ _ hx]
  rw [if_neg hx, if_neg hx]
  have hi : s.platform = PlatformIPSO := by
    rcases hp with h | h | h | h
    · exact absurd (Or.inl h) hc
    · exact absurd (Or.inr h) hc
    · exact absurd h hx
    · exact h
  rw [if_pos hi, if_pos hi]
  cases hx : execute s (bytes "uname -r") 5 with
  | none => rfl
  | some r =>
    obtain ⟨s2, result, err⟩ := r
    dsimp only [Option.map]
    rw [osOfRelease_of_execute _ _ _ _ _ _ hx]

/-- In expert mode the switch of GetOS is the command. -/
theorem unameOutput_expert (s : SshAction) (h : s.platform = PlatformExpert) :
    unameOutput s = execute s (bytes "uname -r 2>&1") 5 := by
  unfold unameOutput
  have h1 : ¬ (s.platform = PlatformGAiA ∨ s.platform = PlatformSplatCPSHELL) := by
    rw [h]
    decide
  rw [if_neg h1, if_pos h]

/-- An instance of C28: the release `2.6.18-92cpx86_64` is that of R70.1. -/
theorem GetOS_first_marker_witness :
    (sessionUname.platform = PlatformGAiA ∨ sessionUname.platform = PlatformSplatCPSHELL ∨
      sessionUname.platform = PlatformExpert ∨ sessionUname.platform = PlatformIPSO) ∧
    unameOutput sessionUname =
      some (sessionUnameAfter, bytes "\r\n2.6.18-92cpx86_64\r", none) ∧
    GetOS sessionUname = some (sessionUnameAfter, OsClassSPLAT, OsTypeR70_1, none) :=
  have hu : unameOutput sessionUname =
      some (sessionUnameAfter, bytes "\r\n2.6.18-92cpx86_64\r", none) := by
    rw [unameOutput_expert _ rfl, execute_received]
    rfl
  ⟨Or.inr (Or.inr (Or.inl rfl)), hu,
    (GetOS_first_marker sessionUname (Or.inr (Or.inr (Or.inl rfl)))).trans (by rw [hu]; rfl)⟩

/-! ## The interfaces of Linux (`GetInterfaces`) -/

/-- The first piece of a text split at a byte is the text before the first
such byte. -/
theorem splitFrom_single_first (b : Byte) (x cur : List Byte) :
    (splitFrom [b] 0 x cur).getD 0 [] = cur ++ x.takeWhile fun c => c != b := by
  induction x generalizing cur with
  | nil => simp [splitFrom]
  | cons c x ih =>
    rw [splitFrom]
    by_cases hc : c = b
    · have hp : HasPrefix (c :: x) [b] = true := by simp [HasPrefix, hc]
      rw [hp, if_pos rfl]
      simp [hc]
    · have hp : HasPrefix (c :: x) [b] = false := by simp [HasPrefix, hc]
      rw [hp, if_neg (by simp), ih]
      simp [hc]

/-- The text of an address before its first `/`. -/
theorem Split_slash_first (t : List Byte) :
    (Split t (bytes "/")).getD 0 [] = t.takeWhile fun c => c != 47 := by
  have hb : bytes "/" = [47] := by decide
  unfold Split
  rw [hb, splitFrom_single_first]
  rfl

/-- The loop of GetInterfaces adds, behind what it was given, one interface
for each line that gives one, with the second field as IfName and the fourth
as IfIP. -/
theorem linuxInterfaceLines_spec (lib : GoLibrary) (lines : List (List Byte))
    (logical : LogicalInterfaces) :
    (linuxInterfaceLines lib lines logical).map (fun i => (i.IfName, i.IfIP)) =
      logical.map (fun i => (i.IfName, i.IfIP)) ++ interfacesSpec lib lines := by
  induction lines generalizing logical with
  | nil => simp [linuxInterfaceLines, interfacesSpec]
  | cons v rest ih =>
    unfold linuxInterfaceLines
    simp only
    have hspec : ∀ b, isInterfaceLine lib v = b →
        interfacesSpec lib (v :: rest) =
          if b then ((Fields v).getD 1 [], (Fields v).getD 3 []) :: interfacesSpec lib rest
          else interfacesSpec lib rest := by
      intro b hb
      unfold interfacesSpec
      rw [List.filter_cons, hb]
      cases b <;> rfl
    by_cases h2 : 2 < (Fields v).length
    · rw [if_pos h2]
      by_cases hlo : HasPrefix ((Fields v).getD 1 []) (bytes "lo") = true
      · have hn : isInterfaceLine lib v = false := by
          unfold isInterfaceLine
          rw [hlo]
          simp
        rw [hlo, hspec _ hn]
        simp only [Bool.not_true, Bool.false_eq_true, if_false]
        exact ih logical
      · have hlo1 : HasPrefix ((Fields v).getD 1 []) (bytes "lo") = false := by
          simpa using hlo
        rw [hlo1]
        simp only [Bool.not_false, if_true]
        by_cases h4 : 4 < (Fields v).length
        · rw [if_pos h4]
          cases hip : lib.net_ParseIP ((Split ((Fields v).getD 3 []) (bytes "/")).getD 0 []) with
          | none =>
            have hn : isInterfaceLine lib v = false := by
              unfold isInterfaceLine
              rw [← Split_slash_first, hip]
              simp
            rw [hspec _ hn]
            exact ih logical
          | some addr =>
            have hn : isInterfaceLine lib v = true := by
              unfold isInterfaceLine
              rw [← Split_slash_first, hip, hlo1]
              simp [h4]
            rw [hspec _ hn]
            simp only
            rw [ih]
            simp
        · have hn : isInterfaceLine lib v = false := by
            unfold isInterfaceLine
            simp [h4]
          rw [if_neg h4, hspec _ hn]
          exact ih logical
    · have hn : isInterfaceLine lib v = false := by
        unfold isInterfaceLine
        have : ¬ 4 < (Fields v).length := fun h => h2 (by omega)
        simp [this]
      rw [if_neg h2, hspec _ hn]
      exact ih logical
/-- The order of Go strings is total: a text that is not below another is
equal to it or above it. -/
theorem lessString_total (a b : List Byte) (h : lessString b a = false) :
    a = b ∨ lessString a b = true := by
  induction a generalizing b with
  | nil =>
    cases b with
    | nil => exact Or.inl rfl
    | cons y t => exact Or.inr rfl
  | cons x s ih =>
    cases b with
    | nil => cases h
    | cons y t =>
      unfold lessString at h ⊢
      rw [Bool.or_eq_false_iff, decide_eq_false_iff_not, Bool.and_eq_false_iff] at h
      obtain ⟨h1, h2⟩ := h
      by_cases hxy : x < y
      · exact Or.inr (by simp [hxy])
      · have hxe : x = y := Nat.le_antisymm (Nat.not_lt.1 h1) (Nat.not_lt.1 hxy)
        subst hxe
        rcases h2 with h2 | h2
        · simp at h2
        · rcases ih t h2 with h3 | h3
          · exact Or.inl (by rw [h3])
          · exact Or.inr (by simp [h3])

/-- No text is below itself. -/
theorem lessString_irrefl (t : List Byte) : lessString t t = false := by
  induction t with
  | nil => rfl
  | cons c t ih => simp [lessString, ih]

/-- The order of Go strings is transitive. -/
theorem lessString_trans (a b c : List Byte) (h1 : lessString a b = true)
    (h2 : lessString b c = true) : lessString a c = true := by
  induction a generalizing b c with
  | nil =>
    cases b with
    | nil => cases h1
    | cons y t =>
      cases c with
      | nil => cases h2
      | cons z u => rfl
  | cons x s ih =>
    cases b with
    | nil => cases h1
    | cons y t =>
      cases c with
      | nil => cases h2
      | cons z u =>
        unfold lessString at h1 h2 ⊢
        rw [Bool.or_eq_true, decide_eq_true_iff, Bool.and_eq_true, beq_iff_eq] at h1 h2 ⊢
        rcases h1 with h1 | ⟨e1, h1⟩ <;> rcases h2 with h2 | ⟨e2, h2⟩
        · exact Or.inl (Nat.lt_trans h1 h2)
        · exact Or.inl (e2 ▸ h1)
        · exact Or.inl (e1 ▸ h2)
        · exact Or.inr ⟨e1.trans e2, ih t u h1 h2⟩

/-- Sorting by insertion puts no interface behind one with a greater name. -/
theorem insertionSort_Less (l : LogicalInterfaces) :
    (l.insertionSort fun a b => LogicalInterfaces.Less a b = true).Pairwise
      fun a b => LogicalInterfaces.Less b a = false := by
  have hins : ∀ (a : NetworkLogicalInterface) (l : LogicalInterfaces),
      l.Pairwise (fun a b => LogicalInterfaces.Less b a = false) →
      (l.orderedInsert (fun a b => LogicalInterfaces.Less a b = true) a).Pairwise
        fun a b => LogicalInterfaces.Less b a = false := by
    intro a l
    induction l with
    | nil =>
      intro _
      simp
    | cons b l ih =>
      intro hl
      rw [List.orderedInsert]
      by_cases hab : LogicalInterfaces.Less a b = true
      · rw [if_pos hab]
        refine List.Pairwise.cons ?_ hl
        intro x hx
        cases hxa : LogicalInterfaces.Less x a with
        | false => rfl
        | true =>
          have hxb : LogicalInterfaces.Less x b = true := lessString_trans _ _ _ hxa hab
          rcases List.mem_cons.1 hx with e | hm
          · subst e
            have hirr : LogicalInterfaces.Less x x = false := lessString_irrefl _
            rw [hirr] at hxb
            cases hxb
          · have := (List.pairwise_cons.1 hl).1 x hm
            rw [this] at hxb
            cases hxb
      · rw [if_neg hab]
        have hl1 := List.pairwise_cons.1 hl
        refine List.Pairwise.cons ?_ (ih hl1.2)
        intro x hx
        rcases (List.mem_orderedInsert _).1 hx with e | hm
        · rw [e]
          simpa using hab
        · exact hl1.1 x hm
  induction l with
  | nil => simp
  | cons a l ih =>
    rw [List.insertionSort]
    exact hins a _ ih
/-- An error of the command of GetInterfaces comes with an empty output. -/
theorem ipAddrOutput_error (s s1 : SshAction) (out : List Byte) (e : SshError)
    (h : ipAddrOutput s = some (s1, out, some e)) : out = [] := by
  unfold ipAddrOutput at h
  by_cases hc : s.platform = PlatformGAiA ∨ s.platform = PlatformSplatCPSHELL
  · rw [if_pos hc] at h
    rcases he : expertEnter s with ⟨s0, _ | e0⟩
    · rw [he] at h
      dsimp only at h
      cases hx : execute s0 (bytes "ip -o -f inet addr 2>&1") 10 with
      | none =>
        rw [hx] at h
        cases h
      | some r =>
        obtain ⟨s2, result, err⟩ := r
        rw [hx] at h
        dsimp only at h
        injection h with h
        injection h with _ h
        injection h with h1 h2
        subst h1
        subst h2
        exact execute_error_result _ _ _ _ _ _ hx
    · rw [he] at h
      cases h
  · rw [if_neg hc] at h
    by_cases hx : s.platform = PlatformExpert
    · rw [if_pos hx] at h
      exact execute_error_result _ _ _ _ _ _ h
    · rw [if_neg hx] at h
      cases h

/-- On the Linux platforms GetInterfaces panics when the command does. -/
theorem GetInterfaces_linux_none (lib : GoLibrary) (s : SshAction)
    (hp : s.platform = PlatformGAiA ∨ s.platform = PlatformSplatCPSHELL ∨
      s.platform = PlatformExpert) (h : ipAddrOutput s = none) : GetInterfaces lib s = none := by
  unfold ipAddrOutput at h
  unfold GetInterfaces
  dsimp only
  by_cases hc : s.platform = PlatformGAiA ∨ s.platform = PlatformSplatCPSHELL
  · rw [if_pos hc] at h ⊢
    rcases he : expertEnter s with ⟨s0, _ | e0⟩
    · rw [he] at h
      dsimp only at h ⊢
      cases hx : execute s0 (bytes "ip -o -f inet addr 2>&1") 10 with
      | none => rfl
      | some r =>
        rw [hx] at h
        cases h
    · rw [he] at h
      cases h
  · have hx : s.platform = PlatformExpert := by
      rcases hp with h1 | h1 | h1
      · exact absurd (Or.inl h1) hc
      · exact absurd (Or.inr h1) hc
      · exact h1
    rw [if_neg hc, if_pos hx] at h ⊢
    rw [h]

/-- On the Linux platforms GetInterfaces returns the sorted interfaces of the
lines of the output, or an empty list with error 3002 when the command
failed. -/
theorem GetInterfaces_linux_value (lib : GoLibrary) (s s1 : SshAction) (out : List Byte)
    (err : Error)
    (hp : s.platform = PlatformGAiA ∨ s.platform = PlatformSplatCPSHELL ∨
      s.platform = PlatformExpert) (h : ipAddrOutput s = some (s1, out, err)) :
    GetInterfaces lib s =
      some (s1,
        if err = none then
          lib.sort_Sort LogicalInterfaces.Less
            (linuxInterfaceLines lib (Split out (bytes "\n")) [])
        else [],
        err.map fun e => New 3002 e.msg) := by
  unfold ipAddrOutput at h
  unfold GetInterfaces
  dsimp only
  by_cases hc : s.platform = PlatformGAiA ∨ s.platform = PlatformSplatCPSHELL
  · rw [if_pos hc] at h ⊢
    rcases he : expertEnter s with ⟨s0, _ | e0⟩
    · rw [he] at h
      dsimp only at h ⊢
      cases hx : execute s0 (bytes "ip -o -f inet addr 2>&1") 10 with
      | none =>
        rw [hx] at h
        cases h
      | some r =>
        obtain ⟨s2, result, err2⟩ := r
        rw [hx] at h
        dsimp only at h ⊢
        injection h with h
        injection h with h0 h
        injection h with h1 h2
        subst h0
        subst h1
        subst h2
        cases err2 <;> rfl
    · rw [he] at h
      dsimp only at h ⊢
      injection h with h
      injection h with h0 h
      injection h with h1 h2
      subst h0
      subst h1
      subst h2
      rfl
  · have hx : s.platform = PlatformExpert := by
      rcases hp with h1 | h1 | h1
      · exact absurd (Or.inl h1) hc
      · exact absurd (Or.inr h1) hc
      · exact h1
    rw [if_neg hc, if_pos hx] at h ⊢
    rw [h]
    cases err <;> rfl

/-- C31: on GAiA, SplatCPSHELL and Expert, the library sort putting every
list of interfaces in the order of Less without adding or dropping an
element, the list that GetInterfaces returns holds exactly one interface for
each line of the output of `ip -o -f inet addr` that has more than four
fields, whose second field does not start with `lo` and whose fourth field
has an address for `net.ParseIP` before its `/`; IfName is the second field
and IfIP the fourth; and the list is in ascending order of IfName.  The
output is what execute returned, empty when expert mode could not be entered
or the command failed, and GetInterfaces returns whenever the command does. -/
theorem GetInterfaces_linux_entries (lib : GoLibrary) (s : SshAction)
    (hp : s.platform = PlatformGAiA ∨ s.platform = PlatformSplatCPSHELL ∨
      s.platform = PlatformExpert)
    (hsort : ∀ l : LogicalInterfaces,
      (lib.sort_Sort LogicalInterfaces.Less l).Perm l ∧
      (lib.sort_Sort LogicalInterfaces.Less l).Pairwise
        fun a b => LogicalInterfaces.Less b a = false) :
    (ipAddrOutput s = none → GetInterfaces lib s = none) ∧
    ∀ s1 out err, ipAddrOutput s = some (s1, out, err) →
      ∃ logical, GetInterfaces lib s = some (s1, logical, err.map fun e => New 3002 e.msg) ∧
        (logical.map fun i => (i.IfName, i.IfIP)).Perm
          (interfacesSpec lib (Split out (bytes "\n"))) ∧
        logical.Pairwise fun a b =>
          a.IfName = b.IfName ∨ lessString a.IfName b.IfName = true := by
  refine ⟨GetInterfaces_linux_none lib s hp, ?_⟩
  intro s1 out err h
  refine ⟨_, GetInterfaces_linux_value lib s s1 out err hp h, ?_, ?_⟩
  · cases err with
    | none =>
      rw [if_pos rfl]
      have hperm := ((hsort (linuxInterfaceLines lib (Split out (bytes "\n")) [])).1).map
        fun i => (i.IfName, i.IfIP)
      rw [linuxInterfaceLines_spec] at hperm
      exact hperm
    | some e =>
      have ho := ipAddrOutput_error s s1 out e h
      subst ho
      rw [if_neg (by simp)]
      exact List.Perm.refl _
  · cases err with
    | none =>
      rw [if_pos rfl]
      exact ((hsort (linuxInterfaceLines lib (Split out (bytes "\n")) [])).2).imp
        fun {a b} hab => lessString_total a.IfName b.IfName hab
    | some e =>
      rw [if_neg (by simp)]
      exact List.Pairwise.nil

/-- The library of the examples sorts. -/
theorem exampleLibrary_sorts (l : LogicalInterfaces) :
    (exampleLibrary.sort_Sort LogicalInterfaces.Less l).Perm l ∧
    (exampleLibrary.sort_Sort LogicalInterfaces.Less l).Pairwise
      fun a b => LogicalInterfaces.Less b a = false :=
  ⟨List.perm_insertionSort _ l, insertionSort_Less l⟩

/-- In expert mode the switch of GetInterfaces is the command. -/
theorem ipAddrOutput_expert (s : SshAction) (h : s.platform = PlatformExpert) :
    ipAddrOutput s = execute s (bytes "ip -o -f inet addr 2>&1") 10 := by
  unfold ipAddrOutput
  have h1 : ¬ (s.platform = PlatformGAiA ∨ s.platform = PlatformSplatCPSHELL) := by
    rw [h]
    decide
  rw [if_neg h1, if_pos h]

set_option maxRecDepth 4000 in
/-- The command of GetInterfaces on `sessionAddr`. -/
theorem ipAddrOutput_sessionAddr :
    ipAddrOutput sessionAddr = some (sessionAddrAfter, addrOutput, none) := by
  rw [ipAddrOutput_expert _ rfl, execute_received]
  rfl

/-- An instance of C31: of the three lines of `addrOutput` the loopback line
gives no interface, and the two others come back in the order of their
names. -/
theorem GetInterfaces_linux_entries_witness :
    ipAddrOutput sessionAddr = some (sessionAddrAfter, addrOutput, none) ∧
    interfacesSpec exampleLibrary (Split addrOutput (bytes "\n")) =
      [(bytes "eth1", bytes "192.168.1.1/24"), (bytes "eth0", bytes "10.0.0.1/24")] ∧
    GetInterfaces exampleLibrary sessionAddr = some (sessionAddrAfter, addrList, none) ∧
    ∃ logical, GetInterfaces exampleLibrary sessionAddr = some (sessionAddrAfter, logical, none) ∧
      (logical.map fun i => (i.IfName, i.IfIP)).Perm
        (interfacesSpec exampleLibrary (Split addrOutput (bytes "\n"))) ∧
      logical.Pairwise fun a b =>
        a.IfName = b.IfName ∨ lessString a.IfName b.IfName = true :=
  have hu := ipAddrOutput_sessionAddr
  have hv: GetInterfaces exampleLibrary sessionAddr = some (sessionAddrAfter, addrList, none) :=
    (GetInterfaces_linux_value exampleLibrary sessionAddr sessionAddrAfter addrOutput none
      (Or.inr (Or.inr rfl)) hu).trans (by rfl)
  ⟨hu, by rfl, hv,
    (GetInterfaces_linux_entries exampleLibrary sessionAddr (Or.inr (Or.inr rfl))
      exampleLibrary_sorts).2 sessionAddrAfter addrOutput none hu⟩

/-! ## The outcome of the handshake and the way the output is split -/

/-- C6, the code at a failing input: the output is the IPSO banner followed
by a terminal-type query, with no prompt before the query.  When the two
arrive in one read the branch of the banner is taken, the buffer is emptied
with the query in it, nothing is ever written to the transport and the
handshake ends with the timeout 1401; when the same bytes arrive in two
reads, the banner first, the query is answered with `vt220` once. -/
theorem terminal_query_behind_banner_unanswered :
    bytes "IPSO (fw1)\n" ++ bytes "Terminal type? [vt100] " =
      bytes "IPSO (fw1)\nTerminal type? [vt100] " ∧
    MatchString hint4 (bytes "IPSO (fw1)\nTerminal type? [vt100] ") = true ∧
    anyPrompt (bytes "IPSO (fw1)\nTerminal type? [vt100] ") = false ∧
    (waitfor sessionIpsoQuerySilent).1.written = [] ∧
    (waitfor sessionIpsoQuerySilent).2 = some (New 1401 "timeout") ∧
    (waitfor sessionIpsoQuerySplit).1.written = [bytes "vt220\n"] := by
  rw [waitfor_received, waitfor_received]
  decide

/-- C21, the code at a failing input: the output is the CPSHELL banner
followed by an Expert/Shell prompt.  When banner and prompt arrive in one
read the branch of the prompt is taken, no flag is set and the session is
classified as Expert; when the same bytes arrive in two reads, the banner
first, the session is classified as SplatCPSHELL. -/
theorem cpshell_banner_with_prompt_is_expert :
    bytes "? for list of commands\n" ++ bytes "[fw1]# " =
      bytes "? for list of commands\n[fw1]# " ∧
    MatchString hint1 (bytes "? for list of commands\n") = true ∧
    MatchString prompt2 (bytes "[fw1]# ") = true ∧
    (Connect sessionBannerWithPrompt).2 = none ∧
    (Connect sessionBannerWithPrompt).1.platform = PlatformExpert ∧
    (Connect sessionBannerWithPrompt).1.platform ≠ PlatformSplatCPSHELL ∧
    (Connect sessionBannerFirst).2 = none ∧
    (Connect sessionBannerFirst).1.platform = PlatformSplatCPSHELL := by
  rw [Connect_received, Connect_received]
  decide

/-! ## The refusal of commands (`GetOS`) -/

/-- In expert mode GetOS is the chain of tests on the trimmed output of the
command, when the command succeeds. -/
theorem GetOS_expert_of_execute (s s1 : SshAction) (result : List Byte)
    (hp : s.platform = PlatformExpert)
    (he : execute s (bytes "uname -r 2>&1") 5 = some (s1, result, none)) :
    GetOS s = some (s1, osOfRelease (TrimSpace result) none) := by
  unfold GetOS
  have h1 : ¬ (s.platform = PlatformGAiA ∨ s.platform = PlatformSplatCPSHELL) := by
    rw [hp]
    decide
  rw [if_neg h1, if_pos hp, he]
  rfl

/-- C28 fails as stated: with no marker in the output, the output `running
commands is not allowed`, in small letters, has the text of the claim and
GetOS returns the error `unexpected`; the output `Running commands is not
allowed` does not have the text of the claim in small letters and GetOS
returns the error `running commands is not allowed`. -/
theorem GetOS_refusal_counterexample :
    Contains (bytes "running commands is not allowed")
      (bytes "running commands is not allowed") = true ∧
    GetOS sessionRefusedSmall =
      some (sessionRefusedSmallAfter, OsClassNone, OsTypeNone,
        some (New 2003 "unexpected")) ∧
    Contains (bytes "Running commands is not allowed")
      (bytes "running commands is not allowed") = false ∧
    GetOS sessionRefused =
      some (sessionRefusedAfter, OsClassNone, OsTypeNone,
        some (New 2002 "running commands is not allowed")) := by
  have e1 : execute sessionRefusedSmall (bytes "uname -r 2>&1") 5 =
      some (sessionRefusedSmallAfter, bytes "running commands is not allowed", none) := by
    rw [execute_received]
    rfl
  have e2 : execute sessionRefused (bytes "uname -r 2>&1") 5 =
      some (sessionRefusedAfter, bytes "Running commands is not allowed", none) := by
    rw [execute_received]
    rfl
  refine ⟨by decide, ?_, by decide, ?_⟩
  · rw [GetOS_expert_of_execute _ _ _ rfl e1]
    rfl
  · rw [GetOS_expert_of_execute _ _ _ rfl e2]
    rfl

/-! ## The cluster state of the output (`GetCPHA`) -/

/-- GetCPHA is the parsing of what its switch left. -/
theorem GetCPHA_of_cphaprobOutput (lib : GoLibrary) (s : SshAction)
    (hp : s.platform = PlatformGAiA ∨ s.platform = PlatformSplatCPSHELL ∨
      s.platform = PlatformExpert ∨ s.platform = PlatformIPSO) :
    GetCPHA lib s = (cphaprobOutput s).bind fun r => cphaOf lib r.1 r.2.1 r.2.2 := by
  unfold GetCPHA cphaprobOutput
  by_cases hc : s.platform = PlatformGAiA ∨ s.platform = PlatformSplatCPSHELL
  · rw [if_pos hc, if_pos hc]
    rcases he : expertEnter s with ⟨s1, _ | e⟩
    · dsimp only
      cases hx : execute s1 (bytes "cphaprob stat 2>&1") 10 with
      | none => rfl
      | some r => rfl
    · rfl
  rw [if_neg hc, if_neg hc]
  by_cases hx : s.platform = PlatformExpert
  · rw [if_pos hx, if_pos hx]
    cases hx : execute s (bytes "cphaprob stat 2>&1") 10 with
    | none => rfl
    | some r => rfl
  rw [if_neg hx, if_neg hx]
  have hi : s.platform = PlatformIPSO := by
    rcases hp with h | h | h | h
    · exact absurd (Or.inl h) hc
    · exact absurd (Or.inr h) hc
    · exact absurd h hx
    · exact h
  rw [if_pos hi, if_pos hi]
  cases hx : execute s (bytes "cphaprob stat") 10 with
  | none => rfl
  | some r => rfl

/-- C29: on GAiA, SplatCPSHELL, Expert and IPSO, when the command `cphaprob
stat` returned the output `out` without error, GetCPHA returns, with the
Status that the first line of `out` containing `not started` or `(local)`
decides: `not_started` when that line contains `not started`, otherwise the
last of the fields of the line in lower case; Status is empty when no line
qualifies.  A line that contains `(local)` has a field, so that taking the
last one stays in range.  When the command failed GetCPHA returns error 4002
and no Status, and it returns whenever the command does. -/
theorem GetCPHA_status (lib : GoLibrary) (s : SshAction)
    (hp : s.platform = PlatformGAiA ∨ s.platform = PlatformSplatCPSHELL ∨
      s.platform = PlatformExpert ∨ s.platform = PlatformIPSO) :
    (∀ s1 out, cphaprobOutput s = some (s1, out, none) →
      GetCPHA lib s = some (s1, some ⟨cphaStatusSpec lib (Split out (bytes "\n"))⟩, none)) ∧
    (∀ s1 out e, cphaprobOutput s = some (s1, out, some e) →
      GetCPHA lib s = some (s1, none, some (New 4002 e.msg))) ∧
    (cphaprobOutput s = none → GetCPHA lib s = none) ∧
    (∀ v, Contains v (bytes "(local)") = true →
      ∃ last, (Fields v).getLast? = some last ∧ (Fields v).getLastD [] = last) := by
  have hg := GetCPHA_of_cphaprobOutput lib s hp
  refine ⟨?_, ?_, ?_, ?_⟩
  · intro s1 out h
    rw [hg, h]
    exact (cphaOf_status lib s1 out).1
  · intro s1 out e h
    rw [hg, h]
    rfl
  · intro h
    rw [hg, h]
    rfl
  · exact (cphaOf_status lib s []).2

/-- In expert mode the switch of GetCPHA is the command. -/
theorem cphaprobOutput_expert (s : SshAction) (h : s.platform = PlatformExpert) :
    cphaprobOutput s = execute s (bytes "cphaprob stat 2>&1") 10 := by
  unfold cphaprobOutput
  have h1 : ¬ (s.platform = PlatformGAiA ∨ s.platform = PlatformSplatCPSHELL) := by
    rw [h]
    decide
  rw [if_neg h1, if_pos h]

/-- The command of GetCPHA on `sessionCpha`. -/
theorem cphaprobOutput_sessionCpha :
    cphaprobOutput sessionCpha = some (sessionCphaAfter, cphaOutput, none) := by
  rw [cphaprobOutput_expert _ rfl, execute_received]
  rfl

/-- An instance of C29: the third line of `cphaOutput` is the first with
`(local)`, its last field is `Active`, and GetCPHA returns `active`. -/
theorem GetCPHA_status_witness :
    (sessionCpha.platform = PlatformGAiA ∨ sessionCpha.platform = PlatformSplatCPSHELL ∨
      sessionCpha.platform = PlatformExpert ∨ sessionCpha.platform = PlatformIPSO) ∧
    cphaprobOutput sessionCpha = some (sessionCphaAfter, cphaOutput, none) ∧
    cphaStatusSpec exampleLibrary (Split cphaOutput (bytes "\n")) = bytes "active" ∧
    GetCPHA exampleLibrary sessionCpha = some (sessionCphaAfter, some ⟨bytes "active"⟩, none) :=
  ⟨Or.inr (Or.inr (Or.inl rfl)), cphaprobOutput_sessionCpha, by rfl,
    ((GetCPHA_status exampleLibrary sessionCpha (Or.inr (Or.inr (Or.inl rfl)))).1
      sessionCphaAfter cphaOutput cphaprobOutput_sessionCpha).trans (by rfl)⟩

/-! ## The routes of the output (`GetRoutes`) -/

/-- A line of IPSO that is no route line gives no route. -/
theorem routeOfLine_ipso_none (lib : GoLibrary) (v : List Byte)
    (h : ¬ (Fields (TrimSpace v)).length = 6) : routeOfLine lib true v = none := by
  unfold routeOfLine
  rw [if_pos rfl, if_neg h]

/-- A route line of IPSO that is not accepted gives no route. -/
theorem routeOfLine_ipso_error (lib : GoLibrary) (v : List Byte) (msg : String)
    (h : (Fields (TrimSpace v)).length = 6)
    (hparse : lib.net_ParseCIDR (ipsoRouteNet ((Fields (TrimSpace v)).getD 0 [])) =
      Except.error msg) : routeOfLine lib true v = none := by
  unfold routeOfLine
  rw [if_pos rfl, if_pos h, hparse]

/-- A route line of IPSO that is accepted gives its route. -/
theorem routeOfLine_ipso_ok (lib : GoLibrary) (v : List Byte) (ip : IP) (ipnet : IPNet)
    (h : (Fields (TrimSpace v)).length = 6)
    (hparse : lib.net_ParseCIDR (ipsoRouteNet ((Fields (TrimSpace v)).getD 0 [])) =
      Except.ok (ip, ipnet)) :
    routeOfLine lib true v =
      some ⟨ipsoRouteNet ((Fields (TrimSpace v)).getD 0 []), (Fields (TrimSpace v)).getD 1 [],
        (Fields (TrimSpace v)).getD 5 [], ipnet⟩ := by
  unfold routeOfLine
  rw [if_pos rfl, if_pos h, hparse]

/-- A line of Linux that is no route line gives no route. -/
theorem routeOfLine_linux_none (lib : GoLibrary) (v : List Byte)
    (h : ¬ (((Fields v).length = 5 ∨ (Fields v).length = 7) ∧
      (Fields v).getD 1 [] = bytes "via" ∧ (Fields v).getD 3 [] = bytes "dev")) :
    routeOfLine lib false v = none := by
  unfold routeOfLine
  rw [if_neg (by decide), if_neg h]

/-- A route line of Linux that is accepted gives its route. -/
theorem routeOfLine_linux_ok (lib : GoLibrary) (v : List Byte) (ip : IP) (ipnet : IPNet)
    (h : ((Fields v).length = 5 ∨ (Fields v).length = 7) ∧
      (Fields v).getD 1 [] = bytes "via" ∧ (Fields v).getD 3 [] = bytes "dev")
    (hparse : lib.net_ParseCIDR (linuxRouteNet ((Fields v).getD 0 [])) = Except.ok (ip, ipnet)) :
    routeOfLine lib false v =
      some ⟨linuxRouteNet ((Fields v).getD 0 []), (Fields v).getD 2 [], (Fields v).getD 4 [],
        ipnet⟩ := by
  unfold routeOfLine
  rw [if_neg (by decide), if_pos h, hparse]

/-- A route line of Linux that is not accepted is a rejected line. -/
theorem routeRejected_of_error (lib : GoLibrary) (v : List Byte) (msg : String)
    (h : ((Fields v).length = 5 ∨ (Fields v).length = 7) ∧
      (Fields v).getD 1 [] = bytes "via" ∧ (Fields v).getD 3 [] = bytes "dev")
    (hparse : lib.net_ParseCIDR (linuxRouteNet ((Fields v).getD 0 [])) = Except.error msg) :
    routeRejected lib v = true := by
  unfold routeRejected
  rw [decide_eq_true h, hparse]
  rfl

/-- A line of Linux that is no route line is not rejected. -/
theorem routeRejected_of_not_line (lib : GoLibrary) (v : List Byte)
    (h : ¬ (((Fields v).length = 5 ∨ (Fields v).length = 7) ∧
      (Fields v).getD 1 [] = bytes "via" ∧ (Fields v).getD 3 [] = bytes "dev")) :
    routeRejected lib v = false := by
  unfold routeRejected
  rw [decide_eq_false h]
  rfl

/-- A route line of Linux that is accepted is not rejected. -/
theorem routeRejected_of_ok (lib : GoLibrary) (v : List Byte) (ip : IP) (ipnet : IPNet)
    (hparse : lib.net_ParseCIDR (linuxRouteNet ((Fields v).getD 0 [])) = Except.ok (ip, ipnet)) :
    routeRejected lib v = false := by
  unfold routeRejected
  rw [hparse]
  exact Bool.and_false _

/-- The loop of ipsoRoutes adds, behind what it was given, the routes of the
lines. -/
theorem ipsoRouteLines_spec (lib : GoLibrary) (lines : List (List Byte)) (routes : Routes) :
    ipsoRouteLines lib lines routes = routes ++ routesSpec lib true lines := by
  induction lines generalizing routes with
  | nil => simp [ipsoRouteLines, routesSpec]
  | cons v rest ih =>
    unfold routesSpec at ih ⊢
    rw [ipsoRouteLines, List.filterMap_cons]
    by_cases h6 : (Fields (TrimSpace v)).length = 6
    · rw [if_pos h6]
      cases hparse : lib.net_ParseCIDR (ipsoRouteNet ((Fields (TrimSpace v)).getD 0 [])) with
      | error msg =>
        rw [routeOfLine_ipso_error lib v msg h6 hparse]
        exact ih routes
      | ok r =>
        obtain ⟨ip, ipnet⟩ := r
        rw [routeOfLine_ipso_ok lib v ip ipnet h6 hparse]
        simp only
        rw [ih]
        simp
    · rw [if_neg h6, routeOfLine_ipso_none lib v h6]
      exact ih routes

/-- The loop of GetRoutes, when no route line is rejected, adds the routes of
the lines behind what it was given. -/
theorem linuxRouteLines_spec (lib : GoLibrary) (lines : List (List Byte)) (routes : Routes)
    (h : ∀ v ∈ lines, routeRejected lib v = false) :
    linuxRouteLines lib lines routes = (routes ++ routesSpec lib false lines, none) := by
  induction lines generalizing routes with
  | nil => simp [linuxRouteLines, routesSpec]
  | cons v rest ih =>
    have hv := h v (List.mem_cons_self _ _)
    have hrest : ∀ w ∈ rest, routeRejected lib w = false :=
      fun w hw => h w (List.mem_cons_of_mem _ hw)
    unfold routesSpec at ih ⊢
    rw [linuxRouteLines, List.filterMap_cons]
    by_cases hc : ((Fields v).length = 5 ∨ (Fields v).length = 7) ∧
        (Fields v).getD 1 [] = bytes "via" ∧ (Fields v).getD 3 [] = bytes "dev"
    · rw [if_pos hc]
      cases hparse : lib.net_ParseCIDR (linuxRouteNet ((Fields v).getD 0 [])) with
      | error msg =>
        rw [routeRejected_of_error lib v msg hc hparse] at hv
        cases hv
      | ok r =>
        obtain ⟨ip, ipnet⟩ := r
        rw [routeOfLine_linux_ok lib v ip ipnet hc hparse]
        simp only
        rw [ih _ hrest]
        simp
    · rw [if_neg hc, routeOfLine_linux_none lib v hc]
      exact ih routes hrest

/-- The loop of GetRoutes ends with error 3202 and no route at the first route
line that is rejected. -/
theorem linuxRouteLines_rejected (lib : GoLibrary) (lines : List (List Byte)) (routes : Routes)
    (h : ∃ v ∈ lines, routeRejected lib v = true) :
    ∃ msg, linuxRouteLines lib lines routes = ([], some (New 3202 msg)) := by
  induction lines generalizing routes with
  | nil =>
    obtain ⟨v, hv, -⟩ := h
    cases hv
  | cons v rest ih =>
    rw [linuxRouteLines]
    by_cases hc : ((Fields v).length = 5 ∨ (Fields v).length = 7) ∧
        (Fields v).getD 1 [] = bytes "via" ∧ (Fields v).getD 3 [] = bytes "dev"
    · rw [if_pos hc]
      cases hparse : lib.net_ParseCIDR (linuxRouteNet ((Fields v).getD 0 [])) with
      | error msg => exact ⟨msg, rfl⟩
      | ok r =>
        obtain ⟨ip, ipnet⟩ := r
        simp only
        apply ih
        obtain ⟨w, hw, hr⟩ := h
        rcases List.mem_cons.1 hw with e | hw1
        · subst e
          rw [routeRejected_of_ok lib w ip ipnet hparse] at hr
          cases hr
        · exact ⟨w, hw1, hr⟩
    · rw [if_neg hc]
      apply ih
      obtain ⟨w, hw, hr⟩ := h
      rcases List.mem_cons.1 hw with e | hw1
      · subst e
        rw [routeRejected_of_not_line lib w hc] at hr
        cases hr
      · exact ⟨w, hw1, hr⟩

/-- A route of the lines comes from a line: its Net is the first field of the
line as rewritten, `net.ParseCIDR` accepts it and gives its IPNet. -/
theorem routesSpec_mem (lib : GoLibrary) (ipso : Bool) (lines : List (List Byte))
    (r : NetworkRoute) (h : r ∈ routesSpec lib ipso lines) :
    (∃ ip, lib.net_ParseCIDR r.Net = Except.ok (ip, r.IPNet)) ∧
    ∃ v ∈ lines, r.Net =
      if ipso = true then ipsoRouteNet ((Fields (TrimSpace v)).getD 0 [])
      else linuxRouteNet ((Fields v).getD 0 []) := by
  unfold routesSpec at h
  obtain ⟨v, hv, hr⟩ := List.mem_filterMap.1 h
  cases ipso with
  | true =>
    simp only [if_true]
    by_cases h6 : (Fields (TrimSpace v)).length = 6
    · cases hparse : lib.net_ParseCIDR (ipsoRouteNet ((Fields (TrimSpace v)).getD 0 [])) with
      | error msg =>
        rw [routeOfLine_ipso_error lib v msg h6 hparse] at hr
        cases hr
      | ok q =>
        obtain ⟨ip, ipnet⟩ := q
        rw [routeOfLine_ipso_ok lib v ip ipnet h6 hparse] at hr
        injection hr with hr
        subst hr
        exact ⟨⟨ip, hparse⟩, v, hv, rfl⟩
    · rw [routeOfLine_ipso_none lib v h6] at hr
      cases hr
  | false =>
    simp only [Bool.false_eq_true, if_false]
    by_cases hc : ((Fields v).length = 5 ∨ (Fields v).length = 7) ∧
        (Fields v).getD 1 [] = bytes "via" ∧ (Fields v).getD 3 [] = bytes "dev"
    · cases hparse : lib.net_ParseCIDR (linuxRouteNet ((Fields v).getD 0 [])) with
      | error msg =>
        have hrej := routeRejected_of_error lib v msg hc hparse
        unfold routeOfLine at hr
        rw [if_neg (by decide), if_pos hc, hparse] at hr
        cases hr
      | ok q =>
        obtain ⟨ip, ipnet⟩ := q
        rw [routeOfLine_linux_ok lib v ip ipnet hc hparse] at hr
        injection hr with hr
        subst hr
        exact ⟨⟨ip, hparse⟩, v, hv, rfl⟩
    · rw [routeOfLine_linux_none lib v hc] at hr
      cases hr

/-- An error of the route command comes with an empty output. -/
theorem routeCommandOutput_error (s s1 : SshAction) (out : List Byte) (e : SshError)
    (h : routeCommandOutput s = some (s1, out, some e)) : out = [] := by
  unfold routeCommandOutput at h
  by_cases hc : s.platform = PlatformGAiA ∨ s.platform = PlatformSplatCPSHELL
  · rw [if_pos hc] at h
    rcases he : expertEnter s with ⟨s0, _ | e0⟩
    · rw [he] at h
      dsimp only at h
      cases hx : execute s0 (bytes "ip -o -f inet route 2>&1") 10 with
      | none =>
        rw [hx] at h
        cases h
      | some r =>
        obtain ⟨s2, result, err⟩ := r
        rw [hx] at h
        dsimp only at h
        injection h with h
        injection h with _ h
        injection h with h1 h2
        subst h1
        subst h2
        exact execute_error_result _ _ _ _ _ _ hx
    · rw [he] at h
      cases h
  · rw [if_neg hc] at h
    by_cases hx : s.platform = PlatformExpert
    · rw [if_pos hx] at h
      exact execute_error_result _ _ _ _ _ _ h
    · rw [if_neg hx] at h
      by_cases hi : s.platform = PlatformIPSO
      · rw [if_pos hi] at h
        exact execute_error_result _ _ _ _ _ _ h
      · rw [if_neg hi] at h
        cases h

/-- GetRoutes panics when the route command does. -/
theorem GetRoutes_none (lib : GoLibrary) (s : SshAction)
    (hp : s.platform = PlatformGAiA ∨ s.platform = PlatformSplatCPSHELL ∨
      s.platform = PlatformExpert ∨ s.platform = PlatformIPSO)
    (h : routeCommandOutput s = none) : GetRoutes lib s = none := by
  unfold routeCommandOutput at h
  unfold GetRoutes
  dsimp only
  by_cases hc : s.platform = PlatformGAiA ∨ s.platform = PlatformSplatCPSHELL
  · rw [if_pos hc] at h ⊢
    rcases he : expertEnter s with ⟨s0, _ | e0⟩
    · rw [he] at h
      dsimp only at h ⊢
      cases hx : execute s0 (bytes "ip -o -f inet route 2>&1") 10 with
      | none => rfl
      | some r =>
        rw [hx] at h
        cases h
    · rw [he] at h
      cases h
  · rw [if_neg hc] at h ⊢
    by_cases hx : s.platform = PlatformExpert
    · rw [if_pos hx] at h ⊢
      rw [h]
    · have hi : s.platform = PlatformIPSO := by
        rcases hp with h1 | h1 | h1 | h1
        · exact absurd (Or.inl h1) hc
        · exact absurd (Or.inr h1) hc
        · exact absurd h1 hx
        · exact h1
      rw [if_neg hx, if_pos hi] at h ⊢
      rw [h]

/-- On the Linux platforms GetRoutes returns what the loop over the lines of
the output gives: the sorted routes, or no route and the error of the loop;
and no route and error 3202 when the command failed. -/
theorem GetRoutes_linux_value (lib : GoLibrary) (s s1 : SshAction) (out : List Byte)
    (err : Error) (l : Routes) (e1 : Error)
    (hp : s.platform = PlatformGAiA ∨ s.platform = PlatformSplatCPSHELL ∨
      s.platform = PlatformExpert)
    (h : routeCommandOutput s = some (s1, out, err))
    (hl : linuxRouteLines lib (Split out (bytes "\n")) [] = (l, e1)) :
    GetRoutes lib s =
      some (s1,
        if err = none ∧ e1 = none then lib.sort_Sort Routes.Less l else [],
        if err = none then e1 else err.map fun e => New 3202 e.msg) := by
  unfold routeCommandOutput at h
  unfold GetRoutes
  dsimp only
  by_cases hc : s.platform = PlatformGAiA ∨ s.platform = PlatformSplatCPSHELL
  · rw [if_pos hc] at h ⊢
    rcases he : expertEnter s with ⟨s0, _ | e0⟩
    · rw [he] at h
      dsimp only at h ⊢
      cases hx : execute s0 (bytes "ip -o -f inet route 2>&1") 10 with
      | none =>
        rw [hx] at h
        cases h
      | some r =>
        obtain ⟨s2, result, err2⟩ := r
        rw [hx] at h
        dsimp only at h ⊢
        injection h with h
        injection h with h0 h
        injection h with h1 h2
        subst h0
        subst h1
        subst h2
        rw [hl]
        cases err2 <;> cases e1 <;> rfl
    · rw [he] at h
      dsimp only at h ⊢
      injection h with h
      injection h with h0 h
      injection h with h1 h2
      subst h0
      subst h1
      subst h2
      rw [hl]
      cases e1 <;> rfl
  · have hx : s.platform = PlatformExpert := by
      rcases hp with h1 | h1 | h1
      · exact absurd (Or.inl h1) hc
      · exact absurd (Or.inr h1) hc
      · exact h1
    rw [if_neg hc, if_pos hx] at h ⊢
    rw [h]
    dsimp only
    rw [hl]
    cases err <;> cases e1 <;> rfl

/-- On IPSO GetRoutes returns the sorted routes of the loop of ipsoRoutes, or
the error of the command. -/
theorem GetRoutes_ipso_value (lib : GoLibrary) (s s1 : SshAction) (out : List Byte)
    (err : Error) (hp : s.platform = PlatformIPSO)
    (h : routeCommandOutput s = some (s1, out, err)) :
    GetRoutes lib s =
      some (s1,
        lib.sort_Sort Routes.Less
          (if err = none then ipsoRouteLines lib (Split out (bytes "\n")) [] else []),
        err) := by
  have h1 : ¬ (s.platform = PlatformGAiA ∨ s.platform = PlatformSplatCPSHELL) := by
    rw [hp]
    decide
  have h2 : ¬ s.platform = PlatformExpert := by
    rw [hp]
    decide
  unfold routeCommandOutput at h
  unfold GetRoutes
  dsimp only
  rw [if_neg h1, if_neg h2, if_pos hp] at h ⊢
  rw [h]
  cases err <;> rfl

/-- C30, as amended: on GAiA, SplatCPSHELL, Expert and IPSO, the library sort
returning a permutation of its argument, GetRoutes returns whenever the route
command does, and with a nil error it returns exactly one route for each
route line of the output whose destination, as rewritten, `net.ParseCIDR`
accepts.  Every route returned has a Net that `net.ParseCIDR` accepts, with
IPNet the network that it gives, and Net is the first field of a line of the
output as rewritten: `default` becomes `0.0.0.0/0`, a destination without
`/` gets `/32`, and on IPSO a network of one, two or three numbers before the
`/` is filled up with `.0` to four.  The error is nil exactly when the
command succeeded and, on Linux, no route line is rejected; with an error no
route is returned. -/
theorem GetRoutes_routes (lib : GoLibrary) (s : SshAction)
    (hp : s.platform = PlatformGAiA ∨ s.platform = PlatformSplatCPSHELL ∨
      s.platform = PlatformExpert ∨ s.platform = PlatformIPSO)
    (hsort : ∀ l : Routes, (lib.sort_Sort Routes.Less l).Perm l) :
    (routeCommandOutput s = none → GetRoutes lib s = none) ∧
    (∀ s1 out err, routeCommandOutput s = some (s1, out, err) →
      ∃ routes e, GetRoutes lib s = some (s1, routes, e) ∧
        (e = none ↔ err = none ∧ (s.platform = PlatformIPSO ∨
          ∀ v ∈ Split out (bytes "\n"), routeRejected lib v = false)) ∧
        routes.Perm (if e = none then
          routesSpec lib (decide (s.platform = PlatformIPSO)) (Split out (bytes "\n"))
          else []) ∧
        ∀ r ∈ routes, (∃ ip, lib.net_ParseCIDR r.Net = Except.ok (ip, r.IPNet)) ∧
          ∃ v ∈ Split out (bytes "\n"), r.Net =
            if s.platform = PlatformIPSO then ipsoRouteNet ((Fields (TrimSpace v)).getD 0 [])
            else linuxRouteNet ((Fields v).getD 0 [])) ∧
    (linuxRouteNet (bytes "default") = bytes "0.0.0.0/0" ∧
      ipsoRouteNet (bytes "default") = bytes "0.0.0.0/0") ∧
    (∀ f0, 47 ∉ f0 → f0 ≠ bytes "default" →
      linuxRouteNet f0 = f0 ++ bytes "/32" ∧ ipsoRouteNet f0 = f0 ++ bytes "/32") ∧
    (∀ o1 m, 46 ∉ o1 → 47 ∉ o1 → 47 ∉ m →
      ipsoRouteNet (o1 ++ bytes "/" ++ m) = o1 ++ bytes ".0.0.0" ++ bytes "/" ++ m) ∧
    (∀ o1 o2 m, 46 ∉ o1 → 46 ∉ o2 → 47 ∉ o1 → 47 ∉ o2 → 47 ∉ m →
      ipsoRouteNet (o1 ++ bytes "." ++ o2 ++ bytes "/" ++ m) =
        o1 ++ bytes "." ++ o2 ++ bytes ".0.0" ++ bytes "/" ++ m) ∧
    (∀ o1 o2 o3 m, 46 ∉ o1 → 46 ∉ o2 → 46 ∉ o3 → 47 ∉ o1 → 47 ∉ o2 → 47 ∉ o3 → 47 ∉ m →
      ipsoRouteNet (o1 ++ bytes "." ++ o2 ++ bytes "." ++ o3 ++ bytes "/" ++ m) =
        o1 ++ bytes "." ++ o2 ++ bytes "." ++ o3 ++ bytes ".0" ++ bytes "/" ++ m) := by
  refine ⟨GetRoutes_none lib s hp, ?_, ⟨linuxRouteNet_rules.1, ipsoRouteNet_rules.1⟩,
    fun f0 h47 hd => ⟨linuxRouteNet_rules.2.1 f0 h47 hd, ipsoRouteNet_rules.2.1 f0 h47 hd⟩,
    ipsoRouteNet_rules.2.2.1, ipsoRouteNet_rules.2.2.2.1, ipsoRouteNet_rules.2.2.2.2⟩
  intro s1 out err h
  by_cases hi : s.platform = PlatformIPSO
  · refine ⟨_, _, GetRoutes_ipso_value lib s s1 out err hi h, ?_, ?_, ?_⟩
    · exact ⟨fun he => ⟨he, Or.inl hi⟩, fun he => he.1⟩
    · cases err with
      | none =>
        rw [if_pos rfl, if_pos rfl, ipsoRouteLines_spec, List.nil_append, decide_eq_true hi]
        exact hsort _
      | some e0 =>
        rw [if_neg (by simp), if_neg (by simp)]
        exact hsort []
    · intro r hr
      simp only [if_pos hi]
      cases err with
      | none =>
        rw [if_pos rfl, ipsoRouteLines_spec, List.nil_append] at hr
        have hm := routesSpec_mem lib true _ r ((hsort _).subset hr)
        simpa using hm
      | some e0 =>
        rw [if_neg (by simp)] at hr
        exact absurd ((hsort []).subset hr) (List.not_mem_nil r)
  · have hl : s.platform = PlatformGAiA ∨ s.platform = PlatformSplatCPSHELL ∨
        s.platform = PlatformExpert := by
      rcases hp with h1 | h1 | h1 | h1
      · exact Or.inl h1
      · exact Or.inr (Or.inl h1)
      · exact Or.inr (Or.inr h1)
      · exact absurd h1 hi
    cases err with
    | some e0 =>
      cases hlines : linuxRouteLines lib (Split out (bytes "\n")) [] with
      | mk l e1 =>
        refine ⟨_, _, GetRoutes_linux_value lib s s1 out (some e0) l e1 hl h hlines, ?_, ?_, ?_⟩
        · rw [if_neg (by simp)]
          exact ⟨fun he => (by cases he), fun he => (by cases he.1)⟩
        · exact List.Perm.refl _
        · intro r hr
          rw [if_neg (by simp)] at hr
          cases hr
    | none =>
      by_cases hall : ∀ v ∈ Split out (bytes "\n"), routeRejected lib v = false
      · have hlines := linuxRouteLines_spec lib (Split out (bytes "\n")) [] hall
        rw [List.nil_append] at hlines
        refine ⟨_, _, GetRoutes_linux_value lib s s1 out none _ none hl h hlines, ?_, ?_, ?_⟩
        · rw [if_pos rfl]
          exact ⟨fun _ => ⟨rfl, Or.inr hall⟩, fun _ => rfl⟩
        · rw [if_pos ⟨rfl, rfl⟩, if_pos rfl, if_pos rfl, decide_eq_false hi]
          exact hsort _
        · intro r hr
          rw [if_pos ⟨rfl, rfl⟩] at hr
          simp only [if_neg hi]
          have hm := routesSpec_mem lib false _ r ((hsort _).subset hr)
          simpa using hm
      · have hex : ∃ v ∈ Split out (bytes "\n"), routeRejected lib v = true := by
          by_contra hne
          apply hall
          intro v hv
          cases hr : routeRejected lib v with
          | false => rfl
          | true => exact absurd ⟨v, hv, hr⟩ hne
        obtain ⟨msg, hlines⟩ := linuxRouteLines_rejected lib (Split out (bytes "\n")) [] hex
        refine ⟨_, _, GetRoutes_linux_value lib s s1 out none _ _ hl h hlines, ?_, ?_, ?_⟩
        · rw [if_pos rfl]
          constructor
          · intro he
            cases he
          · rintro ⟨-, h1 | h1⟩
            · exact absurd h1 hi
            · exact absurd h1 hall
        · rw [if_neg (by simp), if_pos rfl, if_neg (by simp)]
        · intro r hr
          rw [if_neg (by simp)] at hr
          cases hr

/-- In expert mode the switch of GetRoutes is the command. -/
theorem routeCommandOutput_expert (s : SshAction) (h : s.platform = PlatformExpert) :
    routeCommandOutput s = execute s (bytes "ip -o -f inet route 2>&1") 10 := by
  unfold routeCommandOutput
  have h1 : ¬ (s.platform = PlatformGAiA ∨ s.platform = PlatformSplatCPSHELL) := by
    rw [h]
    decide
  rw [if_neg h1, if_pos h]

/-- On IPSO the switch of GetRoutes is the command. -/
theorem routeCommandOutput_ipso (s : SshAction) (h : s.platform = PlatformIPSO) :
    routeCommandOutput s = execute s (bytes "netstat -rn|grep ' CU '|grep -v '::'") 10 := by
  unfold routeCommandOutput
  have h1 : ¬ (s.platform = PlatformGAiA ∨ s.platform = PlatformSplatCPSHELL) := by
    rw [h]
    decide
  have h2 : ¬ s.platform = PlatformExpert := by
    rw [h]
    decide
  rw [if_neg h1, if_neg h2, if_pos h]

/-- The route command on `sessionRoutes`. -/
theorem routeCommandOutput_sessionRoutes :
    routeCommandOutput sessionRoutes = some (sessionRoutesAfter, routeOutput, none) := by
  rw [routeCommandOutput_expert _ rfl, execute_received]
  rfl

set_option maxRecDepth 4000 in
/-- The route command on `sessionIpsoRoutes`. -/
theorem routeCommandOutput_sessionIpsoRoutes :
    routeCommandOutput sessionIpsoRoutes =
      some (sessionIpsoRoutesAfter, ipsoRouteOutput, none) := by
  rw [routeCommandOutput_ipso _ rfl, execute_received]
  rfl

/-- The route command on `sessionRoutes6`. -/
theorem routeCommandOutput_sessionRoutes6 :
    routeCommandOutput sessionRoutes6 =
      some (sessionRoutes6After, bytes "2001:db8::/32 via fe80::1 dev eth0", none) := by
  rw [routeCommandOutput_expert _ rfl, execute_received]
  rfl

/-- The library of the examples returns a permutation when it sorts. -/
theorem exampleLibrary_sort_perm (l : Routes) :
    (exampleLibrary.sort_Sort Routes.Less l).Perm l :=
  List.perm_insertionSort _ l

/-- The routes that GetRoutes returns on the two example sessions. -/
theorem GetRoutes_ipso_or_linux_example :
    GetRoutes exampleLibrary sessionRoutes = some (sessionRoutesAfter, routeList, none) ∧
    GetRoutes exampleLibrary sessionIpsoRoutes =
      some (sessionIpsoRoutesAfter, ipsoRouteList, none) := by
  constructor
  · rw [GetRoutes_linux_value exampleLibrary sessionRoutes sessionRoutesAfter routeOutput none
      _ none (Or.inr (Or.inr rfl)) routeCommandOutput_sessionRoutes (by rfl)]
    rfl
  · rw [GetRoutes_ipso_value exampleLibrary sessionIpsoRoutes sessionIpsoRoutesAfter
      ipsoRouteOutput none rfl routeCommandOutput_sessionIpsoRoutes]
    rfl

/-- An instance of C30, on Linux and on IPSO: the three lines of
`routeOutput` and the two lines of `ipsoRouteOutput` give one route each,
with `default` rewritten, `/32` added to the host and `10.1.2/24` filled up,
and GetRoutes returns them in the order of their networks. -/
theorem GetRoutes_routes_witness :
    routesSpec exampleLibrary false (Split routeOutput (bytes "\n")) =
      [⟨bytes "10.1.2.0/24", bytes "10.0.0.254", bytes "eth1",
          ⟨[10, 1, 2, 0], [255, 255, 255, 0]⟩⟩,
        ⟨bytes "0.0.0.0/0", bytes "10.0.0.1", bytes "eth0", ⟨[0, 0, 0, 0], [0, 0, 0, 0]⟩⟩,
        ⟨bytes "10.9.9.9/32", bytes "10.0.0.2", bytes "eth0",
          ⟨[10, 9, 9, 9], [255, 255, 255, 255]⟩⟩] ∧
    GetRoutes exampleLibrary sessionRoutes = some (sessionRoutesAfter, routeList, none) ∧
    routesSpec exampleLibrary true (Split ipsoRouteOutput (bytes "\n")) =
      [⟨bytes "10.1.2.0/24", bytes "10.0.0.254", bytes "eth2c0",
          ⟨[10, 1, 2, 0], [255, 255, 255, 0]⟩⟩,
        ⟨bytes "0.0.0.0/0", bytes "10.0.0.1", bytes "eth1c0", ⟨[0, 0, 0, 0], [0, 0, 0, 0]⟩⟩] ∧
    GetRoutes exampleLibrary sessionIpsoRoutes =
      some (sessionIpsoRoutesAfter, ipsoRouteList, none) ∧
    (∃ routes e, GetRoutes exampleLibrary sessionRoutes = some (sessionRoutesAfter, routes, e) ∧
      (e = none ↔ (none : Error) = none ∧ (sessionRoutes.platform = PlatformIPSO ∨
        ∀ v ∈ Split routeOutput (bytes "\n"), routeRejected exampleLibrary v = false)) ∧
      routes.Perm (if e = none then
        routesSpec exampleLibrary (decide (sessionRoutes.platform = PlatformIPSO))
          (Split routeOutput (bytes "\n"))
        else []) ∧
      ∀ r ∈ routes, (∃ ip, exampleLibrary.net_ParseCIDR r.Net = Except.ok (ip, r.IPNet)) ∧
        ∃ v ∈ Split routeOutput (bytes "\n"), r.Net =
          if sessionRoutes.platform = PlatformIPSO then
            ipsoRouteNet ((Fields (TrimSpace v)).getD 0 [])
          else linuxRouteNet ((Fields v).getD 0 [])) ∧
    (∃ routes e, GetRoutes exampleLibrary sessionIpsoRoutes =
        some (sessionIpsoRoutesAfter, routes, e) ∧
      (e = none ↔ (none : Error) = none ∧ (sessionIpsoRoutes.platform = PlatformIPSO ∨
        ∀ v ∈ Split ipsoRouteOutput (bytes "\n"), routeRejected exampleLibrary v = false)) ∧
      routes.Perm (if e = none then
        routesSpec exampleLibrary (decide (sessionIpsoRoutes.platform = PlatformIPSO))
          (Split ipsoRouteOutput (bytes "\n"))
        else []) ∧
      ∀ r ∈ routes, (∃ ip, exampleLibrary.net_ParseCIDR r.Net = Except.ok (ip, r.IPNet)) ∧
        ∃ v ∈ Split ipsoRouteOutput (bytes "\n"), r.Net =
          if sessionIpsoRoutes.platform = PlatformIPSO then
            ipsoRouteNet ((Fields (TrimSpace v)).getD 0 [])
          else linuxRouteNet ((Fields v).getD 0 [])) :=
  ⟨by rfl,
    (GetRoutes_ipso_or_linux_example).1,
    by rfl,
    (GetRoutes_ipso_or_linux_example).2,
    (GetRoutes_routes exampleLibrary sessionRoutes (Or.inr (Or.inr (Or.inl rfl)))
      exampleLibrary_sort_perm).2.1 _ _ _ routeCommandOutput_sessionRoutes,
    (GetRoutes_routes exampleLibrary sessionIpsoRoutes (Or.inr (Or.inr (Or.inr rfl)))
      exampleLibrary_sort_perm).2.1 _ _ _ routeCommandOutput_sessionIpsoRoutes⟩

/-- C30 fails as stated: the output has a route to the IPv6 network
`2001:db8::/32`, `net.ParseCIDR` accepts it, and GetRoutes returns a route
whose Net is `2001:db8::/32`, which has no dot and is not in dotted-quad
form. -/
theorem GetRoutes_dotted_quad_counterexample :
    v6Library.net_ParseCIDR (bytes "2001:db8::/32") =
      Except.ok ([32, 1, 13, 184, 0, 0, 0, 0, 0, 0, 0, 0, 0, 0, 0, 0],
        ⟨[32, 1, 13, 184, 0, 0, 0, 0, 0, 0, 0, 0, 0, 0, 0, 0],
          [255, 255, 255, 255, 0, 0, 0, 0, 0, 0, 0, 0, 0, 0, 0, 0]⟩) ∧
    GetRoutes v6Library sessionRoutes6 =
      some (sessionRoutes6After,
        [⟨bytes "2001:db8::/32", bytes "fe80::1", bytes "eth0",
          ⟨[32, 1, 13, 184, 0, 0, 0, 0, 0, 0, 0, 0, 0, 0, 0, 0],
            [255, 255, 255, 255, 0, 0, 0, 0, 0, 0, 0, 0, 0, 0, 0, 0]⟩⟩], none) ∧
    46 ∉ bytes "2001:db8::/32" := by
  refine ⟨by rfl, ?_, by decide⟩
  rw [GetRoutes_linux_value v6Library sessionRoutes6 sessionRoutes6After _ none _ none
    (Or.inr (Or.inr rfl)) routeCommandOutput_sessionRoutes6 (by rfl)]
  rfl

end Sshtool
